import Mathlib

/-!
# Gid-Sync: the sync orchestrator, embedded and verified

A shallow embedding of `src/git.cpp` (command executor and repository probe)
and of the refresh machinery of `src/mainwindow.cpp` (job queue, per-job state
machine, control/worker hand-over), followed by theorems about them.

Conventions of the embedding

* `QString` / `QByteArray` values are Lean `String`s; the Qt string functions the
  code calls (`simplified`, `split`, `trimmed`, ...) are defined on the
  character list of the string.
* Heap objects shared through `QSharedPointer` (`Repo`, `RefreshJob`) live in
  stores indexed by an identifier; a closure that captures a pointer captures
  the identifier.
* Everything the program reads from outside within one control-context turn
  (clock, directory listings, results of the processes it starts) is an `Obs`
  value handed to that turn.
* `MainWindow.history` is a write-only record of what the code did (jobs
  appended, steps dispatched, processes started, ...). No definition reads it.
-/

namespace GidSync

/-! ## Qt string helpers -/

/-- `QChar::isSpace`: the ASCII white space characters, NEL, NBSP and the
Unicode separator categories Zs, Zl, Zp. -/
def QChar.isSpace (c : Char) : Bool :=
  c.toNat = 0x20 || (0x09 ≤ c.toNat && c.toNat ≤ 0x0D) || c.toNat = 0x85 ||
  c.toNat = 0xA0 || c.toNat = 0x1680 || (0x2000 ≤ c.toNat && c.toNat ≤ 0x200A) ||
  c.toNat = 0x2028 || c.toNat = 0x2029 || c.toNat = 0x202F || c.toNat = 0x205F ||
  c.toNat = 0x3000

/-- The white space of `QByteArray::trimmed` (C `isspace` in the C locale). -/
def QByteArray.isSpace (c : Char) : Bool :=
  c.toNat = 0x20 || (0x09 ≤ c.toNat && c.toNat ≤ 0x0D)

/-- `QString::isEmpty`. -/
def QString.isEmpty (s : String) : Bool := s.data.isEmpty

/-- The maximal runs of non-space characters of a string. -/
def QString.words (s : String) : List (List Char) :=
  (s.data.splitOnP QChar.isSpace).filter (fun w => !w.isEmpty)

/-- `QString::simplified`: white space removed from both ends, every internal
run of white space replaced by one space. -/
def QString.simplified (s : String) : String :=
  String.mk ([' '].intercalate (QString.words s))

/-- `QString::split(sep)` for a one-character separator, empty parts kept. -/
def QString.split (sep : Char) (s : String) : List String :=
  (s.data.splitOnP (fun c => c == sep)).map String.mk

/-- `QStringList::value(i)`: the element at `i`, or the empty string. -/
def QStringList.value (l : List String) (i : Nat) : String := l.getD i ""

/-- `QStringList::join`. -/
def QStringList.join (l : List String) (sep : String) : String := sep.intercalate l

/-- `QString::trimmed`. -/
def QString.trimmed (s : String) : String :=
  String.mk ((s.data.dropWhile QChar.isSpace).rdropWhile QChar.isSpace)

/-- `QByteArray::trimmed`. -/
def QByteArray.trimmed (s : String) : String :=
  String.mk ((s.data.dropWhile QByteArray.isSpace).rdropWhile QByteArray.isSpace)

/-- `QByteArray::startsWith`. -/
def QByteArray.startsWith (s pre : String) : Bool := pre.data.isPrefixOf s.data

/-- `QString::replace(before, after)` for a one-character `before`. -/
def QString.replaceChar (s : String) (before : Char) (after : String) : String :=
  String.mk (s.data.flatMap (fun c => if c = before then after.data else [c]))

/-! ## git.h / git.cpp -/

/-- What `QProcess` reports once `waitForFinished` has returned. -/
structure ProcessResult where
  /-- Whether `exitStatus() == QProcess::CrashExit`. -/
  crashExit : Bool
  exitCode : Int
  standardOutput : String
  standardError : String

/-- One `QProcess::start`: the working directory and the command line. -/
structure Launch where
  workingDirectory : String
  command : String
  deriving DecidableEq

/-- The process interface as one turn sees it: `answers k` is what the `k`-th
process started in this turn reports, `launched` the processes started so far. -/
structure Shell where
  answers : Nat → ProcessResult
  launched : List Launch

/-- The shell at the start of a turn. -/
def Shell.start (answers : Nat → ProcessResult) : Shell := ⟨answers, []⟩

/-- `Git::Output`. -/
structure Output where
  command : String := ""
  stdoutput : String := ""
  erroroutput : String := ""
  exitcode : Int := -1
  hasError : Bool := false

/-- `Git::Output::toString`. -/
def Output.toString (o : Output) : String :=
  "Command: " ++ o.command ++ "\n" ++
  ("Exitcode: " ++ ToString.toString o.exitcode ++ " - " ++
    (if o.exitcode = 0 then "Success" else "Error") ++ "\n") ++
  ("Stdout:\n" ++ o.stdoutput ++ "\n") ++
  ("Stderr:\n" ++ o.erroroutput ++ "\n")

/-- `Git::Result<T>`. -/
structure Result (α : Type) where
  result : α
  gitOutput : Output := {}

/-- The two values `Git::init` can give `mGitCmd`, by target platform. -/
inductive Platform
  | windows
  | other
  deriving DecidableEq

/-- `Git`: the members `mPath` and `mGitCmd`. -/
structure Git where
  mPath : String
  mGitCmd : String

/-- `Git::init`. -/
def Git.init (os : Platform) : String :=
  match os with
  | .windows => "\"C:/Program Files/Git/bin/git.exe\""
  | .other => "git"

/-- `Git::Git(QString path, QObject*)`. -/
def Git.new (os : Platform) (path : String) : Git := ⟨path, Git.init os⟩

/-- `Git::OngoingOperation`. -/
def OpNone : Nat := 0x00
/-- `Git::OngoingOperation`. -/
def OpRebase : Nat := 0x01
/-- `Git::OngoingOperation`. -/
def OpMerge : Nat := 0x02
/-- `Git::OngoingOperation`. -/
def OpCherryPick : Nat := 0x04
/-- `Git::OngoingOperation`. -/
def OpBisect : Nat := 0x08

/-- `Git::Compare`. -/
inductive Compare
  | NoUpstream
  | Equal
  | Ahead
  | Behind
  | Diverged
  deriving DecidableEq, Repr

/-- The `if (path.isEmpty()) { path = mPath; }` opening of the `Git` members. -/
def Git.pathOr (g : Git) (path : String) : String :=
  if QString.isEmpty path then g.mPath else path

/-- `Git::run`. -/
def Git.run (_g : Git) (path cmd : String) (sh : Shell) : Output × Shell :=
  let p := sh.answers sh.launched.length
  let out : Output :=
    { command := cmd, stdoutput := p.standardOutput, erroroutput := p.standardError }
  let out : Output :=
    if p.crashExit then { out with hasError := true }
    else if p.exitCode = 0 then { out with exitcode := p.exitCode, hasError := false }
    else { out with exitcode := p.exitCode, hasError := true }
  (out, { sh with launched := sh.launched ++ [⟨path, cmd⟩] })

/-- `Git::runGit`. -/
def Git.runGit (g : Git) (arguments : String) (path : String) (sh : Shell) : Output × Shell :=
  g.run (g.pathOr path) (g.mGitCmd ++ " " ++ arguments) sh

/-- `Git::isBareRepository`. -/
def Git.isBareRepository (g : Git) (path : String) (sh : Shell) : Result Bool × Shell :=
  let path := g.pathOr path
  let r := g.runGit "rev-parse --is-bare-repository" path sh
  if !r.1.hasError then
    ({ result := QByteArray.startsWith r.1.stdoutput "true", gitOutput := r.1 }, r.2)
  else
    ({ result := false, gitOutput := r.1 }, r.2)

/-- `Git::isRepoModified`. -/
def Git.isRepoModified (g : Git) (path : String) (sh : Shell) : Result Bool × Shell :=
  let path := g.pathOr path
  let bare := g.isBareRepository path sh
  if !bare.1.result then
    let r := g.runGit "status --porcelain" path bare.2
    if !r.1.hasError then
      -- If output is empty, repo has no changes
      if !QString.isEmpty r.1.stdoutput then
        ({ result := true, gitOutput := r.1 }, r.2)
      else
        ({ result := false, gitOutput := r.1 }, r.2)
    else
      ({ result := false, gitOutput := r.1 }, r.2)
  else
    ({ result := false }, bare.2)

/-- `Git::pathIsRepo`. The statements after `return false; // Skip long proper
check` are unreachable and have no counterpart here. -/
def Git.pathIsRepo (g : Git) (path : String) (entryList : String → List String) :
    Result Bool :=
  let path := g.pathOr path
  let entries := entryList path
  if ".git" ∈ entries then
    { result := true }
  else if "objects" ∈ entries ∧ "refs" ∈ entries ∧ "config" ∈ entries ∧ "HEAD" ∈ entries then
    { result := true }
  else
    { result := false }

/-- `Git::getOngoingOperationState`. -/
def Git.getOngoingOperationState (g : Git) (path : String)
    (entryList : String → List String) : Nat :=
  let path := g.pathOr path
  let ret := OpNone
  let entries := entryList (path ++ "/.git")
  if "rebase-merge" ∈ entries then ret ||| OpRebase
  else if "rebase-apply" ∈ entries then ret ||| OpRebase
  else if "MERGE_HEAD" ∈ entries then ret ||| OpMerge
  else if "CHERRY_PICK_HEAD" ∈ entries then ret ||| OpCherryPick
  else if "BISECT_LOG" ∈ entries then ret ||| OpBisect
  else ret

/-- The branch of `Git::compareWithHead` on the two fields of the count line. -/
def Git.compareFields (l r : String) : Compare :=
  if l = "0" ∧ r = "0" then Compare.Equal
  else if l = "0" then Compare.Ahead
  else if r = "0" then Compare.Behind
  else if QString.isEmpty l ∧ QString.isEmpty r then Compare.NoUpstream
  else Compare.Diverged

/-- `Git::compareWithHead`. -/
def Git.compareWithHead (g : Git) (ref : String) (path : String) (sh : Shell) :
    Result Compare × Shell :=
  let path := g.pathOr path
  let args := "rev-list --count --left-right " ++ ref ++ "...HEAD"
  let r := g.runGit args path sh
  if !r.1.hasError then
    let lr := QString.split ' ' (QString.simplified r.1.stdoutput)
    let l := QStringList.value lr 0
    let r' := QStringList.value lr 1
    ({ result := Git.compareFields l r', gitOutput := r.1 }, r.2)
  else
    ({ result := Compare.NoUpstream, gitOutput := r.1 }, r.2)

/-- `Git::currentBranch`. -/
def Git.currentBranch (g : Git) (path : String) (sh : Shell) : Result String × Shell :=
  let path := g.pathOr path
  let r := g.runGit "symbolic-ref --quiet --short HEAD" path sh
  if !r.1.hasError then
    ({ result := QByteArray.trimmed r.1.stdoutput, gitOutput := r.1 }, r.2)
  else
    ({ result := "", gitOutput := r.1 }, r.2)

end GidSync

namespace GidSync

/-! ## settings.h, mainwindow.h: the data model -/

/-- Identifier of a `MainWindow::Repo` object (a `RepoPtr`). -/
abbrev RepoId := Nat

/-- Identifier of a `MainWindow::RefreshJob` object (a `RefreshJobPtr`). -/
abbrev JobId := Nat

/-- `Settings::Repo`. -/
structure Settings.Repo where
  name : String := ""
  path : String := ""
  refreshRateMinutes : Int := 60

/-- The part of a `QTimer` the code uses: `isActive()` and the interval. -/
structure QTimer where
  active : Bool := false
  interval : Int := 0
  singleShot : Bool := false

/-- `QTimer::stop`. -/
def QTimer.stop (t : QTimer) : QTimer := { t with active := false }

/-- `QTimer::start(int msec)`. -/
def QTimer.start (t : QTimer) (msec : Int) : QTimer :=
  { t with active := true, interval := msec }

/-- `MainWindow::Repo` (the menu and action members belong to the presentation
layer and are left out). -/
structure Repo where
  settings : Settings.Repo := {}
  timer : QTimer := {}
  ok : Bool := true
  refreshing : Bool := false
  statusSummary : String := ""
  statusLines : List String := []
  branch : String := ""
  remote : String := ""
  remoteUrl : String := ""

/-- `MainWindow::Repo::logError`. -/
def Repo.logError (repo : Repo) (summary : String) (errorString : String := "") : Repo :=
  let repo :=
    { repo with ok := false, statusSummary := summary,
                statusLines := repo.statusLines ++ [summary] }
  if !QString.isEmpty errorString then
    { repo with statusLines := repo.statusLines ++ [errorString] }
  else repo

/-- `MainWindow::Repo::log`. -/
def Repo.log (repo : Repo) (line : String) : Repo :=
  { repo with statusLines := repo.statusLines ++ [line] }

/-- `MainWindow::RefreshJob`. -/
structure RefreshJob where
  repo : RepoId
  state : Int := 0
  branch : String := ""
  remote : String := ""

/-- The execution context a process is started from. -/
inductive Context
  | control
  | worker
  deriving DecidableEq

/-- A request queued on the worker thread by `ThreadWorker::doInWorkerThread`:
the outer lambda of the step named by the constructor, with its captures. -/
inductive WorkerTask
  | fetch (job : JobId) (repo : RepoId) (path : String)
  | ahead (job : JobId) (repo : RepoId) (path : String)
  | behind (job : JobId) (repo : RepoId) (path : String)
  | diverged (job : JobId) (repo : RepoId) (path : String)
  | pushAfterRebase (job : JobId) (repo : RepoId) (path : String)

/-- A closure queued on the control thread by `ThreadWorker::doInGuiThread`: the
lambda of `refresh_continue`, or the inner lambda of a worker step with the
`Git::Output` it captured. -/
inductive GuiTask
  | processRefreshJobs
  | fetched (job : JobId) (repo : RepoId) (out : Output)
  | pushed (job : JobId) (repo : RepoId) (out : Output)
  | merged (job : JobId) (repo : RepoId) (out : Output)
  | rebased (job : JobId) (repo : RepoId) (out : Output)
  | pushedAfterRebase (job : JobId) (repo : RepoId) (out : Output)

/-- Entries of the write-only record of what the code did. -/
inductive Note
  /-- `refreshRepo` appended this new job for this repository. -/
  | enqueued (job : JobId) (repo : RepoId)
  /-- `processRefreshJobs` called the step function of this state for this job. -/
  | dispatched (job : JobId) (state : Int)
  /-- `refresh_successNext` (`true`) or `refresh_errorNext` (`false`) was entered. -/
  | finished (job : JobId) (success : Bool)
  /-- `popRefreshJob` removed this job from the queue. -/
  | popped (job : JobId)
  /-- A process was started (`QProcess::start` in `Git::run`). -/
  | launched (ctx : Context) (l : Launch)
  /-- `mTrayIcon.showMessage(title, message)`. -/
  | trayMessage (title message : String)
  /-- `updateRepoGui(repo)`. -/
  | repoGui (repo : RepoId)
  /-- `updateTrayIcon()`. -/
  | trayIcon

/-- What one control-context turn reads from outside the program. -/
structure Obs where
  /-- `QDateTime::currentDateTime().toString("yyyy-MM-dd hh:mm:ss")`. -/
  now : String
  /-- `QDir(path).entryList(QDir::Files | QDir::Dirs | QDir::Hidden)`. -/
  entryList : String → List String
  /-- What the `k`-th process started in this turn reports. -/
  answers : Nat → ProcessResult

/-- The members of `MainWindow` the refresh machinery uses, the two object
stores, the two queues of posted closures, and the record. -/
structure MainWindow where
  os : Platform
  /-- `mSettings.ourName`. -/
  ourName : String
  /-- `isVisible()`. -/
  visible : Bool := false
  repoStore : RepoId → Repo := fun _ => {}
  repoCount : Nat := 0
  repos : List RepoId := []
  jobStore : JobId → RefreshJob := fun _ => { repo := 0 }
  jobCount : Nat := 0
  refreshJobs : List JobId := []
  refreshBusy : Bool := false
  /-- Closures posted to the control thread and not yet run, oldest first. -/
  guiPosted : List GuiTask := []
  /-- Requests posted to the worker thread and not yet run, oldest first. -/
  workerPosted : List WorkerTask := []
  history : List Note := []

/-- Write through a `RepoPtr`. -/
def MainWindow.setRepo (m : MainWindow) (r : RepoId) (f : Repo → Repo) : MainWindow :=
  { m with repoStore := fun i => if i = r then f (m.repoStore r) else m.repoStore i }

/-- Write through a `RefreshJobPtr`. -/
def MainWindow.setJob (m : MainWindow) (j : JobId) (f : RefreshJob → RefreshJob) :
    MainWindow :=
  { m with jobStore := fun i => if i = j then f (m.jobStore j) else m.jobStore i }

/-- Append to the record. -/
def MainWindow.note (m : MainWindow) (n : Note) : MainWindow :=
  { m with history := m.history ++ [n] }

/-- Record the processes a turn started. -/
def MainWindow.noteLaunched (m : MainWindow) (ctx : Context) (sh : Shell) : MainWindow :=
  { m with history := m.history ++ sh.launched.map (Note.launched ctx) }

/-- `ThreadWorker::doInGuiThread`. -/
def MainWindow.doInGuiThread (m : MainWindow) (t : GuiTask) : MainWindow :=
  { m with guiPosted := m.guiPosted ++ [t] }

/-- `ThreadWorker::doInWorkerThread`. -/
def MainWindow.doInWorkerThread (m : MainWindow) (t : WorkerTask) : MainWindow :=
  { m with workerPosted := m.workerPosted ++ [t] }

/-- `MainWindow::updateRepoGui`: presentation only. -/
def MainWindow.updateRepoGui (m : MainWindow) (repo : RepoId) : MainWindow :=
  m.note (.repoGui repo)

/-- `MainWindow::updateTrayIcon`: presentation only. -/
def MainWindow.updateTrayIcon (m : MainWindow) : MainWindow :=
  m.note .trayIcon

/-- A C++ `int`: the value of a 32-bit two's complement computation. -/
def int32 (x : Int) : Int := (x + 2 ^ 31) % 2 ^ 32 - 2 ^ 31

/-- `MainWindow::startRepoTimer`. -/
def MainWindow.startRepoTimer (m : MainWindow) (repo : RepoId) : MainWindow :=
  let msec := int32 ((m.repoStore repo).settings.refreshRateMinutes * 60 * 1000)
  -- Interval of zero means never refresh
  if msec > 0 then
    m.setRepo repo (fun r => { r with timer := r.timer.start msec })
  else m

/-- `MainWindow::popRefreshJob`. -/
def MainWindow.popRefreshJob (m : MainWindow) : MainWindow :=
  match m.refreshJobs with
  | [] => m
  | job :: rest => { m with refreshJobs := rest }.note (.popped job)

/-- `MainWindow::refresh_continue`. -/
def MainWindow.refresh_continue (m : MainWindow) : MainWindow :=
  m.doInGuiThread .processRefreshJobs

/-- `MainWindow::refresh_successNext`. -/
def MainWindow.refresh_successNext (m : MainWindow) (job : JobId) : MainWindow :=
  let repo := (m.jobStore job).repo
  let m := m.note (.finished job true)
  let m := m.setRepo repo (fun r => { r with refreshing := false })
  let m := m.startRepoTimer repo
  let m := m.updateRepoGui repo
  let m := m.updateTrayIcon
  let m := m.popRefreshJob
  m.refresh_continue

/-- `MainWindow::refresh_errorNext`. -/
def MainWindow.refresh_errorNext (m : MainWindow) (job : JobId) : MainWindow :=
  let repo := (m.jobStore job).repo
  let m := m.note (.finished job false)
  let m := m.setRepo repo (fun r => { r with refreshing := false })
  -- Tray popup message
  let m :=
    if !m.visible then
      m.note (.trayMessage (m.repoStore repo).settings.path (m.repoStore repo).statusSummary)
    else m
  let m := m.updateRepoGui repo
  let m := m.updateTrayIcon
  let m := m.popRefreshJob
  m.refresh_continue

/-- `MainWindow::refresh_nextState`. -/
def MainWindow.refresh_nextState (m : MainWindow) (job : JobId) : MainWindow :=
  let m := m.setJob job (fun j => { j with state := j.state + 1 })
  let m := m.updateRepoGui (m.jobStore job).repo
  m.refresh_continue

end GidSync

namespace GidSync

/-! ## mainwindow.cpp: the steps of a job -/

/-- `MainWindow::refresh_init`. -/
def MainWindow.refresh_init (m : MainWindow) (o : Obs) (job : JobId) : MainWindow :=
  let repo := (m.jobStore job).repo
  let m := m.setRepo repo (fun r => { r with timer := r.timer.stop })
  let m := m.setRepo repo (fun r => { r with statusLines := [], statusSummary := "" })
  let m := m.setRepo repo (fun r => r.log o.now)
  if QString.isEmpty (m.repoStore repo).settings.path then
    (m.setRepo repo (fun r => r.logError "Path empty")).refresh_errorNext job
  else
    let git := Git.new m.os (m.repoStore repo).settings.path
    if !(git.pathIsRepo "" o.entryList).result then
      (m.setRepo repo (fun r => r.logError "Path is not a Git repo.")).refresh_errorNext job
    else
      m.refresh_nextState job

/-- The list `ops` built by `refresh_ongoingOps`. -/
def ongoingOpNames (ongoingOp : Nat) : List String :=
  let ops : List String := []
  let ops := if ongoingOp &&& OpRebase ≠ 0 then ops ++ ["rebase"] else ops
  let ops := if ongoingOp &&& OpMerge ≠ 0 then ops ++ ["merge"] else ops
  let ops := if ongoingOp &&& OpCherryPick ≠ 0 then ops ++ ["cherry-pick"] else ops
  let ops := if ongoingOp &&& OpBisect ≠ 0 then ops ++ ["bisect"] else ops
  if ops.isEmpty then ops ++ ["unknown"] else ops

/-- `MainWindow::refresh_ongoingOps`. -/
def MainWindow.refresh_ongoingOps (m : MainWindow) (o : Obs) (job : JobId) : MainWindow :=
  let repo := (m.jobStore job).repo
  let git := Git.new m.os (m.repoStore repo).settings.path
  let ongoingOp := git.getOngoingOperationState "" o.entryList
  if ongoingOp ≠ OpNone then
    (m.setRepo repo (fun r => r.logError
      ("Unsafe to sync, operation ongoing: " ++
        QStringList.join (ongoingOpNames ongoingOp) ", " ++ "."))).refresh_errorNext job
  else
    m.refresh_nextState job

/-- `MainWindow::refresh_branchRemoteInfo`. -/
def MainWindow.refresh_branchRemoteInfo (m : MainWindow) (o : Obs) (job : JobId) :
    MainWindow :=
  let repo := (m.jobStore job).repo
  -- Get current branch name
  let git := Git.new m.os (m.repoStore repo).settings.path
  let s := git.currentBranch "" (Shell.start o.answers)
  if !s.1.gitOutput.hasError then
    let m := m.setRepo repo (fun r => r.log ("Detected current branch: " ++ s.1.result))
    let m := m.setJob job (fun j => { j with branch := s.1.result })
    let m := m.setRepo repo (fun r => { r with branch := (m.jobStore job).branch })
    let m := m.setJob job (fun j => { j with remote := "origin" })
    let m := m.setRepo repo (fun r => { r with remote := (m.jobStore job).remote })
    -- Get remote URL
    let out := git.runGit ("remote get-url " ++ (m.jobStore job).remote) "" s.2
    let m := m.noteLaunched .control out.2
    if !out.1.hasError then
      (m.setRepo repo (fun r =>
        { r with remoteUrl := QString.trimmed out.1.stdoutput })).refresh_nextState job
    else
      (m.setRepo repo (fun r => r.logError
        ("Could not get URL for remote: " ++ (m.jobStore job).remote ++
          ". Check if remote exists."))).refresh_errorNext job
  else
    let m := m.noteLaunched .control s.2
    (m.setRepo repo (fun r => r.logError
      "Could not detect current branch. Possibly detached head."
      s.1.gitOutput.toString)).refresh_errorNext job

/-- `MainWindow::refresh_commit`. -/
def MainWindow.refresh_commit (m : MainWindow) (o : Obs) (job : JobId) : MainWindow :=
  let repo := (m.jobStore job).repo
  let git := Git.new m.os (m.repoStore repo).settings.path
  let b := git.isRepoModified "" (Shell.start o.answers)
  if b.1.gitOutput.hasError then
    ((m.noteLaunched .control b.2).setRepo repo (fun r => r.logError
      "Git error occurred while checking if repo is modified"
      b.1.gitOutput.toString)).refresh_errorNext job
  else if !b.1.result then
    ((m.noteLaunched .control b.2).setRepo repo (fun r =>
      r.log "Repo has not been modified locally.")).refresh_nextState job
  else
    let m := m.setRepo repo (fun r => r.log "Repo has been modified locally.")
    -- Add all changes
    let out := git.runGit "add -A" "" b.2
    if out.1.hasError then
      ((m.noteLaunched .control out.2).setRepo repo (fun r => r.logError
        "Git error occurred while adding all" out.1.toString)).refresh_errorNext job
    else
      -- Commit
      let m := m.setRepo repo (fun r => r.log "Committing local changes...")
      let ourName := QString.replaceChar m.ourName '"' "\\\""
      let args := "commit -m \"Changes from " ++ ourName ++ "\""
      let out := git.runGit args "" out.2
      if out.1.hasError then
        ((m.noteLaunched .control out.2).setRepo repo (fun r => r.logError
          "Git error occurred while committing" out.1.toString)).refresh_errorNext job
      else
        -- Confirm that repo is now unmodified
        let b := git.isRepoModified "" out.2
        let m := m.noteLaunched .control b.2
        if b.1.gitOutput.hasError then
          (m.setRepo repo (fun r => r.logError
            "Git error occurred while checking if repo is modified:"
            b.1.gitOutput.toString)).refresh_errorNext job
        else if b.1.result then
          (m.setRepo repo (fun r =>
            r.logError "Repo is still unclean after commit.")).refresh_errorNext job
        else
          (m.setRepo repo (fun r => r.log "Repo clean after commit.")).refresh_nextState job

/-- `MainWindow::refresh_fetch`: the part that runs in the control thread. -/
def MainWindow.refresh_fetch (m : MainWindow) (job : JobId) : MainWindow :=
  let repo := (m.jobStore job).repo
  let m := m.setRepo repo (fun r => r.log "Fetching...")
  let m := m.updateRepoGui repo
  let path := (m.repoStore repo).settings.path  -- For use in worker thread
  m.doInWorkerThread (.fetch job repo path)

/-- `MainWindow::refresh_ahead`: the part that runs in the control thread. -/
def MainWindow.refresh_ahead (m : MainWindow) (job : JobId) : MainWindow :=
  let repo := (m.jobStore job).repo
  let m := m.setRepo repo (fun r => r.log "Ahead of remote. Pushing changes...")
  let m := m.updateRepoGui repo
  let path := (m.repoStore repo).settings.path  -- For use in worker thread
  m.doInWorkerThread (.ahead job repo path)

/-- `MainWindow::refresh_behind`: the part that runs in the control thread. -/
def MainWindow.refresh_behind (m : MainWindow) (job : JobId) : MainWindow :=
  let repo := (m.jobStore job).repo
  let m := m.setRepo repo (fun r => r.log "Behind remote. Fast-forwarding...")
  let m := m.updateRepoGui repo
  let path := (m.repoStore repo).settings.path  -- For use in worker thread
  m.doInWorkerThread (.behind job repo path)

/-- `MainWindow::refresh_diverged`: the part that runs in the control thread. -/
def MainWindow.refresh_diverged (m : MainWindow) (job : JobId) : MainWindow :=
  let repo := (m.jobStore job).repo
  let m := m.setRepo repo (fun r => r.log "Diverged from remote. Rebasing...")
  let m := m.updateRepoGui repo
  let path := (m.repoStore repo).settings.path  -- For use in worker thread
  m.doInWorkerThread (.diverged job repo path)

/-- `MainWindow::refresh_compare`. -/
def MainWindow.refresh_compare (m : MainWindow) (o : Obs) (job : JobId) : MainWindow :=
  let repo := (m.jobStore job).repo
  let git := Git.new m.os (m.repoStore repo).settings.path
  let c := git.compareWithHead ((m.jobStore job).remote ++ "/" ++ (m.jobStore job).branch) ""
    (Shell.start o.answers)
  let m := m.noteLaunched .control c.2
  if c.1.gitOutput.hasError then
    (m.setRepo repo (fun r => r.logError "Git error while comparing:"
      c.1.gitOutput.toString)).refresh_errorNext job
  else
    match c.1.result with
    | .NoUpstream =>
      (m.setRepo repo (fun r => r.logError
        "No relation between remote and HEAD. Aborting.")).refresh_errorNext job
    | .Equal =>
      let m := m.setRepo repo (fun r => r.log "In sync! Done.")
      let m := m.setRepo repo (fun r => { r with ok := true })
      m.refresh_successNext job
    | .Ahead => m.refresh_ahead job
    | .Behind => m.refresh_behind job
    | .Diverged => m.refresh_diverged job

/-- `MainWindow::refresh_compareAfterRebase`. -/
def MainWindow.refresh_compareAfterRebase (m : MainWindow) (o : Obs) (job : JobId) :
    MainWindow :=
  let repo := (m.jobStore job).repo
  -- Compare again and confirm we are ahead
  let git := Git.new m.os (m.repoStore repo).settings.path
  let c := git.compareWithHead ((m.jobStore job).remote ++ "/" ++ (m.jobStore job).branch) ""
    (Shell.start o.answers)
  let m := m.noteLaunched .control c.2
  if c.1.gitOutput.hasError then
    (m.setRepo repo (fun r => r.logError "Git error while comparing:"
      c.1.gitOutput.toString)).refresh_errorNext job
  else if c.1.result ≠ Compare.Ahead then
    (m.setRepo repo (fun r => r.logError
      "We are not ahead. Something may have gone wrong with the rebase.")).refresh_errorNext job
  else
    m.refresh_nextState job

/-- `MainWindow::refresh_pushAfterRebase`: the part that runs in the control thread. -/
def MainWindow.refresh_pushAfterRebase (m : MainWindow) (job : JobId) : MainWindow :=
  let repo := (m.jobStore job).repo
  let m := m.setRepo repo (fun r => r.log "We are ahead. Rebase went fine. Pushing...")
  let m := m.updateRepoGui repo
  let path := (m.repoStore repo).settings.path  -- For use in worker thread
  m.doInWorkerThread (.pushAfterRebase job repo path)

/-- `MainWindow::processRefreshJobs`. `refreshJobs.value(0)` is the front of the
queue, which is not empty where it is read. -/
def MainWindow.processRefreshJobs (m : MainWindow) (o : Obs) : MainWindow :=
  if m.refreshJobs.isEmpty then { m with refreshBusy := false }
  else
    let m := { m with refreshBusy := true }
    let job := m.refreshJobs.headD 0
    let state := (m.jobStore job).state
    if state = 0 then (m.note (.dispatched job 0)).refresh_init o job
    else if state = 1 then (m.note (.dispatched job 1)).refresh_ongoingOps o job
    else if state = 2 then (m.note (.dispatched job 2)).refresh_branchRemoteInfo o job
    else if state = 3 then (m.note (.dispatched job 3)).refresh_commit o job
    else if state = 4 then (m.note (.dispatched job 4)).refresh_fetch job
    else if state = 5 then (m.note (.dispatched job 5)).refresh_compare o job
    else if state = 6 then (m.note (.dispatched job 6)).refresh_compareAfterRebase o job
    else if state = 7 then (m.note (.dispatched job 7)).refresh_pushAfterRebase job
    else m

/-- The opening of the `if (!contains)` block of `refreshRepo`: the job is
created (`new RefreshJob()` is the next free identifier), the repository is
marked as refreshing, the job is appended. -/
def MainWindow.appendJob (m : MainWindow) (repo : RepoId) : MainWindow :=
  let job : JobId := m.jobCount
  let m := { m with jobCount := m.jobCount + 1 }
  let m := m.setJob job (fun _ => { repo := repo })
  let m := m.setRepo repo (fun r => { r with refreshing := true })
  { m with refreshJobs := m.refreshJobs ++ [job] }.note (.enqueued job repo)

/-- `MainWindow::refreshRepo`. -/
def MainWindow.refreshRepo (m : MainWindow) (o : Obs) (repo : RepoId) : MainWindow :=
  let contains := m.refreshJobs.any (fun job => (m.jobStore job).repo = repo)
  if !contains then
    let m := m.appendJob repo
    let m := if !m.refreshBusy then m.processRefreshJobs o else m
    let m := m.updateRepoGui repo
    m.updateTrayIcon
  else m

/-! ## The closures run by the two threads -/

/-- The argument string a worker request passes to `runGit`. -/
def WorkerTask.arguments (m : MainWindow) : WorkerTask → String
  | .fetch job _ _ => "fetch " ++ (m.jobStore job).remote ++ " " ++ (m.jobStore job).branch
  | .ahead job _ _ =>
    "push " ++ (m.jobStore job).remote ++ " " ++ (m.jobStore job).branch ++ ":" ++
      (m.jobStore job).branch
  | .behind job _ _ =>
    "merge --ff --ff-only " ++ (m.jobStore job).remote ++ "/" ++ (m.jobStore job).branch
  | .diverged job _ _ =>
    "rebase " ++ (m.jobStore job).remote ++ "/" ++ (m.jobStore job).branch
  | .pushAfterRebase job _ _ =>
    "push " ++ (m.jobStore job).remote ++ " " ++ (m.jobStore job).branch ++ ":" ++
      (m.jobStore job).branch

/-- The path a worker request captured. -/
def WorkerTask.path : WorkerTask → String
  | .fetch _ _ path => path
  | .ahead _ _ path => path
  | .behind _ _ path => path
  | .diverged _ _ path => path
  | .pushAfterRebase _ _ path => path

/-- The inner lambda a worker request posts back once it has the output. -/
def WorkerTask.reply (out : Output) : WorkerTask → GuiTask
  | .fetch job repo _ => .fetched job repo out
  | .ahead job repo _ => .pushed job repo out
  | .behind job repo _ => .merged job repo out
  | .diverged job repo _ => .rebased job repo out
  | .pushAfterRebase job repo _ => .pushedAfterRebase job repo out

/-- The outer lambda of a worker step: build the arguments, run git in the
worker thread, post the inner lambda to the control thread. -/
def MainWindow.runWorkerTask (m : MainWindow) (p : ProcessResult) (t : WorkerTask) :
    MainWindow :=
  let git := Git.new m.os t.path
  let out := git.runGit (t.arguments m) "" (Shell.start (fun _ => p))
  let m := m.noteLaunched .worker out.2
  m.doInGuiThread (t.reply out.1)

/-- A closure posted to the control thread, run. -/
def MainWindow.runGuiTask (m : MainWindow) (o : Obs) : GuiTask → MainWindow
  | .processRefreshJobs => m.processRefreshJobs o
  | .fetched job repo out =>
    if out.hasError then
      (m.setRepo repo (fun r => r.logError "Git error occurred while fetching."
        out.toString)).refresh_errorNext job
    else m.refresh_nextState job
  | .pushed job repo out =>
    if out.hasError then
      (m.setRepo repo (fun r => r.logError "Git error while pushing:"
        out.toString)).refresh_errorNext job
    else
      let m := m.setRepo repo (fun r => r.log "Pushed successfully. In sync! Done.")
      let m := m.setRepo repo (fun r => { r with ok := true })
      m.refresh_successNext job
  | .merged job repo out =>
    if out.hasError then
      (m.setRepo repo (fun r => r.logError "Git error while merging:"
        out.toString)).refresh_errorNext job
    else
      let m := m.setRepo repo (fun r => r.log "Merged successfully. In sync! Done.")
      let m := m.setRepo repo (fun r => { r with ok := true })
      m.refresh_successNext job
  | .rebased job repo out =>
    if out.hasError then
      let m := m.setRepo repo (fun r => r.logError "Git error while rebasing." out.toString)
      let m := m.setRepo repo (fun r => r.log
        ("Rebasing failed. There are likely conflicting changes." ++
          " Resolve them and finish the rebase before trying again."))
      m.refresh_errorNext job
    else m.refresh_nextState job
  | .pushedAfterRebase job repo out =>
    if out.hasError then
      (m.setRepo repo (fun r => r.logError "Git error while pushing:"
        out.toString)).refresh_errorNext job
    else
      let m := m.setRepo repo (fun r => r.log "Pushed successfully. In sync! Done.")
      let m := m.setRepo repo (fun r => { r with ok := true })
      m.refresh_successNext job

end GidSync

namespace GidSync

/-! ## The event loop -/

/-- `MainWindow::initRepo`. -/
def MainWindow.initRepo (m : MainWindow) (o : Obs) (repoSettings : Settings.Repo) :
    MainWindow :=
  let repo : RepoId := m.repoCount
  let m := { m with repoCount := m.repoCount + 1 }
  let m := m.setRepo repo (fun _ =>
    { settings := repoSettings,
      timer := { singleShot := true,
                 interval := int32 (repoSettings.refreshRateMinutes * 60 * 1000) } })
  let m := { m with repos := m.repos ++ [repo] }
  m.refreshRepo o repo

/-- `MainWindow::onRepoPauseActionTriggered`. -/
def MainWindow.onRepoPauseActionTriggered (m : MainWindow) (repo : RepoId) : MainWindow :=
  let m := m.setRepo repo (fun r => { r with timer := r.timer.stop })
  m.updateRepoGui repo

/-- `MainWindow::on_action_Refresh_All_triggered`. -/
def MainWindow.on_action_Refresh_All_triggered (m : MainWindow) (o : Obs) : MainWindow :=
  m.repos.foldl (fun m repo => m.refreshRepo o repo) m

/-- `MainWindow::on_toolButton_editRepoRefreshTime_clicked`, for the selected
repository and the number the dialog returned. -/
def MainWindow.on_toolButton_editRepoRefreshTime_clicked (m : MainWindow) (repo : RepoId)
    (mins : Int) : MainWindow :=
  let m :=
    if mins ≠ (m.repoStore repo).settings.refreshRateMinutes then
      let lastInterval := (m.repoStore repo).settings.refreshRateMinutes
      let m := m.setRepo repo (fun r =>
        { r with settings := { r.settings with refreshRateMinutes := mins } })
      if mins = 0 then
        -- Stop timer.
        m.setRepo repo (fun r => { r with timer := r.timer.stop })
      else if (m.repoStore repo).timer.active then
        -- Restart the timer with the new interval if it is already active
        m.startRepoTimer repo
      else if lastInterval = 0 then
        m.startRepoTimer repo
      else m
    else m
  m.updateRepoGui repo

/-- `MainWindow::on_toolButton_removeRepo_clicked`, for the selected repository,
once the question has been answered with yes. -/
def MainWindow.on_toolButton_removeRepo_clicked (m : MainWindow) (repo : RepoId) :
    MainWindow :=
  let m := m.setRepo repo (fun r => { r with timer := r.timer.stop })
  let m := { m with repos := m.repos.filter (fun r => r ≠ repo) }
  m.updateTrayIcon

/-- `MainWindow::on_toolButton_ourName_edit_clicked`, for the text the dialog
returned. -/
def MainWindow.on_toolButton_ourName_edit_clicked (m : MainWindow) (name : String) :
    MainWindow :=
  let name := QString.trimmed name
  if QString.isEmpty name then m else { m with ourName := name }

/-- `MainWindow::on_toolButton_editRepoName_clicked`, for the selected repository
and the text the dialog returned. -/
def MainWindow.on_toolButton_editRepoName_clicked (m : MainWindow) (repo : RepoId)
    (name : String) : MainWindow :=
  let name := QString.trimmed name
  if QString.isEmpty name then m
  else
    let m := m.setRepo repo (fun r => { r with settings := { r.settings with name := name } })
    m.updateRepoGui repo

/-- What can happen next: a thread takes the oldest closure posted to it, a
repository timer fires, or the user acts. -/
inductive Event
  /-- The control thread runs the oldest closure posted with `doInGuiThread`. -/
  | gui (o : Obs)
  /-- The worker thread runs the oldest request posted with `doInWorkerThread`;
  `p` is what the process it starts reports. -/
  | worker (p : ProcessResult)
  /-- The timer of a repository fires: the lambda connected in `initRepo`. -/
  | timeout (repo : RepoId) (o : Obs)
  /-- Manual refresh of a listed repository (button or tray action). -/
  | refresh (repo : RepoId) (o : Obs)
  | refreshAll (o : Obs)
  | pause (repo : RepoId)
  /-- A repository is set up: `initRepo`, from the constructor or the add button. -/
  | addRepo (repoSettings : Settings.Repo) (o : Obs)
  | editRefreshTime (repo : RepoId) (mins : Int)
  | removeRepo (repo : RepoId)
  /-- The main window is shown or hidden. -/
  | setVisible (visible : Bool)
  | editOurName (name : String)
  | editRepoName (repo : RepoId) (name : String)

/-- One event. An event whose precondition does not hold (nothing posted, timer
not active, repository not listed, number outside the dialog's range) leaves the
state as it is. -/
def MainWindow.step (m : MainWindow) : Event → MainWindow
  | .gui o =>
    match m.guiPosted with
    | [] => m
    | t :: rest => { m with guiPosted := rest }.runGuiTask o t
  | .worker p =>
    match m.workerPosted with
    | [] => m
    | t :: rest => { m with workerPosted := rest }.runWorkerTask p t
  | .timeout repo o =>
    if (m.repoStore repo).timer.active then
      -- single shot: the timer stops itself before the slot runs
      (m.setRepo repo (fun r => { r with timer := r.timer.stop })).refreshRepo o repo
    else m
  | .refresh repo o => if repo ∈ m.repos then m.refreshRepo o repo else m
  | .refreshAll o => m.on_action_Refresh_All_triggered o
  | .pause repo => if repo ∈ m.repos then m.onRepoPauseActionTriggered repo else m
  | .addRepo repoSettings o => m.initRepo o repoSettings
  | .editRefreshTime repo mins =>
    if repo ∈ m.repos ∧ 0 ≤ mins ∧ mins ≤ 1000 then
      m.on_toolButton_editRepoRefreshTime_clicked repo mins
    else m
  | .removeRepo repo =>
    if repo ∈ m.repos then m.on_toolButton_removeRepo_clicked repo else m
  | .setVisible visible => { m with visible := visible }
  | .editOurName name => m.on_toolButton_ourName_edit_clicked name
  | .editRepoName repo name =>
    if repo ∈ m.repos then m.on_toolButton_editRepoName_clicked repo name else m

/-- A sequence of events, oldest first. -/
def MainWindow.run (m : MainWindow) (es : List Event) : MainWindow :=
  es.foldl MainWindow.step m

/-- The state the constructor starts from: no repository set up yet. -/
def MainWindow.initial (os : Platform) (ourName : String) : MainWindow :=
  { os := os, ourName := ourName }

/-- The states the program can be in between two events. -/
def Reachable (m : MainWindow) : Prop :=
  ∃ os ourName es, m = (MainWindow.initial os ourName).run es

/-! ## Reading the record -/

/-- The jobs appended by `refreshRepo`, oldest first. -/
def enqueuedJobs (h : List Note) : List JobId :=
  h.filterMap (fun n => match n with | .enqueued job _ => some job | _ => none)

/-- The jobs handed to `refresh_successNext` / `refresh_errorNext`, oldest first. -/
def finishedJobs (h : List Note) : List JobId :=
  h.filterMap (fun n => match n with | .finished job _ => some job | _ => none)

/-- The jobs removed by `popRefreshJob`, oldest first. -/
def poppedJobs (h : List Note) : List JobId :=
  h.filterMap (fun n => match n with | .popped job => some job | _ => none)

/-- The states whose step function was run for a job, oldest first. -/
def dispatchedStates (job : JobId) (h : List Note) : List Int :=
  h.filterMap (fun n => match n with
    | .dispatched j state => if j = job then some state else none
    | _ => none)

/-- The processes started, oldest first. -/
def launches (h : List Note) : List (Context × Launch) :=
  h.filterMap (fun n => match n with | .launched ctx l => some (ctx, l) | _ => none)

end GidSync

namespace GidSync

/-! ## Vocabulary of the statements -/

/-- The line `git rev-list --count --left-right <ref>...HEAD` prints: the number
of commits only reachable from `<ref>`, a tab, the number only reachable from
`HEAD`, a newline. -/
def countLine (behindCount aheadCount : Nat) : String :=
  toString behindCount ++ "\t" ++ toString aheadCount ++ "\n"

/-- A process that exited normally with code 0 and this standard output. -/
def ProcessResult.success (standardOutput : String) (standardError : String := "") :
    ProcessResult :=
  ⟨false, 0, standardOutput, standardError⟩

/-- The `i`-th white-space separated field of the output of the count query, as
`compareWithHead` cuts it; the empty string when there is none. -/
def countField (standardOutput : String) (i : Nat) : String :=
  QStringList.value (QString.split ' ' (QString.simplified standardOutput)) i

/-- Whether a string is a non-empty run of decimal digits. -/
def isDecimal (s : String) : Bool :=
  !s.data.isEmpty && s.data.all Char.isDigit

end GidSync

namespace GidSync

/-! ## The queue discipline: what the invariants are about

The invariants of the queue only depend on a part of the state, its `Core`: the
queue, the busy flag, the posted closures, the repository and state of each job,
and the record entries about jobs. -/

/-- The record entries about jobs. -/
def Note.isCore : Note → Bool
  | .enqueued _ _ => true
  | .dispatched _ _ => true
  | .finished _ _ => true
  | .popped _ => true
  | _ => false

/-- The record restricted to the entries about jobs. -/
def coreNotes (h : List Note) : List Note := h.filter Note.isCore

/-- The finish and pop entries of the record, in order: `inl job` for a job
handed to `refresh_successNext` / `refresh_errorNext`, `inr job` for a job
removed by `popRefreshJob`. -/
def terminalNotes (h : List Note) : List (JobId ⊕ JobId) :=
  h.filterMap (fun n => match n with
    | .finished job _ => some (.inl job)
    | .popped job => some (.inr job)
    | _ => none)

/-- The job whose pointer a worker request captured. -/
def WorkerTask.job : WorkerTask → JobId
  | .fetch job _ _ => job
  | .ahead job _ _ => job
  | .behind job _ _ => job
  | .diverged job _ _ => job
  | .pushAfterRebase job _ _ => job

/-- The repository whose pointer a worker request captured. -/
def WorkerTask.repo : WorkerTask → RepoId
  | .fetch _ repo _ => repo
  | .ahead _ repo _ => repo
  | .behind _ repo _ => repo
  | .diverged _ repo _ => repo
  | .pushAfterRebase _ repo _ => repo

/-- The job state in which the step that posts this worker request runs. -/
def WorkerTask.state : WorkerTask → Int
  | .fetch _ _ _ => 4
  | .ahead _ _ _ => 5
  | .behind _ _ _ => 5
  | .diverged _ _ _ => 5
  | .pushAfterRebase _ _ _ => 7

/-- The part of the state the queue discipline depends on. -/
structure Core where
  refreshJobs : List JobId
  refreshBusy : Bool
  gui : List GuiTask
  worker : List WorkerTask
  jobCount : Nat
  jobRepo : JobId → RepoId
  jobState : JobId → Int
  notes : List Note

/-- The core of a state. -/
def MainWindow.core (m : MainWindow) : Core :=
  { refreshJobs := m.refreshJobs
    refreshBusy := m.refreshBusy
    gui := m.guiPosted
    worker := m.workerPosted
    jobCount := m.jobCount
    jobRepo := fun i => (m.jobStore i).repo
    jobState := fun i => (m.jobStore i).state
    notes := coreNotes m.history }

/-- The effect of `refresh_successNext` / `refresh_errorNext` on the core. -/
def Core.finish (c : Core) (job : JobId) (success : Bool) : Core :=
  match c.refreshJobs with
  | [] =>
    { c with notes := c.notes ++ [.finished job success],
             gui := c.gui ++ [.processRefreshJobs] }
  | x :: rest =>
    { c with refreshJobs := rest,
             notes := c.notes ++ [.finished job success, .popped x],
             gui := c.gui ++ [.processRefreshJobs] }

/-- The effect of `refresh_nextState` on the core. -/
def Core.next (c : Core) (job : JobId) : Core :=
  { c with jobState := fun i => if i = job then c.jobState job + 1 else c.jobState i,
           gui := c.gui ++ [.processRefreshJobs] }

/-- The effect of `doInWorkerThread` on the core. -/
def Core.work (c : Core) (t : WorkerTask) : Core :=
  { c with worker := c.worker ++ [t] }

/-- The effect on the core of the opening of `processRefreshJobs` for a non-empty
queue: the busy flag is set and the step of the front job is dispatched. -/
def Core.dispatch (c : Core) (job : JobId) : Core :=
  { c with refreshBusy := true, notes := c.notes ++ [.dispatched job (c.jobState job)] }

/-- The effect on the core of `refreshRepo` appending a new job. -/
def Core.enqueue (c : Core) (repo : RepoId) : Core :=
  { c with jobCount := c.jobCount + 1,
           jobRepo := fun i => if i = c.jobCount then repo else c.jobRepo i,
           jobState := fun i => if i = c.jobCount then 0 else c.jobState i,
           refreshJobs := c.refreshJobs ++ [c.jobCount],
           notes := c.notes ++ [.enqueued c.jobCount repo] }

/-- The cores a step of the job `job`, run in job state `k`, can end in: the job
is finished, or moved to the next state (never from state 7), or a request that
belongs to state `k` is handed to the worker. -/
def Core.StepEnd (c : Core) (job : JobId) (k : Int) (c' : Core) : Prop :=
  (∃ success, c' = c.finish job success) ∨
  (k < 7 ∧ c' = c.next job) ∨
  (∃ t : WorkerTask, t.job = job ∧ t.state = k ∧ t.repo = c.jobRepo job ∧ c' = c.work t)

/-- The cores `processRefreshJobs` can end in. -/
def Core.ProcessEnd (c : Core) (c' : Core) : Prop :=
  match c.refreshJobs with
  | [] => c' = { c with refreshBusy := false }
  | job :: _ =>
    if 0 ≤ c.jobState job ∧ c.jobState job ≤ 7 then
      (c.dispatch job).StepEnd job (c.jobState job) c'
    else c' = { c with refreshBusy := true }

/-- A worker request, or its reply, is the one of the job at the front of the
queue, in the state the request belongs to. -/
def Core.InFlight (c : Core) (t : WorkerTask) : Prop :=
  c.refreshJobs.head? = some t.job ∧ c.jobState t.job = t.state ∧ c.jobRepo t.job = t.repo

/-- What is posted for the queue. Idle: nothing, and the queue is empty.
Busy: exactly one closure, which is the posted `processRefreshJobs`, or a
request in the worker thread, or the reply of such a request. -/
inductive Core.Pending (c : Core) : Prop
  | idle : c.refreshBusy = false → c.refreshJobs = [] → c.gui = [] → c.worker = [] →
      Core.Pending c
  | posted : c.refreshBusy = true → c.gui = [.processRefreshJobs] → c.worker = [] →
      Core.Pending c
  | working (t : WorkerTask) : c.refreshBusy = true → c.gui = [] → c.worker = [t] →
      c.InFlight t → Core.Pending c
  | replied (t : WorkerTask) (out : Output) : c.refreshBusy = true →
      c.gui = [t.reply out] → c.worker = [] → c.InFlight t → Core.Pending c

/-- The invariant of the queue, apart from what is posted. -/
structure Core.Base (c : Core) : Prop where
  /-- The jobs appended are the jobs finished, then the jobs queued, in this order. -/
  fifo : enqueuedJobs c.notes = finishedJobs c.notes ++ c.refreshJobs
  /-- Every finish is followed by the pop of the same job. -/
  paired : terminalNotes c.notes = (finishedJobs c.notes).flatMap (fun j => [.inl j, .inr j])
  /-- Queued jobs have been allocated. -/
  bound : ∀ j ∈ c.refreshJobs, j < c.jobCount
  /-- No job is queued twice. -/
  nodup : c.refreshJobs.Nodup
  /-- No two queued jobs are for the same repository. -/
  oneEach : (c.refreshJobs.map c.jobRepo).Nodup
  /-- A job behind the front is in state 0 and no step of it has run. -/
  waiting : ∀ j ∈ c.refreshJobs.tail, c.jobState j = 0 ∧ dispatchedStates j c.notes = []
  /-- Queued jobs are in one of the states 0..7. -/
  range : ∀ j ∈ c.refreshJobs, 0 ≤ c.jobState j ∧ c.jobState j ≤ 7
  /-- No step has run for a job that is not allocated yet. -/
  future : ∀ j, c.jobCount ≤ j → dispatchedStates j c.notes = []

/-- The invariant of the queue. -/
structure Core.Inv (c : Core) : Prop where
  base : c.Base
  /-- Exactly one closure is posted while busy, none while idle. -/
  pending : c.Pending

/-- The cores `refreshRepo` can end in. -/
def Core.RefreshEnd (c : Core) (repo : RepoId) (c' : Core) : Prop :=
  if c.refreshJobs.any (fun job => c.jobRepo job = repo) then c' = c
  else if c.refreshBusy then c' = c.enqueue repo
  else (c.enqueue repo).ProcessEnd c'

end GidSync

namespace GidSync

/-! ## Sample values, for instances of the theorems -/

/-- An observation: a fixed clock reading, the same listing for every directory,
and the given process results. -/
def Obs.sample (entries : List String) (answers : Nat → ProcessResult) : Obs :=
  ⟨"2024-05-01 12:00:00", fun _ => entries, answers⟩

/-- The settings of a sample repository. -/
def Settings.Repo.sample : Settings.Repo :=
  { name := "notes", path := "/home/u/notes", refreshRateMinutes := 5 }

end GidSync

namespace GidSync

/-- An observation of a working tree with nothing going on: every directory
lists `.git` only, every process succeeds and prints nothing. -/
def Obs.quiet : Obs := Obs.sample [".git"] (fun _ => ProcessResult.success "")

/-- The state after the sample repository has been set up: its job is at the
front of the queue, step 0 done. -/
def MainWindow.sample : MainWindow :=
  (MainWindow.initial .other "me").run [.addRepo Settings.Repo.sample Obs.quiet]

end GidSync

namespace GidSync

/-! ## Vocabulary of the scenarios -/

/-- The job `job`, for the repository `repo` at `path`, is at the front of the
queue in state `k`, and the closure that will run its next step is posted:
nothing else is posted. `rest` is the queue behind it. -/
structure JobAt (m : MainWindow) (job : JobId) (repo : RepoId) (path : String) (k : Int)
    (rest : List JobId) : Prop where
  queue : m.refreshJobs = job :: rest
  jobRepo : (m.jobStore job).repo = repo
  state : (m.jobStore job).state = k
  gui : m.guiPosted = [.processRefreshJobs]
  worker : m.workerPosted = []
  path : (m.repoStore repo).settings.path = path

/-- Whether a process runs the git subcommand `sub`: its command line starts with
the git command, a space, `sub` and a space. -/
def Launch.runs (os : Platform) (sub : String) (l : Launch) : Bool :=
  (Git.init os ++ " " ++ sub ++ " ").data.isPrefixOf l.command.data

/-- The processes of a record that run the git subcommand `sub`. -/
def launchesOf (os : Platform) (sub : String) (h : List Note) : List (Context × Launch) :=
  (launches h).filter (fun cl => cl.2.runs os sub)

/-- The terminal calls of a record with their outcome: `(job, true)` for
`refresh_successNext(job)`, `(job, false)` for `refresh_errorNext(job)`. -/
def outcomes (h : List Note) : List (JobId × Bool) :=
  h.filterMap (fun n => match n with | .finished job success => some (job, success) | _ => none)

/-- Step 0 succeeds: the path is not empty and is seen as a repository. -/
def InitOk (os : Platform) (path : String) (o : Obs) : Prop :=
  QString.isEmpty path = false ∧ ((Git.new os path).pathIsRepo "" o.entryList).result = true

/-- Step 1 succeeds: no marker of an ongoing operation is seen. -/
def OngoingOpsOk (os : Platform) (path : String) (o : Obs) : Prop :=
  (Git.new os path).getOngoingOperationState "" o.entryList = OpNone

/-- Step 2 succeeds: the branch query and the URL query for `origin` report no
error. -/
def BranchRemoteOk (os : Platform) (path : String) (o : Obs) : Prop :=
  ((Git.new os path).currentBranch "" (Shell.start o.answers)).1.gitOutput.hasError = false ∧
  ((Git.new os path).runGit "remote get-url origin" ""
    ((Git.new os path).currentBranch "" (Shell.start o.answers)).2).1.hasError = false

/-- The branch step 2 detects. -/
def detectedBranch (os : Platform) (path : String) (o : Obs) : String :=
  ((Git.new os path).currentBranch "" (Shell.start o.answers)).1.result

/-- Step 3 finds the repository unmodified: `isRepoModified` reports no error and
`false`. -/
def Unmodified (os : Platform) (path : String) (o : Obs) : Prop :=
  ((Git.new os path).isRepoModified "" (Shell.start o.answers)).1.gitOutput.hasError = false ∧
  ((Git.new os path).isRepoModified "" (Shell.start o.answers)).1.result = false

/-- Step 3 finds the repository modified, `add -A` and the commit report no
error, and the second `isRepoModified` reports no error and `false`. -/
def CommitOk (os : Platform) (path ourName : String) (o : Obs) : Prop :=
  let git := Git.new os path
  let b := git.isRepoModified "" (Shell.start o.answers)
  let add := git.runGit "add -A" "" b.2
  let commit := git.runGit
    ("commit -m \"Changes from " ++ QString.replaceChar ourName '"' "\\\"" ++ "\"") "" add.2
  let b2 := git.isRepoModified "" commit.2
  b.1.gitOutput.hasError = false ∧ b.1.result = true ∧ add.1.hasError = false ∧
  commit.1.hasError = false ∧ b2.1.gitOutput.hasError = false ∧ b2.1.result = false

/-- The result of the compare of step 5 or 6 for branch `branch`. -/
def compared (os : Platform) (path branch : String) (o : Obs) : Result Compare :=
  ((Git.new os path).compareWithHead ("origin" ++ "/" ++ branch) ""
    (Shell.start o.answers)).1

/-- A process result `Git::run` reports without error. -/
def ProcessResult.ok (p : ProcessResult) : Prop := p.crashExit = false ∧ p.exitCode = 0

end GidSync

namespace GidSync

/-- Nothing is queued, posted or running. -/
structure Idle (m : MainWindow) : Prop where
  busy : m.refreshBusy = false
  queue : m.refreshJobs = []
  gui : m.guiPosted = []
  worker : m.workerPosted = []

/-- The event `e` runs step 0 of the job `job`, for the repository `repo` at
`path`, with the observation `o`; `rest` is the queue behind the job. Either the
job waits at the front and the posted `processRefreshJobs` runs; or nothing is
queued and `refreshRepo` appends the job and calls `processRefreshJobs` itself:
on a manual refresh, on the timer of the repository, or when the repository is
set up. -/
inductive Starts (m : MainWindow) (o : Obs) (job : JobId) (repo : RepoId) (path : String)
    (rest : List JobId) : Event → Prop
  | posted : JobAt m job repo path 0 rest → Starts m o job repo path rest (.gui o)
  | refresh : Idle m → repo ∈ m.repos → job = m.jobCount →
      (m.repoStore repo).settings.path = path → rest = [] →
      Starts m o job repo path rest (.refresh repo o)
  | timeout : Idle m → (m.repoStore repo).timer.active = true → job = m.jobCount →
      (m.repoStore repo).settings.path = path → rest = [] →
      Starts m o job repo path rest (.timeout repo o)
  | addRepo (repoSettings : Settings.Repo) : Idle m → repo = m.repoCount →
      job = m.jobCount → repoSettings.path = path → rest = [] →
      Starts m o job repo path rest (.addRepo repoSettings o)

/-- The job is at the front in state `k` with its next step posted, step 0 has
run (the timer of the repository is stopped), on platform `os` with client name
`ourName`. -/
structure JobRunning (m : MainWindow) (os : Platform) (ourName : String) (job : JobId)
    (repo : RepoId) (path : String) (k : Int) (rest : List JobId)
    extends JobAt m job repo path k rest : Prop where
  os : m.os = os
  ourName : m.ourName = ourName
  timerOff : (m.repoStore repo).timer.active = false

/-- As `JobRunning`, and step 2 has run: the job has its remote `origin` and its
branch. -/
structure JobOnBranch (m : MainWindow) (os : Platform) (ourName : String) (job : JobId)
    (repo : RepoId) (path : String) (branch : String) (k : Int) (rest : List JobId)
    extends JobRunning m os ourName job repo path k rest : Prop where
  remote : (m.jobStore job).remote = "origin"
  branch : (m.jobStore job).branch = branch

end GidSync

namespace GidSync

/-- What a turn that moves the job on adds to the record: the step of state `k`
is dispatched for the job (and no other step of it), no terminal call is made,
and no push, merge or rebase is started. -/
structure Advance (os : Platform) (job : JobId) (k : Int) (ext : List Note) : Prop where
  dispatched : dispatchedStates job ext = [k]
  outcomes : outcomes ext = []
  noPush : launchesOf os "push" ext = []
  noMerge : launchesOf os "merge" ext = []
  noRebase : launchesOf os "rebase" ext = []

end GidSync

namespace GidSync

/-- The command line of the count query for `origin/<branch>`. -/
def revListCommand (os : Platform) (branch : String) : String :=
  Git.init os ++ " " ++ ("rev-list --count --left-right " ++ ("origin" ++ "/" ++ branch) ++ "...HEAD")

/-- The line `refresh_diverged` logs after a failed rebase. -/
def rebaseGuidance : String :=
  "Rebasing failed. There are likely conflicting changes." ++
    " Resolve them and finish the rebase before trying again."

end GidSync

namespace GidSync

/-- As `JobOnBranch`, for any closures posted: `gui` on the control thread and
`worker` on the worker thread. -/
structure JobPosted (m : MainWindow) (os : Platform) (ourName : String) (job : JobId)
    (repo : RepoId) (path : String) (branch : String) (k : Int) (rest : List JobId)
    (gui : List GuiTask) (worker : List WorkerTask) : Prop where
  queue : m.refreshJobs = job :: rest
  jobRepo : (m.jobStore job).repo = repo
  state : (m.jobStore job).state = k
  gui : m.guiPosted = gui
  worker : m.workerPosted = worker
  path : (m.repoStore repo).settings.path = path
  os : m.os = os
  ourName : m.ourName = ourName
  timerOff : (m.repoStore repo).timer.active = false
  remote : (m.jobStore job).remote = "origin"
  branch : (m.jobStore job).branch = branch

end GidSync

namespace GidSync

/-- An observation of a working tree in which the `k`-th process started
succeeds and prints `outs[k]` (nothing beyond the list). -/
def Obs.answering (outs : List String) : Obs :=
  Obs.sample [".git"] (fun k => ProcessResult.success (outs.getD k ""))

end GidSync

namespace GidSync

/-! ## What one closure does: vocabulary -/

/-- The record entries a state holds beyond those of an earlier state. -/
def newNotes (m m' : MainWindow) : List Note := m'.history.drop m.history.length

/-- The record entries of one event. -/
def MainWindow.turnNotes (m : MainWindow) (e : Event) : List Note := newNotes m (m.step e)

/-- Which closure the control thread ran for a job: the step of a job state
(called by `processRefreshJobs`), or the inner lambda of a worker step. -/
inductive Ran
  | step (k : Int)
  | reply
  deriving DecidableEq

/-- The argument strings the step of a job state passes to `runGit` in the
control thread, for the client name, remote and branch at hand. -/
def controlArguments (ourName remote branch : String) : Ran → List String
  | .step 2 => ["symbolic-ref --quiet --short HEAD", "remote get-url origin"]
  | .step 3 => ["rev-parse --is-bare-repository", "status --porcelain", "add -A",
      "commit -m \"Changes from " ++ QString.replaceChar ourName '"' "\\\"" ++ "\""]
  | .step 5 => ["rev-list --count --left-right " ++ (remote ++ "/" ++ branch) ++ "...HEAD"]
  | .step 6 => ["rev-list --count --left-right " ++ (remote ++ "/" ++ branch) ++ "...HEAD"]
  | _ => []

/-- What a closure run for the job `job` leaves alone. -/
@[mk_iff frame_iff]
structure Frame (m m' : MainWindow) (job : JobId) : Prop where
  history : m'.history = m.history ++ newNotes m m'
  os : m'.os = m.os
  ourName : m'.ourName = m.ourName
  visible : m'.visible = m.visible
  repos : m'.repos = m.repos
  repoCount : m'.repoCount = m.repoCount
  jobCount : m'.jobCount = m.jobCount
  otherRepos : ∀ r, r ≠ (m.jobStore job).repo → m'.repoStore r = m.repoStore r
  otherJobs : ∀ j, j ≠ job → m'.jobStore j = m.jobStore j
  jobRepo : (m'.jobStore job).repo = (m.jobStore job).repo
  settings : (m'.repoStore (m.jobStore job).repo).settings =
    (m.repoStore (m.jobStore job).repo).settings
  noEnqueue : enqueuedJobs (newNotes m m') = []

/-- The closure ended in `refresh_errorNext(job)`. -/
@[mk_iff failed_iff]
structure Failed (m m' : MainWindow) (job : JobId) : Prop where
  ok : (m'.repoStore (m.jobStore job).repo).ok = false
  refreshing : (m'.repoStore (m.jobStore job).repo).refreshing = false
  queue : m'.refreshJobs = m.refreshJobs.tail
  gui : m'.guiPosted = m.guiPosted ++ [.processRefreshJobs]
  worker : m'.workerPosted = m.workerPosted
  tray : m.visible = false →
    Note.trayMessage (m.repoStore (m.jobStore job).repo).settings.path
      (m'.repoStore (m.jobStore job).repo).statusSummary ∈ newNotes m m'
  trayOnly : ∀ title message, Note.trayMessage title message ∈ newNotes m m' →
    m.visible = false ∧ title = (m.repoStore (m.jobStore job).repo).settings.path ∧
    message = (m'.repoStore (m.jobStore job).repo).statusSummary
  repoGui : Note.repoGui (m.jobStore job).repo ∈ newNotes m m'
  trayIcon : Note.trayIcon ∈ newNotes m m'
  only : outcomes (newNotes m m') = [(job, false)]

/-- The closure ended in `refresh_successNext(job)`. -/
@[mk_iff succeeded_iff]
structure Succeeded (m m' : MainWindow) (job : JobId) : Prop where
  ok : (m'.repoStore (m.jobStore job).repo).ok = true
  refreshing : (m'.repoStore (m.jobStore job).repo).refreshing = false
  timer : (m'.repoStore (m.jobStore job).repo).timer =
    if 0 < int32 ((m.repoStore (m.jobStore job).repo).settings.refreshRateMinutes * 60 * 1000)
    then (m.repoStore (m.jobStore job).repo).timer.start
      (int32 ((m.repoStore (m.jobStore job).repo).settings.refreshRateMinutes * 60 * 1000))
    else (m.repoStore (m.jobStore job).repo).timer
  queue : m'.refreshJobs = m.refreshJobs.tail
  gui : m'.guiPosted = m.guiPosted ++ [.processRefreshJobs]
  worker : m'.workerPosted = m.workerPosted
  repoGui : Note.repoGui (m.jobStore job).repo ∈ newNotes m m'
  trayIcon : Note.trayIcon ∈ newNotes m m'
  noTray : ∀ title message, Note.trayMessage title message ∉ newNotes m m'
  only : outcomes (newNotes m m') = [(job, true)]

/-- What a closure run for the job `job` does, from the state `m` before it to
the state `m'` after it; `now` is the clock reading the closure is handed. -/
@[mk_iff closure_iff]
structure Closure (m m' : MainWindow) (job : JobId) (ran : Ran) (now : String)
    extends Frame m m' job : Prop where
  failed : ∀ j, (j, false) ∈ outcomes (newNotes m m') → j = job ∧ Failed m m' job
  succeeded : ∀ j, (j, true) ∈ outcomes (newNotes m m') →
    j = job ∧ Succeeded m m' job ∧ ran ≠ .step 0
  quiet : outcomes (newNotes m m') = [] → m'.refreshJobs = m.refreshJobs
  flag : outcomes (newNotes m m') = [] →
    (m'.repoStore (m.jobStore job).repo).refreshing =
      (m.repoStore (m.jobStore job).repo).refreshing
  timerStop : ran = .step 0 →
    (m'.repoStore (m.jobStore job).repo).timer = (m.repoStore (m.jobStore job).repo).timer.stop
  timerKeep : ran ≠ .step 0 → (∀ j, (j, true) ∉ outcomes (newNotes m m')) →
    (m'.repoStore (m.jobStore job).repo).timer = (m.repoStore (m.jobStore job).repo).timer
  logReset : ran = .step 0 →
    ∃ more, (m'.repoStore (m.jobStore job).repo).statusLines = now :: more
  logAppend : ran ≠ .step 0 →
    (m.repoStore (m.jobStore job).repo).statusLines <+:
      (m'.repoStore (m.jobStore job).repo).statusLines
  logGrows : ∀ k ∈ [(2 : Int), 3, 4, 5, 7], ran = .step k →
    (m.repoStore (m.jobStore job).repo).statusLines.length <
      (m'.repoStore (m.jobStore job).repo).statusLines.length
  logSame : ran = .step 1 ∨ ran = .step 6 → (job, false) ∉ outcomes (newNotes m m') →
    (m'.repoStore (m.jobStore job).repo).statusLines =
      (m.repoStore (m.jobStore job).repo).statusLines
  launched : ∀ cl ∈ launches (newNotes m m'),
    cl.1 = .control ∧ cl.2.workingDirectory = (m.repoStore (m.jobStore job).repo).settings.path ∧
    ∃ a ∈ controlArguments m.ourName (m.jobStore job).remote (m.jobStore job).branch ran,
      cl.2.command = Git.init m.os ++ " " ++ a
  compare : ran = .step 5 ∨ ran = .step 6 →
    launches (newNotes m m') =
      [(.control, ⟨(m.repoStore (m.jobStore job).repo).settings.path,
        Git.init m.os ++ " " ++ ("rev-list --count --left-right " ++
          ((m.jobStore job).remote ++ "/" ++ (m.jobStore job).branch) ++ "...HEAD")⟩)]
  state : (m'.jobStore job).state = (m.jobStore job).state ∨
    (m'.jobStore job).state = (m.jobStore job).state + 1
  naming : ran ≠ .step 2 → (m'.jobStore job).remote = (m.jobStore job).remote ∧
    (m'.jobStore job).branch = (m.jobStore job).branch
  origin : ran = .step 2 → (m'.jobStore job).state = (m.jobStore job).state + 1 →
    (m'.jobStore job).remote = "origin"

/-! ## What one event does: vocabulary -/

/-- The clock reading an event hands to the code it runs (empty for the events
that read no clock). -/
def Event.now : Event → String
  | .gui o => o.now
  | .timeout _ o => o.now
  | .refresh _ o => o.now
  | .refreshAll o => o.now
  | .addRepo _ o => o.now
  | _ => ""

/-- The repositories an event asks `refreshRepo` to refresh. -/
def Event.asks (m : MainWindow) (r : RepoId) : Event → Prop
  | .timeout repo _ => repo = r ∧ (m.repoStore r).timer.active = true
  | .refresh repo _ => repo = r ∧ r ∈ m.repos
  | .refreshAll _ => r ∈ m.repos
  | .addRepo _ _ => r = m.repoCount
  | _ => False

/-- The record entries that only tell of an appended job or of a presentation
update. -/
def Note.isInert : Note → Bool
  | .enqueued _ _ => true
  | .repoGui _ => true
  | .trayIcon => true
  | _ => false

/-- The argument strings the worker request of a job state passes to `runGit`. -/
def workerArguments (remote branch : String) (k : Int) : List String :=
  if k = 4 then ["fetch " ++ remote ++ " " ++ branch]
  else if k = 5 then
    ["push " ++ remote ++ " " ++ branch ++ ":" ++ branch,
     "merge --ff --ff-only " ++ remote ++ "/" ++ branch,
     "rebase " ++ remote ++ "/" ++ branch]
  else if k = 7 then ["push " ++ remote ++ " " ++ branch ++ ":" ++ branch]
  else []

/-- What `refreshRepo` does from `m` to `m'` when it only appends jobs (a job is
being drained already): nothing but the queue, the new jobs, the `refreshing`
flag of their repositories and the record changes. -/
@[mk_iff quiet_iff]
structure Quiet (m m' : MainWindow) : Prop where
  history : m'.history = m.history ++ newNotes m m'
  inert : ∀ n ∈ newNotes m m', n.isInert = true
  os : m'.os = m.os
  ourName : m'.ourName = m.ourName
  visible : m'.visible = m.visible
  repos : m'.repos = m.repos
  repoCount : m'.repoCount = m.repoCount
  jobCount : m.jobCount ≤ m'.jobCount
  gui : m'.guiPosted = m.guiPosted
  worker : m'.workerPosted = m.workerPosted
  busy : m'.refreshBusy = m.refreshBusy
  repo : ∀ r, (m'.repoStore r).settings = (m.repoStore r).settings ∧
    (m'.repoStore r).timer = (m.repoStore r).timer ∧ (m'.repoStore r).ok = (m.repoStore r).ok ∧
    (m'.repoStore r).statusSummary = (m.repoStore r).statusSummary ∧
    (m'.repoStore r).statusLines = (m.repoStore r).statusLines
  refreshing : ∀ r, (m'.repoStore r).refreshing = (m.repoStore r).refreshing ∨
    ∃ j, Note.enqueued j r ∈ newNotes m m'
  jobs : ∀ j, j < m.jobCount → m'.jobStore j = m.jobStore j
  queue : m'.refreshJobs = m.refreshJobs ++ enqueuedJobs (newNotes m m')
  fresh : ∀ j ∈ enqueuedJobs (newNotes m m'), m.jobCount ≤ j
  born : ∀ j r, Note.enqueued j r ∈ newNotes m m' →
    (m'.jobStore j).repo = r ∧ (m'.jobStore j).state = 0 ∧ j < m'.jobCount
  naming : ∀ r, (m'.repoStore r).branch = (m.repoStore r).branch ∧
    (m'.repoStore r).remote = (m.repoStore r).remote ∧
    (m'.repoStore r).remoteUrl = (m.repoStore r).remoteUrl
  flagUp : ∀ j r, Note.enqueued j r ∈ newNotes m m' → (m'.repoStore r).refreshing = true
  flagKeep : ∀ r, (m.repoStore r).refreshing = true → (m'.repoStore r).refreshing = true

/-- An event that runs no closure of a job in the control thread. -/
@[mk_iff calm_iff]
structure Calm (m : MainWindow) (e : Event) (m' : MainWindow) : Prop where
  history : m'.history = m.history ++ newNotes m m'
  os : m'.os = m.os
  unended : outcomes (newNotes m m') = []
  dispatched : ∀ j, dispatchedStates j (newNotes m m') = []
  tray : ∀ title message, Note.trayMessage title message ∉ newNotes m m'
  /-- A process is only started by the worker request of the front job. -/
  launched : ∀ cl ∈ launches (newNotes m m'), cl.1 = .worker ∧
    ∃ a ∈ workerArguments (m.jobStore (m.refreshJobs.headD 0)).remote
        (m.jobStore (m.refreshJobs.headD 0)).branch (m.jobStore (m.refreshJobs.headD 0)).state,
      cl.2.command = Git.init m.os ++ " " ++ a
  front : launches (newNotes m m') ≠ [] → m.refreshJobs ≠ []
  repo : ∀ r, r < m.repoCount →
    (m'.repoStore r).settings.path = (m.repoStore r).settings.path ∧
    (m'.repoStore r).ok = (m.repoStore r).ok ∧
    (m'.repoStore r).statusSummary = (m.repoStore r).statusSummary ∧
    (m'.repoStore r).statusLines = (m.repoStore r).statusLines
  /-- The log of a repository that has not been set up is left alone. -/
  beyond : ∀ r, m'.repoCount ≤ r →
    (m'.repoStore r).statusLines = (m.repoStore r).statusLines
  timer : ∀ r, (m'.repoStore r).timer.active = true →
    (m.repoStore r).timer.active = true ∨ ∃ mins, e = .editRefreshTime r mins ∧ r ∈ m.repos
  repos : ∀ r ∈ m'.repos, r ∈ m.repos ∨ (r = m.repoCount ∧ m.repoCount < m'.repoCount)
  nodup : m.repos.Nodup → (∀ r ∈ m.repos, r < m.repoCount) → m'.repos.Nodup
  grown : ∀ s o, e = .addRepo s o → m.repoCount < m'.repoCount
  repoCount : m.repoCount ≤ m'.repoCount
  jobCount : m.jobCount ≤ m'.jobCount
  jobs : ∀ j, j < m.jobCount → m'.jobStore j = m.jobStore j
  queue : m'.refreshJobs = m.refreshJobs ++ enqueuedJobs (newNotes m m')
  fresh : ∀ j ∈ enqueuedJobs (newNotes m m'), m.jobCount ≤ j
  born : ∀ j r, Note.enqueued j r ∈ newNotes m m' →
    (m'.jobStore j).repo = r ∧ (m'.jobStore j).state = 0 ∧ j < m'.jobCount
  asked : ∀ j r, Note.enqueued j r ∈ newNotes m m' → e.asks m r
  flagUp : ∀ j r, Note.enqueued j r ∈ newNotes m m' → (m'.repoStore r).refreshing = true
  flagKeep : ∀ r, r < m.repoCount → (m.repoStore r).refreshing = true →
    (m'.repoStore r).refreshing = true
  flagOnly : ∀ r, (m'.repoStore r).refreshing = true →
    (m.repoStore r).refreshing = true ∨ ∃ j, Note.enqueued j r ∈ newNotes m m'

/-- The state `m1` in which step 0 of a job runs inside `refreshRepo(repo)`: the
event has done its own part (a timer that fired is stopped, a repository that is
set up has its record), nothing was queued or posted, and `job` is the new job,
alone in the queue. -/
@[mk_iff lead_iff]
structure Lead (m m1 : MainWindow) (job : JobId) (repo : RepoId) : Prop where
  history : m1.history = m.history ++ [.enqueued job repo]
  os : m1.os = m.os
  ourName : m1.ourName = m.ourName
  visible : m1.visible = m.visible
  idle : m.refreshJobs = []
  gui : m1.guiPosted = []
  worker : m1.workerPosted = []
  queue : m1.refreshJobs = [job]
  fresh : job = m.jobCount
  jobCount : m1.jobCount = m.jobCount + 1
  jobRepo : (m1.jobStore job).repo = repo
  state : (m1.jobStore job).state = 0
  jobs : ∀ j, j ≠ job → m1.jobStore j = m.jobStore j
  others : ∀ r, r ≠ repo → m1.repoStore r = m.repoStore r
  repoCount : m.repoCount ≤ m1.repoCount
  repos : ∀ r ∈ m1.repos, r ∈ m.repos ∨ (r = m.repoCount ∧ m.repoCount < m1.repoCount)
  nodup : m.repos.Nodup → (∀ r ∈ m.repos, r < m.repoCount) → m1.repos.Nodup
  flag : (m1.repoStore repo).refreshing = true
  known : repo < m.repoCount →
    (m1.repoStore repo).settings = (m.repoStore repo).settings ∧
    (m1.repoStore repo).ok = (m.repoStore repo).ok ∧
    (m1.repoStore repo).statusSummary = (m.repoStore repo).statusSummary ∧
    (m1.repoStore repo).statusLines = (m.repoStore repo).statusLines ∧
    ((m1.repoStore repo).timer.active = true → (m.repoStore repo).timer.active = true)

/-- What an event has done when it calls `refreshRepo(repo)`: nothing (a manual
refresh), or stopped the timer that fired, or set up the record of a new
repository. -/
@[mk_iff prepared_iff]
structure Prepared (m pre : MainWindow) (repo : RepoId) : Prop where
  history : pre.history = m.history
  os : pre.os = m.os
  ourName : pre.ourName = m.ourName
  visible : pre.visible = m.visible
  jobCount : pre.jobCount = m.jobCount
  jobStore : pre.jobStore = m.jobStore
  queue : pre.refreshJobs = m.refreshJobs
  gui : pre.guiPosted = m.guiPosted
  worker : pre.workerPosted = m.workerPosted
  busy : pre.refreshBusy = m.refreshBusy
  others : ∀ r, r ≠ repo → pre.repoStore r = m.repoStore r
  repoCount : m.repoCount ≤ pre.repoCount
  repos : ∀ r ∈ pre.repos, r ∈ m.repos ∨ (r = m.repoCount ∧ m.repoCount < pre.repoCount)
  nodup : m.repos.Nodup → (∀ r ∈ m.repos, r < m.repoCount) → pre.repos.Nodup
  known : repo < m.repoCount →
    (pre.repoStore repo).settings = (m.repoStore repo).settings ∧
    (pre.repoStore repo).ok = (m.repoStore repo).ok ∧
    (pre.repoStore repo).statusSummary = (m.repoStore repo).statusSummary ∧
    (pre.repoStore repo).statusLines = (m.repoStore repo).statusLines ∧
    ((pre.repoStore repo).timer.active = true → (m.repoStore repo).timer.active = true)

/-- What one event does. Either it runs no closure of a job in the control
thread; or the control thread runs the one closure posted, which is a closure of
the job at the front; or `refreshRepo` appends a job to the empty queue and runs
its step 0 at once, and whatever else the event does only appends jobs. -/
inductive Turn (m : MainWindow) (e : Event) (m' : MainWindow) : Prop
  | calm : Calm m e m' → Turn m e m'
  | drained (job : JobId) (rest : List JobId) (ran : Ran) (o : Obs) :
      e = .gui o → m.refreshJobs = job :: rest →
      Closure { m with guiPosted := [] } m' job ran e.now →
      (∀ j, dispatchedStates j (newNotes m m') =
        match ran with
        | .step k => if j = job then [k] else []
        | .reply => []) →
      (∀ k, ran = .step k → (m.jobStore job).state = k) →
      (ran = .reply → 4 ≤ (m.jobStore job).state) →
      m.guiPosted.length = 1 → m.workerPosted = [] →
      Turn m e m'
  | started (m1 m2 : MainWindow) (job : JobId) (repo : RepoId) :
      Lead m m1 job repo → Closure m1 m2 job (.step 0) e.now →
      (∀ j, dispatchedStates j (newNotes m1 m2) = if j = job then [0] else []) →
      Quiet m2 m' →
      (∀ repo' mins, e ≠ .editRefreshTime repo' mins) → e.asks m repo →
      (∀ s o, e = .addRepo s o → m.repoCount < m1.repoCount) →
      (∀ j r, Note.enqueued j r ∈ newNotes m2 m' → e.asks m r) →
      (m.repos.Nodup → ∀ j r, Note.enqueued j r ∈ newNotes m2 m' → r ≠ repo) → Turn m e m'

/-! ## Invariants of the stores -/

/-- Every repository listed has been set up and is listed once, no timer runs
that has not been set up, and every queued job is for a repository that has been
set up. -/
structure Alloc (m : MainWindow) : Prop where
  repos : ∀ r ∈ m.repos, r < m.repoCount
  nodup : m.repos.Nodup
  timers : ∀ r, m.repoCount ≤ r → (m.repoStore r).timer.active = false
  jobs : ∀ j ∈ m.refreshJobs, (m.jobStore j).repo < m.repoCount

/-- The log of a repository that has not been set up is empty. -/
def Blank (m : MainWindow) : Prop :=
  ∀ r, m.repoCount ≤ r → (m.repoStore r).statusLines = []

/-- A queued job that has passed step 2 has the remote `origin`. -/
def Named (m : MainWindow) : Prop :=
  ∀ j ∈ m.refreshJobs, 3 ≤ (m.jobStore j).state → (m.jobStore j).remote = "origin"

/-- While a job of the repository `repo` is past its step 0, the timer of the
repository does not run. -/
def Paused (m : MainWindow) (repo : RepoId) : Prop :=
  ∀ j ∈ m.refreshJobs, (m.jobStore j).repo = repo → (m.jobStore j).state ≠ 0 →
    (m.repoStore repo).timer.active = false

/-- The repository `repo` has been set up, its timer does not run and no job is
queued for it. -/
structure Parked (m : MainWindow) (repo : RepoId) : Prop where
  known : repo < m.repoCount
  timer : (m.repoStore repo).timer.active = false
  queue : ∀ j ∈ m.refreshJobs, (m.jobStore j).repo ≠ repo

/-- The events that do not ask for a refresh of the repository `repo` and do not
edit its refresh interval. -/
def Event.spares (repo : RepoId) : Event → Prop
  | .refresh r _ => r ≠ repo
  | .refreshAll _ => False
  | .editRefreshTime r _ => r ≠ repo
  | _ => True

instance Event.decidableSpares (repo : RepoId) (e : Event) : Decidable (e.spares repo) := by
  cases e <;> unfold Event.spares <;> infer_instance

/-- The events that do not edit the refresh interval of the repository `repo`. -/
def Event.keepsInterval (repo : RepoId) : Event → Prop
  | .editRefreshTime r _ => r ≠ repo
  | _ => True

instance Event.decidableKeepsInterval (repo : RepoId) (e : Event) :
    Decidable (e.keepsInterval repo) := by
  cases e <;> unfold Event.keepsInterval <;> infer_instance

/-- Whether a process runs one of the git subcommands of the worker steps. -/
def Launch.isTransfer (os : Platform) (l : Launch) : Bool :=
  l.runs os "fetch" || l.runs os "push" || l.runs os "merge" || l.runs os "rebase"

/-- Whether a process runs one of the git subcommands of the steps 2, 3, 5 and 6:
the queries `symbolic-ref`, `remote`, `rev-parse`, `status` and `rev-list`, and
`add` and `commit`. -/
def Launch.isLocal (os : Platform) (l : Launch) : Bool :=
  l.runs os "symbolic-ref" || l.runs os "remote" || l.runs os "rev-parse" ||
    l.runs os "status" || l.runs os "add" || l.runs os "commit" || l.runs os "rev-list"

/-! ## More sample values -/

/-- The settings of a repository as loaded from a settings file whose
`refreshRateMinutes` entry is `-1`. -/
def Settings.Repo.negativeRate : Settings.Repo :=
  { name := "notes", path := "/home/u/notes", refreshRateMinutes := -1 }

/-- The settings of a repository that is never refreshed by its timer. -/
def Settings.Repo.manual : Settings.Repo :=
  { name := "notes", path := "/home/u/notes", refreshRateMinutes := 0 }

/-- The events of a refresh that finds the branch `main` of the repository even
with its upstream, after the repository has been set up: steps 1 to 4, the reply
of the fetch and step 5. -/
def equalRun : List Event :=
  [.gui Obs.quiet, .gui (Obs.answering ["main\n", "host:notes.git\n"]),
   .gui (Obs.answering ["false\n", ""]), .gui Obs.quiet, .worker (ProcessResult.success ""),
   .gui Obs.quiet]

/-- The settings of a second sample repository. -/
def Settings.Repo.second : Settings.Repo :=
  { name := "work", path := "/home/u/work", refreshRateMinutes := 10 }

/-- The state after two repositories have been set up: the job of the first
waits for its step 1, the job of the second is queued behind it. -/
def MainWindow.twoQueued : MainWindow :=
  (MainWindow.initial .other "me").run
    [.addRepo Settings.Repo.sample Obs.quiet, .addRepo Settings.Repo.second Obs.quiet]

/-- An observation of a working tree in the middle of a merge. -/
def Obs.merging : Obs := Obs.sample [".git", "MERGE_HEAD"] (fun _ => ProcessResult.success "")

/-- An observation in which the count query prints `0 0`. -/
def Obs.even : Obs := Obs.answering ["0\t0\n"]

/-- The state in which the job of the sample repository waits for its step 5. -/
def MainWindow.atCompare : MainWindow :=
  (MainWindow.initial .other "me").run (.addRepo Settings.Repo.sample Obs.quiet :: equalRun)

/-- The state in which the job of a repository loaded with the refresh rate `-1`
waits for its step 5. -/
def MainWindow.atCompareNegative : MainWindow :=
  (MainWindow.initial .other "me").run
    (.addRepo Settings.Repo.negativeRate Obs.quiet :: equalRun)

/-- The state in which the job of a repository waits for its step 1, after the
refresh interval of the repository has been changed from 0 to 5 minutes. -/
def MainWindow.edited : MainWindow :=
  (MainWindow.initial .other "me").run
    [.addRepo Settings.Repo.manual Obs.quiet, .editRefreshTime 0 5]

/-! ## Vocabulary of the step claims -/

/-- The result of the compare of step 6 for a job, with the observation of the
turn. -/
def MainWindow.recompare (m : MainWindow) (o : Obs) (job : JobId) : Result Compare :=
  ((Git.new m.os (m.repoStore (m.jobStore job).repo).settings.path).compareWithHead
    ((m.jobStore job).remote ++ "/" ++ (m.jobStore job).branch) ""
    (Shell.start o.answers)).1

/-- The first `isRepoModified` of step 3 (`b`). -/
def commitCheck (os : Platform) (path : String) (o : Obs) : Result Bool × Shell :=
  (Git.new os path).isRepoModified "" (Shell.start o.answers)

/-- The `add -A` of step 3 (`out`). -/
def commitAdd (os : Platform) (path : String) (o : Obs) : Output × Shell :=
  (Git.new os path).runGit "add -A" "" (commitCheck os path o).2

/-- The argument string of the commit of step 3 (`args`). -/
def commitArguments (ourName : String) : String :=
  "commit -m \"Changes from " ++ QString.replaceChar ourName '"' "\\\"" ++ "\""

/-- The commit of step 3 (`out`). -/
def commitCommit (os : Platform) (path ourName : String) (o : Obs) : Output × Shell :=
  (Git.new os path).runGit (commitArguments ourName) "" (commitAdd os path o).2

/-- The second `isRepoModified` of step 3 (`b`). -/
def commitRecheck (os : Platform) (path ourName : String) (o : Obs) : Result Bool × Shell :=
  (Git.new os path).isRepoModified "" (commitCommit os path ourName o).2

/-! ## More invariants of the stores -/

/-- The `refreshing` flag of a repository is set exactly while a job for the
repository is queued. -/
def Flagged (m : MainWindow) : Prop :=
  ∀ r, (m.repoStore r).refreshing = true ↔ ∃ j ∈ m.refreshJobs, (m.jobStore j).repo = r

/-- The repository `repo` has been set up and removed from the list, its timer
does not run and no job is queued for it. -/
structure Gone (m : MainWindow) (repo : RepoId) : Prop where
  known : repo < m.repoCount
  unlisted : repo ∉ m.repos
  timer : (m.repoStore repo).timer.active = false
  queue : ∀ j ∈ m.refreshJobs, (m.jobStore j).repo ≠ repo

/-- The drain loop neither stalls nor doubles: a queue that is not empty is being
drained; while draining, exactly one closure is posted for the queue, which is
the posted `processRefreshJobs`, or a request in the worker thread, or the reply
of such a request; and when not draining, the queue is empty and nothing is
posted. -/
structure Draining (m : MainWindow) : Prop where
  busy : m.refreshJobs ≠ [] → m.refreshBusy = true
  one : m.refreshBusy = true →
    (m.guiPosted = [.processRefreshJobs] ∧ m.workerPosted = []) ∨
    (∃ t : WorkerTask, m.workerPosted = [t] ∧ m.guiPosted = []) ∨
    (∃ (t : WorkerTask) (out : Output), m.guiPosted = [t.reply out] ∧ m.workerPosted = [])
  idle : m.refreshBusy = false →
    m.refreshJobs = [] ∧ m.guiPosted = [] ∧ m.workerPosted = []

/-! ## Sample values for the step claims -/

/-- The state in which the job of the sample repository waits for its step 3. -/
def MainWindow.atCommit : MainWindow :=
  MainWindow.sample.run [.gui Obs.quiet, .gui (Obs.answering ["main\n", "host:notes.git\n"])]

/-- A process that exits with code 128. -/
def ProcessResult.fatal : ProcessResult := ⟨false, 128, "", "fatal"⟩

/-- An observation of step 3 in which both bare queries (the processes 0 and 4)
exit with code 128, the first status query prints one modified file, and `add`,
`commit` and the second status query succeed, the last printing nothing. -/
def Obs.bareQueryFails : Obs :=
  Obs.sample [".git"] (fun k =>
    if k = 0 ∨ k = 4 then ProcessResult.fatal
    else ProcessResult.success (["", " M a.txt\n", "", "", "", ""].getD k ""))

/-- An observation of step 3 with one modified file that is committed: the bare
queries print `false`, the first status query prints the file, the second
nothing. -/
def Obs.committing : Obs :=
  Obs.answering ["false\n", " M a.txt\n", "", "", "false\n", ""]

/-- The state in which the job of the sample repository waits for its step 6:
the compare of step 5 found the branch diverged and the rebase succeeded. -/
def MainWindow.atRecompare : MainWindow :=
  MainWindow.atCompare.run
    [.gui (Obs.answering ["1\t1\n"]), .worker (ProcessResult.success ""), .gui Obs.quiet]

/-- An observation in which the count query prints `0 1`: one commit ahead. -/
def Obs.ahead : Obs := Obs.answering ["0\t1\n"]

/-- The state after the job of the sample repository has failed at step 1: the
repository is listed and nothing is queued. -/
def MainWindow.afterFailure : MainWindow := MainWindow.sample.run [.gui Obs.merging]

/-- The state after the sample repository has been removed while its job waits
for step 1. -/
def MainWindow.removedInFlight : MainWindow := MainWindow.sample.run [.removeRepo 0]

/-! ## Sample runs of a job whose rebase fails -/

/-- A rebase that stops at a conflict. -/
def ProcessResult.conflict : ProcessResult := ⟨false, 1, "", "CONFLICT"⟩

/-- What `runGit` reports for the rebase of the sample repository that stops at a
conflict. -/
def Output.conflict : Output :=
  ((Git.new .other "/home/u/notes").runGit "rebase origin/main" ""
    (Shell.start (fun _ => ProcessResult.conflict))).1

/-- An observation in which the count query prints `1 1`. -/
def Obs.apart : Obs := Obs.answering ["1\t1\n"]

/-- The events of a refresh that finds the branch `main` diverged from its
upstream and whose rebase reports an error, up to the moment the reply of the
rebase is posted, starting with the set-up of the sample repository. -/
def divergedRun : List Event :=
  .addRepo Settings.Repo.sample Obs.quiet ::
    (equalRun ++ [.gui Obs.apart, .worker ProcessResult.conflict])

/-- The state in which the reply of the failed rebase of the job of the sample
repository is posted. -/
def MainWindow.atRebaseReply : MainWindow := (MainWindow.initial .other "me").run divergedRun

/-- The state after a job whose rebase failed, for a repository that is never
refreshed by its timer and whose refresh interval was set to 5 minutes while the
fetch of the job ran. -/
def MainWindow.editedDuringFetch : MainWindow :=
  (MainWindow.initial .other "me").run
    [.addRepo Settings.Repo.manual Obs.quiet, .gui Obs.quiet,
     .gui (Obs.answering ["main\n", "host:notes.git\n"]),
     .gui (Obs.answering ["false\n", ""]), .gui Obs.quiet,
     .editRefreshTime 0 5,
     .worker (ProcessResult.success ""), .gui Obs.quiet,
     .gui Obs.apart, .worker ProcessResult.conflict, .gui Obs.quiet]

end GidSync

namespace GidSync

/-! ## Decimal numerals and the Qt string helpers -/

theorem digitChar_not_space (k : Nat) (hk : k < 10) :
    QChar.isSpace (Nat.digitChar k) = false := by
  interval_cases k <;> decide

theorem digitChar_ne_zero (k : Nat) (hk : k < 10) (h0 : k ≠ 0) : Nat.digitChar k ≠ '0' := by
  interval_cases k <;> first | contradiction | decide

theorem toDigitsCore_not_space (fuel : Nat) : ∀ (n : Nat) (ds : List Char),
    (∀ c ∈ ds, QChar.isSpace c = false) →
    ∀ c ∈ Nat.toDigitsCore 10 fuel n ds, QChar.isSpace c = false := by
  induction fuel with
  | zero => intro n ds h; simpa [Nat.toDigitsCore] using h
  | succ f ih =>
    intro n ds h
    have hd : QChar.isSpace (Nat.digitChar (n % 10)) = false :=
      digitChar_not_space _ (Nat.mod_lt _ (by decide))
    simp only [Nat.toDigitsCore]
    split
    · intro c hc
      rcases List.mem_cons.1 hc with rfl | hc
      · exact hd
      · exact h c hc
    · apply ih
      intro c hc
      rcases List.mem_cons.1 hc with rfl | hc
      · exact hd
      · exact h c hc

theorem toDigitsCore_ne_nil (fuel : Nat) : ∀ (n : Nat) (ds : List Char),
    0 < fuel → Nat.toDigitsCore 10 fuel n ds ≠ [] := by
  induction fuel with
  | zero => intro n ds h; exact absurd h (by decide)
  | succ f ih =>
    intro n ds _
    simp only [Nat.toDigitsCore]
    split
    · simp
    · cases f with
      | zero => simp [Nat.toDigitsCore]
      | succ f => exact ih _ _ (Nat.succ_pos _)

theorem toDigitsCore_head (fuel : Nat) : ∀ (n : Nat) (ds : List Char),
    0 < n → n < fuel → (Nat.toDigitsCore 10 fuel n ds).head? ≠ some '0' := by
  induction fuel with
  | zero => intro n ds _ h; exact absurd h (by omega)
  | succ f ih =>
    intro n ds hn hf
    simp only [Nat.toDigitsCore]
    split
    · have hlt : n < 10 := by
        by_contra hc
        have : 1 ≤ n / 10 := (Nat.le_div_iff_mul_le (by decide)).2 (by omega)
        omega
      have hmod : n % 10 = n := Nat.mod_eq_of_lt hlt
      simp only [List.head?_cons, ne_eq, Option.some.injEq]
      rw [hmod]
      exact digitChar_ne_zero n hlt (by omega)
    · apply ih
      · omega
      · have : n / 10 < n := Nat.div_lt_self hn (by decide)
        omega

theorem toString_nat_data (n : Nat) : (toString n).data = Nat.toDigits 10 n := rfl

theorem toString_nat_not_space (n : Nat) :
    ∀ c ∈ (toString n).data, QChar.isSpace c = false := by
  rw [toString_nat_data]
  exact toDigitsCore_not_space _ _ _ (by simp)

theorem toString_nat_ne_nil (n : Nat) : (toString n).data ≠ [] := by
  rw [toString_nat_data]
  exact toDigitsCore_ne_nil _ _ _ (Nat.succ_pos _)

theorem toString_nat_eq_zero (n : Nat) : toString n = "0" ↔ n = 0 := by
  constructor
  · intro h
    by_contra hn
    have h1 := toDigitsCore_head (n + 1) n [] (by omega) (by omega)
    have h2 : Nat.toDigits 10 n = ['0'] := by
      rw [← toString_nat_data, h]
    unfold Nat.toDigits at h2
    rw [h2] at h1
    exact h1 rfl
  · rintro rfl; rfl

theorem isSpace_tab : QChar.isSpace '\t' = true := by decide

theorem isSpace_newline : QChar.isSpace '\n' = true := by decide

theorem isSpace_blank : QChar.isSpace ' ' = true := by decide

/-- The fields of a line made of two white-space-free tokens. -/
theorem split_simplified_two (a b : String)
    (ha : ∀ c ∈ a.data, QChar.isSpace c = false) (hb : ∀ c ∈ b.data, QChar.isSpace c = false)
    (ha0 : a.data ≠ []) (hb0 : b.data ≠ []) :
    QString.split ' ' (QString.simplified (a ++ "\t" ++ b ++ "\n")) = [a, b] := by
  have hw : QString.words (a ++ "\t" ++ b ++ "\n") = [a.data, b.data] := by
    unfold QString.words
    have e : (a ++ "\t" ++ b ++ "\n").data = a.data ++ '\t' :: (b.data ++ '\n' :: []) := by
      simp [String.data_append]
    rw [e, List.splitOnP_first _ _ (by simpa using ha) _ isSpace_tab,
      List.splitOnP_first _ _ (by simpa using hb) _ isSpace_newline]
    have ea : a.data.isEmpty = false := by cases h : a.data <;> simp_all
    have eb : b.data.isEmpty = false := by cases h : b.data <;> simp_all
    simp [List.filter, ea, eb]
  unfold QString.simplified QString.split
  rw [hw]
  have e2 : [' '].intercalate [a.data, b.data] = a.data ++ ' ' :: b.data := by
    simp [List.intercalate]
  rw [e2]
  have hna : ∀ c ∈ a.data, ¬ ((c == ' ') = true) := by
    intro c hc h
    have := ha c hc
    simp at h
    subst h
    simp [isSpace_blank] at this
  have hnb : ∀ c ∈ b.data, ¬ ((c == ' ') = true) := by
    intro c hc h
    have := hb c hc
    simp at h
    subst h
    simp [isSpace_blank] at this
  show List.map String.mk (List.splitOnP (fun c => c == ' ') (a.data ++ ' ' :: b.data)) = [a, b]
  rw [List.splitOnP_first _ _ hna _ (by simp)]
  have hsingle : List.splitOnP (fun x => x == ' ') b.data = [b.data] :=
    List.splitOnP_eq_single _ _ hnb
  simp [hsingle]

/-- A line of white space only has no field. -/
theorem split_simplified_blank (s : String) (hs : ∀ c ∈ s.data, QChar.isSpace c = true) :
    QString.split ' ' (QString.simplified s) = [""] := by
  have hw : QString.words s = [] := by
    unfold QString.words
    generalize s.data = l at hs
    induction l with
    | nil => simp [List.splitOnP_nil]
    | cons c cs ih =>
      rw [List.splitOnP_cons, if_pos (hs c (by simp))]
      simp only [List.filter, List.isEmpty_nil, Bool.not_true]
      exact ih (fun c hc => hs c (by simp [hc]))
  unfold QString.simplified QString.split
  rw [hw]
  rfl

/-- The two fields of the line git prints for a pair of counts. -/
theorem countField_countLine (behindCount aheadCount : Nat) :
    countField (countLine behindCount aheadCount) 0 = toString behindCount ∧
    countField (countLine behindCount aheadCount) 1 = toString aheadCount := by
  unfold countField countLine
  rw [split_simplified_two _ _ (toString_nat_not_space _) (toString_nat_not_space _)
    (toString_nat_ne_nil _) (toString_nat_ne_nil _)]
  exact ⟨rfl, rfl⟩

/-! ## `Git::compareWithHead` -/

/-- What `compareWithHead` returns when the process reports no error. -/
theorem compareWithHead_success (g : Git) (ref path : String) (answers : Nat → ProcessResult)
    (launched : List Launch) (out err : String)
    (h : answers launched.length = ProcessResult.success out err) :
    (g.compareWithHead ref path ⟨answers, launched⟩).1.result =
      Git.compareFields (countField out 0) (countField out 1) ∧
    (g.compareWithHead ref path ⟨answers, launched⟩).1.gitOutput.hasError = false := by
  simp [Git.compareWithHead, Git.runGit, Git.run, h, ProcessResult.success, countField]

/-- C4. A successful count query that prints the pair `(behindCount, aheadCount)`
makes `compareWithHead` return `Equal` for `(0, 0)`, `Ahead` for `(0, n)` with
`n > 0`, `Behind` for `(n, 0)` with `n > 0` and `Diverged` for `(a, b)` with both
positive; a successful query that prints nothing but white space, so that both
fields are empty, makes it return `NoUpstream`. -/
theorem compareWithHead_counts (g : Git) (ref path : String) (launched : List Launch)
    (err : String) :
    let query := fun (out : String) =>
      (g.compareWithHead ref path ⟨fun _ => ProcessResult.success out err, launched⟩).1.result
    query (countLine 0 0) = Compare.Equal ∧
    (∀ n, 0 < n → query (countLine 0 n) = Compare.Ahead) ∧
    (∀ n, 0 < n → query (countLine n 0) = Compare.Behind) ∧
    (∀ a b, 0 < a → 0 < b → query (countLine a b) = Compare.Diverged) ∧
    (∀ out : String, (∀ c ∈ out.data, QChar.isSpace c = true) →
      query out = Compare.NoUpstream) := by
  intro query
  have key : ∀ a b : Nat, query (countLine a b) =
      Git.compareFields (toString a) (toString b) := by
    intro a b
    have h := (compareWithHead_success g ref path
      (fun _ => ProcessResult.success (countLine a b) err) launched (countLine a b) err rfl).1
    rw [(countField_countLine a b).1, (countField_countLine a b).2] at h
    exact h
  have hne : ∀ n : Nat, 0 < n → toString n ≠ "0" := fun n hn h =>
    absurd ((toString_nat_eq_zero n).1 h) (by omega)
  have hemp : ∀ n : Nat, QString.isEmpty (toString n) = false := by
    intro n
    have := toString_nat_ne_nil n
    unfold QString.isEmpty
    cases hd : (toString n).data <;> simp_all
  refine ⟨?_, ?_, ?_, ?_, ?_⟩
  · rw [key]; rfl
  · intro n hn
    rw [key]
    have : toString 0 = "0" := rfl
    simp [Git.compareFields, hne n hn, this]
  · intro n hn
    rw [key]
    have : toString 0 = "0" := rfl
    simp [Git.compareFields, hne n hn, this]
  · intro a b ha hb
    rw [key]
    simp [Git.compareFields, hne a ha, hne b hb, hemp]
  · intro out hout
    have h := (compareWithHead_success g ref path
      (fun _ => ProcessResult.success out err) launched out err rfl).1
    have hb := split_simplified_blank out hout
    show (g.compareWithHead ref path ⟨fun _ => ProcessResult.success out err, launched⟩).1.result
      = Compare.NoUpstream
    rw [h]
    unfold countField
    rw [hb]
    rfl

/-- C4, at the pair `(0, 3)` and at an empty output. -/
theorem compareWithHead_counts_witness :
    (0 < 3 ∧ ∀ c ∈ "".data, QChar.isSpace c = true) ∧
    ((Git.new .other "/r").compareWithHead "origin/main" ""
      ⟨fun _ => ProcessResult.success (countLine 0 3) "", []⟩).1.result = Compare.Ahead ∧
    ((Git.new .other "/r").compareWithHead "origin/main" ""
      ⟨fun _ => ProcessResult.success "" "", []⟩).1.result = Compare.NoUpstream :=
  ⟨⟨by decide, by simp⟩,
   (compareWithHead_counts (Git.new .other "/r") "origin/main" "" [] "").2.1 3 (by decide),
   (compareWithHead_counts (Git.new .other "/r") "origin/main" "" [] "").2.2.2.2 ""
     (by simp)⟩

theorem QString.isEmpty_iff (s : String) : QString.isEmpty s = true ↔ s = "" := by
  unfold QString.isEmpty
  constructor
  · intro h
    apply String.ext
    simpa using h
  · rintro rfl; rfl

/-- C5, as stated, fails: the output `x y` has two fields of which neither is a
decimal number, and `compareWithHead` returns `Diverged`, not `NoUpstream`; the
output `0` has no second field, and `compareWithHead` returns `Ahead`. -/
theorem compareWithHead_unparsable_counterexample :
    (isDecimal (countField "x y" 0) = false ∧ isDecimal (countField "x y" 1) = false ∧
      ((Git.new .other "/r").compareWithHead "origin/main" ""
        ⟨fun _ => ProcessResult.success "x y" "", []⟩).1.result = Compare.Diverged) ∧
    (countField "0" 0 = "0" ∧ isDecimal (countField "0" 1) = false ∧
      ((Git.new .other "/r").compareWithHead "origin/main" ""
        ⟨fun _ => ProcessResult.success "0" "", []⟩).1.result = Compare.Ahead) := by
  decide

/-- C5, amended. With `l` and `r` the first two fields of the output of the count
query (empty when absent): `compareWithHead` returns `NoUpstream` when both
fields are empty, and when the process reported an error; when the process
reported no error and both fields are not empty and not `0`, it returns
`Diverged`, whatever their text; it returns `Ahead` exactly when the process
reported no error, `l` is `0` and `r` is anything but `0`; it returns `Behind`
exactly when the process reported no error, `r` is `0` and `l` is anything but
`0`. The fields are compared as text and are never parsed. The last three
clauses say when exactly it returns `Equal`, `Diverged` and `NoUpstream`. -/
theorem compareWithHead_fields (g : Git) (ref path : String) (launched : List Launch)
    (p : ProcessResult) :
    let res := (g.compareWithHead ref path ⟨fun _ => p, launched⟩).1.result
    let l := countField p.standardOutput 0
    let r := countField p.standardOutput 1
    (l = "" ∧ r = "" → res = Compare.NoUpstream) ∧
    (¬ (p.crashExit = false ∧ p.exitCode = 0) → res = Compare.NoUpstream) ∧
    ((p.crashExit = false ∧ p.exitCode = 0) → l ≠ "" → r ≠ "" → l ≠ "0" → r ≠ "0" →
      res = Compare.Diverged) ∧
    (res = Compare.Ahead ↔ (p.crashExit = false ∧ p.exitCode = 0) ∧ l = "0" ∧ r ≠ "0") ∧
    (res = Compare.Behind ↔ (p.crashExit = false ∧ p.exitCode = 0) ∧ r = "0" ∧ l ≠ "0") ∧
    (res = Compare.Equal ↔ (p.crashExit = false ∧ p.exitCode = 0) ∧ l = "0" ∧ r = "0") ∧
    (res = Compare.Diverged ↔
      (p.crashExit = false ∧ p.exitCode = 0) ∧ l ≠ "0" ∧ r ≠ "0" ∧ ¬ (l = "" ∧ r = "")) ∧
    (res = Compare.NoUpstream ↔
      ¬ (p.crashExit = false ∧ p.exitCode = 0) ∨ (l = "" ∧ r = "")) := by
  intro res l r
  have hres : res = if p.crashExit = false ∧ p.exitCode = 0 then Git.compareFields l r
      else Compare.NoUpstream := by
    show (g.compareWithHead ref path ⟨fun _ => p, launched⟩).1.result = _
    by_cases hc : p.crashExit = true
    · simp [Git.compareWithHead, Git.runGit, Git.run, hc]
    · by_cases he : p.exitCode = 0
      · simp [Git.compareWithHead, Git.runGit, Git.run, hc, he, countField, l, r]
      · simp [Git.compareWithHead, Git.runGit, Git.run, hc, he]
  have hl : QString.isEmpty l = true ↔ l = "" := QString.isEmpty_iff l
  have hr : QString.isEmpty r = true ↔ r = "" := QString.isEmpty_iff r
  rw [hres]
  by_cases hok : p.crashExit = false ∧ p.exitCode = 0
  · rw [if_pos hok]
    unfold Git.compareFields
    simp only [hl, hr]
    clear_value l r
    clear hres hl hr
    have h0 : ("0" : String) ≠ "" := by decide
    have h0' : ("" : String) ≠ "0" := by decide
    by_cases e1 : l = "0" <;> by_cases e2 : r = "0" <;> by_cases e3 : l = "" <;>
      by_cases e4 : r = "" <;> simp_all
  · rw [if_neg hok]
    simp [hok]

/-- C5 amended, at the outputs `0 2` (ahead) and `x y` (two fields that are no
numbers). -/
theorem compareWithHead_fields_witness :
    ((ProcessResult.success "0\t2\n").crashExit = false ∧
      (ProcessResult.success "0\t2\n").exitCode = 0) ∧
    countField "0\t2\n" 0 = "0" ∧ countField "0\t2\n" 1 ≠ "0" ∧
    ((Git.new .other "/r").compareWithHead "origin/main" ""
      ⟨fun _ => ProcessResult.success "0\t2\n", []⟩).1.result = Compare.Ahead ∧
    ((Git.new .other "/r").compareWithHead "origin/main" ""
      ⟨fun _ => ProcessResult.success "x y", []⟩).1.result = Compare.Diverged :=
  ⟨by decide, by decide, by decide,
   (compareWithHead_fields (Git.new .other "/r") "origin/main" "" []
      (ProcessResult.success "0\t2\n")).2.2.2.1.2 (by decide),
   (compareWithHead_fields (Git.new .other "/r") "origin/main" "" []
      (ProcessResult.success "x y")).2.2.1 (by decide) (by decide) (by decide) (by decide)
      (by decide)⟩

/-! ## Effect of the building blocks on the core -/

@[simp] theorem core_setRepo (m : MainWindow) (r : RepoId) (f : Repo → Repo) :
    (m.setRepo r f).core = m.core := rfl

theorem coreNotes_append (h h' : List Note) : coreNotes (h ++ h') = coreNotes h ++ coreNotes h' := by
  simp [coreNotes]

@[simp] theorem core_noteLaunched (m : MainWindow) (ctx : Context) (sh : Shell) :
    (m.noteLaunched ctx sh).core = m.core := by
  have : coreNotes (sh.launched.map (Note.launched ctx)) = [] := by
    simp [coreNotes, List.filter_eq_nil_iff, Note.isCore]
  simp [MainWindow.noteLaunched, MainWindow.core, coreNotes_append, this]

@[simp] theorem core_updateRepoGui (m : MainWindow) (r : RepoId) :
    (m.updateRepoGui r).core = m.core := by
  simp [MainWindow.updateRepoGui, MainWindow.note, MainWindow.core, coreNotes, Note.isCore]

@[simp] theorem core_updateTrayIcon (m : MainWindow) :
    (m.updateTrayIcon).core = m.core := by
  simp [MainWindow.updateTrayIcon, MainWindow.note, MainWindow.core, coreNotes, Note.isCore]

@[simp] theorem core_startRepoTimer (m : MainWindow) (r : RepoId) :
    (m.startRepoTimer r).core = m.core := by
  simp only [MainWindow.startRepoTimer]
  split_ifs <;> rfl

theorem core_note_inert (m : MainWindow) (n : Note) (h : n.isCore = false) :
    (m.note n).core = m.core := by
  simp [MainWindow.note, MainWindow.core, coreNotes, h]

theorem core_note (m : MainWindow) (n : Note) (h : n.isCore = true) :
    (m.note n).core = { m.core with notes := m.core.notes ++ [n] } := by
  simp [MainWindow.note, MainWindow.core, coreNotes, h]

@[simp] theorem core_refresh_continue (m : MainWindow) :
    (m.refresh_continue).core = { m.core with gui := m.core.gui ++ [.processRefreshJobs] } := rfl

theorem core_popRefreshJob (m : MainWindow) :
    (m.popRefreshJob).core =
      match m.core.refreshJobs with
      | [] => m.core
      | x :: rest => { m.core with refreshJobs := rest, notes := m.core.notes ++ [.popped x] } := by
  unfold MainWindow.popRefreshJob
  cases hq : m.refreshJobs with
  | nil => simp [MainWindow.core, hq]
  | cons x rest =>
    simp only [MainWindow.core, hq, MainWindow.note, coreNotes_append]
    simp [coreNotes, Note.isCore]

@[simp] theorem core_setJob_branch (m : MainWindow) (j : JobId) (b : String) :
    (m.setJob j (fun x => { x with branch := b })).core = m.core := by
  simp only [MainWindow.setJob, MainWindow.core]
  congr 1 <;> funext i <;> split <;> simp [*]

@[simp] theorem core_setJob_remote (m : MainWindow) (j : JobId) (b : String) :
    (m.setJob j (fun x => { x with remote := b })).core = m.core := by
  simp only [MainWindow.setJob, MainWindow.core]
  congr 1 <;> funext i <;> split <;> simp [*]

@[simp] theorem core_doInWorkerThread (m : MainWindow) (t : WorkerTask) :
    (m.doInWorkerThread t).core = m.core.work t := rfl

@[simp] theorem core_refresh_errorNext (m : MainWindow) (j : JobId) :
    (m.refresh_errorNext j).core = m.core.finish j false := by
  simp only [MainWindow.refresh_errorNext]
  rw [core_refresh_continue, core_popRefreshJob, core_updateTrayIcon, core_updateRepoGui]
  have : ∀ m' : MainWindow, (if (!m'.visible) = true then m'.note (.trayMessage
      (m'.repoStore (m.jobStore j).repo).settings.path
      (m'.repoStore (m.jobStore j).repo).statusSummary) else m').core = m'.core := by
    intro m'
    split_ifs
    · exact core_note_inert _ _ rfl
    · rfl
  rw [this, core_setRepo, core_note _ (.finished j false) rfl]
  unfold Core.finish
  cases hq : m.core.refreshJobs <;> simp [hq]

@[simp] theorem core_refresh_successNext (m : MainWindow) (j : JobId) :
    (m.refresh_successNext j).core = m.core.finish j true := by
  simp only [MainWindow.refresh_successNext]
  rw [core_refresh_continue, core_popRefreshJob, core_updateTrayIcon, core_updateRepoGui,
    core_startRepoTimer, core_setRepo, core_note _ (.finished j true) rfl]
  unfold Core.finish
  cases hq : m.core.refreshJobs <;> simp [hq]

@[simp] theorem core_refresh_nextState (m : MainWindow) (j : JobId) :
    (m.refresh_nextState j).core = m.core.next j := by
  simp only [MainWindow.refresh_nextState]
  rw [core_refresh_continue, core_updateRepoGui]
  simp only [MainWindow.setJob, Core.next, MainWindow.core]
  congr 1
  · funext i; split <;> simp [*]
  · funext i; split <;> simp [*]

/-! ## Effect of the steps on the core -/

theorem Core.StepEnd.of_finish (c : Core) (j : JobId) (k : Int) (b : Bool) :
    c.StepEnd j k (c.finish j b) := Or.inl ⟨b, rfl⟩

theorem Core.StepEnd.of_next (c : Core) (j : JobId) (k : Int) (hk : k < 7) :
    c.StepEnd j k (c.next j) := Or.inr (Or.inl ⟨hk, rfl⟩)

theorem Core.StepEnd.of_work (c : Core) (j : JobId) (k : Int) (t : WorkerTask)
    (h1 : t.job = j) (h2 : t.state = k) (h3 : t.repo = c.jobRepo j) :
    c.StepEnd j k (c.work t) := Or.inr (Or.inr ⟨t, h1, h2, h3, rfl⟩)

theorem stepEnd_refresh_init (m : MainWindow) (o : Obs) (j : JobId) (k : Int) (hk : k < 7) :
    m.core.StepEnd j k (m.refresh_init o j).core := by
  simp only [MainWindow.refresh_init]
  split_ifs <;>
    simp [Core.StepEnd.of_finish, Core.StepEnd.of_next _ _ _ hk]

theorem stepEnd_refresh_ongoingOps (m : MainWindow) (o : Obs) (j : JobId) (k : Int)
    (hk : k < 7) : m.core.StepEnd j k (m.refresh_ongoingOps o j).core := by
  simp only [MainWindow.refresh_ongoingOps]
  split_ifs <;>
    simp [Core.StepEnd.of_finish, Core.StepEnd.of_next _ _ _ hk]

theorem stepEnd_refresh_branchRemoteInfo (m : MainWindow) (o : Obs) (j : JobId) (k : Int)
    (hk : k < 7) : m.core.StepEnd j k (m.refresh_branchRemoteInfo o j).core := by
  simp only [MainWindow.refresh_branchRemoteInfo]
  split_ifs <;>
    simp [Core.StepEnd.of_finish, Core.StepEnd.of_next _ _ _ hk]

theorem stepEnd_refresh_commit (m : MainWindow) (o : Obs) (j : JobId) (k : Int)
    (hk : k < 7) : m.core.StepEnd j k (m.refresh_commit o j).core := by
  simp only [MainWindow.refresh_commit]
  split_ifs <;>
    simp [Core.StepEnd.of_finish, Core.StepEnd.of_next _ _ _ hk]

theorem stepEnd_refresh_fetch (m : MainWindow) (j : JobId) :
    m.core.StepEnd j 4 (m.refresh_fetch j).core := by
  simp only [MainWindow.refresh_fetch, core_doInWorkerThread, core_updateRepoGui, core_setRepo]
  exact Core.StepEnd.of_work _ _ _ _ rfl rfl rfl

theorem stepEnd_refresh_compare (m : MainWindow) (o : Obs) (j : JobId) :
    m.core.StepEnd j 5 (m.refresh_compare o j).core := by
  simp only [MainWindow.refresh_compare]
  split_ifs
  · simp [Core.StepEnd.of_finish]
  · split
    · simp [Core.StepEnd.of_finish]
    · simp [Core.StepEnd.of_finish]
    · simp only [MainWindow.refresh_ahead, core_doInWorkerThread, core_updateRepoGui,
        core_setRepo, core_noteLaunched]
      exact Core.StepEnd.of_work _ _ _ _ rfl rfl rfl
    · simp only [MainWindow.refresh_behind, core_doInWorkerThread, core_updateRepoGui,
        core_setRepo, core_noteLaunched]
      exact Core.StepEnd.of_work _ _ _ _ rfl rfl rfl
    · simp only [MainWindow.refresh_diverged, core_doInWorkerThread, core_updateRepoGui,
        core_setRepo, core_noteLaunched]
      exact Core.StepEnd.of_work _ _ _ _ rfl rfl rfl

theorem stepEnd_refresh_compareAfterRebase (m : MainWindow) (o : Obs) (j : JobId) (k : Int)
    (hk : k < 7) : m.core.StepEnd j k (m.refresh_compareAfterRebase o j).core := by
  simp only [MainWindow.refresh_compareAfterRebase]
  split_ifs <;>
    simp [Core.StepEnd.of_finish, Core.StepEnd.of_next _ _ _ hk]

theorem stepEnd_refresh_pushAfterRebase (m : MainWindow) (j : JobId) :
    m.core.StepEnd j 7 (m.refresh_pushAfterRebase j).core := by
  simp only [MainWindow.refresh_pushAfterRebase, core_doInWorkerThread, core_updateRepoGui,
    core_setRepo]
  exact Core.StepEnd.of_work _ _ _ _ rfl rfl rfl

theorem core_dispatch (m : MainWindow) (j : JobId) :
    (({ m with refreshBusy := true } : MainWindow).note
      (.dispatched j (m.jobStore j).state)).core = m.core.dispatch j := by
  rw [core_note _ (.dispatched j (m.jobStore j).state) rfl]
  rfl

theorem processEnd_processRefreshJobs (m : MainWindow) (o : Obs) :
    m.core.ProcessEnd (m.processRefreshJobs o).core := by
  unfold MainWindow.processRefreshJobs Core.ProcessEnd
  by_cases hq : m.refreshJobs = []
  · have hq' : m.core.refreshJobs = [] := hq
    simp [hq', hq]
    rfl
  · obtain ⟨j, rest, hjr⟩ := List.exists_cons_of_ne_nil hq
    have hq' : m.core.refreshJobs = j :: rest := hjr
    have hh : m.refreshJobs.headD 0 = j := by rw [hjr]; rfl
    have he : m.refreshJobs.isEmpty = false := by rw [hjr]; rfl
    have hs : m.core.jobState j = (m.jobStore j).state := rfl
    have hd := core_dispatch m j
    simp only [hq', hs, he, Bool.false_eq_true, if_false, hh]
    by_cases hr : 0 ≤ (m.jobStore j).state ∧ (m.jobStore j).state ≤ 7
    · rw [if_pos hr, ← hd]
      obtain ⟨h0, h7⟩ := hr
      generalize (m.jobStore j).state = k at *
      interval_cases k
      · exact stepEnd_refresh_init _ _ _ _ (by decide)
      · exact stepEnd_refresh_ongoingOps _ _ _ _ (by decide)
      · exact stepEnd_refresh_branchRemoteInfo _ _ _ _ (by decide)
      · exact stepEnd_refresh_commit _ _ _ _ (by decide)
      · exact stepEnd_refresh_fetch _ _
      · exact stepEnd_refresh_compare _ _ _
      · exact stepEnd_refresh_compareAfterRebase _ _ _ _ (by decide)
      · exact stepEnd_refresh_pushAfterRebase _ _
    · rw [if_neg hr]
      have : ∀ x : Int, (m.jobStore j).state = x → (0 ≤ x ∧ x ≤ 7) → False :=
        fun x e hx => hr (e ▸ hx)
      rw [if_neg (fun e => this 0 e (by decide)), if_neg (fun e => this 1 e (by decide)),
        if_neg (fun e => this 2 e (by decide)), if_neg (fun e => this 3 e (by decide)),
        if_neg (fun e => this 4 e (by decide)), if_neg (fun e => this 5 e (by decide)),
        if_neg (fun e => this 6 e (by decide)), if_neg (fun e => this 7 e (by decide))]
      simp only [MainWindow.core, hjr]

theorem stepEnd_reply (m : MainWindow) (o : Obs) (t : WorkerTask) (out : Output) :
    m.core.StepEnd t.job t.state (m.runGuiTask o (t.reply out)).core := by
  cases t <;> simp only [WorkerTask.reply, MainWindow.runGuiTask, WorkerTask.job,
    WorkerTask.state] <;> split_ifs <;>
    simp [Core.StepEnd.of_finish, Core.StepEnd.of_next _ _ _ (by decide : (4 : Int) < 7),
      Core.StepEnd.of_next _ _ _ (by decide : (5 : Int) < 7)]

theorem core_runWorkerTask (m : MainWindow) (p : ProcessResult) (t : WorkerTask) :
    ∃ out, (m.runWorkerTask p t).core = { m.core with gui := m.core.gui ++ [t.reply out] } := by
  refine ⟨((Git.new m.os t.path).runGit (t.arguments m) "" (Shell.start fun _ => p)).1, ?_⟩
  simp only [MainWindow.runWorkerTask]
  show ((m.noteLaunched _ _).doInGuiThread _).core = _
  have hg : ∀ (m' : MainWindow) (g : GuiTask),
      (m'.doInGuiThread g).core = { m'.core with gui := m'.core.gui ++ [g] } := fun _ _ => rfl
  rw [hg, core_noteLaunched]

theorem core_appendJob (m : MainWindow) (repo : RepoId) :
    (m.appendJob repo).core = m.core.enqueue repo := by
  simp only [MainWindow.appendJob]
  rw [core_note _ (.enqueued m.jobCount repo) rfl]
  simp only [MainWindow.core, MainWindow.setRepo, MainWindow.setJob, Core.enqueue]
  congr 1 <;> funext i <;> split <;> rfl

theorem refreshBusy_appendJob (m : MainWindow) (repo : RepoId) :
    (m.appendJob repo).refreshBusy = m.refreshBusy := rfl

theorem refreshEnd_refreshRepo (m : MainWindow) (o : Obs) (repo : RepoId) :
    m.core.RefreshEnd repo (m.refreshRepo o repo).core := by
  unfold MainWindow.refreshRepo Core.RefreshEnd
  have hany : m.core.refreshJobs.any (fun job => decide (m.core.jobRepo job = repo)) =
      m.refreshJobs.any (fun job => decide ((m.jobStore job).repo = repo)) := rfl
  rw [hany]
  cases hc : m.refreshJobs.any (fun job => decide ((m.jobStore job).repo = repo)) with
  | true => simp
  | false =>
    simp only [Bool.not_false, if_true, Bool.false_eq_true, if_false, core_updateTrayIcon,
      core_updateRepoGui, refreshBusy_appendJob]
    have hb' : m.core.refreshBusy = m.refreshBusy := rfl
    rw [hb']
    by_cases hb : m.refreshBusy = true
    · simp only [hb, Bool.not_true, Bool.false_eq_true, if_false, if_true]
      exact core_appendJob m repo
    · have hb2 : m.refreshBusy = false := by simpa using hb
      simp only [hb2, Bool.not_false, Bool.false_eq_true, if_false, if_true]
      rw [← core_appendJob]
      exact processEnd_processRefreshJobs _ _

/-! ## The invariant on cores -/

theorem Core.Base.congr {c c' : Core} (h1 : c'.refreshJobs = c.refreshJobs)
    (h2 : c'.jobCount = c.jobCount) (h3 : c'.jobRepo = c.jobRepo)
    (h4 : c'.jobState = c.jobState) (h5 : c'.notes = c.notes) (hb : c.Base) : c'.Base := by
  obtain ⟨q, b, g, w, n, jr, js, ns⟩ := c'
  simp only at h1 h2 h3 h4 h5
  subst h1 h2 h3 h4 h5
  exact ⟨hb.fifo, hb.paired, hb.bound, hb.nodup, hb.oneEach, hb.waiting, hb.range, hb.future⟩

theorem Core.Base.dispatch {c : Core} {j : JobId} {rest : List JobId} (hb : c.Base)
    (hq : c.refreshJobs = j :: rest) : (c.dispatch j).Base := by
  have hnd := hb.nodup
  rw [hq] at hnd
  have hj : j ∉ rest := (List.nodup_cons.1 hnd).1
  refine ⟨?_, ?_, hb.bound, hb.nodup, hb.oneEach, ?_, hb.range, ?_⟩
  · simpa [Core.dispatch, enqueuedJobs, finishedJobs, List.filterMap_append] using hb.fifo
  · simpa [Core.dispatch, terminalNotes, finishedJobs, List.filterMap_append] using hb.paired
  · intro x hx
    have hx' : x ∈ rest := by simpa [Core.dispatch, hq] using hx
    have hw := hb.waiting x (by simpa [hq] using hx')
    have hne : ¬ j = x := fun e => hj (e ▸ hx')
    simpa [Core.dispatch, dispatchedStates, List.filterMap_append, hne] using hw
  · intro x hx
    have hjb : j < c.jobCount := hb.bound j (by simp [hq])
    have hx1 : c.jobCount ≤ x := hx
    have hne : ¬ j = x := fun e => absurd (e ▸ hjb) (Nat.not_lt.2 hx1)
    have := hb.future x hx
    simpa [Core.dispatch, dispatchedStates, List.filterMap_append, hne] using this

theorem Core.Base.finish {c : Core} {j : JobId} {rest : List JobId} (hb : c.Base)
    (hq : c.refreshJobs = j :: rest) (b : Bool) : (c.finish j b).Base := by
  have hnd := hb.nodup
  have hone := hb.oneEach
  rw [hq] at hnd hone
  have e : c.finish j b =
      ⟨rest, c.refreshBusy, c.gui ++ [.processRefreshJobs], c.worker, c.jobCount, c.jobRepo,
        c.jobState, c.notes ++ [.finished j b, .popped j]⟩ := by
    simp [Core.finish, hq]
  rw [e]
  refine ⟨?_, ?_, ?_, ?_, ?_, ?_, ?_, ?_⟩
  · have := hb.fifo
    simp only [enqueuedJobs, finishedJobs, List.filterMap_append] at this ⊢
    simp [this, hq]
  · have := hb.paired
    simp only [terminalNotes, finishedJobs, List.filterMap_append] at this ⊢
    simp [this]
  · intro x hx
    exact hb.bound x (by simp [hq, (show x ∈ rest from hx)])
  · exact (List.nodup_cons.1 hnd).2
  · exact (List.nodup_cons.1 (by simpa using hone)).2
  · intro x hx
    have hx' : x ∈ rest := List.mem_of_mem_tail hx
    have hw := hb.waiting x (by simpa [hq] using hx')
    simpa [dispatchedStates, List.filterMap_append] using hw
  · intro x hx
    exact hb.range x (by simp [hq, (show x ∈ rest from hx)])
  · intro x hx
    have := hb.future x hx
    simpa [dispatchedStates, List.filterMap_append] using this

theorem Core.Base.next {c : Core} {j : JobId} {rest : List JobId} (hb : c.Base)
    (hq : c.refreshJobs = j :: rest) (hk : c.jobState j < 7) : (c.next j).Base := by
  have hnd := hb.nodup
  rw [hq] at hnd
  have hj : j ∉ rest := (List.nodup_cons.1 hnd).1
  refine ⟨hb.fifo, hb.paired, hb.bound, hb.nodup, hb.oneEach, ?_, ?_, hb.future⟩
  · intro x hx
    have hx' : x ∈ rest := by simpa [Core.next, hq] using hx
    have hw := hb.waiting x (by simpa [hq] using hx')
    have hne : ¬ x = j := fun e => hj (e ▸ hx')
    simpa [Core.next, hne] using hw
  · intro x hx
    have hx' : x ∈ c.refreshJobs := hx
    have hr := hb.range x hx'
    by_cases e : x = j
    · subst e
      simp only [Core.next, if_true]
      constructor <;> omega
    · simpa [Core.next, e] using hr

theorem Core.Base.enqueue {c : Core} {repo : RepoId} (hb : c.Base)
    (hc : c.refreshJobs.any (fun job => decide (c.jobRepo job = repo)) = false) :
    (c.enqueue repo).Base := by
  have hfresh : ∀ x ∈ c.refreshJobs, ¬ x = c.jobCount := by
    intro x hx e
    exact absurd (hb.bound x hx) (e ▸ Nat.lt_irrefl _)
  have hnone : ∀ x ∈ c.refreshJobs, ¬ c.jobRepo x = repo := by
    simpa using hc
  refine ⟨?_, ?_, ?_, ?_, ?_, ?_, ?_, ?_⟩
  · have := hb.fifo
    simp only [enqueuedJobs, finishedJobs, List.filterMap_append, Core.enqueue] at this ⊢
    simp [this]
  · have := hb.paired
    simp only [terminalNotes, finishedJobs, List.filterMap_append, Core.enqueue] at this ⊢
    simp [this]
  · intro x hx
    simp only [Core.enqueue, List.mem_append, List.mem_singleton] at hx ⊢
    rcases hx with hx | hx
    · exact Nat.lt_succ_of_lt (hb.bound x hx)
    · exact hx ▸ Nat.lt_succ_self _
  · simp only [Core.enqueue]
    rw [List.nodup_append]
    refine ⟨hb.nodup, by simp, ?_⟩
    intro x hx hy
    simp only [List.mem_singleton] at hy
    exact hfresh x hx hy
  · simp only [Core.enqueue, List.map_append, List.map_cons, List.map_nil, if_true]
    have hm : List.map (fun i => if i = c.jobCount then repo else c.jobRepo i) c.refreshJobs =
        List.map c.jobRepo c.refreshJobs := by
      apply List.map_congr_left
      intro x hx
      simp [hfresh x hx]
    rw [hm, List.nodup_append]
    refine ⟨hb.oneEach, by simp, ?_⟩
    intro x hx hy
    simp only [List.mem_singleton] at hy
    simp only [List.mem_map] at hx
    obtain ⟨z, hz, hzx⟩ := hx
    exact hnone z hz (hzx.trans hy)
  · intro x hx
    simp only [Core.enqueue] at hx ⊢
    cases hq : c.refreshJobs with
    | nil => simp [hq] at hx
    | cons a rest =>
      rw [hq] at hx
      simp only [List.cons_append, List.tail_cons, List.mem_append, List.mem_singleton] at hx
      rcases hx with hx | hx
      · have hx2 : x ∈ c.refreshJobs := by simp [hq, hx]
        have hw := hb.waiting x (by simpa [hq] using hx)
        simpa [hfresh x hx2, dispatchedStates, List.filterMap_append] using hw
      · subst hx
        have := hb.future c.jobCount (Nat.le_refl _)
        simpa [dispatchedStates, List.filterMap_append] using this
  · intro x hx
    simp only [Core.enqueue, List.mem_append, List.mem_singleton] at hx ⊢
    rcases hx with hx | hx
    · simpa [hfresh x hx] using hb.range x hx
    · simp [hx]
  · intro x hx
    simp only [Core.enqueue] at hx ⊢
    have := hb.future x (Nat.le_of_succ_le hx)
    simpa [dispatchedStates, List.filterMap_append] using this

theorem Core.inv_of_stepEnd {c c' : Core} {j : JobId} {rest : List JobId} {k : Int}
    (hb : c.Base) (hbusy : c.refreshBusy = true) (hg : c.gui = []) (hw : c.worker = [])
    (hq : c.refreshJobs = j :: rest) (hk : c.jobState j = k) (h : c.StepEnd j k c') :
    c'.Inv := by
  rcases h with ⟨b, rfl⟩ | ⟨hk7, rfl⟩ | ⟨t, ht1, ht2, ht3, rfl⟩
  · refine ⟨hb.finish hq b, ?_⟩
    apply Core.Pending.posted <;> simp [Core.finish, hq, hbusy, hg, hw]
  · refine ⟨hb.next hq (hk ▸ hk7), ?_⟩
    apply Core.Pending.posted <;> simp [Core.next, hbusy, hg, hw]
  · refine ⟨Core.Base.congr (c := c) rfl rfl rfl rfl rfl hb, ?_⟩
    apply Core.Pending.working t
    · exact hbusy
    · exact hg
    · simp [Core.work, hw]
    · refine ⟨?_, ?_, ?_⟩
      · simp [Core.work, hq, ht1]
      · simp [Core.work, ht1, ht2, hk]
      · simp [Core.work, ht1, ht3]

theorem Core.inv_of_processEnd {c c' : Core} (hb : c.Base) (hg : c.gui = [])
    (hw : c.worker = []) (h : c.ProcessEnd c') : c'.Inv := by
  unfold Core.ProcessEnd at h
  cases hq : c.refreshJobs with
  | nil =>
    rw [hq] at h
    simp only at h
    subst h
    exact ⟨Core.Base.congr (c := c) hq.symm rfl rfl rfl rfl hb, Core.Pending.idle rfl rfl hg hw⟩
  | cons j rest =>
    rw [hq] at h
    simp only at h
    rw [if_pos (hb.range j (by simp [hq]))] at h
    exact Core.inv_of_stepEnd (hb.dispatch hq) rfl hg hw hq rfl h

theorem Core.Pending.enqueue_busy {c : Core} {repo : RepoId} (hb : c.Base) (hp : c.Pending)
    (hbusy : c.refreshBusy = true) : (c.enqueue repo).Pending := by
  have hflight : ∀ t, c.InFlight t → (c.enqueue repo).InFlight t := by
    intro t ⟨h1, h2, h3⟩
    have hmem : t.job ∈ c.refreshJobs := List.mem_of_mem_head? h1
    have hne : ¬ t.job = c.jobCount := fun e =>
      absurd (hb.bound _ hmem) (e ▸ Nat.lt_irrefl _)
    refine ⟨?_, ?_, ?_⟩
    · cases hq : c.refreshJobs with
      | nil => simp [hq] at h1
      | cons a l => simpa [Core.enqueue, hq] using h1
    · simpa [Core.enqueue, hne] using h2
    · simpa [Core.enqueue, hne] using h3
  cases hp with
  | idle h1 _ _ _ => simp [hbusy] at h1
  | posted h1 h2 h3 => exact Core.Pending.posted h1 h2 h3
  | working t h1 h2 h3 h4 => exact Core.Pending.working t h1 h2 h3 (hflight t h4)
  | replied t out h1 h2 h3 h4 => exact Core.Pending.replied t out h1 h2 h3 (hflight t h4)

theorem Core.inv_of_refreshEnd {c c' : Core} {repo : RepoId} (hi : c.Inv)
    (h : c.RefreshEnd repo c') : c'.Inv := by
  unfold Core.RefreshEnd at h
  split_ifs at h with h1 h2
  · subst h; exact hi
  · subst h
    have h1' : c.refreshJobs.any (fun job => decide (c.jobRepo job = repo)) = false := by
      simpa using h1
    exact ⟨hi.base.enqueue h1', Core.Pending.enqueue_busy hi.base hi.pending h2⟩
  · have h1' : c.refreshJobs.any (fun job => decide (c.jobRepo job = repo)) = false := by
      simpa using h1
    have hidle : c.gui = [] ∧ c.worker = [] := by
      cases hi.pending with
      | idle _ _ h3 h4 => exact ⟨h3, h4⟩
      | posted h1 _ _ => exact absurd h1 h2
      | working t h1 _ _ _ => exact absurd h1 h2
      | replied t out h1 _ _ _ => exact absurd h1 h2
    exact Core.inv_of_processEnd (hi.base.enqueue h1') hidle.1 hidle.2 h

/-! ## The invariant holds in every reachable state -/

theorem inv_refreshRepo (m : MainWindow) (o : Obs) (repo : RepoId) (hi : m.core.Inv) :
    (m.refreshRepo o repo).core.Inv :=
  Core.inv_of_refreshEnd hi (refreshEnd_refreshRepo m o repo)

theorem inv_gui (m : MainWindow) (o : Obs) (hi : m.core.Inv) :
    (m.step (.gui o)).core.Inv := by
  simp only [MainWindow.step]
  cases hp : m.guiPosted with
  | nil => exact hi
  | cons g rest =>
    simp only
    have hbase : ({ m with guiPosted := rest } : MainWindow).core.Base :=
      Core.Base.congr (c := m.core) rfl rfl rfl rfl rfl hi.base
    cases hi.pending with
    | idle _ _ h3 _ => exact absurd (h3.symm.trans hp) (by simp)
    | working t _ h2 _ _ => exact absurd (h2.symm.trans hp) (by simp)
    | posted h1 h2 h3 =>
      have e : g :: rest = [GuiTask.processRefreshJobs] := hp.symm.trans h2
      obtain ⟨rfl, rfl⟩ := List.cons_eq_cons.1 e
      exact Core.inv_of_processEnd hbase rfl h3 (processEnd_processRefreshJobs _ o)
    | replied t out h1 h2 h3 h4 =>
      have e : g :: rest = [t.reply out] := hp.symm.trans h2
      obtain ⟨rfl, rfl⟩ := List.cons_eq_cons.1 e
      obtain ⟨h5, h6, h7⟩ := h4
      obtain ⟨tl, htl⟩ : ∃ tl, m.core.refreshJobs = t.job :: tl := by
        cases hq : m.core.refreshJobs with
        | nil => simp [hq] at h5
        | cons a l =>
          rw [hq] at h5
          simp only [List.head?_cons, Option.some.injEq] at h5
          exact ⟨l, by rw [h5]⟩
      exact Core.inv_of_stepEnd hbase h1 rfl h3 htl h6 (stepEnd_reply _ o t out)

theorem inv_worker (m : MainWindow) (p : ProcessResult) (hi : m.core.Inv) :
    (m.step (.worker p)).core.Inv := by
  simp only [MainWindow.step]
  cases hp : m.workerPosted with
  | nil => exact hi
  | cons t rest =>
    simp only
    obtain ⟨out, hout⟩ := core_runWorkerTask ({ m with workerPosted := rest } : MainWindow) p t
    rw [hout]
    cases hi.pending with
    | idle _ _ _ h4 => exact absurd (h4.symm.trans hp) (by simp)
    | posted _ _ h3 => exact absurd (h3.symm.trans hp) (by simp)
    | replied t' out' _ _ h3 _ => exact absurd (h3.symm.trans hp) (by simp)
    | working t' h1 h2 h3 h4 =>
      have e : t :: rest = [t'] := hp.symm.trans h3
      obtain ⟨rfl, rfl⟩ := List.cons_eq_cons.1 e
      refine ⟨Core.Base.congr (c := m.core) rfl rfl rfl rfl rfl hi.base, ?_⟩
      refine Core.Pending.replied t out h1 ?_ rfl h4
      show m.guiPosted ++ [t.reply out] = [t.reply out]
      rw [show m.guiPosted = [] from h2]
      rfl

theorem inv_refreshAll (rs : List RepoId) (o : Obs) :
    ∀ m : MainWindow, m.core.Inv →
      (rs.foldl (fun m repo => m.refreshRepo o repo) m).core.Inv := by
  induction rs with
  | nil => intro m hi; exact hi
  | cons r rs ih => intro m hi; exact ih _ (inv_refreshRepo m o r hi)

theorem core_editRefreshTime (m : MainWindow) (repo : RepoId) (mins : Int) :
    (m.on_toolButton_editRepoRefreshTime_clicked repo mins).core = m.core := by
  simp only [MainWindow.on_toolButton_editRepoRefreshTime_clicked, core_updateRepoGui]
  split_ifs <;> simp

theorem inv_step (m : MainWindow) (e : Event) (hi : m.core.Inv) : (m.step e).core.Inv := by
  cases e with
  | gui o => exact inv_gui m o hi
  | worker p => exact inv_worker m p hi
  | timeout repo o =>
    simp only [MainWindow.step]
    split_ifs
    · exact inv_refreshRepo _ o repo (by simpa using hi)
    · exact hi
  | refresh repo o =>
    simp only [MainWindow.step]
    split_ifs
    · exact inv_refreshRepo _ o repo hi
    · exact hi
  | refreshAll o => exact inv_refreshAll _ o m hi
  | pause repo =>
    simp only [MainWindow.step, MainWindow.onRepoPauseActionTriggered]
    split_ifs
    · simpa using hi
    · exact hi
  | addRepo s o =>
    simp only [MainWindow.step, MainWindow.initRepo]
    exact inv_refreshRepo _ o _ hi
  | editRefreshTime repo mins =>
    simp only [MainWindow.step]
    split_ifs
    · rw [core_editRefreshTime]; exact hi
    · exact hi
  | removeRepo repo =>
    simp only [MainWindow.step, MainWindow.on_toolButton_removeRepo_clicked]
    split_ifs
    · rw [core_updateTrayIcon]; exact hi
    · exact hi
  | setVisible v => exact hi
  | editOurName name =>
    simp only [MainWindow.step, MainWindow.on_toolButton_ourName_edit_clicked]
    split_ifs <;> exact hi
  | editRepoName repo name =>
    simp only [MainWindow.step, MainWindow.on_toolButton_editRepoName_clicked]
    split_ifs
    · exact hi
    · rw [core_updateRepoGui]; exact hi
    · exact hi

theorem inv_initial (os : Platform) (ourName : String) :
    (MainWindow.initial os ourName).core.Inv := by
  refine ⟨⟨rfl, rfl, ?_, List.nodup_nil, List.nodup_nil, ?_, ?_, ?_⟩,
    Core.Pending.idle rfl rfl rfl rfl⟩
  · intro j hj; cases hj
  · intro j hj; cases hj
  · intro j hj; cases hj
  · intro j _; rfl

theorem inv_run (es : List Event) : ∀ m : MainWindow, m.core.Inv → (m.run es).core.Inv := by
  induction es with
  | nil => intro m hi; exact hi
  | cons e es ih => intro m hi; exact ih _ (inv_step m e hi)

theorem inv_reachable (os : Platform) (ourName : String) (es : List Event) :
    ((MainWindow.initial os ourName).run es).core.Inv :=
  inv_run es _ (inv_initial os ourName)

/-! ## The queue discipline -/

theorem filterMap_coreNotes {α : Type} (f : Note → Option α)
    (hf : ∀ n, n.isCore = false → f n = none) (h : List Note) :
    (coreNotes h).filterMap f = h.filterMap f := by
  induction h with
  | nil => rfl
  | cons n h ih =>
    unfold coreNotes at ih ⊢
    cases hn : n.isCore with
    | true => rw [List.filter_cons_of_pos hn, List.filterMap_cons, List.filterMap_cons, ih]
    | false =>
      rw [List.filter_cons_of_neg (by simp [hn]), List.filterMap_cons, hf n hn, ih]

theorem enqueuedJobs_coreNotes (h : List Note) : enqueuedJobs (coreNotes h) = enqueuedJobs h :=
  filterMap_coreNotes _ (fun n hn => by cases n <;> first | rfl | cases hn) h

theorem finishedJobs_coreNotes (h : List Note) : finishedJobs (coreNotes h) = finishedJobs h :=
  filterMap_coreNotes _ (fun n hn => by cases n <;> first | rfl | cases hn) h

theorem terminalNotes_coreNotes (h : List Note) :
    terminalNotes (coreNotes h) = terminalNotes h :=
  filterMap_coreNotes _ (fun n hn => by cases n <;> first | rfl | cases hn) h

theorem dispatchedStates_coreNotes (j : JobId) (h : List Note) :
    dispatchedStates j (coreNotes h) = dispatchedStates j h :=
  filterMap_coreNotes _ (fun n hn => by cases n <;> first | rfl | cases hn) h

/-- C1. In every state the program can reach, whatever the events and whatever
the steps observed: the jobs appended by `refreshRepo` are, in this order, the
jobs that reached a terminal state (were handed to `refresh_successNext` or
`refresh_errorNext`) followed by the jobs still queued, so jobs terminate in
the order in which they were appended; and in the record every terminal call
for a job is followed by the `popRefreshJob` removal of that same job, before
any other terminal call or removal, so the job removed is the one that just
terminated, and it is the earliest appended job still queued. -/
theorem jobs_finish_in_enqueue_order (os : Platform) (ourName : String) (es : List Event) :
    let m := (MainWindow.initial os ourName).run es
    enqueuedJobs m.history = finishedJobs m.history ++ m.refreshJobs ∧
    terminalNotes m.history =
      (finishedJobs m.history).flatMap (fun j => [Sum.inl j, Sum.inr j]) ∧
    poppedJobs m.history = finishedJobs m.history := by
  intro m
  have hi := (inv_reachable os ourName es).base
  have h1 := hi.fifo
  have h2 := hi.paired
  simp only [MainWindow.core, enqueuedJobs_coreNotes, finishedJobs_coreNotes,
    terminalNotes_coreNotes] at h1 h2
  refine ⟨h1, h2, ?_⟩
  have hp : ∀ h : List Note, poppedJobs h =
      (terminalNotes h).filterMap (fun x => match x with | .inr j => some j | .inl _ => none) := by
    intro h
    induction h with
    | nil => rfl
    | cons n h ih => cases n <;> simp_all [poppedJobs, terminalNotes]
  rw [hp, h2]
  generalize finishedJobs m.history = l
  induction l with
  | nil => rfl
  | cons a l ih => simpa [List.flatMap_cons] using ih

/-- C2. In every state the program can reach the queued jobs are for pairwise
different repositories; and `refreshRepo(repo)`, called while a job for `repo` is
queued, changes nothing at all, so the queue keeps its length, jobs and order. -/
theorem one_job_per_repository (os : Platform) (ourName : String) (es : List Event) :
    let m := (MainWindow.initial os ourName).run es
    (m.refreshJobs.map (fun job => (m.jobStore job).repo)).Nodup ∧
    ∀ (o : Obs) (repo : RepoId),
      (∃ job ∈ m.refreshJobs, (m.jobStore job).repo = repo) → m.refreshRepo o repo = m := by
  intro m
  refine ⟨(inv_reachable os ourName es).base.oneEach, ?_⟩
  intro o repo ⟨job, hjob, hrepo⟩
  have hc : m.refreshJobs.any (fun job => decide ((m.jobStore job).repo = repo)) = true :=
    List.any_eq_true.2 ⟨job, hjob, by simpa using hrepo⟩
  simp [MainWindow.refreshRepo, hc]

/-- C2, at the state reached by setting up the sample repository: its job is
queued, and a second `refreshRepo` for it changes nothing. -/
theorem one_job_per_repository_witness :
    (∃ job ∈ MainWindow.sample.refreshJobs, (MainWindow.sample.jobStore job).repo = 0) ∧
    MainWindow.sample.refreshRepo Obs.quiet 0 = MainWindow.sample :=
  ⟨⟨0, by decide, by decide⟩,
   (one_job_per_repository .other "me" [.addRepo Settings.Repo.sample Obs.quiet]).2
      Obs.quiet 0 ⟨0, by decide, by decide⟩⟩


theorem Core.ProcessEnd.effect {c c' : Core} (h : c.ProcessEnd c') :
    (∀ x, c.refreshJobs.head? ≠ some x →
      c'.jobState x = c.jobState x ∧
      dispatchedStates x c'.notes = dispatchedStates x c.notes) ∧
    (∀ x, c.refreshJobs.head? = some x →
      (c'.jobState x = c.jobState x ∨ c'.jobState x = c.jobState x + 1) ∧
      dispatchedStates x c'.notes = dispatchedStates x c.notes ++
        (if 0 ≤ c.jobState x ∧ c.jobState x ≤ 7 then [c.jobState x] else [])) := by
  unfold Core.ProcessEnd at h
  cases hq : c.refreshJobs with
  | nil =>
    rw [hq] at h
    simp only at h
    subst h
    simp
  | cons j rest =>
    rw [hq] at h
    simp only at h
    by_cases hr : 0 ≤ c.jobState j ∧ c.jobState j ≤ 7
    · rw [if_pos hr] at h
      rcases h with ⟨b, rfl⟩ | ⟨_, rfl⟩ | ⟨t, _, _, _, rfl⟩
      · constructor
        · intro x hx
          have hne : ¬ j = x := fun e => hx (by simp [e])
          simp [Core.finish, Core.dispatch, hq, dispatchedStates, List.filterMap_append, hne]
        · intro x hx
          have hxj : j = x := by simpa using hx
          subst hxj
          simp [Core.finish, Core.dispatch, hq, dispatchedStates, List.filterMap_append, hr]
      · constructor
        · intro x hx
          have hne : ¬ j = x := fun e => hx (by simp [e])
          have hne' : ¬ x = j := fun e => hne e.symm
          simp [Core.next, Core.dispatch, dispatchedStates, List.filterMap_append, hne, hne']
        · intro x hx
          have hxj : j = x := by simpa using hx
          subst hxj
          simp [Core.next, Core.dispatch, dispatchedStates, List.filterMap_append, hr]
      · constructor
        · intro x hx
          have hne : ¬ j = x := fun e => hx (by simp [e])
          simp [Core.work, Core.dispatch, dispatchedStates, List.filterMap_append, hne]
        · intro x hx
          have hxj : j = x := by simpa using hx
          subst hxj
          simp [Core.work, Core.dispatch, dispatchedStates, List.filterMap_append, hr]
    · rw [if_neg hr] at h
      subst h
      constructor
      · intro x hx
        simp
      · intro x hx
        have hxj : j = x := by simpa using hx
        subst hxj
        simp [hr]

/-- C3. In every state the program can reach, every queued job that is not at
the front is in state 0 and no step of it has been run. And a call of
`processRefreshJobs`, in any state `s`, runs no step of a job that is not at the
front and leaves the state of such a job as it is; for the job at the front it
runs the step of the job's state (one step, when the state is one of 0..7) and
leaves the state as it is or advances it by one. -/
theorem one_job_in_flight (os : Platform) (ourName : String) (es : List Event)
    (s : MainWindow) (o : Obs) :
    let m := (MainWindow.initial os ourName).run es
    (∀ job ∈ m.refreshJobs.tail,
      (m.jobStore job).state = 0 ∧ dispatchedStates job m.history = []) ∧
    (∀ job, s.refreshJobs.head? ≠ some job →
      ((s.processRefreshJobs o).jobStore job).state = (s.jobStore job).state ∧
      dispatchedStates job (s.processRefreshJobs o).history = dispatchedStates job s.history) ∧
    (∀ job, s.refreshJobs.head? = some job →
      (((s.processRefreshJobs o).jobStore job).state = (s.jobStore job).state ∨
        ((s.processRefreshJobs o).jobStore job).state = (s.jobStore job).state + 1) ∧
      dispatchedStates job (s.processRefreshJobs o).history =
        dispatchedStates job s.history ++
          (if 0 ≤ (s.jobStore job).state ∧ (s.jobStore job).state ≤ 7
            then [(s.jobStore job).state] else [])) := by
  intro m
  have hw := (inv_reachable os ourName es).base.waiting
  have he := (processEnd_processRefreshJobs s o).effect
  simp only [MainWindow.core, dispatchedStates_coreNotes] at hw he
  exact ⟨hw, he.1, he.2⟩

/-- C3, at the sample state: the front job 0 is in state 1 and the turn moves it
to state 2; job 1, not at the front, is left alone. -/
theorem one_job_in_flight_witness :
    (MainWindow.sample.refreshJobs.head? = some 0 ∧
      MainWindow.sample.refreshJobs.head? ≠ some 1) ∧
    ((MainWindow.sample.processRefreshJobs Obs.quiet).jobStore 1).state =
      (MainWindow.sample.jobStore 1).state ∧
    dispatchedStates 0 (MainWindow.sample.processRefreshJobs Obs.quiet).history =
      dispatchedStates 0 MainWindow.sample.history ++
        (if 0 ≤ (MainWindow.sample.jobStore 0).state ∧ (MainWindow.sample.jobStore 0).state ≤ 7
          then [(MainWindow.sample.jobStore 0).state] else []) :=
  ⟨⟨by decide, by decide⟩,
   ((one_job_in_flight .other "me" [] MainWindow.sample Obs.quiet).2.1 1 (by decide)).1,
   ((one_job_in_flight .other "me" [] MainWindow.sample Obs.quiet).2.2 0 (by decide)).2⟩

/-! ## The turns of a job -/

theorem turn0 {m : MainWindow} {o : Obs} {job : JobId} {repo : RepoId} {path : String}
    {rest : List JobId} {e : Event} (h : Starts m o job repo path rest e)
    (hok : InitOk m.os path o) :
    JobRunning (m.step e) m.os m.ourName job repo path 1 rest ∧
    ∃ ext, (m.step e).history = m.history ++ ext ∧ dispatchedStates job ext = [0] ∧
      outcomes ext = [] ∧ launches ext = [] := by
  obtain ⟨h1, h2⟩ := hok
  cases h with
  | posted h =>
    obtain ⟨hq, hr, hs, hg, hw, hp⟩ := h
    simp only [MainWindow.step, hg, MainWindow.runGuiTask, MainWindow.processRefreshJobs, hq,
      List.isEmpty_cons, List.headD_cons, Bool.false_eq_true, if_false, hs, if_true]
    simp only [MainWindow.refresh_init, MainWindow.note, MainWindow.setRepo, hr, if_true, hp,
      h1, Repo.log, QTimer.stop, h2, Bool.not_true, Bool.false_eq_true, if_false,
      MainWindow.refresh_nextState, MainWindow.setJob, MainWindow.updateRepoGui,
      MainWindow.refresh_continue, MainWindow.doInGuiThread]
    refine ⟨⟨⟨?_, ?_, ?_, ?_, ?_, ?_⟩, ?_, ?_, ?_⟩,
      [.dispatched job 0, .repoGui repo], ?_, ?_, ?_, ?_⟩ <;>
      simp [hq, hr, hs, hw, hp, dispatchedStates, outcomes, launches]
  | refresh hi hmem hj hp hrest =>
    obtain ⟨hb, hq, hg, hw⟩ := hi
    subst hj hrest
    simp only [MainWindow.step, hmem, if_true, MainWindow.refreshRepo, hq, List.any_nil,
      Bool.not_false, MainWindow.appendJob, MainWindow.note, MainWindow.setRepo,
      MainWindow.setJob, hb, MainWindow.processRefreshJobs, List.nil_append,
      List.isEmpty_cons, List.headD_cons, Bool.false_eq_true, if_false]
    simp only [MainWindow.refresh_init, MainWindow.note, MainWindow.setRepo, if_true, hp,
      h1, Repo.log, QTimer.stop, h2, Bool.not_true, Bool.false_eq_true, if_false,
      MainWindow.refresh_nextState, MainWindow.setJob, MainWindow.updateRepoGui,
      MainWindow.refresh_continue, MainWindow.doInGuiThread, MainWindow.updateTrayIcon]
    refine ⟨⟨⟨?_, ?_, ?_, ?_, ?_, ?_⟩, ?_, ?_, ?_⟩,
      [.enqueued m.jobCount repo, .dispatched m.jobCount 0, .repoGui repo, .repoGui repo,
        .trayIcon], ?_, ?_, ?_, ?_⟩ <;>
      simp [hq, hg, hw, hp, dispatchedStates, outcomes, launches]
  | timeout hi hact hj hp hrest =>
    obtain ⟨hb, hq, hg, hw⟩ := hi
    subst hj hrest
    simp only [MainWindow.step, hact, if_true, MainWindow.refreshRepo, hq, List.any_nil,
      Bool.not_false, MainWindow.appendJob, MainWindow.note, MainWindow.setRepo,
      MainWindow.setJob, hb, MainWindow.processRefreshJobs, List.nil_append,
      List.isEmpty_cons, List.headD_cons, Bool.false_eq_true, if_false]
    simp only [MainWindow.refresh_init, MainWindow.note, MainWindow.setRepo, if_true, hp,
      h1, Repo.log, QTimer.stop, h2, Bool.not_true, Bool.false_eq_true, if_false,
      MainWindow.refresh_nextState, MainWindow.setJob, MainWindow.updateRepoGui,
      MainWindow.refresh_continue, MainWindow.doInGuiThread, MainWindow.updateTrayIcon]
    refine ⟨⟨⟨?_, ?_, ?_, ?_, ?_, ?_⟩, ?_, ?_, ?_⟩,
      [.enqueued m.jobCount repo, .dispatched m.jobCount 0, .repoGui repo, .repoGui repo,
        .trayIcon], ?_, ?_, ?_, ?_⟩ <;>
      simp [hq, hg, hw, hp, dispatchedStates, outcomes, launches]
  | addRepo s hi hrepo hj hp hrest =>
    obtain ⟨hb, hq, hg, hw⟩ := hi
    subst hj hrest hrepo hp
    simp only [MainWindow.step, MainWindow.initRepo, MainWindow.refreshRepo, hq, List.any_nil,
      Bool.not_false, MainWindow.appendJob, MainWindow.note, MainWindow.setRepo,
      MainWindow.setJob, hb, MainWindow.processRefreshJobs, List.nil_append,
      List.isEmpty_cons, List.headD_cons, Bool.false_eq_true, if_false, if_true]
    simp only [MainWindow.refresh_init, MainWindow.note, MainWindow.setRepo, if_true,
      h1, Repo.log, QTimer.stop, h2, Bool.not_true, Bool.false_eq_true, if_false,
      MainWindow.refresh_nextState, MainWindow.setJob, MainWindow.updateRepoGui,
      MainWindow.refresh_continue, MainWindow.doInGuiThread, MainWindow.updateTrayIcon]
    refine ⟨⟨⟨?_, ?_, ?_, ?_, ?_, ?_⟩, ?_, ?_, ?_⟩,
      [.enqueued m.jobCount m.repoCount, .dispatched m.jobCount 0, .repoGui m.repoCount,
        .repoGui m.repoCount, .trayIcon], ?_, ?_, ?_, ?_⟩ <;>
      simp [hq, hg, hw, dispatchedStates, outcomes, launches]


theorem turn1 {m : MainWindow} {os : Platform} {ourName : String} {job : JobId}
    {repo : RepoId} {path : String} {rest : List JobId} (o : Obs)
    (h : JobRunning m os ourName job repo path 1 rest) (hok : OngoingOpsOk os path o) :
    JobRunning (m.step (.gui o)) os ourName job repo path 2 rest ∧
    (m.step (.gui o)).history = m.history ++ [.dispatched job 1, .repoGui repo] := by
  obtain ⟨⟨hq, hr, hs, hg, hw, hp⟩, hos, hn, ht⟩ := h
  unfold OngoingOpsOk at hok
  simp only [MainWindow.step, hg, MainWindow.runGuiTask, MainWindow.processRefreshJobs, hq,
    List.isEmpty_cons, List.headD_cons, Bool.false_eq_true, if_false, hs, if_true]
  simp only [MainWindow.refresh_ongoingOps, MainWindow.note, MainWindow.setRepo, hr, if_true,
    hp, hos, hok, ne_eq, not_true_eq_false, if_false,
    MainWindow.refresh_nextState, MainWindow.setJob, MainWindow.updateRepoGui,
    MainWindow.refresh_continue, MainWindow.doInGuiThread]
  refine ⟨⟨⟨?_, ?_, ?_, ?_, ?_, ?_⟩, ?_, ?_, ?_⟩, ?_⟩ <;>
    simp [hq, hr, hs, hw, hp, hos, hn, ht]

@[simp] theorem Git.pathOr_empty (os : Platform) (path : String) :
    (Git.new os path).pathOr "" = path := by
  simp [Git.pathOr, Git.new, QString.isEmpty]

@[simp] theorem Git.pathOr_self (os : Platform) (path : String) :
    (Git.new os path).pathOr path = path := by
  simp [Git.pathOr, Git.new]

@[simp] theorem Git.runGit_shell (g : Git) (arguments path : String) (sh : Shell) :
    (g.runGit arguments path sh).2 =
      ⟨sh.answers, sh.launched ++ [⟨g.pathOr path, g.mGitCmd ++ " " ++ arguments⟩]⟩ := rfl

@[simp] theorem Git.currentBranch_shell (g : Git) (path : String) (sh : Shell) :
    (g.currentBranch path sh).2 =
      (g.runGit "symbolic-ref --quiet --short HEAD" (g.pathOr path) sh).2 := by
  unfold Git.currentBranch
  simp only []
  split <;> rfl

@[simp] theorem Git.compareWithHead_shell (g : Git) (ref path : String) (sh : Shell) :
    (g.compareWithHead ref path sh).2 =
      (g.runGit ("rev-list --count --left-right " ++ ref ++ "...HEAD") (g.pathOr path) sh).2 := by
  unfold Git.compareWithHead
  simp only []
  split <;> rfl

@[simp] theorem Git.new_mGitCmd (os : Platform) (path : String) :
    (Git.new os path).mGitCmd = Git.init os := rfl

theorem turn2 {m : MainWindow} {os : Platform} {ourName : String} {job : JobId}
    {repo : RepoId} {path : String} {rest : List JobId} (o : Obs)
    (h : JobRunning m os ourName job repo path 2 rest) (hok : BranchRemoteOk os path o) :
    JobOnBranch (m.step (.gui o)) os ourName job repo path (detectedBranch os path o) 3 rest ∧
    (m.step (.gui o)).history = m.history ++
      [.dispatched job 2,
       .launched .control ⟨path, Git.init os ++ " " ++ "symbolic-ref --quiet --short HEAD"⟩,
       .launched .control ⟨path, Git.init os ++ " " ++ "remote get-url origin"⟩,
       .repoGui repo] := by
  obtain ⟨⟨hq, hr, hs, hg, hw, hp⟩, hos, hn, ht⟩ := h
  obtain ⟨hb1, hb2⟩ := hok
  simp only [MainWindow.step, hg, MainWindow.runGuiTask, MainWindow.processRefreshJobs, hq,
    List.isEmpty_cons, List.headD_cons, Bool.false_eq_true, if_false, hs, if_true]
  simp only [Int.reduceEq, if_false, if_true]
  simp only [MainWindow.refresh_branchRemoteInfo, MainWindow.note, MainWindow.setRepo, hr,
    if_true, hp, hos, hb1, Bool.not_false, MainWindow.setJob, Repo.log, hb2,
    MainWindow.noteLaunched, MainWindow.refresh_nextState, MainWindow.updateRepoGui,
    MainWindow.refresh_continue, MainWindow.doInGuiThread]
  simp only [Git.currentBranch_shell, Git.runGit_shell, Shell.start, Git.pathOr_empty,
    Git.pathOr_self, Git.new_mGitCmd, List.nil_append] at hb2 ⊢
  simp only [String.reduceAppend, hb2, Bool.not_false, if_true]
  refine ⟨⟨⟨⟨?_, ?_, ?_, ?_, ?_, ?_⟩, ?_, ?_, ?_⟩, ?_, ?_⟩, ?_⟩ <;>
    simp [hq, hr, hs, hw, hp, hos, hn, ht, detectedBranch, Shell.start]

theorem Launch.runs_git (os : Platform) (sub wd args : String) :
    Launch.runs os sub ⟨wd, Git.init os ++ " " ++ args⟩ =
      (sub ++ " ").data.isPrefixOf args.data := by
  unfold Launch.runs
  rw [Bool.eq_iff_iff]
  simp only [List.isPrefixOf_iff_prefix, String.data_append, List.append_assoc]
  rw [List.prefix_append_right_inj, List.prefix_append_right_inj]

theorem dispatchedStates_append (j : JobId) (a b : List Note) :
    dispatchedStates j (a ++ b) = dispatchedStates j a ++ dispatchedStates j b := by
  simp [dispatchedStates, List.filterMap_append]

theorem outcomes_append (a b : List Note) : outcomes (a ++ b) = outcomes a ++ outcomes b := by
  simp [outcomes, List.filterMap_append]

theorem launches_append (a b : List Note) : launches (a ++ b) = launches a ++ launches b := by
  simp [launches, List.filterMap_append]

theorem launchesOf_append (os : Platform) (sub : String) (a b : List Note) :
    launchesOf os sub (a ++ b) = launchesOf os sub a ++ launchesOf os sub b := by
  simp [launchesOf, launches_append]

theorem launches_map_launched (ctx : Context) (l : List Launch) :
    launches (l.map (Note.launched ctx)) = l.map (fun x => (ctx, x)) := by
  induction l with
  | nil => rfl
  | cons a l ih => simpa [launches] using ih

theorem dispatchedStates_map_launched (j : JobId) (ctx : Context) (l : List Launch) :
    dispatchedStates j (l.map (Note.launched ctx)) = [] := by
  induction l with
  | nil => rfl
  | cons a l ih => simp [dispatchedStates] at ih ⊢

theorem outcomes_map_launched (ctx : Context) (l : List Launch) :
    outcomes (l.map (Note.launched ctx)) = [] := by
  induction l with
  | nil => rfl
  | cons a l ih => simp [outcomes] at ih ⊢

theorem launchesOf_map_launched (os : Platform) (sub : String) (ctx : Context)
    (l : List Launch) (h : ∀ x ∈ l, x.runs os sub = false) :
    launchesOf os sub (l.map (Note.launched ctx)) = [] := by
  unfold launchesOf
  rw [launches_map_launched, List.filter_eq_nil_iff]
  intro x hx
  obtain ⟨y, hy, rfl⟩ := List.mem_map.1 hx
  simp [h y hy]

/-- The processes `isRepoModified` starts: the bare query, then possibly the
status query. -/
theorem Git.isRepoModified_shell (os : Platform) (path : String) (sh : Shell) :
    ((Git.new os path).isRepoModified "" sh).2.answers = sh.answers ∧
    (((Git.new os path).isRepoModified "" sh).2.launched = sh.launched ++
        [⟨path, Git.init os ++ " " ++ "rev-parse --is-bare-repository"⟩] ∨
     ((Git.new os path).isRepoModified "" sh).2.launched = sh.launched ++
        [⟨path, Git.init os ++ " " ++ "rev-parse --is-bare-repository"⟩,
         ⟨path, Git.init os ++ " " ++ "status --porcelain"⟩]) := by
  unfold Git.isRepoModified Git.isBareRepository
  simp only [Git.pathOr_empty, Git.pathOr_self, Git.runGit_shell, Git.new_mGitCmd]
  split_ifs <;> simp

theorem runs_bare (os : Platform) (sub path : String)
    (h : (sub ++ " ").data.isPrefixOf "rev-parse --is-bare-repository".data = false) :
    Launch.runs os sub ⟨path, Git.init os ++ " " ++ "rev-parse --is-bare-repository"⟩ = false := by
  rw [Launch.runs_git]; exact h

theorem runs_status (os : Platform) (sub path : String)
    (h : (sub ++ " ").data.isPrefixOf "status --porcelain".data = false) :
    Launch.runs os sub ⟨path, Git.init os ++ " " ++ "status --porcelain"⟩ = false := by
  rw [Launch.runs_git]; exact h

/-- Neither process of `isRepoModified` runs a subcommand that differs from
`rev-parse` and `status`. -/
theorem Git.isRepoModified_runs (os : Platform) (path sub : String) (sh : Shell)
    (h1 : (sub ++ " ").data.isPrefixOf "rev-parse --is-bare-repository".data = false)
    (h2 : (sub ++ " ").data.isPrefixOf "status --porcelain".data = false)
    (hsh : ∀ x ∈ sh.launched, x.runs os sub = false) :
    ∀ x ∈ ((Git.new os path).isRepoModified "" sh).2.launched, x.runs os sub = false := by
  intro x hx
  rcases (Git.isRepoModified_shell os path sh).2 with e | e <;> rw [e] at hx <;>
    simp only [List.mem_append, List.mem_cons, List.mem_singleton, List.not_mem_nil,
      or_false] at hx
  · rcases hx with hx | rfl
    · exact hsh x hx
    · exact runs_bare os sub path h1
  · rcases hx with hx | rfl | rfl
    · exact hsh x hx
    · exact runs_bare os sub path h1
    · exact runs_status os sub path h2

theorem launchesOf_turn (os : Platform) (sub : String) (n : Note) (ctx : Context)
    (l : List Launch) (repo : RepoId) (hn : launches [n] = [])
    (h : ∀ x ∈ l, x.runs os sub = false) :
    launchesOf os sub (n :: (l.map (Note.launched ctx) ++ [Note.repoGui repo])) = [] := by
  have e : n :: (l.map (Note.launched ctx) ++ [Note.repoGui repo]) =
      [n] ++ (l.map (Note.launched ctx) ++ [Note.repoGui repo]) := rfl
  rw [e, launchesOf_append, launchesOf_append, launchesOf_map_launched os sub ctx l h]
  have h1 : launchesOf os sub [n] = [] := by unfold launchesOf; rw [hn]; rfl
  rw [h1]
  rfl

/-- The record of a control turn that dispatches step `k`, starts the processes
`l`, none of them a push, merge or rebase, and moves the job on. -/
theorem advance_turn (os : Platform) (job : JobId) (k : Int) (l : List Launch) (repo : RepoId)
    (h1 : ∀ x ∈ l, x.runs os "push" = false) (h2 : ∀ x ∈ l, x.runs os "merge" = false)
    (h3 : ∀ x ∈ l, x.runs os "rebase" = false) :
    Advance os job k
      (Note.dispatched job k :: (l.map (Note.launched .control) ++ [Note.repoGui repo])) := by
  refine ⟨?_, ?_, launchesOf_turn os _ _ _ l repo rfl h1, launchesOf_turn os _ _ _ l repo rfl h2,
    launchesOf_turn os _ _ _ l repo rfl h3⟩
  · have e : Note.dispatched job k :: (l.map (Note.launched .control) ++ [Note.repoGui repo]) =
        [Note.dispatched job k] ++ (l.map (Note.launched .control) ++ [Note.repoGui repo]) := rfl
    rw [e, dispatchedStates_append, dispatchedStates_append, dispatchedStates_map_launched]
    simp [dispatchedStates]
  · have e : Note.dispatched job k :: (l.map (Note.launched .control) ++ [Note.repoGui repo]) =
        [Note.dispatched job k] ++ (l.map (Note.launched .control) ++ [Note.repoGui repo]) := rfl
    rw [e, outcomes_append, outcomes_append, outcomes_map_launched]
    simp [outcomes]

/-- The processes of step 3 when it commits: none runs a subcommand that
differs from `rev-parse`, `status`, `add` and `commit`. -/
theorem commit_runs (os : Platform) (path ourName sub : String) (o : Obs)
    (h1 : (sub ++ " ").data.isPrefixOf "rev-parse --is-bare-repository".data = false)
    (h2 : (sub ++ " ").data.isPrefixOf "status --porcelain".data = false)
    (h3 : (sub ++ " ").data.isPrefixOf "add -A".data = false)
    (h4 : ∀ args : String,
      (sub ++ " ").data.isPrefixOf ("commit -m \"Changes from " ++ args).data = false) :
    ∀ x ∈ ((Git.new os path).isRepoModified ""
      ((Git.new os path).runGit
        ("commit -m \"Changes from " ++ QString.replaceChar ourName '"' "\\\"" ++ "\"") ""
        ((Git.new os path).runGit "add -A" ""
          ((Git.new os path).isRepoModified "" (Shell.start o.answers)).2).2).2).2.launched,
      x.runs os sub = false := by
  apply Git.isRepoModified_runs os path sub _ h1 h2
  intro x hx
  simp only [Git.runGit_shell, Git.pathOr_empty, Git.new_mGitCmd, List.mem_append,
    List.mem_singleton] at hx
  rcases hx with (hx | rfl) | rfl
  · exact Git.isRepoModified_runs os path sub _ h1 h2 (by simp [Shell.start]) x hx
  · rw [Launch.runs_git]; exact h3
  · rw [Launch.runs_git, String.append_assoc]; exact h4 _

theorem turn3 {m : MainWindow} {os : Platform} {ourName : String} {job : JobId}
    {repo : RepoId} {path branch : String} {rest : List JobId} (o : Obs)
    (h : JobOnBranch m os ourName job repo path branch 3 rest)
    (hok : Unmodified os path o ∨ CommitOk os path ourName o) :
    JobOnBranch (m.step (.gui o)) os ourName job repo path branch 4 rest ∧
    ∃ ext, (m.step (.gui o)).history = m.history ++ ext ∧ Advance os job 3 ext ∧
      (Unmodified os path o → launchesOf os "commit" ext = []) := by
  obtain ⟨⟨⟨hq, hr, hs, hg, hw, hp⟩, hos, hn, ht⟩, hrem, hbr⟩ := h
  simp only [MainWindow.step, hg, MainWindow.runGuiTask, MainWindow.processRefreshJobs, hq,
    List.isEmpty_cons, List.headD_cons, Bool.false_eq_true, if_false, hs, if_true]
  simp only [Int.reduceEq, if_false, if_true]
  rcases hok with ⟨hb1, hb2⟩ | hc
  · simp only [MainWindow.refresh_commit, MainWindow.note, MainWindow.setRepo, hr,
      if_true, hp, hos, hb1, hb2, Bool.false_eq_true, if_false, Bool.not_false,
      MainWindow.setJob, Repo.log,
      MainWindow.noteLaunched, MainWindow.refresh_nextState, MainWindow.updateRepoGui,
      MainWindow.refresh_continue, MainWindow.doInGuiThread]
    refine ⟨⟨⟨⟨?_, ?_, ?_, ?_, ?_, ?_⟩, ?_, ?_, ?_⟩, ?_, ?_⟩,
      Note.dispatched job 3 ::
        (((Git.new os path).isRepoModified "" (Shell.start o.answers)).2.launched.map
          (Note.launched .control) ++ [Note.repoGui repo]), ?_, ⟨?_, ?_, ?_, ?_, ?_⟩, ?_⟩
    all_goals try simp [hq, hr, hs, hw, hp, hos, hn, ht, hrem, hbr]
    · exact (advance_turn os job 3 _ repo
        (Git.isRepoModified_runs os path "push" _ (by decide) (by decide) (by simp [Shell.start]))
        (Git.isRepoModified_runs os path "merge" _ (by decide) (by decide) (by simp [Shell.start]))
        (Git.isRepoModified_runs os path "rebase" _ (by decide) (by decide)
          (by simp [Shell.start]))).dispatched
    · exact (advance_turn os job 3 _ repo
        (Git.isRepoModified_runs os path "push" _ (by decide) (by decide) (by simp [Shell.start]))
        (Git.isRepoModified_runs os path "merge" _ (by decide) (by decide) (by simp [Shell.start]))
        (Git.isRepoModified_runs os path "rebase" _ (by decide) (by decide)
          (by simp [Shell.start]))).outcomes
    · exact launchesOf_turn os _ _ _ _ repo rfl
        (Git.isRepoModified_runs os path "push" _ (by decide) (by decide) (by simp [Shell.start]))
    · exact launchesOf_turn os _ _ _ _ repo rfl
        (Git.isRepoModified_runs os path "merge" _ (by decide) (by decide) (by simp [Shell.start]))
    · exact launchesOf_turn os _ _ _ _ repo rfl
        (Git.isRepoModified_runs os path "rebase" _ (by decide) (by decide)
          (by simp [Shell.start]))
    · intro _
      exact launchesOf_turn os _ _ _ _ repo rfl
        (Git.isRepoModified_runs os path "commit" _ (by decide) (by decide)
          (by simp [Shell.start]))
  · simp only [CommitOk] at hc
    obtain ⟨c1, c2, c3, c4, c5, c6⟩ := hc
    simp only [MainWindow.refresh_commit, MainWindow.note, MainWindow.setRepo, hr,
      if_true, hp, hos, hn, c1, c2, c3, c4, c5, c6, Bool.false_eq_true, if_false,
      Bool.not_false, Bool.not_true, MainWindow.setJob, Repo.log,
      MainWindow.noteLaunched, MainWindow.refresh_nextState, MainWindow.updateRepoGui,
      MainWindow.refresh_continue, MainWindow.doInGuiThread]
    have hruns : ∀ sub : String,
        (sub ++ " ").data.isPrefixOf "rev-parse --is-bare-repository".data = false →
        (sub ++ " ").data.isPrefixOf "status --porcelain".data = false →
        (sub ++ " ").data.isPrefixOf "add -A".data = false →
        (∀ args : String,
          (sub ++ " ").data.isPrefixOf ("commit -m \"Changes from " ++ args).data = false) →
        _ := fun sub => commit_runs os path ourName sub o
    refine ⟨⟨⟨⟨?_, ?_, ?_, ?_, ?_, ?_⟩, ?_, ?_, ?_⟩, ?_, ?_⟩,
      Note.dispatched job 3 :: (_ ++ [Note.repoGui repo]), ?_,
      advance_turn os job 3 _ repo
        (hruns "push" (by decide) (by decide) (by decide)
          (by intro a; simp [String.data_append, List.isPrefixOf]))
        (hruns "merge" (by decide) (by decide) (by decide)
          (by intro a; simp [String.data_append, List.isPrefixOf]))
        (hruns "rebase" (by decide) (by decide) (by decide)
          (by intro a; simp [String.data_append, List.isPrefixOf])),
      fun hu => absurd (hu.2.symm.trans c2) Bool.false_ne_true⟩
    all_goals simp [hq, hr, hs, hw, hp, hos, hn, ht, hrem, hbr]

theorem Git.runGit_hasError (g : Git) (arguments path : String) (p : ProcessResult)
    (l : List Launch) :
    (g.runGit arguments path ⟨fun _ => p, l⟩).1.hasError = true ↔ ¬ p.ok := by
  unfold Git.runGit Git.run ProcessResult.ok
  simp only []
  split_ifs <;> simp_all

theorem turn4 {m : MainWindow} {os : Platform} {ourName : String} {job : JobId}
    {repo : RepoId} {path branch : String} {rest : List JobId} (o o' : Obs)
    (p : ProcessResult) (h : JobOnBranch m os ourName job repo path branch 4 rest)
    (hok : p.ok) :
    JobOnBranch (m.run [.gui o, .worker p, .gui o']) os ourName job repo path branch 5 rest ∧
    (m.run [.gui o, .worker p, .gui o']).history = m.history ++
      [.dispatched job 4, .repoGui repo,
       .launched .worker ⟨path, Git.init os ++ " " ++ ("fetch origin " ++ branch)⟩,
       .repoGui repo] := by
  obtain ⟨⟨⟨hq, hr, hs, hg, hw, hp⟩, hos, hn, ht⟩, hrem, hbr⟩ := h
  have herr : ∀ l, ((Git.new os path).runGit ("fetch " ++ "origin" ++ " " ++ branch) ""
      ⟨fun _ => p, l⟩).1.hasError = false := by
    intro l
    rw [Bool.eq_false_iff]
    intro hc
    exact (Git.runGit_hasError _ _ _ _ _).1 hc hok
  simp only [MainWindow.run, List.foldl_cons, List.foldl_nil]
  simp only [MainWindow.step, hg, MainWindow.runGuiTask, MainWindow.processRefreshJobs, hq,
    List.isEmpty_cons, List.headD_cons, Bool.false_eq_true, if_false, hs, if_true]
  simp only [Int.reduceEq, if_false, if_true]
  simp only [MainWindow.refresh_fetch, MainWindow.note, MainWindow.setRepo, hr,
    if_true, hp, hos, hw, MainWindow.doInWorkerThread, List.nil_append, Repo.log,
    MainWindow.updateRepoGui, MainWindow.runWorkerTask, WorkerTask.path,
    WorkerTask.arguments, hrem, hbr, MainWindow.noteLaunched, MainWindow.doInGuiThread,
    WorkerTask.reply, MainWindow.runGuiTask, Shell.start, herr, Bool.false_eq_true, if_false,
    MainWindow.refresh_nextState, MainWindow.setJob, MainWindow.refresh_continue]
  refine ⟨⟨⟨⟨?_, ?_, ?_, ?_, ?_, ?_⟩, ?_, ?_, ?_⟩, ?_, ?_⟩, ?_⟩ <;>
    simp [hq, hr, hs, hw, hp, hos, hn, ht, hrem, hbr, String.append_assoc]

theorem turn5_equal {m : MainWindow} {os : Platform} {ourName : String} {job : JobId}
    {repo : RepoId} {path branch : String} {rest : List JobId} (o : Obs)
    (h : JobOnBranch m os ourName job repo path branch 5 rest)
    (hc : (compared os path branch o).gitOutput.hasError = false)
    (he : (compared os path branch o).result = Compare.Equal) :
    (m.step (.gui o)).refreshJobs = rest ∧
    ((m.step (.gui o)).repoStore repo).ok = true ∧
    ((m.step (.gui o)).jobStore job).state = 5 ∧
    (m.step (.gui o)).history = m.history ++
      [.dispatched job 5, .launched .control ⟨path, revListCommand os branch⟩,
       .finished job true, .repoGui repo, .trayIcon, .popped job] := by
  obtain ⟨⟨⟨hq, hr, hs, hg, hw, hp⟩, hos, hn, ht⟩, hrem, hbr⟩ := h
  unfold compared at hc he
  simp only [MainWindow.step, hg, MainWindow.runGuiTask, MainWindow.processRefreshJobs, hq,
    List.isEmpty_cons, List.headD_cons, Bool.false_eq_true, if_false, hs, if_true]
  simp only [Int.reduceEq, if_false, if_true]
  simp only [MainWindow.refresh_compare, MainWindow.note, MainWindow.setRepo, hr,
    if_true, hp, hos, hrem, hbr, hc, he, Bool.false_eq_true, if_false,
    MainWindow.noteLaunched, MainWindow.refresh_successNext, Repo.log,
    MainWindow.startRepoTimer, MainWindow.updateRepoGui, MainWindow.updateTrayIcon,
    MainWindow.popRefreshJob, MainWindow.refresh_continue, MainWindow.doInGuiThread]
  refine ⟨?_, ?_, ?_, ?_⟩
  · split_ifs <;> simp [hq, MainWindow.note]
  · split_ifs <;> simp [hq, MainWindow.note, MainWindow.setRepo, QTimer.start]
  · split_ifs <;> simp [hq, MainWindow.note, MainWindow.setRepo, hs]
  · split_ifs <;>
      simp [hq, MainWindow.note, MainWindow.setRepo, revListCommand, Shell.start]

theorem turn5_worker {m : MainWindow} {os : Platform} {ourName : String} {job : JobId}
    {repo : RepoId} {path branch : String} {rest : List JobId} (o : Obs)
    (h : JobOnBranch m os ourName job repo path branch 5 rest)
    (hc : (compared os path branch o).gitOutput.hasError = false) :
    ((compared os path branch o).result = Compare.Ahead →
      JobPosted (m.step (.gui o)) os ourName job repo path branch 5 rest []
        [.ahead job repo path]) ∧
    ((compared os path branch o).result = Compare.Behind →
      JobPosted (m.step (.gui o)) os ourName job repo path branch 5 rest []
        [.behind job repo path]) ∧
    ((compared os path branch o).result = Compare.Diverged →
      JobPosted (m.step (.gui o)) os ourName job repo path branch 5 rest []
        [.diverged job repo path]) ∧
    ((compared os path branch o).result = Compare.Ahead ∨
      (compared os path branch o).result = Compare.Behind ∨
      (compared os path branch o).result = Compare.Diverged →
      (m.step (.gui o)).history = m.history ++
        [.dispatched job 5, .launched .control ⟨path, revListCommand os branch⟩,
         .repoGui repo]) := by
  obtain ⟨⟨⟨hq, hr, hs, hg, hw, hp⟩, hos, hn, ht⟩, hrem, hbr⟩ := h
  unfold compared at hc ⊢
  simp only [MainWindow.step, hg, MainWindow.runGuiTask, MainWindow.processRefreshJobs, hq,
    List.isEmpty_cons, List.headD_cons, Bool.false_eq_true, if_false, hs, if_true]
  simp only [Int.reduceEq, if_false, if_true]
  refine ⟨?_, ?_, ?_, ?_⟩
  · intro he
    simp only [MainWindow.refresh_compare, MainWindow.note, MainWindow.setRepo, hr,
      if_true, hp, hos, hrem, hbr, hc, he, Bool.false_eq_true, if_false,
      MainWindow.noteLaunched, MainWindow.refresh_ahead, Repo.log, hw,
      MainWindow.doInWorkerThread, List.nil_append, MainWindow.updateRepoGui]
    refine ⟨?_, ?_, ?_, ?_, ?_, ?_, ?_, ?_, ?_, ?_, ?_⟩ <;>
      simp [hq, hr, hs, hw, hp, hos, hn, ht, hrem, hbr]
  · intro he
    simp only [MainWindow.refresh_compare, MainWindow.note, MainWindow.setRepo, hr,
      if_true, hp, hos, hrem, hbr, hc, he, Bool.false_eq_true, if_false,
      MainWindow.noteLaunched, MainWindow.refresh_behind, Repo.log, hw,
      MainWindow.doInWorkerThread, List.nil_append, MainWindow.updateRepoGui]
    refine ⟨?_, ?_, ?_, ?_, ?_, ?_, ?_, ?_, ?_, ?_, ?_⟩ <;>
      simp [hq, hr, hs, hw, hp, hos, hn, ht, hrem, hbr]
  · intro he
    simp only [MainWindow.refresh_compare, MainWindow.note, MainWindow.setRepo, hr,
      if_true, hp, hos, hrem, hbr, hc, he, Bool.false_eq_true, if_false,
      MainWindow.noteLaunched, MainWindow.refresh_diverged, Repo.log, hw,
      MainWindow.doInWorkerThread, List.nil_append, MainWindow.updateRepoGui]
    refine ⟨?_, ?_, ?_, ?_, ?_, ?_, ?_, ?_, ?_, ?_, ?_⟩ <;>
      simp [hq, hr, hs, hw, hp, hos, hn, ht, hrem, hbr]
  · rintro (he | he | he) <;>
      simp only [MainWindow.refresh_compare, MainWindow.note, MainWindow.setRepo, hr,
        if_true, hp, hos, hrem, hbr, hc, he, Bool.false_eq_true, if_false,
        MainWindow.noteLaunched, MainWindow.refresh_ahead, MainWindow.refresh_behind,
        MainWindow.refresh_diverged, Repo.log, hw,
        MainWindow.doInWorkerThread, List.nil_append, MainWindow.updateRepoGui] <;>
      simp [revListCommand, Shell.start]

theorem worker_turn {m : MainWindow} {os : Platform} {ourName : String} {job : JobId}
    {repo : RepoId} {path branch : String} {k : Int} {rest : List JobId} {t : WorkerTask}
    (p : ProcessResult)
    (h : JobPosted m os ourName job repo path branch k rest [] [t]) :
    JobPosted (m.step (.worker p)) os ourName job repo path branch k rest
      [t.reply ((Git.new os t.path).runGit (t.arguments m) "" (Shell.start fun _ => p)).1] [] ∧
    (m.step (.worker p)).history = m.history ++
      [.launched .worker ⟨t.path, Git.init os ++ " " ++ t.arguments m⟩] := by
  obtain ⟨hq, hr, hs, hg, hw, hp, hos, hn, ht, hrem, hbr⟩ := h
  have harg : ∀ m' : MainWindow, m'.jobStore = m.jobStore → t.arguments m' = t.arguments m := by
    intro m' e
    cases t <;> simp [WorkerTask.arguments, e]
  simp only [MainWindow.step, hw, MainWindow.runWorkerTask, MainWindow.noteLaunched,
    MainWindow.doInGuiThread, hos, hg, List.nil_append]
  refine ⟨⟨?_, ?_, ?_, ?_, ?_, ?_, ?_, ?_, ?_, ?_, ?_⟩, ?_⟩ <;>
    simp [hq, hr, hs, hw, hp, hos, hn, ht, hrem, hbr, hg, Shell.start, harg]

/-! ### What the terminal calls change -/

theorem Repo.logError_fields (r : Repo) (summary errorString : String) :
    (r.logError summary errorString).ok = false ∧
    (r.logError summary errorString).statusSummary = summary ∧
    (r.logError summary errorString).settings = r.settings ∧
    (r.logError summary errorString).timer = r.timer ∧
    (r.logError summary errorString).refreshing = r.refreshing ∧
    (r.logError summary errorString).statusLines = r.statusLines ++ [summary] ++
      (if QString.isEmpty errorString then [] else [errorString]) := by
  unfold Repo.logError
  cases QString.isEmpty errorString <;> simp

theorem successNext_fields (m : MainWindow) (job : JobId) :
    (m.refresh_successNext job).refreshJobs = m.refreshJobs.tail ∧
    (m.refresh_successNext job).jobStore = m.jobStore ∧
    (m.refresh_successNext job).history = m.history ++
      ([.finished job true, .repoGui (m.jobStore job).repo, .trayIcon] ++
        (m.refreshJobs.head?.map Note.popped).toList) ∧
    (∀ r, ((m.refresh_successNext job).repoStore r).ok = (m.repoStore r).ok) ∧
    (∀ r, ((m.refresh_successNext job).repoStore r).statusLines = (m.repoStore r).statusLines) := by
  simp only [MainWindow.refresh_successNext, MainWindow.refresh_continue,
    MainWindow.doInGuiThread, MainWindow.popRefreshJob, MainWindow.updateTrayIcon,
    MainWindow.updateRepoGui, MainWindow.startRepoTimer, MainWindow.note, MainWindow.setRepo]
  split_ifs <;> cases hq : m.refreshJobs <;>
    simp [hq, MainWindow.note, MainWindow.setRepo] <;>
    (try constructor) <;> intro r <;> split_ifs <;> simp_all

theorem errorNext_fields (m : MainWindow) (job : JobId) :
    (m.refresh_errorNext job).refreshJobs = m.refreshJobs.tail ∧
    (m.refresh_errorNext job).jobStore = m.jobStore ∧
    (m.refresh_errorNext job).history = m.history ++
      ([.finished job false] ++
        (if m.visible then []
          else [.trayMessage (m.repoStore (m.jobStore job).repo).settings.path
            (m.repoStore (m.jobStore job).repo).statusSummary]) ++
        [.repoGui (m.jobStore job).repo, .trayIcon] ++
        (m.refreshJobs.head?.map Note.popped).toList) ∧
    (∀ r, ((m.refresh_errorNext job).repoStore r).ok = (m.repoStore r).ok) ∧
    (∀ r, ((m.refresh_errorNext job).repoStore r).timer = (m.repoStore r).timer) ∧
    (∀ r, ((m.refresh_errorNext job).repoStore r).statusLines = (m.repoStore r).statusLines) := by
  simp only [MainWindow.refresh_errorNext, MainWindow.refresh_continue,
    MainWindow.doInGuiThread, MainWindow.popRefreshJob, MainWindow.updateTrayIcon,
    MainWindow.updateRepoGui, MainWindow.note, MainWindow.setRepo]
  cases hv : m.visible <;> cases hq : m.refreshJobs <;>
    simp [hq, hv, MainWindow.note, MainWindow.setRepo] <;>
    refine ⟨?_, ?_, ?_⟩ <;> intro r <;> split_ifs <;> simp_all

theorem reply_success {m : MainWindow} {os : Platform} {ourName : String} {job : JobId}
    {repo : RepoId} {path branch : String} {k : Int} {rest : List JobId} {g : GuiTask}
    (o : Obs) (out : Output) (hg : g = .pushed job repo out ∨ g = .merged job repo out)
    (hout : out.hasError = false)
    (h : JobPosted m os ourName job repo path branch k rest [g] []) :
    (m.step (.gui o)).refreshJobs = rest ∧
    ((m.step (.gui o)).repoStore repo).ok = true ∧
    ((m.step (.gui o)).jobStore job).state = k ∧
    (m.step (.gui o)).history = m.history ++
      [.finished job true, .repoGui repo, .trayIcon, .popped job] := by
  obtain ⟨hq, hr, hs, hgp, hw, hp, hos, hn, ht, hrem, hbr⟩ := h
  rcases hg with rfl | rfl
  · simp only [MainWindow.step, hgp, MainWindow.runGuiTask, hout, Bool.false_eq_true, if_false]
    refine ⟨?_, ?_, ?_, ?_⟩
    · rw [(successNext_fields _ job).1]; simp [MainWindow.setRepo, hq]
    · rw [(successNext_fields _ job).2.2.2.1]; simp [MainWindow.setRepo]
    · rw [(successNext_fields _ job).2.1]; simp [MainWindow.setRepo, hs]
    · rw [(successNext_fields _ job).2.2.1]; simp [MainWindow.setRepo, hq, hr]
  · simp only [MainWindow.step, hgp, MainWindow.runGuiTask, hout, Bool.false_eq_true, if_false]
    refine ⟨?_, ?_, ?_, ?_⟩
    · rw [(successNext_fields _ job).1]; simp [MainWindow.setRepo, hq]
    · rw [(successNext_fields _ job).2.2.2.1]; simp [MainWindow.setRepo]
    · rw [(successNext_fields _ job).2.1]; simp [MainWindow.setRepo, hs]
    · rw [(successNext_fields _ job).2.2.1]; simp [MainWindow.setRepo, hq, hr]

theorem reply_rebase_fail {m : MainWindow} {os : Platform} {ourName : String} {job : JobId}
    {repo : RepoId} {path branch : String} {k : Int} {rest : List JobId}
    (o : Obs) (out : Output) (hout : out.hasError = true)
    (h : JobPosted m os ourName job repo path branch k rest [.rebased job repo out] []) :
    (m.step (.gui o)).refreshJobs = rest ∧
    ((m.step (.gui o)).repoStore repo).ok = false ∧
    ((m.step (.gui o)).jobStore job).state = k ∧
    ((m.step (.gui o)).repoStore repo).timer.active = false ∧
    rebaseGuidance ∈ ((m.step (.gui o)).repoStore repo).statusLines ∧
    ∃ tray, launches tray = [] ∧ outcomes tray = [] ∧ dispatchedStates job tray = [] ∧
      (m.step (.gui o)).history = m.history ++
        ([.finished job false] ++ tray ++ [.repoGui repo, .trayIcon, .popped job]) := by
  obtain ⟨hq, hr, hs, hgp, hw, hp, hos, hn, ht, hrem, hbr⟩ := h
  simp only [MainWindow.step, hgp, MainWindow.runGuiTask, hout, if_true]
  refine ⟨?_, ?_, ?_, ?_, ?_, ?_⟩
  · rw [(errorNext_fields _ job).1]; simp [MainWindow.setRepo, hq]
  · rw [(errorNext_fields _ job).2.2.2.1]
    simp [MainWindow.setRepo, Repo.log, (Repo.logError_fields _ _ _).1]
  · rw [(errorNext_fields _ job).2.1]; simp [MainWindow.setRepo, hs]
  · rw [(errorNext_fields _ job).2.2.2.2.1]
    simp [MainWindow.setRepo, Repo.log, (Repo.logError_fields _ _ _).2.2.2.1, ht]
  · rw [(errorNext_fields _ job).2.2.2.2.2]
    simp [MainWindow.setRepo, Repo.log, rebaseGuidance]
  · refine ⟨if m.visible then [] else [Note.trayMessage path "Git error while rebasing."],
      ?_, ?_, ?_, ?_⟩
    · split_ifs <;> rfl
    · split_ifs <;> rfl
    · split_ifs <;> rfl
    · rw [(errorNext_fields _ job).2.2.1]
      simp [MainWindow.setRepo, Repo.log, hq, hr, hp, (Repo.logError_fields _ _ _).2.1,
        (Repo.logError_fields _ _ _).2.2.1]

/-! ## Scenarios -/

theorem run_cons (m : MainWindow) (e : Event) (es : List Event) :
    m.run (e :: es) = (m.step e).run es := rfl

theorem run_nil (m : MainWindow) : m.run [] = m := rfl

theorem run_append (m : MainWindow) (a b : List Event) : m.run (a ++ b) = (m.run a).run b := by
  simp [MainWindow.run, List.foldl_append]

theorem ongoing_of_merge_head (os : Platform) (path : String) (o : Obs)
    (h : "MERGE_HEAD" ∈ o.entryList (path ++ "/.git")) :
    (Git.new os path).getOngoingOperationState "" o.entryList ≠ OpNone := by
  unfold Git.getOngoingOperationState
  simp only [Git.pathOr_empty]
  split_ifs <;> decide

theorem turn1_fail {m : MainWindow} {os : Platform} {ourName : String} {job : JobId}
    {repo : RepoId} {path : String} {rest : List JobId} (o : Obs)
    (h : JobRunning m os ourName job repo path 1 rest)
    (hop : (Git.new os path).getOngoingOperationState "" o.entryList ≠ OpNone) :
    (m.step (.gui o)).refreshJobs = rest ∧
    ((m.step (.gui o)).repoStore repo).ok = false ∧
    ((m.step (.gui o)).jobStore job).state = 1 ∧
    ∃ ext, (m.step (.gui o)).history = m.history ++ ext ∧
      dispatchedStates job ext = [1] ∧ outcomes ext = [(job, false)] ∧ launches ext = [] := by
  obtain ⟨⟨hq, hr, hs, hg, hw, hp⟩, hos, hn, ht⟩ := h
  simp only [MainWindow.step, hg, MainWindow.runGuiTask, MainWindow.processRefreshJobs, hq,
    List.isEmpty_cons, List.headD_cons, Bool.false_eq_true, if_false, hs, if_true]
  simp only [Int.reduceEq, if_false, if_true]
  simp only [MainWindow.refresh_ongoingOps, MainWindow.note, MainWindow.setRepo, hr, if_true,
    hp, hos, ne_eq, hop, not_false_eq_true]
  refine ⟨?_, ?_, ?_, ?_⟩
  · rw [(errorNext_fields _ job).1]; rfl
  · rw [(errorNext_fields _ job).2.2.2.1]
    simp [(Repo.logError_fields _ _ _).1]
  · rw [(errorNext_fields _ job).2.1]; exact hs
  · refine ⟨?w, ?h, ?_, ?_, ?_⟩
    case h =>
      rw [(errorNext_fields _ job).2.2.1]
      exact List.append_assoc _ _ _
    · split_ifs <;> simp [dispatchedStates, hr]
    · split_ifs <;> simp [outcomes, hr]
    · split_ifs <;> simp [launches, hr]

theorem launchesOf_of_launches_nil (os : Platform) (sub : String) (ext : List Note)
    (h : launches ext = []) : launchesOf os sub ext = [] := by
  unfold launchesOf; rw [h]; rfl

/-- The record of steps 0 to 4 of a job that reaches step 5. -/
theorem reach_step5 (m : MainWindow) (e0 : Event) (o0 o1 o2 o3 o4 o4' : Obs)
    (p4 : ProcessResult) (job : JobId) (repo : RepoId) (path : String) (rest : List JobId)
    (hstart : Starts m o0 job repo path rest e0) (h0 : InitOk m.os path o0)
    (h1 : OngoingOpsOk m.os path o1) (h2 : BranchRemoteOk m.os path o2)
    (h3 : Unmodified m.os path o3 ∨ CommitOk m.os path m.ourName o3) (h4 : p4.ok) :
    JobOnBranch (m.run [e0, .gui o1, .gui o2, .gui o3, .gui o4, .worker p4, .gui o4'])
      m.os m.ourName job repo path (detectedBranch m.os path o2) 5 rest ∧
    ∃ ext, (m.run [e0, .gui o1, .gui o2, .gui o3, .gui o4, .worker p4, .gui o4']).history =
        m.history ++ ext ∧
      dispatchedStates job ext = [0, 1, 2, 3, 4] ∧ outcomes ext = [] ∧
      launchesOf m.os "push" ext = [] ∧ launchesOf m.os "merge" ext = [] ∧
      launchesOf m.os "rebase" ext = [] ∧
      (Unmodified m.os path o3 → launchesOf m.os "commit" ext = []) := by
  obtain ⟨r1, ext0, hh0, hd0, ho0, hl0⟩ := turn0 hstart h0
  obtain ⟨r2, hh1⟩ := turn1 o1 r1 h1
  obtain ⟨r3, hh2⟩ := turn2 o2 r2 h2
  obtain ⟨r4, ext3, hh3, ha3, hc3⟩ := turn3 o3 r3 h3
  obtain ⟨r5, hh4⟩ := turn4 o4 o4' p4 r4 h4
  have hrun : m.run [e0, .gui o1, .gui o2, .gui o3, .gui o4, .worker p4, .gui o4'] =
      ((((m.step e0).step (.gui o1)).step (.gui o2)).step (.gui o3)).run
        [.gui o4, .worker p4, .gui o4'] := rfl
  rw [hrun]
  refine ⟨r5, ext0 ++ ([.dispatched job 1, .repoGui repo] ++ ([.dispatched job 2,
       .launched .control ⟨path, Git.init m.os ++ " " ++ "symbolic-ref --quiet --short HEAD"⟩,
       .launched .control ⟨path, Git.init m.os ++ " " ++ "remote get-url origin"⟩,
       .repoGui repo] ++ (ext3 ++ [.dispatched job 4, .repoGui repo,
       .launched .worker ⟨path, Git.init m.os ++ " " ++
         ("fetch origin " ++ detectedBranch m.os path o2)⟩,
       .repoGui repo]))), ?_, ?_, ?_, ?_, ?_, ?_, ?_⟩
  · rw [hh4, hh3, hh2, hh1, hh0]
    simp only [List.append_assoc]
  · simp only [dispatchedStates_append, hd0, ha3.dispatched]
    simp [dispatchedStates]
  · simp only [outcomes_append, ho0, ha3.outcomes]
    simp [outcomes]
  · simp only [launchesOf_append, launchesOf_of_launches_nil _ _ _ hl0, ha3.noPush]
    simp [launchesOf, launches, Launch.runs_git, List.isPrefixOf, String.data_append]
  · simp only [launchesOf_append, launchesOf_of_launches_nil _ _ _ hl0, ha3.noMerge]
    simp [launchesOf, launches, Launch.runs_git, List.isPrefixOf, String.data_append]
  · simp only [launchesOf_append, launchesOf_of_launches_nil _ _ _ hl0, ha3.noRebase]
    simp [launchesOf, launches, Launch.runs_git, List.isPrefixOf, String.data_append]
  · intro hu
    simp only [launchesOf_append, launchesOf_of_launches_nil _ _ _ hl0, hc3 hu]
    simp [launchesOf, launches, Launch.runs_git, List.isPrefixOf, String.data_append]

theorem run3 (m : MainWindow) (a b c : Event) :
    m.run [a, b, c] = ((m.step a).step b).step c := rfl

theorem step5_ahead {m : MainWindow} {os : Platform} {ourName : String} {job : JobId}
    {repo : RepoId} {path branch : String} {rest : List JobId} (o o' : Obs)
    (p : ProcessResult) (h : JobOnBranch m os ourName job repo path branch 5 rest)
    (hc : (compared os path branch o).gitOutput.hasError = false)
    (he : (compared os path branch o).result = Compare.Ahead) (hok : p.ok) :
    (m.run [.gui o, .worker p, .gui o']).refreshJobs = rest ∧
    ((m.run [.gui o, .worker p, .gui o']).repoStore repo).ok = true ∧
    ((m.run [.gui o, .worker p, .gui o']).jobStore job).state = 5 ∧
    (m.run [.gui o, .worker p, .gui o']).history = m.history ++
      [.dispatched job 5, .launched .control ⟨path, revListCommand os branch⟩, .repoGui repo,
       .launched .worker ⟨path, Git.init os ++ " " ++ ("push origin " ++ branch ++ ":" ++ branch)⟩,
       .finished job true, .repoGui repo, .trayIcon, .popped job] := by
  obtain ⟨ha, -, -, hh1⟩ := turn5_worker o h hc
  have w := ha he
  obtain ⟨r, hh2⟩ := worker_turn p w
  have hout : ((Git.new os (WorkerTask.ahead job repo path).path).runGit
      ((WorkerTask.ahead job repo path).arguments (m.step (.gui o))) ""
      (Shell.start fun _ => p)).1.hasError = false := by
    rw [Bool.eq_false_iff]
    intro hc
    exact (Git.runGit_hasError _ _ _ _ _).1 hc hok
  obtain ⟨hq, hok', hst, hh3⟩ := reply_success o' _ (Or.inl rfl) hout r
  rw [run3]
  refine ⟨hq, hok', hst, ?_⟩
  rw [hh3, hh2, hh1 (Or.inl he)]
  simp [WorkerTask.path, WorkerTask.arguments, w.remote, w.branch, String.append_assoc]

theorem step5_behind {m : MainWindow} {os : Platform} {ourName : String} {job : JobId}
    {repo : RepoId} {path branch : String} {rest : List JobId} (o o' : Obs)
    (p : ProcessResult) (h : JobOnBranch m os ourName job repo path branch 5 rest)
    (hc : (compared os path branch o).gitOutput.hasError = false)
    (he : (compared os path branch o).result = Compare.Behind) (hok : p.ok) :
    (m.run [.gui o, .worker p, .gui o']).refreshJobs = rest ∧
    ((m.run [.gui o, .worker p, .gui o']).repoStore repo).ok = true ∧
    ((m.run [.gui o, .worker p, .gui o']).jobStore job).state = 5 ∧
    (m.run [.gui o, .worker p, .gui o']).history = m.history ++
      [.dispatched job 5, .launched .control ⟨path, revListCommand os branch⟩, .repoGui repo,
       .launched .worker ⟨path, Git.init os ++ " " ++ ("merge --ff --ff-only origin/" ++ branch)⟩,
       .finished job true, .repoGui repo, .trayIcon, .popped job] := by
  obtain ⟨-, hb, -, hh1⟩ := turn5_worker o h hc
  have w := hb he
  obtain ⟨r, hh2⟩ := worker_turn p w
  have hout : ((Git.new os (WorkerTask.behind job repo path).path).runGit
      ((WorkerTask.behind job repo path).arguments (m.step (.gui o))) ""
      (Shell.start fun _ => p)).1.hasError = false := by
    rw [Bool.eq_false_iff]
    intro hc
    exact (Git.runGit_hasError _ _ _ _ _).1 hc hok
  obtain ⟨hq, hok', hst, hh3⟩ := reply_success o' _ (Or.inr rfl) hout r
  rw [run3]
  refine ⟨hq, hok', hst, ?_⟩
  rw [hh3, hh2, hh1 (Or.inr (Or.inl he))]
  simp [WorkerTask.path, WorkerTask.arguments, w.remote, w.branch, String.append_assoc]

theorem step5_diverged_fail {m : MainWindow} {os : Platform} {ourName : String} {job : JobId}
    {repo : RepoId} {path branch : String} {rest : List JobId} (o o' : Obs)
    (p : ProcessResult) (h : JobOnBranch m os ourName job repo path branch 5 rest)
    (hc : (compared os path branch o).gitOutput.hasError = false)
    (he : (compared os path branch o).result = Compare.Diverged) (hfail : ¬ p.ok) :
    (m.run [.gui o, .worker p, .gui o']).refreshJobs = rest ∧
    ((m.run [.gui o, .worker p, .gui o']).repoStore repo).ok = false ∧
    ((m.run [.gui o, .worker p, .gui o']).jobStore job).state = 5 ∧
    ((m.run [.gui o, .worker p, .gui o']).repoStore repo).timer.active = false ∧
    rebaseGuidance ∈ ((m.run [.gui o, .worker p, .gui o']).repoStore repo).statusLines ∧
    ∃ tray, launches tray = [] ∧ outcomes tray = [] ∧ dispatchedStates job tray = [] ∧
    (m.run [.gui o, .worker p, .gui o']).history = m.history ++
      ([.dispatched job 5, .launched .control ⟨path, revListCommand os branch⟩, .repoGui repo,
        .launched .worker ⟨path, Git.init os ++ " " ++ ("rebase origin/" ++ branch)⟩,
        .finished job false] ++ tray ++ [.repoGui repo, .trayIcon, .popped job]) := by
  obtain ⟨-, -, hd, hh1⟩ := turn5_worker o h hc
  have w := hd he
  obtain ⟨r, hh2⟩ := worker_turn p w
  have hout : ((Git.new os (WorkerTask.diverged job repo path).path).runGit
      ((WorkerTask.diverged job repo path).arguments (m.step (.gui o))) ""
      (Shell.start fun _ => p)).1.hasError = true :=
    (Git.runGit_hasError _ _ _ _ _).2 hfail
  obtain ⟨hq, hok', hst, htm, hg, tray, t1, t2, t3, hh3⟩ := reply_rebase_fail o' _ hout r
  rw [run3]
  refine ⟨hq, hok', hst, htm, hg, tray, t1, t2, t3, ?_⟩
  rw [hh3, hh2, hh1 (Or.inr (Or.inr he))]
  simp [WorkerTask.path, WorkerTask.arguments, w.remote, w.branch, String.append_assoc]

end GidSync

namespace GidSync

/-! ## The repository probe and the command executor -/

/-- C15. For every listing of the `.git` directory, `getOngoingOperationState`
returns the flag of the first marker present in the order `rebase-merge` or
`rebase-apply` (`OpRebase`), `MERGE_HEAD` (`OpMerge`), `CHERRY_PICK_HEAD`
(`OpCherryPick`), `BISECT_LOG` (`OpBisect`), and `OpNone` when none is present;
the result is one of these five values, so it never has more than one bit set,
whatever markers coexist. -/
theorem ongoing_operation_first_match (g : Git) (path : String)
    (entryList : String → List String) :
    g.getOngoingOperationState path entryList =
      (if "rebase-merge" ∈ entryList (g.pathOr path ++ "/.git") ∨
          "rebase-apply" ∈ entryList (g.pathOr path ++ "/.git") then OpRebase
       else if "MERGE_HEAD" ∈ entryList (g.pathOr path ++ "/.git") then OpMerge
       else if "CHERRY_PICK_HEAD" ∈ entryList (g.pathOr path ++ "/.git") then OpCherryPick
       else if "BISECT_LOG" ∈ entryList (g.pathOr path ++ "/.git") then OpBisect
       else OpNone) ∧
    g.getOngoingOperationState path entryList ∈
      [OpNone, OpRebase, OpMerge, OpCherryPick, OpBisect] ∧
    g.getOngoingOperationState path entryList &&&
      (g.getOngoingOperationState path entryList - 1) = 0 := by
  unfold Git.getOngoingOperationState
  simp only []
  by_cases h1 : "rebase-merge" ∈ entryList (g.pathOr path ++ "/.git") <;>
  by_cases h2 : "rebase-apply" ∈ entryList (g.pathOr path ++ "/.git") <;>
  by_cases h3 : "MERGE_HEAD" ∈ entryList (g.pathOr path ++ "/.git") <;>
  by_cases h4 : "CHERRY_PICK_HEAD" ∈ entryList (g.pathOr path ++ "/.git") <;>
  by_cases h5 : "BISECT_LOG" ∈ entryList (g.pathOr path ++ "/.git") <;>
  simp only [h1, h2, h3, h4, h5, if_true, if_false, or_true, true_or, or_self] <;>
  decide

/-- C18. For every process that has finished, the `Git::Output` of `Git::run`
has `hasError = true` if and only if the process crashed or its exit code is
not 0; when the process did not crash `exitcode` is the exit code of the
process (after a crash it keeps its initial value -1); the command text and the
two captured streams are those of the process. -/
theorem run_reports_crash_or_exit_code (g : Git) (path cmd : String) (sh : Shell) :
    ((g.run path cmd sh).1.hasError = true ↔
      ((sh.answers sh.launched.length).crashExit = true ∨
        (sh.answers sh.launched.length).exitCode ≠ 0)) ∧
    ((sh.answers sh.launched.length).crashExit = false →
      (g.run path cmd sh).1.exitcode = (sh.answers sh.launched.length).exitCode) ∧
    ((sh.answers sh.launched.length).crashExit = true → (g.run path cmd sh).1.exitcode = -1) ∧
    (g.run path cmd sh).1.command = cmd ∧
    (g.run path cmd sh).1.stdoutput = (sh.answers sh.launched.length).standardOutput ∧
    (g.run path cmd sh).1.erroroutput = (sh.answers sh.launched.length).standardError ∧
    (g.run path cmd sh).2.launched = sh.launched ++ [⟨path, cmd⟩] := by
  unfold Git.run
  cases hc : (sh.answers sh.launched.length).crashExit <;>
    by_cases he : (sh.answers sh.launched.length).exitCode = 0 <;>
    simp [hc, he]


theorem Git.pathOr_pathOr (g : Git) (path : String) : g.pathOr (g.pathOr path) = g.pathOr path := by
  unfold Git.pathOr
  by_cases h : QString.isEmpty path = true
  · simp [h]
  · simp [h]

theorem launches_refresh_init (m : MainWindow) (o : Obs) (job : JobId) :
    launches (m.refresh_init o job).history = launches m.history := by
  simp only [MainWindow.refresh_init]
  split_ifs
  · rw [(errorNext_fields _ job).2.2.1]
    cases hv : m.visible <;>
      simp [launches_append, launches, MainWindow.setRepo, hv]
  · rw [(errorNext_fields _ job).2.2.1]
    cases hv : m.visible <;>
      simp [launches_append, launches, MainWindow.setRepo, hv]
  · simp [MainWindow.refresh_nextState, MainWindow.refresh_continue, MainWindow.doInGuiThread,
      MainWindow.updateRepoGui, MainWindow.note, MainWindow.setJob, MainWindow.setRepo,
      launches_append, launches]

/-- C16. For every listing of the top-level entries of a path, `pathIsRepo`
returns `true` if and only if the entries contain `.git` or contain all four of
`objects`, `refs`, `config` and `HEAD`; in every case the `gitOutput` it returns
is the default one (the `rev-parse --git-dir` fallback after `return false` is
never run), and step 0 of a job, the caller of `pathIsRepo`, starts no
process. -/
theorem pathIsRepo_quick_checks_only (g : Git) (path : String)
    (entryList : String → List String) (m : MainWindow) (o : Obs) (job : JobId) :
    ((g.pathIsRepo path entryList).result = true ↔
      (".git" ∈ entryList (g.pathOr path) ∨
        ("objects" ∈ entryList (g.pathOr path) ∧ "refs" ∈ entryList (g.pathOr path) ∧
          "config" ∈ entryList (g.pathOr path) ∧ "HEAD" ∈ entryList (g.pathOr path)))) ∧
    (g.pathIsRepo path entryList).gitOutput = {} ∧
    (g.pathIsRepo path entryList).gitOutput.hasError = false ∧
    (g.pathIsRepo path entryList).gitOutput.command = "" ∧
    launches (m.refresh_init o job).history = launches m.history := by
  refine ⟨?_, ?_, ?_, ?_, launches_refresh_init m o job⟩ <;>
    unfold Git.pathIsRepo <;> simp only [] <;> split_ifs <;> simp_all

/-- C17, as stated, fails: a repository whose bare query prints `true` is bare,
`isRepoModified` returns `false`, and yet it has started a process, the bare
query itself. -/
theorem isRepoModified_bare_counterexample :
    ((Git.new .other "/r").isBareRepository ""
      (Shell.start (fun _ => ProcessResult.success "true\n"))).1.result = true ∧
    ((Git.new .other "/r").isRepoModified ""
      (Shell.start (fun _ => ProcessResult.success "true\n"))).1.result = false ∧
    ((Git.new .other "/r").isRepoModified ""
      (Shell.start (fun _ => ProcessResult.success "true\n"))).2.launched =
        [⟨"/r", "git rev-parse --is-bare-repository"⟩] := by
  decide

/-- C17, amended. `isRepoModified` first runs the bare query
`rev-parse --is-bare-repository`; the repository counts as bare when that
process reports no error and its output starts with `true`. If it is bare,
`isRepoModified` returns `false` with the default `gitOutput` and has started
no other process: the status query is not run. Otherwise it runs
`status --porcelain` next, in the same directory, and returns `true` exactly
when that process did not crash, exited with code 0 and printed something. -/
theorem isRepoModified_bare_short_circuit (g : Git) (path : String) (sh : Shell) :
    ((g.isBareRepository (g.pathOr path) sh).1.result = true ↔
      ((sh.answers sh.launched.length).crashExit = false ∧
        (sh.answers sh.launched.length).exitCode = 0 ∧
        QByteArray.startsWith (sh.answers sh.launched.length).standardOutput "true" = true)) ∧
    ((g.isBareRepository (g.pathOr path) sh).1.result = true →
      (g.isRepoModified path sh).1.result = false ∧
      (g.isRepoModified path sh).1.gitOutput.hasError = false ∧
      (g.isRepoModified path sh).1.gitOutput.command = "" ∧
      (g.isRepoModified path sh).2.launched = sh.launched ++
        [⟨g.pathOr path, g.mGitCmd ++ " " ++ "rev-parse --is-bare-repository"⟩]) ∧
    ((g.isBareRepository (g.pathOr path) sh).1.result = false →
      (g.isRepoModified path sh).2.launched = sh.launched ++
        [⟨g.pathOr path, g.mGitCmd ++ " " ++ "rev-parse --is-bare-repository"⟩,
         ⟨g.pathOr path, g.mGitCmd ++ " " ++ "status --porcelain"⟩] ∧
      ((g.isRepoModified path sh).1.result = true ↔
        ((sh.answers (sh.launched.length + 1)).crashExit = false ∧
          (sh.answers (sh.launched.length + 1)).exitCode = 0 ∧
          QString.isEmpty (sh.answers (sh.launched.length + 1)).standardOutput = false)) ∧
      (g.isRepoModified path sh).1.gitOutput.command = g.mGitCmd ++ " " ++ "status --porcelain") := by
  unfold Git.isRepoModified Git.isBareRepository Git.runGit Git.run
  simp only [Git.pathOr_pathOr]
  cases hc : (sh.answers sh.launched.length).crashExit <;>
    by_cases hx : (sh.answers sh.launched.length).exitCode = 0 <;>
    cases hs : QByteArray.startsWith (sh.answers sh.launched.length).standardOutput "true" <;>
    cases hc1 : (sh.answers (sh.launched.length + 1)).crashExit <;>
    by_cases hx1 : (sh.answers (sh.launched.length + 1)).exitCode = 0 <;>
    by_cases hs1 : QString.isEmpty (sh.answers (sh.launched.length + 1)).standardOutput = true <;>
    simp [hc, hx, hs, hc1, hx1, hs1]

/-! ## Field by field: what the building blocks change -/

@[simp] theorem setRepo_fields (m : MainWindow) (r : RepoId) (f : Repo → Repo) :
    (m.setRepo r f).os = m.os ∧
    (m.setRepo r f).ourName = m.ourName ∧
    (m.setRepo r f).visible = m.visible ∧
    (m.setRepo r f).repoCount = m.repoCount ∧
    (m.setRepo r f).repos = m.repos ∧
    (m.setRepo r f).jobStore = m.jobStore ∧
    (m.setRepo r f).jobCount = m.jobCount ∧
    (m.setRepo r f).refreshJobs = m.refreshJobs ∧
    (m.setRepo r f).refreshBusy = m.refreshBusy ∧
    (m.setRepo r f).guiPosted = m.guiPosted ∧
    (m.setRepo r f).workerPosted = m.workerPosted ∧
    (m.setRepo r f).history = m.history := by
  simp [MainWindow.setRepo]

@[simp] theorem setRepo_same (m : MainWindow) (r : RepoId) (f : Repo → Repo) :
    (m.setRepo r f).repoStore r = f (m.repoStore r) := by
  simp [MainWindow.setRepo]

@[simp] theorem setRepo_other (m : MainWindow) (r r' : RepoId) (f : Repo → Repo) (h : r' ≠ r) :
    (m.setRepo r f).repoStore r' = m.repoStore r' := by
  simp [MainWindow.setRepo, h]

@[simp] theorem setJob_fields (m : MainWindow) (j : JobId) (f : RefreshJob → RefreshJob) :
    (m.setJob j f).os = m.os ∧
    (m.setJob j f).ourName = m.ourName ∧
    (m.setJob j f).visible = m.visible ∧
    (m.setJob j f).repoStore = m.repoStore ∧
    (m.setJob j f).repoCount = m.repoCount ∧
    (m.setJob j f).repos = m.repos ∧
    (m.setJob j f).jobCount = m.jobCount ∧
    (m.setJob j f).refreshJobs = m.refreshJobs ∧
    (m.setJob j f).refreshBusy = m.refreshBusy ∧
    (m.setJob j f).guiPosted = m.guiPosted ∧
    (m.setJob j f).workerPosted = m.workerPosted ∧
    (m.setJob j f).history = m.history := by
  simp [MainWindow.setJob]

@[simp] theorem setJob_same (m : MainWindow) (j : JobId) (f : RefreshJob → RefreshJob) :
    (m.setJob j f).jobStore j = f (m.jobStore j) := by
  simp [MainWindow.setJob]

@[simp] theorem setJob_other (m : MainWindow) (j j' : JobId) (f : RefreshJob → RefreshJob)
    (h : j' ≠ j) : (m.setJob j f).jobStore j' = m.jobStore j' := by
  simp [MainWindow.setJob, h]

@[simp] theorem note_fields (m : MainWindow) (n : Note) :
    (m.note n).os = m.os ∧
    (m.note n).ourName = m.ourName ∧
    (m.note n).visible = m.visible ∧
    (m.note n).repoStore = m.repoStore ∧
    (m.note n).repoCount = m.repoCount ∧
    (m.note n).repos = m.repos ∧
    (m.note n).jobStore = m.jobStore ∧
    (m.note n).jobCount = m.jobCount ∧
    (m.note n).refreshJobs = m.refreshJobs ∧
    (m.note n).refreshBusy = m.refreshBusy ∧
    (m.note n).guiPosted = m.guiPosted ∧
    (m.note n).workerPosted = m.workerPosted ∧
    (m.note n).history = m.history ++ [n] := by
  simp [MainWindow.note]

@[simp] theorem noteLaunched_fields (m : MainWindow) (ctx : Context) (sh : Shell) :
    (m.noteLaunched ctx sh).os = m.os ∧
    (m.noteLaunched ctx sh).ourName = m.ourName ∧
    (m.noteLaunched ctx sh).visible = m.visible ∧
    (m.noteLaunched ctx sh).repoStore = m.repoStore ∧
    (m.noteLaunched ctx sh).repoCount = m.repoCount ∧
    (m.noteLaunched ctx sh).repos = m.repos ∧
    (m.noteLaunched ctx sh).jobStore = m.jobStore ∧
    (m.noteLaunched ctx sh).jobCount = m.jobCount ∧
    (m.noteLaunched ctx sh).refreshJobs = m.refreshJobs ∧
    (m.noteLaunched ctx sh).refreshBusy = m.refreshBusy ∧
    (m.noteLaunched ctx sh).guiPosted = m.guiPosted ∧
    (m.noteLaunched ctx sh).workerPosted = m.workerPosted ∧
    (m.noteLaunched ctx sh).history = m.history ++ sh.launched.map (Note.launched ctx) := by
  simp [MainWindow.noteLaunched]

@[simp] theorem doInGuiThread_fields (m : MainWindow) (t : GuiTask) :
    (m.doInGuiThread t).os = m.os ∧
    (m.doInGuiThread t).ourName = m.ourName ∧
    (m.doInGuiThread t).visible = m.visible ∧
    (m.doInGuiThread t).repoStore = m.repoStore ∧
    (m.doInGuiThread t).repoCount = m.repoCount ∧
    (m.doInGuiThread t).repos = m.repos ∧
    (m.doInGuiThread t).jobStore = m.jobStore ∧
    (m.doInGuiThread t).jobCount = m.jobCount ∧
    (m.doInGuiThread t).refreshJobs = m.refreshJobs ∧
    (m.doInGuiThread t).refreshBusy = m.refreshBusy ∧
    (m.doInGuiThread t).guiPosted = m.guiPosted ++ [t] ∧
    (m.doInGuiThread t).workerPosted = m.workerPosted ∧
    (m.doInGuiThread t).history = m.history := by
  simp [MainWindow.doInGuiThread]

@[simp] theorem doInWorkerThread_fields (m : MainWindow) (t : WorkerTask) :
    (m.doInWorkerThread t).os = m.os ∧
    (m.doInWorkerThread t).ourName = m.ourName ∧
    (m.doInWorkerThread t).visible = m.visible ∧
    (m.doInWorkerThread t).repoStore = m.repoStore ∧
    (m.doInWorkerThread t).repoCount = m.repoCount ∧
    (m.doInWorkerThread t).repos = m.repos ∧
    (m.doInWorkerThread t).jobStore = m.jobStore ∧
    (m.doInWorkerThread t).jobCount = m.jobCount ∧
    (m.doInWorkerThread t).refreshJobs = m.refreshJobs ∧
    (m.doInWorkerThread t).refreshBusy = m.refreshBusy ∧
    (m.doInWorkerThread t).guiPosted = m.guiPosted ∧
    (m.doInWorkerThread t).workerPosted = m.workerPosted ++ [t] ∧
    (m.doInWorkerThread t).history = m.history := by
  simp [MainWindow.doInWorkerThread]

@[simp] theorem updateRepoGui_fields (m : MainWindow) (r : RepoId) :
    (m.updateRepoGui r).os = m.os ∧
    (m.updateRepoGui r).ourName = m.ourName ∧
    (m.updateRepoGui r).visible = m.visible ∧
    (m.updateRepoGui r).repoStore = m.repoStore ∧
    (m.updateRepoGui r).repoCount = m.repoCount ∧
    (m.updateRepoGui r).repos = m.repos ∧
    (m.updateRepoGui r).jobStore = m.jobStore ∧
    (m.updateRepoGui r).jobCount = m.jobCount ∧
    (m.updateRepoGui r).refreshJobs = m.refreshJobs ∧
    (m.updateRepoGui r).refreshBusy = m.refreshBusy ∧
    (m.updateRepoGui r).guiPosted = m.guiPosted ∧
    (m.updateRepoGui r).workerPosted = m.workerPosted ∧
    (m.updateRepoGui r).history = m.history ++ [.repoGui r] := by
  simp [MainWindow.updateRepoGui, MainWindow.note]

@[simp] theorem updateTrayIcon_fields (m : MainWindow) :
    (m.updateTrayIcon).os = m.os ∧
    (m.updateTrayIcon).ourName = m.ourName ∧
    (m.updateTrayIcon).visible = m.visible ∧
    (m.updateTrayIcon).repoStore = m.repoStore ∧
    (m.updateTrayIcon).repoCount = m.repoCount ∧
    (m.updateTrayIcon).repos = m.repos ∧
    (m.updateTrayIcon).jobStore = m.jobStore ∧
    (m.updateTrayIcon).jobCount = m.jobCount ∧
    (m.updateTrayIcon).refreshJobs = m.refreshJobs ∧
    (m.updateTrayIcon).refreshBusy = m.refreshBusy ∧
    (m.updateTrayIcon).guiPosted = m.guiPosted ∧
    (m.updateTrayIcon).workerPosted = m.workerPosted ∧
    (m.updateTrayIcon).history = m.history ++ [.trayIcon] := by
  simp [MainWindow.updateTrayIcon, MainWindow.note]

@[simp] theorem popRefreshJob_fields (m : MainWindow) :
    (m.popRefreshJob).os = m.os ∧
    (m.popRefreshJob).ourName = m.ourName ∧
    (m.popRefreshJob).visible = m.visible ∧
    (m.popRefreshJob).repoStore = m.repoStore ∧
    (m.popRefreshJob).repoCount = m.repoCount ∧
    (m.popRefreshJob).repos = m.repos ∧
    (m.popRefreshJob).jobStore = m.jobStore ∧
    (m.popRefreshJob).jobCount = m.jobCount ∧
    (m.popRefreshJob).refreshJobs = m.refreshJobs.tail ∧
    (m.popRefreshJob).refreshBusy = m.refreshBusy ∧
    (m.popRefreshJob).guiPosted = m.guiPosted ∧
    (m.popRefreshJob).workerPosted = m.workerPosted ∧
    (m.popRefreshJob).history = m.history ++ (m.refreshJobs.head?.map Note.popped).toList := by
  unfold MainWindow.popRefreshJob
  cases hq : m.refreshJobs <;> simp [MainWindow.note, hq]

@[simp] theorem startRepoTimer_fields (m : MainWindow) (r : RepoId) :
    (m.startRepoTimer r).os = m.os ∧
    (m.startRepoTimer r).ourName = m.ourName ∧
    (m.startRepoTimer r).visible = m.visible ∧
    (m.startRepoTimer r).repoCount = m.repoCount ∧
    (m.startRepoTimer r).repos = m.repos ∧
    (m.startRepoTimer r).jobStore = m.jobStore ∧
    (m.startRepoTimer r).jobCount = m.jobCount ∧
    (m.startRepoTimer r).refreshJobs = m.refreshJobs ∧
    (m.startRepoTimer r).refreshBusy = m.refreshBusy ∧
    (m.startRepoTimer r).guiPosted = m.guiPosted ∧
    (m.startRepoTimer r).workerPosted = m.workerPosted ∧
    (m.startRepoTimer r).history = m.history := by
  unfold MainWindow.startRepoTimer
  simp only []
  split_ifs <;> simp

@[simp] theorem startRepoTimer_same (m : MainWindow) (r : RepoId) :
    (m.startRepoTimer r).repoStore r =
      { m.repoStore r with
        timer :=
          if 0 < int32 ((m.repoStore r).settings.refreshRateMinutes * 60 * 1000) then
            (m.repoStore r).timer.start
              (int32 ((m.repoStore r).settings.refreshRateMinutes * 60 * 1000))
          else (m.repoStore r).timer } := by
  unfold MainWindow.startRepoTimer
  simp only [gt_iff_lt]
  split_ifs <;> simp

@[simp] theorem startRepoTimer_other (m : MainWindow) (r r' : RepoId) (h : r' ≠ r) :
    (m.startRepoTimer r).repoStore r' = m.repoStore r' := by
  unfold MainWindow.startRepoTimer
  simp only []
  split_ifs <;> simp [h]

@[simp] theorem errorNext_fields_all (m : MainWindow) (job : JobId) :
    (m.refresh_errorNext job).os = m.os ∧
    (m.refresh_errorNext job).ourName = m.ourName ∧
    (m.refresh_errorNext job).visible = m.visible ∧
    (m.refresh_errorNext job).repoCount = m.repoCount ∧
    (m.refresh_errorNext job).repos = m.repos ∧
    (m.refresh_errorNext job).jobStore = m.jobStore ∧
    (m.refresh_errorNext job).jobCount = m.jobCount ∧
    (m.refresh_errorNext job).refreshJobs = m.refreshJobs.tail ∧
    (m.refresh_errorNext job).refreshBusy = m.refreshBusy ∧
    (m.refresh_errorNext job).guiPosted = m.guiPosted ++ [.processRefreshJobs] ∧
    (m.refresh_errorNext job).workerPosted = m.workerPosted ∧
    (m.refresh_errorNext job).history = m.history ++
      ([.finished job false] ++
        (if m.visible then []
          else [.trayMessage (m.repoStore (m.jobStore job).repo).settings.path
            (m.repoStore (m.jobStore job).repo).statusSummary]) ++
        [.repoGui (m.jobStore job).repo, .trayIcon] ++
        (m.refreshJobs.head?.map Note.popped).toList) := by
  simp only [MainWindow.refresh_errorNext, MainWindow.refresh_continue]
  split_ifs <;> simp_all

@[simp] theorem errorNext_same (m : MainWindow) (job : JobId) (r : RepoId)
    (h : r = (m.jobStore job).repo) :
    (m.refresh_errorNext job).repoStore r = { m.repoStore r with refreshing := false } := by
  subst h
  simp only [MainWindow.refresh_errorNext, MainWindow.refresh_continue]
  split_ifs <;> simp

@[simp] theorem errorNext_other (m : MainWindow) (job : JobId) (r : RepoId)
    (h : r ≠ (m.jobStore job).repo) :
    (m.refresh_errorNext job).repoStore r = m.repoStore r := by
  simp only [MainWindow.refresh_errorNext, MainWindow.refresh_continue]
  split_ifs <;> simp [h]

@[simp] theorem successNext_fields_all (m : MainWindow) (job : JobId) :
    (m.refresh_successNext job).os = m.os ∧
    (m.refresh_successNext job).ourName = m.ourName ∧
    (m.refresh_successNext job).visible = m.visible ∧
    (m.refresh_successNext job).repoCount = m.repoCount ∧
    (m.refresh_successNext job).repos = m.repos ∧
    (m.refresh_successNext job).jobStore = m.jobStore ∧
    (m.refresh_successNext job).jobCount = m.jobCount ∧
    (m.refresh_successNext job).refreshJobs = m.refreshJobs.tail ∧
    (m.refresh_successNext job).refreshBusy = m.refreshBusy ∧
    (m.refresh_successNext job).guiPosted = m.guiPosted ++ [.processRefreshJobs] ∧
    (m.refresh_successNext job).workerPosted = m.workerPosted ∧
    (m.refresh_successNext job).history = m.history ++
      ([.finished job true, .repoGui (m.jobStore job).repo, .trayIcon] ++
        (m.refreshJobs.head?.map Note.popped).toList) := by
  simp [MainWindow.refresh_successNext, MainWindow.refresh_continue]

@[simp] theorem successNext_same (m : MainWindow) (job : JobId) (r : RepoId)
    (h : r = (m.jobStore job).repo) :
    (m.refresh_successNext job).repoStore r =
      { m.repoStore r with
        refreshing := false
        timer :=
          if 0 < int32 ((m.repoStore r).settings.refreshRateMinutes * 60 * 1000) then
            (m.repoStore r).timer.start
              (int32 ((m.repoStore r).settings.refreshRateMinutes * 60 * 1000))
          else (m.repoStore r).timer } := by
  subst h
  simp only [MainWindow.refresh_successNext, MainWindow.refresh_continue]
  simp only [popRefreshJob_fields, doInGuiThread_fields, updateTrayIcon_fields,
    updateRepoGui_fields, startRepoTimer_same, setRepo_same, note_fields, setRepo_fields]

@[simp] theorem successNext_other (m : MainWindow) (job : JobId) (r : RepoId)
    (h : r ≠ (m.jobStore job).repo) :
    (m.refresh_successNext job).repoStore r = m.repoStore r := by
  simp [MainWindow.refresh_successNext, MainWindow.refresh_continue, h]

@[simp] theorem nextState_fields (m : MainWindow) (job : JobId) :
    (m.refresh_nextState job).os = m.os ∧
    (m.refresh_nextState job).ourName = m.ourName ∧
    (m.refresh_nextState job).visible = m.visible ∧
    (m.refresh_nextState job).repoStore = m.repoStore ∧
    (m.refresh_nextState job).repoCount = m.repoCount ∧
    (m.refresh_nextState job).repos = m.repos ∧
    (m.refresh_nextState job).jobCount = m.jobCount ∧
    (m.refresh_nextState job).refreshJobs = m.refreshJobs ∧
    (m.refresh_nextState job).refreshBusy = m.refreshBusy ∧
    (m.refresh_nextState job).guiPosted = m.guiPosted ++ [.processRefreshJobs] ∧
    (m.refresh_nextState job).workerPosted = m.workerPosted ∧
    (m.refresh_nextState job).history = m.history ++ [.repoGui (m.jobStore job).repo] := by
  simp [MainWindow.refresh_nextState, MainWindow.refresh_continue]

@[simp] theorem nextState_same (m : MainWindow) (job : JobId) :
    (m.refresh_nextState job).jobStore job =
      { m.jobStore job with state := (m.jobStore job).state + 1 } := by
  simp [MainWindow.refresh_nextState, MainWindow.refresh_continue]

@[simp] theorem nextState_other (m : MainWindow) (job j : JobId) (h : j ≠ job) :
    (m.refresh_nextState job).jobStore j = m.jobStore j := by
  simp [MainWindow.refresh_nextState, MainWindow.refresh_continue, h]


/-! ## Reading an extension of the record -/

@[simp] theorem outcomes_nil : outcomes [] = [] := rfl

@[simp] theorem outcomes_cons (n : Note) (h : List Note) :
    outcomes (n :: h) =
      (match n with | .finished job success => [(job, success)] | _ => []) ++ outcomes h := by
  cases n <;> rfl

@[simp] theorem outcomes_ite (c : Prop) [Decidable c] (a b : List Note) :
    outcomes (if c then a else b) = if c then outcomes a else outcomes b := by
  split_ifs <;> rfl

@[simp] theorem outcomes_toList (x : Option JobId) :
    outcomes (x.map Note.popped).toList = [] := by
  cases x <;> rfl

@[simp] theorem launches_nil : launches [] = [] := rfl

@[simp] theorem launches_cons (n : Note) (h : List Note) :
    launches (n :: h) =
      (match n with | .launched ctx l => [(ctx, l)] | _ => []) ++ launches h := by
  cases n <;> rfl

@[simp] theorem launches_ite (c : Prop) [Decidable c] (a b : List Note) :
    launches (if c then a else b) = if c then launches a else launches b := by
  split_ifs <;> rfl

@[simp] theorem launches_toList (x : Option JobId) :
    launches (x.map Note.popped).toList = [] := by
  cases x <;> rfl

@[simp] theorem enqueuedJobs_nil : enqueuedJobs [] = [] := rfl

@[simp] theorem enqueuedJobs_cons (n : Note) (h : List Note) :
    enqueuedJobs (n :: h) =
      (match n with | .enqueued job _ => [job] | _ => []) ++ enqueuedJobs h := by
  cases n <;> rfl

@[simp] theorem enqueuedJobs_append (a b : List Note) :
    enqueuedJobs (a ++ b) = enqueuedJobs a ++ enqueuedJobs b := by
  simp [enqueuedJobs, List.filterMap_append]

@[simp] theorem enqueuedJobs_ite (c : Prop) [Decidable c] (a b : List Note) :
    enqueuedJobs (if c then a else b) = if c then enqueuedJobs a else enqueuedJobs b := by
  split_ifs <;> rfl

@[simp] theorem enqueuedJobs_toList (x : Option JobId) :
    enqueuedJobs (x.map Note.popped).toList = [] := by
  cases x <;> rfl

@[simp] theorem enqueuedJobs_map_launched (ctx : Context) (l : List Launch) :
    enqueuedJobs (l.map (Note.launched ctx)) = [] := by
  induction l with
  | nil => rfl
  | cons a l ih => simp [ih]

attribute [simp] outcomes_append launches_append outcomes_map_launched launches_map_launched

/-- The record entries beyond those of `m`, for a record that extends the one
of `m`. -/
@[simp] theorem newNotes_append (m m' : MainWindow) (ext : List Note)
    (h : m'.history = m.history ++ ext) : newNotes m m' = ext := by
  simp [newNotes, h]

/-- The processes `isRepoModified` starts: the bare query and, unless the
repository is bare, the status query. -/
@[simp] theorem isRepoModified_launched (os : Platform) (path : String) (sh : Shell) :
    ((Git.new os path).isRepoModified "" sh).2.launched =
      sh.launched ++ ⟨path, Git.init os ++ " " ++ "rev-parse --is-bare-repository"⟩ ::
        (if ((Git.new os path).isBareRepository path sh).1.result then []
         else [⟨path, Git.init os ++ " " ++ "status --porcelain"⟩]) := by
  unfold Git.isRepoModified Git.isBareRepository
  simp only [Git.pathOr_empty, Git.pathOr_self, Git.runGit_shell, Git.new_mGitCmd]
  split_ifs <;> simp_all

@[simp] theorem isRepoModified_answers (os : Platform) (path : String) (sh : Shell) :
    ((Git.new os path).isRepoModified "" sh).2.answers = sh.answers :=
  (Git.isRepoModified_shell os path sh).1

/-! ## What each closure does -/

theorem closure_init (m : MainWindow) (o : Obs) (job : JobId) :
    Closure m (m.refresh_init o job) job (.step 0) o.now := by
  simp only [MainWindow.refresh_init]
  split_ifs <;> rw [closure_iff, frame_iff] <;>
    simp +contextual [newNotes,
      failed_iff, succeeded_iff, outcomes, enqueuedJobs, launches, controlArguments,
      Repo.logError_fields, Repo.log, QTimer.stop]

theorem closure_ongoingOps (m : MainWindow) (o : Obs) (job : JobId) :
    Closure m (m.refresh_ongoingOps o job) job (.step 1) o.now := by
  simp only [MainWindow.refresh_ongoingOps]
  split_ifs <;> rw [closure_iff, frame_iff] <;>
    simp +contextual [newNotes,
      failed_iff, succeeded_iff, outcomes, enqueuedJobs, launches, controlArguments,
      Repo.logError_fields, Repo.log, QTimer.stop]

theorem closure_fetch (m : MainWindow) (o : Obs) (job : JobId) :
    Closure m (m.refresh_fetch job) job (.step 4) o.now := by
  simp only [MainWindow.refresh_fetch]
  rw [closure_iff, frame_iff]
  simp +contextual [newNotes,
      failed_iff, succeeded_iff, outcomes, enqueuedJobs, launches, controlArguments,
      Repo.logError_fields, Repo.log]

theorem closure_pushAfterRebase (m : MainWindow) (o : Obs) (job : JobId) :
    Closure m (m.refresh_pushAfterRebase job) job (.step 7) o.now := by
  simp only [MainWindow.refresh_pushAfterRebase]
  rw [closure_iff, frame_iff]
  simp +contextual [newNotes,
      failed_iff, succeeded_iff, outcomes, enqueuedJobs, launches, controlArguments,
      Repo.logError_fields, Repo.log]

theorem closure_compareAfterRebase (m : MainWindow) (o : Obs) (job : JobId) :
    Closure m (m.refresh_compareAfterRebase o job) job (.step 6) o.now := by
  simp only [MainWindow.refresh_compareAfterRebase]
  split_ifs <;> rw [closure_iff, frame_iff] <;>
    simp +contextual [newNotes,
      failed_iff, succeeded_iff, outcomes, enqueuedJobs, launches, controlArguments,
      Repo.logError_fields, Repo.log, Shell.start,
      List.filterMap_append]


set_option maxHeartbeats 2000000 in
theorem closure_branchRemoteInfo (m : MainWindow) (o : Obs) (job : JobId) :
    Closure m (m.refresh_branchRemoteInfo o job) job (.step 2) o.now := by
  simp only [MainWindow.refresh_branchRemoteInfo]
  split_ifs <;> rw [closure_iff, frame_iff] <;>
    simp +contextual [newNotes,
      failed_iff, succeeded_iff, outcomes, enqueuedJobs, launches, controlArguments,
      Repo.logError_fields, Repo.log, Shell.start, List.filterMap_append]

theorem closure_compare (m : MainWindow) (o : Obs) (job : JobId) :
    Closure m (m.refresh_compare o job) job (.step 5) o.now := by
  simp only [MainWindow.refresh_compare]
  split_ifs
  · rw [closure_iff, frame_iff]
    simp +contextual [newNotes,
      failed_iff, succeeded_iff, outcomes, enqueuedJobs, launches, controlArguments,
      Repo.logError_fields, Repo.log, Shell.start, List.filterMap_append]
  · split <;> rw [closure_iff, frame_iff] <;>
    simp +contextual [newNotes, MainWindow.refresh_ahead, MainWindow.refresh_behind,
      MainWindow.refresh_diverged,
      failed_iff, succeeded_iff, outcomes, enqueuedJobs, launches, controlArguments,
      Repo.logError_fields, Repo.log, Shell.start, List.filterMap_append]


set_option maxHeartbeats 2000000 in
theorem closure_reply (m : MainWindow) (o : Obs) (t : WorkerTask) (out : Output)
    (h : t.repo = (m.jobStore t.job).repo) :
    Closure m (m.runGuiTask o (t.reply out)) t.job .reply o.now := by
  cases t <;> simp only [WorkerTask.reply, MainWindow.runGuiTask, WorkerTask.job,
    WorkerTask.repo] at h ⊢ <;> subst h <;> split_ifs <;> rw [closure_iff, frame_iff] <;>
    simp +contextual [newNotes,
      failed_iff, succeeded_iff, controlArguments,
      Repo.logError_fields, Repo.log, Shell.start]

set_option maxHeartbeats 4000000 in
theorem closure_commit (m : MainWindow) (o : Obs) (job : JobId) :
    Closure m (m.refresh_commit o job) job (.step 3) o.now := by
  simp only [MainWindow.refresh_commit]
  split_ifs <;> rw [closure_iff, frame_iff] <;>
    simp +contextual [newNotes,
      failed_iff, succeeded_iff, controlArguments,
      Repo.logError_fields, Repo.log, Shell.start] <;>
    (intro a b hab; rcases hab with hab | hab <;> simp_all <;> aesop)

/-- A summary relative to the state in which `processRefreshJobs` has set the busy
flag and recorded the dispatch is a summary relative to the state before. -/
theorem Closure.of_dispatched {m m' : MainWindow} {job : JobId} {ran : Ran} {now : String}
    (k : Int)
    (h : Closure (({ m with refreshBusy := true } : MainWindow).note (.dispatched job k)) m'
      job ran now) : Closure m m' job ran now := by
  have hn : newNotes m m' = .dispatched job k ::
      newNotes (({ m with refreshBusy := true } : MainWindow).note (.dispatched job k)) m' := by
    apply newNotes_append
    rw [h.history]
    simp
  rw [closure_iff, frame_iff] at h ⊢
  simp only [failed_iff, succeeded_iff] at h ⊢
  simpa [hn] using h

theorem processRefreshJobs_cons (m : MainWindow) (o : Obs) (job : JobId) (rest : List JobId)
    (hq : m.refreshJobs = job :: rest) :
    m.processRefreshJobs o =
      if (m.jobStore job).state = 0 then
        (({ m with refreshBusy := true } : MainWindow).note (.dispatched job 0)).refresh_init o job
      else if (m.jobStore job).state = 1 then
        (({ m with refreshBusy := true } : MainWindow).note
          (.dispatched job 1)).refresh_ongoingOps o job
      else if (m.jobStore job).state = 2 then
        (({ m with refreshBusy := true } : MainWindow).note
          (.dispatched job 2)).refresh_branchRemoteInfo o job
      else if (m.jobStore job).state = 3 then
        (({ m with refreshBusy := true } : MainWindow).note
          (.dispatched job 3)).refresh_commit o job
      else if (m.jobStore job).state = 4 then
        (({ m with refreshBusy := true } : MainWindow).note (.dispatched job 4)).refresh_fetch job
      else if (m.jobStore job).state = 5 then
        (({ m with refreshBusy := true } : MainWindow).note
          (.dispatched job 5)).refresh_compare o job
      else if (m.jobStore job).state = 6 then
        (({ m with refreshBusy := true } : MainWindow).note
          (.dispatched job 6)).refresh_compareAfterRebase o job
      else if (m.jobStore job).state = 7 then
        (({ m with refreshBusy := true } : MainWindow).note
          (.dispatched job 7)).refresh_pushAfterRebase job
      else { m with refreshBusy := true } := by
  unfold MainWindow.processRefreshJobs
  simp [hq]

/-- The step `processRefreshJobs` runs for the job at the front of the queue. -/
theorem closure_processRefreshJobs (m : MainWindow) (o : Obs) (job : JobId)
    (rest : List JobId) (hq : m.refreshJobs = job :: rest)
    (hk : 0 ≤ (m.jobStore job).state ∧ (m.jobStore job).state ≤ 7) :
    Closure m (m.processRefreshJobs o) job (.step (m.jobStore job).state) o.now := by
  rw [processRefreshJobs_cons m o job rest hq]
  obtain ⟨h0, h7⟩ := hk
  generalize hs : (m.jobStore job).state = k at *
  interval_cases k
  · exact (closure_init _ o job).of_dispatched 0
  · exact (closure_ongoingOps _ o job).of_dispatched 1
  · exact (closure_branchRemoteInfo _ o job).of_dispatched 2
  · exact (closure_commit _ o job).of_dispatched 3
  · exact (closure_fetch _ o job).of_dispatched 4
  · exact (closure_compare _ o job).of_dispatched 5
  · exact (closure_compareAfterRebase _ o job).of_dispatched 6
  · exact (closure_pushAfterRebase _ o job).of_dispatched 7

/-- The record entries of a call of `processRefreshJobs` name the step it ran. -/
theorem dispatched_processRefreshJobs (m : MainWindow) (o : Obs) (job : JobId)
    (rest : List JobId) (hq : m.refreshJobs = job :: rest)
    (hk : 0 ≤ (m.jobStore job).state ∧ (m.jobStore job).state ≤ 7) (j : JobId) :
    dispatchedStates j (newNotes m (m.processRefreshJobs o)) =
      if j = job then [(m.jobStore job).state] else [] := by
  have hh := (closure_processRefreshJobs m o job rest hq hk).history
  have he := (processEnd_processRefreshJobs m o).effect
  simp only [MainWindow.core, dispatchedStates_coreNotes] at he
  by_cases hj : j = job
  · subst hj
    have := (he.2 j (by simp [hq])).2
    rw [hh, dispatchedStates_append, if_pos hk] at this
    simpa using this
  · have := (he.1 j (by simp [hq]; exact fun e => hj e.symm)).2
    rw [hh, dispatchedStates_append] at this
    simpa [hj] using this

theorem processRefreshJobs_busy (m : MainWindow) (o : Obs) (h : m.refreshJobs ≠ []) :
    (m.processRefreshJobs o).refreshBusy = true := by
  have := processEnd_processRefreshJobs m o
  unfold Core.ProcessEnd at this
  obtain ⟨j, rest, hjr⟩ := List.exists_cons_of_ne_nil h
  have hq' : m.core.refreshJobs = j :: rest := hjr
  rw [hq'] at this
  simp only at this
  have hb : ∀ c : Core, (m.processRefreshJobs o).core = c → c.refreshBusy = true →
      (m.processRefreshJobs o).refreshBusy = true := by
    intro c hc hb
    rw [← hc] at hb
    exact hb
  split_ifs at this
  · rcases this with ⟨b, e⟩ | ⟨_, e⟩ | ⟨t, _, _, _, e⟩
    · exact hb _ e (by unfold Core.finish Core.dispatch; simp [hq'])
    · exact hb _ e rfl
    · exact hb _ e rfl
  · exact hb _ this rfl

theorem Quiet.refl (m : MainWindow) : Quiet m m := by
  rw [quiet_iff]
  simp [newNotes]

theorem newNotes_trans {a b c : MainWindow} (h1 : b.history = a.history ++ newNotes a b)
    (h2 : c.history = b.history ++ newNotes b c) :
    newNotes a c = newNotes a b ++ newNotes b c := by
  apply newNotes_append
  rw [h2, h1, List.append_assoc]

theorem Quiet.trans {a b c : MainWindow} (h1 : Quiet a b) (h2 : Quiet b c) : Quiet a c := by
  have hn := newNotes_trans h1.history h2.history
  refine
    { history := by rw [hn, h2.history, h1.history, List.append_assoc]
      inert := ?_
      os := by rw [h2.os, h1.os]
      ourName := by rw [h2.ourName, h1.ourName]
      visible := by rw [h2.visible, h1.visible]
      repos := by rw [h2.repos, h1.repos]
      repoCount := by rw [h2.repoCount, h1.repoCount]
      jobCount := Nat.le_trans h1.jobCount h2.jobCount
      gui := by rw [h2.gui, h1.gui]
      worker := by rw [h2.worker, h1.worker]
      busy := by rw [h2.busy, h1.busy]
      repo := ?_
      refreshing := ?_
      jobs := ?_
      queue := by rw [hn, h2.queue, h1.queue, enqueuedJobs_append, List.append_assoc]
      fresh := ?_
      born := ?_
      naming := ?_
      flagUp := ?_
      flagKeep := fun r hr => h2.flagKeep r (h1.flagKeep r hr) }
  · intro n hn'
    rw [hn, List.mem_append] at hn'
    rcases hn' with h | h
    · exact h1.inert n h
    · exact h2.inert n h
  · intro r
    obtain ⟨a1, a2, a3, a4, a5⟩ := h1.repo r
    obtain ⟨b1, b2, b3, b4, b5⟩ := h2.repo r
    exact ⟨b1.trans a1, b2.trans a2, b3.trans a3, b4.trans a4, b5.trans a5⟩
  · intro r
    rcases h2.refreshing r with h | ⟨j, hj⟩
    · rcases h1.refreshing r with h' | ⟨j, hj⟩
      · exact Or.inl (h.trans h')
      · exact Or.inr ⟨j, by rw [hn]; exact List.mem_append_left _ hj⟩
    · exact Or.inr ⟨j, by rw [hn]; exact List.mem_append_right _ hj⟩
  · intro j hj
    rw [h2.jobs j (Nat.lt_of_lt_of_le hj h1.jobCount), h1.jobs j hj]
  · intro j hj
    rw [hn, enqueuedJobs_append, List.mem_append] at hj
    rcases hj with h | h
    · exact h1.fresh j h
    · exact Nat.le_trans h1.jobCount (h2.fresh j h)
  · intro j r hj
    rw [hn, List.mem_append] at hj
    rcases hj with h | h
    · obtain ⟨a1, a2, a3⟩ := h1.born j r h
      rw [h2.jobs j a3]
      exact ⟨a1, a2, Nat.lt_of_lt_of_le a3 h2.jobCount⟩
    · exact h2.born j r h
  · intro r
    obtain ⟨a1, a2, a3⟩ := h1.naming r
    obtain ⟨b1, b2, b3⟩ := h2.naming r
    exact ⟨b1.trans a1, b2.trans a2, b3.trans a3⟩
  · intro j r hj
    rw [hn, List.mem_append] at hj
    rcases hj with h | h
    · exact h2.flagKeep r (h1.flagUp j r h)
    · exact h2.flagUp j r h

/-- The two presentation updates at the end of `refreshRepo`. -/
theorem Quiet.updates (m : MainWindow) (repo : RepoId) :
    Quiet m ((m.updateRepoGui repo).updateTrayIcon) := by
  rw [quiet_iff]
  simp [newNotes, Note.isInert]

theorem appendJob_fields (m : MainWindow) (repo : RepoId) :
    (m.appendJob repo).os = m.os ∧ (m.appendJob repo).ourName = m.ourName ∧
    (m.appendJob repo).visible = m.visible ∧ (m.appendJob repo).repos = m.repos ∧
    (m.appendJob repo).repoCount = m.repoCount ∧
    (m.appendJob repo).jobCount = m.jobCount + 1 ∧
    (m.appendJob repo).guiPosted = m.guiPosted ∧
    (m.appendJob repo).workerPosted = m.workerPosted ∧
    (m.appendJob repo).refreshBusy = m.refreshBusy ∧
    (m.appendJob repo).refreshJobs = m.refreshJobs ++ [m.jobCount] ∧
    (m.appendJob repo).history = m.history ++ [.enqueued m.jobCount repo] ∧
    (m.appendJob repo).jobStore m.jobCount = { repo := repo } ∧
    (∀ j, j ≠ m.jobCount → (m.appendJob repo).jobStore j = m.jobStore j) ∧
    (m.appendJob repo).repoStore repo = { m.repoStore repo with refreshing := true } ∧
    (∀ r, r ≠ repo → (m.appendJob repo).repoStore r = m.repoStore r) := by
  simp +contextual [MainWindow.appendJob]

/-- `refreshRepo` while a job is being drained. -/
theorem Quiet.appendJob (m : MainWindow) (repo : RepoId) : Quiet m (m.appendJob repo) := by
  obtain ⟨h1, h2, h3, h4, h5, h6, h7, h8, h9, h10, h11, h12, h13, h14, h15⟩ :=
    appendJob_fields m repo
  have hn : newNotes m (m.appendJob repo) = [.enqueued m.jobCount repo] :=
    newNotes_append _ _ _ h11
  rw [quiet_iff]
  refine ⟨by rw [hn, h11], by simp [hn, Note.isInert], h1, h2, h3, h4, h5, by omega, h7, h8, h9,
    ?_, ?_, ?_, by simp [hn, h10], by simp [hn], by simp [hn, h12, h6], ?_, ?_, ?_⟩
  · intro r
    by_cases hr : r = repo
    · subst hr; simp [h14]
    · simp [h15 r hr]
  · intro r
    by_cases hr : r = repo
    · subst hr; exact Or.inr ⟨m.jobCount, by simp [hn]⟩
    · exact Or.inl (by rw [h15 r hr])
  · intro j hj
    exact h13 j (Nat.ne_of_lt hj)
  · intro r
    by_cases hr : r = repo
    · subst hr; simp [h14]
    · simp [h15 r hr]
  · intro j r hj
    rw [hn, List.mem_singleton] at hj
    injection hj with _ hr
    subst hr
    simp [h14]
  · intro r hr'
    by_cases hr : r = repo
    · subst hr; simp [h14]
    · rw [h15 r hr]; exact hr'

/-- `refreshRepo` in a state that satisfies the invariant of the queue: it does
nothing (a job for the repository is queued), or only appends the job (a job is
being drained), or appends the job to the empty queue and runs its step 0. -/
theorem refreshRepo_cases (m : MainWindow) (hinv : m.core.Inv) (o : Obs) (repo : RepoId) :
    m.refreshRepo o repo = m ∨
    (m.refreshBusy = true ∧ Quiet m (m.refreshRepo o repo) ∧
      ∀ j r, Note.enqueued j r ∈ newNotes m (m.refreshRepo o repo) → r = repo) ∨
    (m.refreshBusy = false ∧ m.refreshJobs = [] ∧ m.guiPosted = [] ∧ m.workerPosted = [] ∧
      Closure (m.appendJob repo) ((m.appendJob repo).processRefreshJobs o) m.jobCount
        (.step 0) o.now ∧
      (∀ j, dispatchedStates j
          (newNotes (m.appendJob repo) ((m.appendJob repo).processRefreshJobs o)) =
        if j = m.jobCount then [0] else []) ∧
      ((m.appendJob repo).processRefreshJobs o).refreshBusy = true ∧
      m.refreshRepo o repo =
        (((m.appendJob repo).processRefreshJobs o).updateRepoGui repo).updateTrayIcon) := by
  unfold MainWindow.refreshRepo
  cases hc : m.refreshJobs.any (fun job => decide ((m.jobStore job).repo = repo)) with
  | true => left; simp
  | false =>
    right
    simp only [Bool.not_false, if_true]
    have hb : (m.appendJob repo).refreshBusy = m.refreshBusy := rfl
    rw [hb]
    cases hbusy : m.refreshBusy with
    | true =>
      left
      refine ⟨rfl, ?_⟩
      simp only [Bool.not_true, Bool.false_eq_true, if_false]
      refine ⟨(Quiet.appendJob m repo).trans (Quiet.updates _ repo), ?_⟩
      intro j r hmem
      rw [newNotes_trans (Quiet.appendJob m repo).history (Quiet.updates _ repo).history,
        newNotes_append _ _ _ (appendJob_fields m repo).2.2.2.2.2.2.2.2.2.2.1] at hmem
      simp [newNotes] at hmem
      exact hmem.2
    | false =>
      right
      simp only [Bool.not_false, if_true]
      have hidle : m.refreshJobs = [] ∧ m.guiPosted = [] ∧ m.workerPosted = [] := by
        rcases hinv.pending with ⟨_, h2, h3, h4⟩ | ⟨h1, _, _⟩ | ⟨t, h1, _, _, _⟩ |
            ⟨t, out, h1, _, _, _⟩
        · exact ⟨h2, h3, h4⟩
        · exact absurd (h1.symm.trans hbusy) (by decide)
        · exact absurd (h1.symm.trans hbusy) (by decide)
        · exact absurd (h1.symm.trans hbusy) (by decide)
      obtain ⟨hq, hg, hw⟩ := hidle
      obtain ⟨h1, h2, h3, h4, h5, h6, h7, h8, h9, h10, h11, h12, h13, h14, h15⟩ :=
        appendJob_fields m repo
      have hq1 : (m.appendJob repo).refreshJobs = m.jobCount :: [] := by rw [h10, hq]; rfl
      have hs : ((m.appendJob repo).jobStore m.jobCount).state = 0 := by rw [h12]
      have hcl := closure_processRefreshJobs (m.appendJob repo) o m.jobCount [] hq1
        (by rw [hs]; decide)
      rw [hs] at hcl
      have hdl := dispatched_processRefreshJobs (m.appendJob repo) o m.jobCount [] hq1
        (by rw [hs]; decide)
      rw [hs] at hdl
      exact ⟨trivial, hq, hg, hw, hcl, hdl,
        processRefreshJobs_busy _ o (by rw [hq1]; exact List.cons_ne_nil _ _), trivial⟩

@[simp] theorem dispatchedStates_nil (j : JobId) : dispatchedStates j [] = [] := rfl

@[simp] theorem dispatchedStates_cons (j : JobId) (n : Note) (h : List Note) :
    dispatchedStates j (n :: h) =
      (match n with | .dispatched j' k => if j' = j then [k] else [] | _ => []) ++
        dispatchedStates j h := by
  cases n <;> simp [dispatchedStates]
  split_ifs with h1 <;> simp [List.filterMap_cons, h1]

@[simp] theorem dispatchedStates_ite (j : JobId) (c : Prop) [Decidable c] (a b : List Note) :
    dispatchedStates j (if c then a else b) =
      if c then dispatchedStates j a else dispatchedStates j b := by
  split_ifs <;> rfl

@[simp] theorem dispatchedStates_toList (j : JobId) (x : Option JobId) :
    dispatchedStates j (x.map Note.popped).toList = [] := by
  cases x <;> rfl

attribute [simp] dispatchedStates_append dispatchedStates_map_launched

/-- The inner lambda of a worker step records no dispatch. -/
theorem dispatched_reply (m : MainWindow) (o : Obs) (t : WorkerTask) (out : Output)
    (j : JobId) : dispatchedStates j (newNotes m (m.runGuiTask o (t.reply out))) = [] := by
  cases t <;> simp only [WorkerTask.reply, MainWindow.runGuiTask] <;> split_ifs <;>
    simp [newNotes]

theorem mem_enqueuedJobs {j : JobId} {r : RepoId} {ns : List Note}
    (h : Note.enqueued j r ∈ ns) : j ∈ enqueuedJobs ns := by
  unfold enqueuedJobs
  rw [List.mem_filterMap]
  exact ⟨_, h, rfl⟩

/-- An event that changes nothing. -/
theorem Calm.same (m : MainWindow) (e : Event) (hadd : ∀ s o, e ≠ .addRepo s o) :
    Calm m e m := by
  rw [calm_iff]
  simp +contextual [newNotes]
  exact hadd

theorem turn_gui (m : MainWindow) (hinv : m.core.Inv) (o : Obs) :
    Turn m (.gui o) (m.step (.gui o)) := by
  have hrange := hinv.base.range
  rcases hinv.pending with ⟨_, _, h3, _⟩ | ⟨_, h2, h3⟩ | ⟨t, _, h2, _, _⟩ | ⟨t, out, _, h2, h3, hf⟩
  · have hg : m.guiPosted = [] := h3
    simp only [MainWindow.step, hg]
    exact .calm (Calm.same m _ (fun _ _ h => by cases h))
  · have hg : m.guiPosted = [.processRefreshJobs] := h2
    have hw : m.workerPosted = [] := h3
    simp only [MainWindow.step, hg, MainWindow.runGuiTask]
    by_cases hq : m.refreshJobs = []
    · apply Turn.calm
      have : ({ m with guiPosted := [] } : MainWindow).processRefreshJobs o =
          { m with guiPosted := [], refreshBusy := false } := by
        unfold MainWindow.processRefreshJobs
        simp [hq]
      rw [this, calm_iff]
      simp +contextual [newNotes, hq]
    · obtain ⟨job, rest, hq⟩ := List.exists_cons_of_ne_nil hq
      have hk : 0 ≤ (m.jobStore job).state ∧ (m.jobStore job).state ≤ 7 :=
        hrange job (by show job ∈ m.refreshJobs; rw [hq]; exact List.mem_cons_self _ _)
      refine .drained job rest (.step (m.jobStore job).state) o rfl hq
        (closure_processRefreshJobs ({ m with guiPosted := [] } : MainWindow) o job rest hq hk)
        ?_ (fun k hk' => by injection hk') (fun hk' => by cases hk') (by rw [hg]; rfl) hw
      intro j
      exact dispatched_processRefreshJobs ({ m with guiPosted := [] } : MainWindow) o job rest
        hq hk j
  · have hg : m.guiPosted = [] := h2
    simp only [MainWindow.step, hg]
    exact .calm (Calm.same m _ (fun _ _ h => by cases h))
  · have hg : m.guiPosted = [t.reply out] := h2
    have hw : m.workerPosted = [] := h3
    obtain ⟨f1, f2, f3⟩ := hf
    have hq : ∃ rest, m.refreshJobs = t.job :: rest := by
      have f1' : m.refreshJobs.head? = some t.job := f1
      by_cases hq : m.refreshJobs = []
      · rw [hq] at f1'; cases f1'
      · obtain ⟨a, rest, hq⟩ := List.exists_cons_of_ne_nil hq
        rw [hq] at f1'
        simp only [List.head?_cons, Option.some.injEq] at f1'
        exact ⟨rest, by rw [hq, f1']⟩
    obtain ⟨rest, hq⟩ := hq
    have hst : 4 ≤ (m.jobStore t.job).state := by
      have f2' : (m.jobStore t.job).state = t.state := f2
      rw [f2']
      cases t <;> simp [WorkerTask.state]
    simp only [MainWindow.step, hg]
    refine .drained t.job rest .reply o rfl hq
      (closure_reply ({ m with guiPosted := [] } : MainWindow) o t out f3.symm) ?_
      (fun k hk' => by cases hk') (fun _ => hst) (by rw [hg]; rfl) hw
    intro j
    exact dispatched_reply ({ m with guiPosted := [] } : MainWindow) o t out j

theorem turn_worker (m : MainWindow) (hinv : m.core.Inv) (p : ProcessResult) :
    Turn m (.worker p) (m.step (.worker p)) := by
  apply Turn.calm
  rcases hinv.pending with ⟨_, _, _, h4⟩ | ⟨_, _, h3⟩ | ⟨t, _, _, h3, hf⟩ | ⟨t, out, _, _, h3, _⟩
  · have hw : m.workerPosted = [] := h4
    simp only [MainWindow.step, hw]
    exact Calm.same m _ (fun _ _ h => by cases h)
  · have hw : m.workerPosted = [] := h3
    simp only [MainWindow.step, hw]
    exact Calm.same m _ (fun _ _ h => by cases h)
  · have hw : m.workerPosted = [t] := h3
    obtain ⟨f1, f2, f3⟩ := hf
    have f1' : m.refreshJobs.head? = some t.job := f1
    have f2' : (m.jobStore t.job).state = t.state := f2
    have hd : m.refreshJobs.headD 0 = t.job := by
      by_cases hq : m.refreshJobs = []
      · rw [hq] at f1'; cases f1'
      · obtain ⟨a, rest, hq⟩ := List.exists_cons_of_ne_nil hq
        rw [hq] at f1' ⊢
        simpa using f1'
    simp only [MainWindow.step, hw, MainWindow.runWorkerTask]
    rw [calm_iff]
    simp +contextual [newNotes, f1', f2', Shell.start]
    cases t <;>
      simp_all [WorkerTask.arguments, WorkerTask.state, workerArguments, WorkerTask.job] <;>
      (intro hq; rw [hq] at f1'; cases f1')
  · have hw : m.workerPosted = [] := h3
    simp only [MainWindow.step, hw]
    exact Calm.same m _ (fun _ _ h => by cases h)

/-- An event that runs no closure, followed by calls of `refreshRepo` that only
append jobs. -/
theorem Calm.then_quiet {m m1 m' : MainWindow} {e : Event} (h1 : Calm m e m1)
    (h2 : Quiet m1 m') (hask : ∀ j r, Note.enqueued j r ∈ newNotes m1 m' → e.asks m r) :
    Calm m e m' := by
  have hn := newNotes_trans h1.history h2.history
  have hin : ∀ n ∈ newNotes m1 m', n.isInert = true := h2.inert
  have ho : outcomes (newNotes m1 m') = [] := by
    unfold outcomes
    rw [List.filterMap_eq_nil_iff]
    intro n hn'
    have := hin n hn'
    cases n <;> simp_all [Note.isInert]
  have hl : launches (newNotes m1 m') = [] := by
    unfold launches
    rw [List.filterMap_eq_nil_iff]
    intro n hn'
    have := hin n hn'
    cases n <;> simp_all [Note.isInert]
  have hd : ∀ j, dispatchedStates j (newNotes m1 m') = [] := by
    intro j
    unfold dispatchedStates
    rw [List.filterMap_eq_nil_iff]
    intro n hn'
    have := hin n hn'
    cases n <;> simp_all [Note.isInert]
  refine
    { history := by rw [hn, h2.history, h1.history, List.append_assoc]
      os := by rw [h2.os, h1.os]
      unended := by rw [hn, outcomes_append, h1.unended, ho]; rfl
      dispatched := fun j => by rw [hn, dispatchedStates_append, h1.dispatched, hd]; rfl
      tray := ?_
      launched := by rw [hn, launches_append, hl, List.append_nil]; exact h1.launched
      front := by rw [hn, launches_append, hl, List.append_nil]; exact h1.front
      repo := ?_
      timer := ?_
      beyond := fun r hr => by
        rw [(h2.repo r).2.2.2.2]
        exact h1.beyond r (by rw [← h2.repoCount]; exact hr)
      repos := by rw [h2.repos, h2.repoCount]; exact h1.repos
      nodup := by rw [h2.repos]; exact h1.nodup
      grown := by rw [h2.repoCount]; exact h1.grown
      repoCount := by rw [h2.repoCount]; exact h1.repoCount
      jobCount := Nat.le_trans h1.jobCount h2.jobCount
      jobs := fun j hj => by
        rw [h2.jobs j (Nat.lt_of_lt_of_le hj h1.jobCount), h1.jobs j hj]
      queue := by rw [hn, h2.queue, h1.queue, enqueuedJobs_append, List.append_assoc]
      fresh := ?_
      born := ?_
      asked := ?_
      flagUp := ?_
      flagKeep := fun r hr hf => h2.flagKeep r (h1.flagKeep r hr hf)
      flagOnly := ?_ }
  · intro title message hmem
    rw [hn, List.mem_append] at hmem
    rcases hmem with h | h
    · exact h1.tray _ _ h
    · have := hin _ h
      simp [Note.isInert] at this
  · intro r hr
    obtain ⟨a1, a2, a3, a4⟩ := h1.repo r hr
    obtain ⟨b1, b2, b3, b4, b5⟩ := h2.repo r
    exact ⟨by rw [b1, a1], b3.trans a2, b4.trans a3, b5.trans a4⟩
  · intro r hr
    rw [(h2.repo r).2.1] at hr
    exact h1.timer r hr
  · intro j hj
    rw [hn, enqueuedJobs_append, List.mem_append] at hj
    rcases hj with h | h
    · exact h1.fresh j h
    · exact Nat.le_trans h1.jobCount (h2.fresh j h)
  · intro j r hj
    rw [hn, List.mem_append] at hj
    rcases hj with h | h
    · obtain ⟨a1, a2, a3⟩ := h1.born j r h
      rw [h2.jobs j a3]
      exact ⟨a1, a2, Nat.lt_of_lt_of_le a3 h2.jobCount⟩
    · exact h2.born j r h
  · intro j r hj
    rw [hn, List.mem_append] at hj
    rcases hj with h | h
    · exact h1.asked j r h
    · exact hask j r h
  · intro j r hj
    rw [hn, List.mem_append] at hj
    rcases hj with h | h
    · exact h2.flagKeep r (h1.flagUp j r h)
    · exact h2.flagUp j r h
  · intro r hr
    rcases h2.refreshing r with h | ⟨j, hj⟩
    · rw [h] at hr
      rcases h1.flagOnly r hr with h' | ⟨j, hj⟩
      · exact Or.inl h'
      · exact Or.inr ⟨j, by rw [hn]; exact List.mem_append_left _ hj⟩
    · exact Or.inr ⟨j, by rw [hn]; exact List.mem_append_right _ hj⟩

theorem Calm.of_quiet {m m' : MainWindow} (e : Event) (hadd : ∀ s o, e ≠ .addRepo s o)
    (h : Quiet m m')
    (hask : ∀ j r, Note.enqueued j r ∈ newNotes m m' → e.asks m r) : Calm m e m' :=
  (Calm.same m e hadd).then_quiet h hask

/-- The state in which step 0 runs inside `refreshRepo`. -/
theorem Lead.of_prepared {m pre : MainWindow} {repo : RepoId} (h : Prepared m pre repo)
    (hq : m.refreshJobs = []) (hg : m.guiPosted = []) (hw : m.workerPosted = []) :
    Lead m (pre.appendJob repo) m.jobCount repo := by
  obtain ⟨h1, h2, h3, h4, h5, h6, h7, h8, h9, h10, h11, h12, h13, h14, h15⟩ :=
    appendJob_fields pre repo
  rw [lead_iff]
  refine ⟨by rw [h11, h.history, h.jobCount], by rw [h1, h.os], by rw [h2, h.ourName],
    by rw [h3, h.visible], hq, by rw [h7, h.gui, hg], by rw [h8, h.worker, hw],
    by rw [h10, h.queue, hq, h.jobCount]; rfl, rfl, by rw [h6, h.jobCount], ?_, ?_, ?_, ?_, ?_,
    ?_, ?_, ?_, ?_⟩
  · rw [← h.jobCount, h12]
  · rw [← h.jobCount, h12]
  · intro j hj
    rw [h13 j (by rw [h.jobCount]; exact hj), h.jobStore]
  · intro r hr
    rw [h15 r hr, h.others r hr]
  · rw [h5]; exact h.repoCount
  · rw [h4, h5]; exact h.repos
  · rw [h4]; exact h.nodup
  · rw [h14]
  · intro hr
    obtain ⟨a1, a2, a3, a4, a5⟩ := h.known hr
    rw [h14]
    exact ⟨a1, a2, a3, a4, a5⟩

/-- An event that calls `refreshRepo(repo)` once, after a part that runs no
closure. -/
theorem turn_enqueue (m pre : MainWindow) (e : Event) (o : Obs) (repo : RepoId)
    (hnow : e.now = o.now) (hedit : ∀ r mins, e ≠ .editRefreshTime r mins)
    (hask : e.asks m repo)
    (hinv : pre.core.Inv) (hcalm : Calm m e pre) (hpre : Prepared m pre repo) :
    Turn m e (pre.refreshRepo o repo) := by
  rcases refreshRepo_cases pre hinv o repo with h | ⟨_, h, ha⟩ | ⟨_, hq, hg, hw, hc, hd, _, h⟩
  · rw [h]; exact .calm hcalm
  · exact .calm (hcalm.then_quiet h (fun j r hj => by rw [ha j r hj]; exact hask))
  · rw [h]
    have hl := Lead.of_prepared hpre (by rw [← hpre.queue]; exact hq)
      (by rw [← hpre.gui]; exact hg) (by rw [← hpre.worker]; exact hw)
    rw [← hpre.jobCount] at hl
    exact .started _ _ _ repo hl (by rw [hnow]; exact hc) hd (Quiet.updates _ repo) hedit hask
      hcalm.grown (fun j r hj => by simp [newNotes] at hj)
      (fun _ j r hj => by simp [newNotes] at hj)

theorem Prepared.unchanged (m : MainWindow) (repo : RepoId) : Prepared m m repo := by
  rw [prepared_iff]
  simp
  exact fun h _ => h

theorem nodup_append_fresh (l : List RepoId) (n : RepoId) (hnd : l.Nodup)
    (hb : ∀ r ∈ l, r < n) : (l ++ [n]).Nodup := by
  rw [List.nodup_append]
  refine ⟨hnd, List.nodup_singleton n, ?_⟩
  intro a ha hn
  rw [List.mem_singleton] at hn
  rw [hn] at ha
  exact Nat.lt_irrefl _ (hb n ha)

theorem turn_refresh (m : MainWindow) (hinv : m.core.Inv) (repo : RepoId) (o : Obs) :
    Turn m (.refresh repo o) (m.step (.refresh repo o)) := by
  simp only [MainWindow.step]
  split_ifs
  · exact turn_enqueue m m _ o repo rfl (fun _ _ h => by cases h) ⟨rfl, by assumption⟩ hinv
      (Calm.same m _ (fun _ _ h => by cases h)) (Prepared.unchanged m repo)
  · exact .calm (Calm.same m _ (fun _ _ h => by cases h))

theorem turn_timeout (m : MainWindow) (hinv : m.core.Inv) (repo : RepoId) (o : Obs) :
    Turn m (.timeout repo o) (m.step (.timeout repo o)) := by
  simp only [MainWindow.step]
  split_ifs
  · refine turn_enqueue m _ _ o repo rfl (fun _ _ h => by cases h) ⟨rfl, by assumption⟩
      (by simpa using hinv) ?_ ?_
    · rw [calm_iff]
      simp +contextual [newNotes]
      refine ⟨?_, ?_, ?_, ?_, ?_⟩
      · intro r _
        by_cases h : r = repo
        · subst h; simp
        · simp [h]
      · intro r _
        by_cases h : r = repo
        · subst h; simp
        · simp [h]
      · intro r hr
        by_cases h : r = repo
        · subst h; simp [QTimer.stop] at hr
        · simpa [h] using hr
      · intro r _ hr
        by_cases h : r = repo
        · subst h; simpa using hr
        · simpa [h] using hr
      · intro r hr
        by_cases h : r = repo
        · subst h; simpa using hr
        · simpa [h] using hr
    · rw [prepared_iff]
      simp +contextual [QTimer.stop]
  · exact .calm (Calm.same m _ (fun _ _ h => by cases h))

theorem turn_addRepo (m : MainWindow) (hinv : m.core.Inv) (s : Settings.Repo) (o : Obs) :
    Turn m (.addRepo s o) (m.step (.addRepo s o)) := by
  simp only [MainWindow.step, MainWindow.initRepo]
  refine turn_enqueue m _ _ o m.repoCount rfl (fun _ _ h => by cases h) rfl hinv ?_ ?_
  · rw [calm_iff]
    simp +contextual [newNotes]
    refine ⟨?_, ?_, ?_, ?_, ?_, ?_⟩
    · intro r hr
      have : r ≠ m.repoCount := Nat.ne_of_lt hr
      simp [this]
    · intro r hr
      have : r ≠ m.repoCount := Nat.ne_of_gt (Nat.lt_of_succ_le hr)
      simp [this]
    · intro r hr
      by_cases h : r = m.repoCount
      · subst h; simp at hr
      · simpa [h] using hr
    · exact nodup_append_fresh _ _
    · intro r hr hf
      have : r ≠ m.repoCount := Nat.ne_of_lt hr
      simpa [this] using hf
    · intro r hr
      by_cases h : r = m.repoCount
      · subst h; simp at hr
      · simpa [h] using hr
  · rw [prepared_iff]
    simp +contextual
    exact nodup_append_fresh _ _

/-- Calls of `refreshRepo` while a job is being drained only append jobs. -/
theorem quiet_foldl_busy (o : Obs) (rs : List RepoId) :
    ∀ m : MainWindow, m.core.Inv → m.refreshBusy = true →
      Quiet m (rs.foldl (fun m repo => m.refreshRepo o repo) m) ∧
      ∀ j r, Note.enqueued j r ∈ newNotes m (rs.foldl (fun m repo => m.refreshRepo o repo) m) →
        r ∈ rs := by
  induction rs with
  | nil =>
    intro m _ _
    exact ⟨Quiet.refl m, fun j r hj => by simp [newNotes] at hj⟩
  | cons r rs ih =>
    intro m hinv hb
    simp only [List.foldl_cons]
    have hinv' := inv_refreshRepo m o r hinv
    rcases refreshRepo_cases m hinv o r with h | ⟨_, h, ha⟩ | ⟨h, _⟩
    · rw [h]
      obtain ⟨i1, i2⟩ := ih m hinv hb
      exact ⟨i1, fun j r' hj => List.mem_cons_of_mem _ (i2 j r' hj)⟩
    · obtain ⟨i1, i2⟩ := ih _ hinv' (by rw [h.busy]; exact hb)
      refine ⟨h.trans i1, ?_⟩
      intro j r' hj
      rw [newNotes_trans h.history i1.history, List.mem_append] at hj
      rcases hj with hj | hj
      · rw [ha j r' hj]; exact List.mem_cons_self _ _
      · exact List.mem_cons_of_mem _ (i2 j r' hj)
    · rw [hb] at h; cases h

theorem turn_foldl (o : Obs) (rs : List RepoId) :
    ∀ m : MainWindow, m.core.Inv → rs.Sublist m.repos →
      Turn m (.refreshAll o) (rs.foldl (fun m repo => m.refreshRepo o repo) m) := by
  induction rs with
  | nil => intro m _ _; exact .calm (Calm.same m _ (fun _ _ h => by cases h))
  | cons r rs ih =>
    intro m hinv hsl
    simp only [List.foldl_cons]
    have hinv' := inv_refreshRepo m o r hinv
    have hsl' : rs.Sublist m.repos := (List.sublist_cons_self r rs).trans hsl
    have hsub : ∀ r' ∈ r :: rs, r' ∈ m.repos := fun r' hr' => hsl.subset hr'
    have hsub' : ∀ r' ∈ rs, r' ∈ m.repos := fun r' hr' => hsub r' (List.mem_cons_of_mem _ hr')
    rcases refreshRepo_cases m hinv o r with h | ⟨hb, h, ha⟩ | ⟨_, hq, hg, hw, hc, hd, hb, h⟩
    · rw [h]; exact ih m hinv hsl'
    · obtain ⟨i1, i2⟩ := quiet_foldl_busy o rs _ hinv' (by rw [h.busy]; exact hb)
      refine .calm (Calm.of_quiet _ (fun _ _ h => by cases h) (h.trans i1) ?_)
      intro j r' hj
      rw [newNotes_trans h.history i1.history, List.mem_append] at hj
      rcases hj with hj | hj
      · rw [ha j r' hj]; exact hsub r (List.mem_cons_self _ _)
      · exact hsub' r' (i2 j r' hj)
    · have hl := Lead.of_prepared (Prepared.unchanged m r) hq hg hw
      have hq2 : Quiet ((m.appendJob r).processRefreshJobs o) (m.refreshRepo o r) := by
        rw [h]; exact Quiet.updates _ r
      have hb2 : (m.refreshRepo o r).refreshBusy = true := by rw [hq2.busy]; exact hb
      obtain ⟨i1, i2⟩ := quiet_foldl_busy o rs _ hinv' hb2
      have hmem : ∀ j r', Note.enqueued j r' ∈
          newNotes ((m.appendJob r).processRefreshJobs o)
            (rs.foldl (fun m repo => m.refreshRepo o repo) (m.refreshRepo o r)) → r' ∈ rs := by
        intro j r' hj
        rw [newNotes_trans hq2.history i1.history, List.mem_append] at hj
        rcases hj with hj | hj
        · rw [h] at hj; simp [newNotes] at hj
        · exact i2 j r' hj
      refine .started _ _ _ r hl hc hd (hq2.trans i1) (fun _ _ h => by cases h)
        (hsub r (List.mem_cons_self _ _)) (fun _ _ h => by cases h)
        (fun j r' hj => hsub' r' (hmem j r' hj)) ?_
      intro hnd j r' hj heq
      have hnd' : (r :: rs).Nodup := hnd.sublist hsl
      rw [List.nodup_cons] at hnd'
      rw [heq] at hj
      exact hnd'.1 (hmem j r hj)

/-- An event that only edits the record of one repository and appends inert
entries. -/
theorem Calm.of_edit (m m' : MainWindow) (e : Event) (repo : RepoId) (ext : List Note)
    (hh : m'.history = m.history ++ ext) (hin : ∀ n ∈ ext, n.isInert = true)
    (hne : enqueuedJobs ext = [])
    (hadd : ∀ s o, e ≠ .addRepo s o) (hrepos : ∀ r ∈ m'.repos, r ∈ m.repos)
    (hnd : m.repos.Nodup → m'.repos.Nodup)
    (hos : m'.os = m.os) (hrc : m'.repoCount = m.repoCount)
    (hjc : m'.jobCount = m.jobCount) (hjs : m'.jobStore = m.jobStore)
    (hq : m'.refreshJobs = m.refreshJobs)
    (hother : ∀ r, r ≠ repo → m'.repoStore r = m.repoStore r)
    (hrepo : (m'.repoStore repo).settings.path = (m.repoStore repo).settings.path ∧
      (m'.repoStore repo).ok = (m.repoStore repo).ok ∧
      (m'.repoStore repo).statusSummary = (m.repoStore repo).statusSummary ∧
      (m'.repoStore repo).statusLines = (m.repoStore repo).statusLines)
    (hflag : (m'.repoStore repo).refreshing = (m.repoStore repo).refreshing)
    (ht : (m'.repoStore repo).timer.active = true →
      (m.repoStore repo).timer.active = true ∨
        ∃ mins, e = .editRefreshTime repo mins ∧ repo ∈ m.repos) :
    Calm m e m' := by
  have hn : newNotes m m' = ext := newNotes_append _ _ _ hh
  have ho : outcomes ext = [] := by
    unfold outcomes
    rw [List.filterMap_eq_nil_iff]
    intro n hn'
    have := hin n hn'
    cases n <;> simp_all [Note.isInert]
  have hl : launches ext = [] := by
    unfold launches
    rw [List.filterMap_eq_nil_iff]
    intro n hn'
    have := hin n hn'
    cases n <;> simp_all [Note.isInert]
  have hd : ∀ j, dispatchedStates j ext = [] := by
    intro j
    unfold dispatchedStates
    rw [List.filterMap_eq_nil_iff]
    intro n hn'
    have := hin n hn'
    cases n <;> simp_all [Note.isInert]
  refine
    { history := by rw [hn, hh]
      os := hos
      unended := by rw [hn, ho]
      dispatched := fun j => by rw [hn, hd]
      tray := ?_
      launched := by rw [hn, hl]; intro cl hcl; cases hcl
      front := by rw [hn, hl]; intro h; exact absurd rfl h
      repo := ?_
      timer := ?_
      beyond := fun r _ => by
        by_cases h : r = repo
        · subst h; exact hrepo.2.2.2
        · rw [hother r h]
      repos := fun r hr => Or.inl (hrepos r hr)
      nodup := fun h _ => hnd h
      grown := fun s o h => absurd h (hadd s o)
      repoCount := by rw [hrc]
      jobCount := by rw [hjc]
      jobs := fun j _ => by rw [hjs]
      queue := by rw [hn, hne, hq, List.append_nil]
      fresh := by rw [hn, hne]; intro j hj; cases hj
      born := by
        intro j r hj
        rw [hn] at hj
        have := mem_enqueuedJobs hj
        rw [hne] at this
        cases this
      asked := by
        intro j r hj
        rw [hn] at hj
        have := mem_enqueuedJobs hj
        rw [hne] at this
        cases this
      flagUp := by
        intro j r hj
        rw [hn] at hj
        have := mem_enqueuedJobs hj
        rw [hne] at this
        cases this
      flagKeep := ?_
      flagOnly := ?_ }
  · intro title message hmem
    rw [hn] at hmem
    have := hin _ hmem
    simp [Note.isInert] at this
  · intro r _
    by_cases h : r = repo
    · subst h; exact hrepo
    · rw [hother r h]; exact ⟨rfl, rfl, rfl, rfl⟩
  · intro r hr
    by_cases h : r = repo
    · subst h; exact ht hr
    · rw [hother r h] at hr; exact Or.inl hr
  · intro r _ hr
    by_cases h : r = repo
    · subst h; rw [hflag]; exact hr
    · rw [hother r h]; exact hr
  · intro r hr
    by_cases h : r = repo
    · subst h; rw [hflag] at hr; exact Or.inl hr
    · rw [hother r h] at hr; exact Or.inl hr

theorem turn_simple (m : MainWindow) (e : Event)
    (he : (∃ repo, e = .pause repo) ∨ (∃ repo mins, e = .editRefreshTime repo mins) ∨
      (∃ repo, e = .removeRepo repo) ∨ (∃ v, e = .setVisible v) ∨
      (∃ name, e = .editOurName name) ∨ (∃ repo name, e = .editRepoName repo name)) :
    Calm m e (m.step e) := by
  rcases he with ⟨repo, rfl⟩ | ⟨repo, mins, rfl⟩ | ⟨repo, rfl⟩ | ⟨v, rfl⟩ | ⟨name, rfl⟩ |
    ⟨repo, name, rfl⟩
  · simp only [MainWindow.step, MainWindow.onRepoPauseActionTriggered]
    split_ifs
    · refine Calm.of_edit m _ _ repo [.repoGui repo] ?_ ?_ ?_ ?_ ?_ ?_ ?_ ?_ ?_ ?_ ?_ ?_ ?_ ?_ ?_ <;>
        simp +contextual [Note.isInert, QTimer.stop, List.Nodup.filter]
    · exact Calm.same m _ (fun _ _ h => by cases h)
  · simp only [MainWindow.step, MainWindow.on_toolButton_editRepoRefreshTime_clicked]
    split_ifs with hg <;>
      first
      | exact Calm.same m _ (fun _ _ h => by cases h)
      | (refine Calm.of_edit m _ _ repo [.repoGui repo] ?_ ?_ ?_ ?_ ?_ ?_ ?_ ?_ ?_ ?_ ?_ ?_ ?_ ?_ ?_ <;>
          simp +contextual [Note.isInert, QTimer.stop, hg.1])
  · simp only [MainWindow.step, MainWindow.on_toolButton_removeRepo_clicked]
    split_ifs
    · refine Calm.of_edit m _ _ repo [.trayIcon] ?_ ?_ ?_ ?_ ?_ ?_ ?_ ?_ ?_ ?_ ?_ ?_ ?_ ?_ ?_ <;>
        simp +contextual [Note.isInert, QTimer.stop, List.Nodup.filter]
    · exact Calm.same m _ (fun _ _ h => by cases h)
  · simp only [MainWindow.step]
    refine Calm.of_edit m _ _ 0 [] ?_ ?_ ?_ ?_ ?_ ?_ ?_ ?_ ?_ ?_ ?_ ?_ ?_ ?_ ?_ <;>
      simp +contextual [Note.isInert]
  · simp only [MainWindow.step, MainWindow.on_toolButton_ourName_edit_clicked]
    split_ifs
    · exact Calm.same m _ (fun _ _ h => by cases h)
    · refine Calm.of_edit m _ _ 0 [] ?_ ?_ ?_ ?_ ?_ ?_ ?_ ?_ ?_ ?_ ?_ ?_ ?_ ?_ ?_ <;>
        simp +contextual [Note.isInert]
  · simp only [MainWindow.step, MainWindow.on_toolButton_editRepoName_clicked]
    split_ifs
    · exact Calm.same m _ (fun _ _ h => by cases h)
    · refine Calm.of_edit m _ _ repo [.repoGui repo] ?_ ?_ ?_ ?_ ?_ ?_ ?_ ?_ ?_ ?_ ?_ ?_ ?_ ?_ ?_ <;>
        simp +contextual [Note.isInert]
    · exact Calm.same m _ (fun _ _ h => by cases h)

/-- Every event, in a state that satisfies the invariant of the queue. -/
theorem turn_step (m : MainWindow) (hinv : m.core.Inv) (e : Event) : Turn m e (m.step e) := by
  cases e with
  | gui o => exact turn_gui m hinv o
  | worker p => exact turn_worker m hinv p
  | timeout repo o => exact turn_timeout m hinv repo o
  | refresh repo o => exact turn_refresh m hinv repo o
  | refreshAll o => exact turn_foldl o m.repos m hinv (List.Sublist.refl _)
  | addRepo s o => exact turn_addRepo m hinv s o
  | pause repo => exact .calm (turn_simple m _ (Or.inl ⟨repo, rfl⟩))
  | editRefreshTime repo mins =>
    exact .calm (turn_simple m _ (Or.inr (Or.inl ⟨repo, mins, rfl⟩)))
  | removeRepo repo => exact .calm (turn_simple m _ (Or.inr (Or.inr (Or.inl ⟨repo, rfl⟩))))
  | setVisible v =>
    exact .calm (turn_simple m _ (Or.inr (Or.inr (Or.inr (Or.inl ⟨v, rfl⟩)))))
  | editOurName name =>
    exact .calm (turn_simple m _ (Or.inr (Or.inr (Or.inr (Or.inr (Or.inl ⟨name, rfl⟩))))))
  | editRepoName repo name =>
    exact .calm (turn_simple m _ (Or.inr (Or.inr (Or.inr (Or.inr (Or.inr ⟨repo, name, rfl⟩))))))

/-- Every event, in a state the program can reach. -/
theorem turn_reachable (os : Platform) (ourName : String) (es : List Event) (e : Event) :
    Turn ((MainWindow.initial os ourName).run es) e
      (((MainWindow.initial os ourName).run es).step e) :=
  turn_step _ (inv_reachable os ourName es) e

/-! ## Invariants of the stores: proofs -/

theorem exists_of_mem_enqueuedJobs {j : JobId} {ns : List Note} (h : j ∈ enqueuedJobs ns) :
    ∃ r, Note.enqueued j r ∈ ns := by
  unfold enqueuedJobs at h
  rw [List.mem_filterMap] at h
  obtain ⟨n, hn, hj⟩ := h
  cases n <;> simp at hj
  subst hj
  exact ⟨_, hn⟩

/-- The record of an event that appends a job to the empty queue. -/
theorem Lead.notes {m m1 m2 m' : MainWindow} {job : JobId} {repo : RepoId} {ran : Ran}
    {now : String} (hl : Lead m m1 job repo) (hc : Closure m1 m2 job ran now)
    (hq : Quiet m2 m') :
    m'.history = m.history ++ newNotes m m' ∧
    newNotes m m' = Note.enqueued job repo :: (newNotes m1 m2 ++ newNotes m2 m') := by
  have h : m'.history = m.history ++ (Note.enqueued job repo :: (newNotes m1 m2 ++ newNotes m2 m')) := by
    rw [hq.history, hc.history, hl.history]
    simp
  have hn := newNotes_append _ _ _ h
  exact ⟨by rw [hn, h], hn⟩

/-- A closure leaves the queue alone or removes its front. -/
theorem Closure.queue_cases {m m' : MainWindow} {job : JobId} {ran : Ran} {now : String}
    (hc : Closure m m' job ran now) :
    m'.refreshJobs = m.refreshJobs ∨ m'.refreshJobs = m.refreshJobs.tail := by
  cases ho : outcomes (newNotes m m') with
  | nil => exact Or.inl (hc.quiet ho)
  | cons x xs =>
    obtain ⟨j, b⟩ := x
    have hmem : (j, b) ∈ outcomes (newNotes m m') := by rw [ho]; exact List.mem_cons_self _ _
    cases b with
    | false => exact Or.inr (hc.failed j hmem).2.queue
    | true => exact Or.inr (hc.succeeded j hmem).2.1.queue

theorem Closure.queue_sub {m m' : MainWindow} {job : JobId} {ran : Ran} {now : String}
    (hc : Closure m m' job ran now) : ∀ j ∈ m'.refreshJobs, j ∈ m.refreshJobs := by
  intro j hj
  rcases hc.queue_cases with h | h
  · rw [h] at hj; exact hj
  · rw [h] at hj; exact List.mem_of_mem_tail hj

theorem Closure.repo_eq {m m' : MainWindow} {job : JobId} {ran : Ran} {now : String}
    (hc : Closure m m' job ran now) (j : JobId) : (m'.jobStore j).repo = (m.jobStore j).repo := by
  by_cases h : j = job
  · subst h; exact hc.jobRepo
  · rw [hc.otherJobs j h]

/-- A repository an event asks to refresh has been set up once the event has
done its own part. -/
theorem Event.asks_lt {m : MainWindow} {e : Event} {r : RepoId} (ha : Alloc m)
    (h : e.asks m r) (bound : Nat) (hb : m.repoCount ≤ bound)
    (hg : ∀ s o, e = .addRepo s o → m.repoCount < bound) : r < bound := by
  have key : ∀ r, (m.repoStore r).timer.active = true → r < m.repoCount := by
    intro r hr
    by_contra hlt
    have := ha.timers r (Nat.le_of_not_lt hlt)
    rw [this] at hr
    cases hr
  cases e with
  | timeout repo o => exact Nat.lt_of_lt_of_le (key r h.2) hb
  | refresh repo o => exact Nat.lt_of_lt_of_le (ha.repos r h.2) hb
  | refreshAll o => exact Nat.lt_of_lt_of_le (ha.repos r h) hb
  | addRepo s o =>
    have h' : r = m.repoCount := h
    rw [h']
    exact hg s o rfl
  | gui o => exact absurd h id
  | worker p => exact absurd h id
  | pause repo => exact absurd h id
  | editRefreshTime repo mins => exact absurd h id
  | removeRepo repo => exact absurd h id
  | setVisible v => exact absurd h id
  | editOurName name => exact absurd h id
  | editRepoName repo name => exact absurd h id

theorem alloc_turn {m m' : MainWindow} {e : Event} (h : Turn m e m') (ha : Alloc m)
    (hbound : ∀ j ∈ m.refreshJobs, j < m.jobCount) : Alloc m' := by
  cases h with
  | calm c =>
    refine ⟨?_, c.nodup ha.nodup ha.repos, ?_, ?_⟩
    · intro r hr
      rcases c.repos r hr with h | ⟨h, hlt⟩
      · exact Nat.lt_of_lt_of_le (ha.repos r h) c.repoCount
      · rw [h]; exact hlt
    · intro r hr
      have hr' : m.repoCount ≤ r := Nat.le_trans c.repoCount hr
      cases hact : (m'.repoStore r).timer.active with
      | false => rfl
      | true =>
        rcases c.timer r hact with h | ⟨mins, _, h⟩
        · rw [ha.timers r hr'] at h; cases h
        · exact absurd (ha.repos r h) (Nat.not_lt.mpr hr')
    · intro j hj
      rw [c.queue, List.mem_append] at hj
      rcases hj with hj | hj
      · rw [c.jobs j (hbound j hj)]
        exact Nat.lt_of_lt_of_le (ha.jobs j hj) c.repoCount
      · obtain ⟨r, hr⟩ := exists_of_mem_enqueuedJobs hj
        rw [(c.born j r hr).1]
        exact Event.asks_lt ha (c.asked j r hr) _ c.repoCount c.grown
  | drained job rest ran o he hq hc hd hst hrep hg hw =>
    have hjob : job ∈ m.refreshJobs := by rw [hq]; exact List.mem_cons_self _ _
    have hrc : m'.repoCount = m.repoCount := hc.repoCount
    have hrs : m'.repos = m.repos := hc.repos
    refine ⟨?_, by rw [hrs]; exact ha.nodup, ?_, ?_⟩
    · intro r hr
      rw [hrc]
      have : m'.repos = m.repos := hc.repos
      rw [this] at hr
      exact ha.repos r hr
    · intro r hr
      rw [hrc] at hr
      have hne : r ≠ (m.jobStore job).repo := by
        intro h
        rw [h] at hr
        exact absurd (ha.jobs job hjob) (Nat.not_lt.mpr hr)
      have : m'.repoStore r = m.repoStore r := hc.otherRepos r hne
      rw [this]
      exact ha.timers r hr
    · intro j hj
      have hj' : j ∈ m.refreshJobs := hc.queue_sub j hj
      have : (m'.jobStore j).repo = (m.jobStore j).repo := hc.repo_eq j
      rw [this, hrc]
      exact ha.jobs j hj'
  | started m1 m2 job repo hl hc hd hq hedit hask hgrow hasks honce =>
    have hrc : m'.repoCount = m1.repoCount := by rw [hq.repoCount, hc.repoCount]
    have hrepo : repo < m1.repoCount := Event.asks_lt ha hask _ hl.repoCount hgrow
    refine ⟨?_, by rw [hq.repos, hc.repos]; exact hl.nodup ha.nodup ha.repos, ?_, ?_⟩
    · intro r hr
      rw [hq.repos, hc.repos] at hr
      rw [hrc]
      rcases hl.repos r hr with h | ⟨h, hlt⟩
      · exact Nat.lt_of_lt_of_le (ha.repos r h) hl.repoCount
      · rw [h]; exact hlt
    · intro r hr
      rw [hrc] at hr
      have hne : r ≠ repo := by
        intro h
        rw [h] at hr
        exact absurd hrepo (Nat.not_lt.mpr hr)
      rw [(hq.repo r).2.1, hc.otherRepos r (by rw [hl.jobRepo]; exact hne), hl.others r hne]
      exact ha.timers r (Nat.le_trans hl.repoCount hr)
    · intro j hj
      rw [hq.queue, List.mem_append] at hj
      rw [hrc]
      rcases hj with hj | hj
      · have hj1 := hc.queue_sub j hj
        rw [hl.queue, List.mem_singleton] at hj1
        subst hj1
        have hlt : j < m2.jobCount := by
          rw [hc.jobCount, hl.jobCount, hl.fresh]
          exact Nat.lt_succ_self _
        rw [hq.jobs j hlt, hc.jobRepo, hl.jobRepo]
        exact hrepo
      · obtain ⟨r, hr⟩ := exists_of_mem_enqueuedJobs hj
        rw [(hq.born j r hr).1]
        exact Event.asks_lt ha (hasks j r hr) _ hl.repoCount hgrow

/-- An invariant of the steps holds after every run. -/
theorem run_induction (motive : MainWindow → Prop) (allowed : Event → Prop)
    (hstep : ∀ m e, m.core.Inv → allowed e → motive m → motive (m.step e)) :
    ∀ (es : List Event) (m : MainWindow), m.core.Inv → (∀ e ∈ es, allowed e) → motive m →
      motive (m.run es) := by
  intro es
  induction es with
  | nil => intro m _ _ h; exact h
  | cons e es ih =>
    intro m hinv hall h
    rw [run_cons]
    exact ih _ (inv_step m e hinv) (fun e' he' => hall e' (List.mem_cons_of_mem _ he'))
      (hstep m e hinv (hall e (List.mem_cons_self _ _)) h)

theorem alloc_reachable (os : Platform) (ourName : String) (es : List Event) :
    Alloc ((MainWindow.initial os ourName).run es) := by
  refine run_induction Alloc (fun _ => True) ?_ es _ (inv_initial os ourName)
    (fun _ _ => trivial) ?_
  · intro m e hinv _ ha
    exact alloc_turn (turn_step m hinv e) ha hinv.base.bound
  · refine ⟨?_, List.nodup_nil, ?_, ?_⟩
    · intro r hr; cases hr
    · intro r _; rfl
    · intro j hj; cases hj

theorem blank_turn {m m' : MainWindow} {e : Event} (h : Turn m e m') (ha : Alloc m)
    (hb : Blank m) : Blank m' := by
  cases h with
  | calm c =>
    intro r hr
    rw [c.beyond r hr]
    exact hb r (Nat.le_trans c.repoCount hr)
  | drained job rest ran o he hq hc hd hst hrep hg hw =>
    have hjob : job ∈ m.refreshJobs := by rw [hq]; exact List.mem_cons_self _ _
    have hrc : m'.repoCount = m.repoCount := hc.repoCount
    intro r hr
    rw [hrc] at hr
    have hne : r ≠ (m.jobStore job).repo := by
      intro h
      rw [h] at hr
      exact absurd (ha.jobs job hjob) (Nat.not_lt.mpr hr)
    have : m'.repoStore r = m.repoStore r := hc.otherRepos r hne
    rw [this]
    exact hb r hr
  | started m1 m2 job repo hl hc hd hq hedit hask hgrow hasks honce =>
    have hrc : m'.repoCount = m1.repoCount := by rw [hq.repoCount, hc.repoCount]
    have hrepo : repo < m1.repoCount := Event.asks_lt ha hask _ hl.repoCount hgrow
    intro r hr
    rw [hrc] at hr
    have hne : r ≠ repo := by
      intro h
      rw [h] at hr
      exact absurd hrepo (Nat.not_lt.mpr hr)
    rw [(hq.repo r).2.2.2.2, hc.otherRepos r (by rw [hl.jobRepo]; exact hne), hl.others r hne]
    exact hb r (Nat.le_trans hl.repoCount hr)

theorem blank_reachable (os : Platform) (ourName : String) (es : List Event) :
    Blank ((MainWindow.initial os ourName).run es) := by
  have h : Alloc ((MainWindow.initial os ourName).run es) ∧
      Blank ((MainWindow.initial os ourName).run es) := by
    refine run_induction (fun m => Alloc m ∧ Blank m) (fun _ => True) ?_ es _
      (inv_initial os ourName) (fun _ _ => trivial) ?_
    · intro m e hinv _ ha
      exact ⟨alloc_turn (turn_step m hinv e) ha.1 hinv.base.bound,
        blank_turn (turn_step m hinv e) ha.1 ha.2⟩
    · refine ⟨⟨?_, List.nodup_nil, ?_, ?_⟩, ?_⟩
      · intro r hr; cases hr
      · intro r _; rfl
      · intro j hj; cases hj
      · intro r _; rfl
  exact h.2

theorem front_unique {m : MainWindow} (hinv : m.core.Inv) {job : JobId} {rest : List JobId}
    (hq : m.refreshJobs = job :: rest) :
    ∀ j ∈ rest, (m.jobStore j).repo ≠ (m.jobStore job).repo := by
  have h : (m.refreshJobs.map (fun j => (m.jobStore j).repo)).Nodup := hinv.base.oneEach
  rw [hq, List.map_cons, List.nodup_cons] at h
  intro j hj heq
  exact h.1 (List.mem_map.mpr ⟨j, hj, heq⟩)

theorem named_turn {m m' : MainWindow} {e : Event} (h : Turn m e m') (hn : Named m)
    (hbound : ∀ j ∈ m.refreshJobs, j < m.jobCount) : Named m' := by
  cases h with
  | calm c =>
    intro j hj hs
    rw [c.queue, List.mem_append] at hj
    rcases hj with hj | hj
    · rw [c.jobs j (hbound j hj)] at hs ⊢
      exact hn j hj hs
    · obtain ⟨r, hr⟩ := exists_of_mem_enqueuedJobs hj
      rw [(c.born j r hr).2.1] at hs
      exact absurd hs (by decide)
  | drained job rest ran o he hq hc hd hst hrep hg hw =>
    intro j hj hs
    have hj' : j ∈ m.refreshJobs := hc.queue_sub j hj
    by_cases hjj : j = job
    · subst hjj
      have hstate : (m'.jobStore j).state = (m.jobStore j).state ∨
          (m'.jobStore j).state = (m.jobStore j).state + 1 := hc.state
      by_cases h2 : ran = .step 2
      · have h2s : (m.jobStore j).state = 2 := hst 2 h2
        rcases hstate with h | h
        · rw [h, h2s] at hs; exact absurd hs (by decide)
        · exact hc.origin h2 h
      · have hnm : (m'.jobStore j).remote = (m.jobStore j).remote := (hc.naming h2).1
        rw [hnm]
        apply hn j hj'
        cases ran with
        | reply => have := hrep rfl; omega
        | step k =>
          have hk := hst k rfl
          have hk2 : k ≠ 2 := fun h => h2 (by rw [h])
          rcases hstate with h | h <;> omega
    · have : m'.jobStore j = m.jobStore j := hc.otherJobs j hjj
      rw [this] at hs ⊢
      exact hn j hj' hs
  | started m1 m2 job repo hl hc hd hq hedit hask hgrow hasks honce =>
    intro j hj hs
    rw [hq.queue, List.mem_append] at hj
    rcases hj with hj | hj
    · have hj1 := hc.queue_sub j hj
      rw [hl.queue, List.mem_singleton] at hj1
      subst hj1
      have hlt : j < m2.jobCount := by
        rw [hc.jobCount, hl.jobCount, hl.fresh]
        exact Nat.lt_succ_self _
      rw [hq.jobs j hlt] at hs
      have := hc.state
      rw [hl.state] at this
      omega
    · obtain ⟨r, hr⟩ := exists_of_mem_enqueuedJobs hj
      rw [(hq.born j r hr).2.1] at hs
      exact absurd hs (by decide)

theorem named_reachable (os : Platform) (ourName : String) (es : List Event) :
    Named ((MainWindow.initial os ourName).run es) := by
  refine run_induction Named (fun _ => True) ?_ es _ (inv_initial os ourName)
    (fun _ _ => trivial) ?_
  · intro m e hinv _ hn
    exact named_turn (turn_step m hinv e) hn hinv.base.bound
  · intro j hj; cases hj

theorem paused_turn {m m' : MainWindow} {e : Event} {R : RepoId} (h : Turn m e m')
    (hk : Paused m R) (hinv : m.core.Inv) (he : e.keepsInterval R) : Paused m' R := by
  have hbound : ∀ j ∈ m.refreshJobs, j < m.jobCount := hinv.base.bound
  cases h with
  | calm c =>
    intro j hj hr hs
    rw [c.queue, List.mem_append] at hj
    rcases hj with hj | hj
    · rw [c.jobs j (hbound j hj)] at hs hr
      have hoff := hk j hj hr hs
      cases hact : (m'.repoStore R).timer.active with
      | false => rfl
      | true =>
        rcases c.timer R hact with h | ⟨mins, h, _⟩
        · rw [hoff] at h; cases h
        · rw [h] at he; exact absurd rfl he
    · obtain ⟨r, hr'⟩ := exists_of_mem_enqueuedJobs hj
      exact absurd (c.born j r hr').2.1 hs
  | drained job rest ran o he' hq hc hd hst hrep hg hw =>
    intro j hj hr hs
    have hjob : job ∈ m.refreshJobs := by rw [hq]; exact List.mem_cons_self _ _
    have hj' : j ∈ m.refreshJobs := hc.queue_sub j hj
    have hrj : (m.jobStore j).repo = R := by rw [← hc.repo_eq j]; exact hr
    by_cases hR : (m.jobStore job).repo = R
    · by_cases h0 : ran = .step 0
      · have : (m'.repoStore (m.jobStore job).repo).timer =
            (m.repoStore (m.jobStore job).repo).timer.stop := hc.timerStop h0
        rw [← hR, this]
        rfl
      · have hstate0 : (m.jobStore job).state ≠ 0 := by
          cases ran with
          | reply => have := hrep rfl; omega
          | step k =>
            have hk' := hst k rfl
            intro h
            apply h0
            rw [← hk', h]
        have hoff := hk job hjob hR hstate0
        by_cases hsucc : ∃ j', (j', true) ∈ outcomes (newNotes m m')
        · obtain ⟨j', hj''⟩ := hsucc
          have hqt : m'.refreshJobs = m.refreshJobs.tail := (hc.succeeded j' hj'').2.1.queue
          rw [hqt, hq, List.tail_cons] at hj
          exact absurd (hrj.trans hR.symm) (front_unique hinv hq j hj)
        · have : (m'.repoStore (m.jobStore job).repo).timer =
              (m.repoStore (m.jobStore job).repo).timer :=
            hc.timerKeep h0 (fun j' hj'' => hsucc ⟨j', hj''⟩)
          rw [← hR, this, hR]
          exact hoff
    · have hne : j ≠ job := by
        intro h
        apply hR
        rw [← h]
        exact hrj
      have hsame : m'.jobStore j = m.jobStore j := hc.otherJobs j hne
      rw [hsame] at hs
      have : m'.repoStore R = m.repoStore R := hc.otherRepos R (fun h => hR h.symm)
      rw [this]
      exact hk j hj' hrj hs
  | started m1 m2 job repo hl hc hd hq hedit hask hgrow hasks honce =>
    intro j hj hr hs
    rw [hq.queue, List.mem_append] at hj
    rcases hj with hj | hj
    · have hj1 := hc.queue_sub j hj
      rw [hl.queue, List.mem_singleton] at hj1
      subst hj1
      have hlt : j < m2.jobCount := by
        rw [hc.jobCount, hl.jobCount, hl.fresh]
        exact Nat.lt_succ_self _
      rw [hq.jobs j hlt, hc.jobRepo, hl.jobRepo] at hr
      rw [(hq.repo R).2.1]
      have := hc.timerStop rfl
      rw [hl.jobRepo, hr] at this
      rw [this]
      rfl
    · obtain ⟨r, hr'⟩ := exists_of_mem_enqueuedJobs hj
      exact absurd (hq.born j r hr').2.1 hs

/-- An event that spares a parked repository asks for no refresh of it. -/
theorem Event.asks_ne {m : MainWindow} {e : Event} {r R : RepoId} (hp : Parked m R)
    (he : e.spares R) (h : e.asks m r) : r ≠ R := by
  intro hr
  subst hr
  cases e with
  | timeout repo o =>
    have h2 : (m.repoStore r).timer.active = true := h.2
    rw [hp.timer] at h2
    cases h2
  | refresh repo o => exact he h.1
  | refreshAll o => exact he
  | addRepo s o =>
    have h' : r = m.repoCount := h
    have := hp.known
    rw [h'] at this
    exact Nat.lt_irrefl _ this
  | gui o => exact h
  | worker p => exact h
  | pause repo => exact h
  | editRefreshTime repo mins => exact h
  | removeRepo repo => exact h
  | setVisible v => exact h
  | editOurName name => exact h
  | editRepoName repo name => exact h

theorem parked_turn {m m' : MainWindow} {e : Event} {R : RepoId} (h : Turn m e m')
    (hp : Parked m R) (hinv : m.core.Inv) (he : e.spares R) : Parked m' R := by
  have hbound : ∀ j ∈ m.refreshJobs, j < m.jobCount := hinv.base.bound
  cases h with
  | calm c =>
    refine ⟨Nat.lt_of_lt_of_le hp.known c.repoCount, ?_, ?_⟩
    · cases hact : (m'.repoStore R).timer.active with
      | false => rfl
      | true =>
        rcases c.timer R hact with h | ⟨mins, h, _⟩
        · rw [hp.timer] at h; cases h
        · rw [h] at he; exact absurd rfl he
    · intro j hj
      rw [c.queue, List.mem_append] at hj
      rcases hj with hj | hj
      · rw [c.jobs j (hbound j hj)]
        exact hp.queue j hj
      · obtain ⟨r, hr⟩ := exists_of_mem_enqueuedJobs hj
        rw [(c.born j r hr).1]
        exact Event.asks_ne hp he (c.asked j r hr)
  | drained job rest ran o he' hq hc hd hst hrep hg hw =>
    have hjob : job ∈ m.refreshJobs := by rw [hq]; exact List.mem_cons_self _ _
    have hne : R ≠ (m.jobStore job).repo := fun h => hp.queue job hjob h.symm
    have hsame : m'.repoStore R = m.repoStore R := hc.otherRepos R hne
    have hrc : m'.repoCount = m.repoCount := hc.repoCount
    refine ⟨by rw [hrc]; exact hp.known, by rw [hsame]; exact hp.timer, ?_⟩
    intro j hj
    rw [hc.repo_eq j]
    exact hp.queue j (hc.queue_sub j hj)
  | started m1 m2 job repo hl hc hd hq hedit hask hgrow hasks honce =>
    have hne : R ≠ repo := fun h => Event.asks_ne hp he hask h.symm
    have hrc : m'.repoCount = m1.repoCount := by rw [hq.repoCount, hc.repoCount]
    refine ⟨by rw [hrc]; exact Nat.lt_of_lt_of_le hp.known hl.repoCount, ?_, ?_⟩
    · rw [(hq.repo R).2.1, hc.otherRepos R (by rw [hl.jobRepo]; exact hne), hl.others R hne]
      exact hp.timer
    · intro j hj
      rw [hq.queue, List.mem_append] at hj
      rcases hj with hj | hj
      · have hj1 := hc.queue_sub j hj
        rw [hl.queue, List.mem_singleton] at hj1
        subst hj1
        have hlt : j < m2.jobCount := by
          rw [hc.jobCount, hl.jobCount, hl.fresh]
          exact Nat.lt_succ_self _
        rw [hq.jobs j hlt, hc.jobRepo, hl.jobRepo]
        exact fun h => hne h.symm
      · obtain ⟨r, hr⟩ := exists_of_mem_enqueuedJobs hj
        rw [(hq.born j r hr).1]
        exact Event.asks_ne hp he (hasks j r hr)

/-! ## What the record of one event holds -/

/-- Calls of `refreshRepo` that only append jobs end no job, start no process,
run no step and show no message. -/
theorem Quiet.silent {m m' : MainWindow} (h : Quiet m m') :
    outcomes (newNotes m m') = [] ∧ launches (newNotes m m') = [] ∧
    (∀ j, dispatchedStates j (newNotes m m') = []) ∧
    ∀ title message, Note.trayMessage title message ∉ newNotes m m' := by
  have hin : ∀ n ∈ newNotes m m', n.isInert = true := h.inert
  refine ⟨?_, ?_, ?_, ?_⟩
  · unfold outcomes
    rw [List.filterMap_eq_nil_iff]
    intro n hn
    have := hin n hn
    cases n <;> simp_all [Note.isInert]
  · unfold launches
    rw [List.filterMap_eq_nil_iff]
    intro n hn
    have := hin n hn
    cases n <;> simp_all [Note.isInert]
  · intro j
    unfold dispatchedStates
    rw [List.filterMap_eq_nil_iff]
    intro n hn
    have := hin n hn
    cases n <;> simp_all [Note.isInert]
  · intro title message hmem
    have := hin _ hmem
    simp [Note.isInert] at this

/-- The record of an event that appends a job to the empty queue and runs its
step 0. -/
theorem Lead.record {m m1 m2 m' : MainWindow} {job : JobId} {repo : RepoId} {now : String}
    (hl : Lead m m1 job repo) (hc : Closure m1 m2 job (.step 0) now)
    (hd : ∀ j, dispatchedStates j (newNotes m1 m2) = if j = job then [0] else [])
    (hq : Quiet m2 m') :
    outcomes (newNotes m m') = outcomes (newNotes m1 m2) ∧
    launches (newNotes m m') = [] ∧
    (∀ j, dispatchedStates j (newNotes m m') = if j = job then [0] else []) ∧
    (∀ title message, Note.trayMessage title message ∈ newNotes m m' ↔
      Note.trayMessage title message ∈ newNotes m1 m2) ∧
    enqueuedJobs (newNotes m m') = job :: enqueuedJobs (newNotes m2 m') ∧
    (m'.jobStore job).repo = repo ∧
    (∀ r, (m'.repoStore r).statusLines = (m2.repoStore r).statusLines) := by
  obtain ⟨s1, s2, s3, s4⟩ := hq.silent
  have hn := (hl.notes hc hq).2
  have hl0 : launches (newNotes m1 m2) = [] := by
    rw [List.eq_nil_iff_forall_not_mem]
    intro cl hcl
    obtain ⟨_, _, a, ha, _⟩ := hc.launched cl hcl
    simp [controlArguments] at ha
  have hlt : job < m2.jobCount := by
    rw [hc.jobCount, hl.jobCount, hl.fresh]
    exact Nat.lt_succ_self _
  refine ⟨?_, ?_, ?_, ?_, ?_, ?_, ?_⟩
  · rw [hn]; simp [s1]
  · rw [hn]; simp [s2, hl0]
  · intro j; rw [hn]; simp [s3, hd]
  · intro title message
    rw [hn]
    simp only [List.mem_cons, List.mem_append]
    constructor
    · rintro (h | h | h)
      · cases h
      · exact h
      · exact absurd h (s4 _ _)
    · intro h; exact Or.inr (Or.inl h)
  · rw [hn]; simp [hc.noEnqueue]
  · rw [hq.jobs job hlt, hc.jobRepo, hl.jobRepo]
  · intro r; exact (hq.repo r).2.2.2.2

/-- C13, amended. In a state the program can reach, for any repository and any
event: the log of the repository is only appended to, unless the step of state 0
runs for a job of the repository in this event; that step leaves a log that
begins with the clock reading of the event, also when it runs inside the event
that sets the repository up; the steps of the states 2, 3, 4, 5 and 7 each make
the log longer; and a step of state 1 or 6 that does not enter
`refresh_errorNext` leaves the log as it was. -/
theorem log_cleared_by_step0_only (m : MainWindow) (hm : Reachable m) (e : Event)
    (r : RepoId) :
    ((∀ j, ((m.step e).jobStore j).repo = r → 0 ∉ dispatchedStates j (m.turnNotes e)) →
      (m.repoStore r).statusLines <+: ((m.step e).repoStore r).statusLines) ∧
    (∀ j, ((m.step e).jobStore j).repo = r → 0 ∈ dispatchedStates j (m.turnNotes e) →
      ∃ more, ((m.step e).repoStore r).statusLines = e.now :: more) ∧
    (∀ j k, ((m.step e).jobStore j).repo = r → k ∈ dispatchedStates j (m.turnNotes e) →
      k ∈ [(2 : Int), 3, 4, 5, 7] →
      (m.repoStore r).statusLines.length < ((m.step e).repoStore r).statusLines.length) ∧
    (∀ j k, ((m.step e).jobStore j).repo = r → k ∈ dispatchedStates j (m.turnNotes e) →
      k ∈ [(1 : Int), 6] → (j, false) ∉ outcomes (m.turnNotes e) →
      ((m.step e).repoStore r).statusLines = (m.repoStore r).statusLines) := by
  obtain ⟨os, ourName, es, rfl⟩ := hm
  have ht := turn_reachable os ourName es e
  have hb := blank_reachable os ourName es
  generalize (MainWindow.initial os ourName).run es = m at ht hb ⊢
  unfold MainWindow.turnNotes
  generalize m.step e = m' at ht ⊢
  cases ht with
  | calm c =>
    refine ⟨fun _ => ?_, ?_, ?_, ?_⟩
    · by_cases hr : r < m.repoCount
      · rw [(c.repo r hr).2.2.2]
      · rw [hb r (Nat.le_of_not_lt hr)]
        exact List.nil_prefix
    · intro j _ h0; rw [c.dispatched j] at h0; cases h0
    · intro j k _ hk; rw [c.dispatched j] at hk; cases hk
    · intro j k _ hk; rw [c.dispatched j] at hk; cases hk
  | drained job rest ran o he hq hc hd hst hrep hg hw =>
    have hrepo : (m'.jobStore job).repo = (m.jobStore job).repo := hc.jobRepo
    refine ⟨?_, ?_, ?_, ?_⟩
    · intro hno
      by_cases hR : r = (m.jobStore job).repo
      · have h0 : ran ≠ .step 0 := by
          intro h0
          apply hno job (by rw [hrepo, hR])
          rw [hd job, h0]
          simp
        rw [hR]
        exact hc.logAppend h0
      · have : m'.repoStore r = m.repoStore r := hc.otherRepos r hR
        rw [this]
    · intro j hj h0
      cases ran with
      | reply =>
        have hd' : dispatchedStates j (newNotes m m') = [] := hd j
        rw [hd'] at h0; cases h0
      | step k =>
        have hd' : dispatchedStates j (newNotes m m') = if j = job then [k] else [] := hd j
        rw [hd'] at h0
        by_cases hjj : j = job
        · rw [if_pos hjj, List.mem_singleton] at h0
          subst hjj
          rw [← hj, hrepo]
          exact hc.logReset (by rw [h0])
        · rw [if_neg hjj] at h0; cases h0
    · intro j k hj hk hmem
      cases ran with
      | reply =>
        have hd' : dispatchedStates j (newNotes m m') = [] := hd j
        rw [hd'] at hk; cases hk
      | step k' =>
        have hd' : dispatchedStates j (newNotes m m') = if j = job then [k'] else [] := hd j
        rw [hd'] at hk
        by_cases hjj : j = job
        · rw [if_pos hjj, List.mem_singleton] at hk
          subst hjj
          rw [← hj, hrepo]
          exact hc.logGrows k hmem (by rw [hk])
        · rw [if_neg hjj] at hk; cases hk
    · intro j k hj hk hmem hnf
      cases ran with
      | reply =>
        have hd' : dispatchedStates j (newNotes m m') = [] := hd j
        rw [hd'] at hk; cases hk
      | step k' =>
        have hd' : dispatchedStates j (newNotes m m') = if j = job then [k'] else [] := hd j
        rw [hd'] at hk
        by_cases hjj : j = job
        · rw [if_pos hjj, List.mem_singleton] at hk
          subst hjj
          have hsame : (m'.repoStore (m.jobStore j).repo).statusLines =
              (m.repoStore (m.jobStore j).repo).statusLines := by
            refine hc.logSame ?_ hnf
            rw [← hk]
            simpa using hmem
          rw [← hj, hrepo]
          exact hsame
        · rw [if_neg hjj] at hk; cases hk
  | started m1 m2 job repo hl hc hd hq hedit hask hgrow hasks honce =>
    obtain ⟨_, _, r3, _, _, r6, r7⟩ := hl.record hc hd hq
    refine ⟨?_, ?_, ?_, ?_⟩
    · intro hno
      by_cases hR : r = repo
      · exfalso
        apply hno job (by rw [r6, hR])
        rw [r3 job]
        simp
      · rw [r7 r, hc.otherRepos r (by rw [hl.jobRepo]; exact hR), hl.others r hR]
    · intro j hj h0
      rw [r3 j] at h0
      by_cases hjj : j = job
      · subst hjj
        rw [r6] at hj
        rw [r7 r, ← hj]
        have := hc.logReset rfl
        rw [hl.jobRepo] at this
        exact this
      · rw [if_neg hjj] at h0; cases h0
    · intro j k hj hk hmem
      rw [r3 j] at hk
      by_cases hjj : j = job
      · rw [if_pos hjj, List.mem_singleton] at hk
        rw [hk] at hmem
        simp at hmem
      · rw [if_neg hjj] at hk; cases hk
    · intro j k hj hk hmem
      rw [r3 j] at hk
      by_cases hjj : j = job
      · rw [if_pos hjj, List.mem_singleton] at hk
        rw [hk] at hmem
        simp at hmem
      · rw [if_neg hjj] at hk; cases hk

/-- C13, as stated, fails: step 1 of the job of the sample repository finds no
ongoing operation, goes on to state 2 and leaves the log as it was. -/
theorem step1_appends_nothing_counterexample :
    dispatchedStates 0 (MainWindow.sample.turnNotes (.gui Obs.quiet)) = [1] ∧
    outcomes (MainWindow.sample.turnNotes (.gui Obs.quiet)) = [] ∧
    ((MainWindow.sample.step (.gui Obs.quiet)).jobStore 0).state = 2 ∧
    ((MainWindow.sample.step (.gui Obs.quiet)).repoStore 0).statusLines =
      (MainWindow.sample.repoStore 0).statusLines := by
  decide

/-- C13 amended, at the sample repository: when it is set up, step 0 of its job
leaves a log that begins with the clock reading; step 1 finds nothing going on
and leaves the log as it was; step 2 makes the log longer. -/
theorem log_cleared_by_step0_only_witness :
    (Reachable (MainWindow.initial .other "me") ∧
      0 ∈ dispatchedStates 0 ((MainWindow.initial .other "me").turnNotes
        (.addRepo Settings.Repo.sample Obs.quiet))) ∧
    (∃ more, (((MainWindow.initial .other "me").step
      (.addRepo Settings.Repo.sample Obs.quiet)).repoStore 0).statusLines =
        Obs.quiet.now :: more) ∧
    (Reachable MainWindow.sample ∧
      1 ∈ dispatchedStates 0 (MainWindow.sample.turnNotes (.gui Obs.quiet)) ∧
      (0, false) ∉ outcomes (MainWindow.sample.turnNotes (.gui Obs.quiet))) ∧
    ((MainWindow.sample.step (.gui Obs.quiet)).repoStore 0).statusLines =
      (MainWindow.sample.repoStore 0).statusLines ∧
    (Reachable (MainWindow.sample.step (.gui Obs.quiet)) ∧
      2 ∈ dispatchedStates 0 ((MainWindow.sample.step (.gui Obs.quiet)).turnNotes
        (.gui (Obs.answering ["main\n", "host:notes.git\n"])))) ∧
    ((MainWindow.sample.step (.gui Obs.quiet)).repoStore 0).statusLines.length <
      (((MainWindow.sample.step (.gui Obs.quiet)).step
        (.gui (Obs.answering ["main\n", "host:notes.git\n"]))).repoStore 0).statusLines.length :=
  have hm0 : Reachable (MainWindow.initial .other "me") := ⟨.other, "me", [], rfl⟩
  have hd0 : 0 ∈ dispatchedStates 0 ((MainWindow.initial .other "me").turnNotes
      (.addRepo Settings.Repo.sample Obs.quiet)) := by decide
  have hm1 : Reachable MainWindow.sample :=
    ⟨.other, "me", [.addRepo Settings.Repo.sample Obs.quiet], rfl⟩
  have hd1 : 1 ∈ dispatchedStates 0 (MainWindow.sample.turnNotes (.gui Obs.quiet)) := by decide
  have hf1 : (0, false) ∉ outcomes (MainWindow.sample.turnNotes (.gui Obs.quiet)) := by decide
  have hm : Reachable (MainWindow.sample.step (.gui Obs.quiet)) :=
    ⟨.other, "me", [.addRepo Settings.Repo.sample Obs.quiet, .gui Obs.quiet], rfl⟩
  have hd : 2 ∈ dispatchedStates 0 ((MainWindow.sample.step (.gui Obs.quiet)).turnNotes
      (.gui (Obs.answering ["main\n", "host:notes.git\n"]))) := by decide
  ⟨⟨hm0, hd0⟩,
   (log_cleared_by_step0_only (MainWindow.initial .other "me") hm0
      (.addRepo Settings.Repo.sample Obs.quiet) 0).2.1 0 (by decide) hd0,
   ⟨hm1, hd1, hf1⟩,
   (log_cleared_by_step0_only MainWindow.sample hm1 (.gui Obs.quiet) 0).2.2.2 0 1 (by decide)
      hd1 (by decide) hf1,
   ⟨hm, hd⟩,
   (log_cleared_by_step0_only (MainWindow.sample.step (.gui Obs.quiet)) hm
      (.gui (Obs.answering ["main\n", "host:notes.git\n"])) 0).2.2.1 0 2 (by decide) hd
      (by decide)⟩

theorem int32_of_small (x : Int) (h0 : -2 ^ 31 ≤ x) (h1 : x < 2 ^ 31) : int32 x = x := by
  unfold int32
  rw [Int.emod_eq_of_lt (by omega) (by omega)]
  omega

/-- C11, amended. In a state the program can reach, an event in which
`refresh_successNext` is entered for a job leaves the repository of the job with
`ok` set and `refreshing` cleared, has called `updateRepoGui` for it and
`updateTrayIcon`, and has started the timer exactly when
`refreshRateMinutes * 60 * 1000`, as a C++ `int`, is positive, with this value as
interval: so for 1 to 35791 minutes the timer runs with the interval
`refreshRateMinutes * 60 * 1000`, and for 0 minutes, or a negative number down to
-35791, the timer is left as it was. -/
theorem success_restarts_timer_if_positive (m : MainWindow) (hm : Reachable m) (e : Event)
    (job : JobId) (h : (job, true) ∈ outcomes (m.turnNotes e)) :
    ((m.step e).repoStore (m.jobStore job).repo).ok = true ∧
    ((m.step e).repoStore (m.jobStore job).repo).refreshing = false ∧
    ((m.step e).repoStore (m.jobStore job).repo).timer =
      (if 0 < int32 ((m.repoStore (m.jobStore job).repo).settings.refreshRateMinutes * 60 * 1000)
       then (m.repoStore (m.jobStore job).repo).timer.start
        (int32 ((m.repoStore (m.jobStore job).repo).settings.refreshRateMinutes * 60 * 1000))
       else (m.repoStore (m.jobStore job).repo).timer) ∧
    (0 < (m.repoStore (m.jobStore job).repo).settings.refreshRateMinutes →
      (m.repoStore (m.jobStore job).repo).settings.refreshRateMinutes ≤ 35791 →
      ((m.step e).repoStore (m.jobStore job).repo).timer.active = true ∧
      ((m.step e).repoStore (m.jobStore job).repo).timer.interval =
        (m.repoStore (m.jobStore job).repo).settings.refreshRateMinutes * 60 * 1000) ∧
    (-35791 ≤ (m.repoStore (m.jobStore job).repo).settings.refreshRateMinutes →
      (m.repoStore (m.jobStore job).repo).settings.refreshRateMinutes ≤ 0 →
      ((m.step e).repoStore (m.jobStore job).repo).timer =
        (m.repoStore (m.jobStore job).repo).timer) ∧
    Note.repoGui (m.jobStore job).repo ∈ m.turnNotes e ∧
    Note.trayIcon ∈ m.turnNotes e := by
  obtain ⟨os, ourName, es, rfl⟩ := hm
  have ht := turn_reachable os ourName es e
  generalize (MainWindow.initial os ourName).run es = m at ht h ⊢
  unfold MainWindow.turnNotes at h ⊢
  generalize m.step e = m' at ht h ⊢
  cases ht with
  | calm c => rw [c.unended] at h; cases h
  | drained job' rest ran o he hq hc hd hst hrep hg hw =>
    obtain ⟨hjj, hs, _⟩ := hc.succeeded job h
    subst hjj
    have htimer : (m'.repoStore (m.jobStore job).repo).timer =
      (if 0 < int32 ((m.repoStore (m.jobStore job).repo).settings.refreshRateMinutes * 60 * 1000)
       then (m.repoStore (m.jobStore job).repo).timer.start
        (int32 ((m.repoStore (m.jobStore job).repo).settings.refreshRateMinutes * 60 * 1000))
       else (m.repoStore (m.jobStore job).repo).timer) := hs.timer
    refine ⟨hs.ok, hs.refreshing, htimer, ?_, ?_, hs.repoGui, hs.trayIcon⟩
    · intro h0 h1
      have hx := int32_of_small
        ((m.repoStore (m.jobStore job).repo).settings.refreshRateMinutes * 60 * 1000)
        (by omega) (by omega)
      rw [htimer, hx, if_pos (by omega)]
      exact ⟨rfl, rfl⟩
    · intro h1 h0
      rw [htimer, if_neg]
      have hx := int32_of_small
        ((m.repoStore (m.jobStore job).repo).settings.refreshRateMinutes * 60 * 1000)
        (by omega) (by omega)
      rw [hx]
      omega
  | started m1 m2 job' repo hl hc hd hq hedit hask hgrow hasks honce =>
    obtain ⟨r1, _⟩ := hl.record hc hd hq
    rw [r1] at h
    exact absurd rfl (hc.succeeded job h).2.2

/-- C11, as stated, fails: a repository loaded with the refresh rate `-1`, which is
not zero, is refreshed with success and its timer is not started. -/
theorem negative_rate_counterexample :
    outcomes (MainWindow.atCompareNegative.turnNotes (.gui Obs.even)) = [(0, true)] ∧
    (MainWindow.atCompareNegative.jobStore 0).repo = 0 ∧
    (MainWindow.atCompareNegative.repoStore 0).settings.refreshRateMinutes = -1 ∧
    ((MainWindow.atCompareNegative.step (.gui Obs.even)).repoStore 0).timer.active = false := by
  decide

/-- C11 amended, at the sample repository (5 minutes) when step 5 of its job
finds the branch even with its upstream. -/
theorem success_restarts_timer_if_positive_witness :
    (Reachable MainWindow.atCompare ∧
      (0, true) ∈ outcomes (MainWindow.atCompare.turnNotes (.gui Obs.even))) ∧
    ((MainWindow.atCompare.step (.gui Obs.even)).repoStore
      (MainWindow.atCompare.jobStore 0).repo).ok = true ∧
    ((MainWindow.atCompare.step (.gui Obs.even)).repoStore
      (MainWindow.atCompare.jobStore 0).repo).refreshing = false ∧
    ((MainWindow.atCompare.step (.gui Obs.even)).repoStore
      (MainWindow.atCompare.jobStore 0).repo).timer.active = true ∧
    ((MainWindow.atCompare.step (.gui Obs.even)).repoStore
      (MainWindow.atCompare.jobStore 0).repo).timer.interval =
        (MainWindow.atCompare.repoStore
          (MainWindow.atCompare.jobStore 0).repo).settings.refreshRateMinutes * 60 * 1000 ∧
    Note.repoGui (MainWindow.atCompare.jobStore 0).repo ∈
      MainWindow.atCompare.turnNotes (.gui Obs.even) ∧
    Note.trayIcon ∈ MainWindow.atCompare.turnNotes (.gui Obs.even) :=
  have hm : Reachable MainWindow.atCompare := ⟨.other, "me", _, rfl⟩
  have hs : (0, true) ∈ outcomes (MainWindow.atCompare.turnNotes (.gui Obs.even)) := by decide
  have h := success_restarts_timer_if_positive MainWindow.atCompare hm (.gui Obs.even) 0 hs
  ⟨⟨hm, hs⟩, h.1, h.2.1, (h.2.2.2.1 (by decide) (by decide)).1,
    (h.2.2.2.1 (by decide) (by decide)).2, h.2.2.2.2.2.1, h.2.2.2.2.2.2⟩

/-- C12, amended. Let `m` be reached from a reachable state `m0` by the events
`es1`, and let `refresh_errorNext` be entered for a job in the event `e`; `R` is
the repository of the job. Then `ok` of `R` is cleared; a tray message is shown
exactly when the main window is not visible, with the path of `R` as title and
its status summary as text; the event does not start the timer of `R`; the
timer does not run after the event if no job for `R` was queued in `m0` and the
refresh interval of `R` has not been edited since; and a timer that does not run
after the event does not run after any further events `es2` among which there is
no manual refresh of `R`, no refresh of all repositories and no edit of the
refresh interval of `R`. -/
theorem failure_leaves_timer_stopped (m0 : MainWindow) (hm0 : Reachable m0)
    (es1 es2 : List Event) (e : Event) (job : JobId) (m m' : MainWindow) (R : RepoId)
    (hm : m = m0.run es1) (hm' : m' = m.step e) (hR : R = (m'.jobStore job).repo)
    (hfail : (job, false) ∈ outcomes (m.turnNotes e)) :
    (m'.repoStore R).ok = false ∧
    (m.visible = false →
      Note.trayMessage (m'.repoStore R).settings.path (m'.repoStore R).statusSummary ∈
        m.turnNotes e) ∧
    (∀ title message, Note.trayMessage title message ∈ m.turnNotes e →
      m.visible = false ∧ title = (m'.repoStore R).settings.path ∧
      message = (m'.repoStore R).statusSummary) ∧
    ((m'.repoStore R).timer.active = true → (m.repoStore R).timer.active = true) ∧
    ((∀ j ∈ m0.refreshJobs, (m0.jobStore j).repo ≠ R) → (∀ e' ∈ es1, e'.keepsInterval R) →
      (m'.repoStore R).timer.active = false) ∧
    ((m'.repoStore R).timer.active = false → (∀ e' ∈ es2, e'.spares R) →
      ((m'.run es2).repoStore R).timer.active = false) := by
  obtain ⟨os, ourName, es, rfl⟩ := hm0
  have hinv0 := inv_reachable os ourName es
  have hall : Alloc m := by
    rw [hm, ← run_append]
    exact alloc_reachable os ourName (es ++ es1)
  generalize (MainWindow.initial os ourName).run es = m0 at hinv0 hm
  have hinv : m.core.Inv := by rw [hm]; exact inv_run es1 m0 hinv0
  have hinv' : m'.core.Inv := by rw [hm']; exact inv_step m e hinv
  have ht := turn_step m hinv e
  have hpaused : (∀ j ∈ m0.refreshJobs, (m0.jobStore j).repo ≠ R) →
      (∀ e' ∈ es1, e'.keepsInterval R) → Paused m R := by
    intro hnone hkeep
    rw [hm]
    refine run_induction (fun m => Paused m R) (fun e' => e'.keepsInterval R) ?_ es1 m0 hinv0
      hkeep ?_
    · intro m e' hi he' hp
      exact paused_turn (turn_step m hi e') hp hi he'
    · intro j hj hr
      exact absurd hr (hnone j hj)
  have hparked : Parked m' R → (∀ e' ∈ es2, e'.spares R) →
      ((m'.run es2).repoStore R).timer.active = false := by
    intro hp hsp
    exact (run_induction (fun m => Parked m R) (fun e' => e'.spares R)
      (fun m e' hi he' hp => parked_turn (turn_step m hi e') hp hi he') es2 m' hinv' hsp hp).timer
  unfold MainWindow.turnNotes at hfail ⊢
  rw [← hm'] at ht hfail ⊢
  clear hm hm' hinv'
  cases ht with
  | calm c => rw [c.unended] at hfail; cases hfail
  | drained job' rest ran o he hq hc hd hst hrep hg hw =>
    obtain ⟨hjj, hf⟩ := hc.failed job hfail
    subst hjj
    have hjr : (m'.jobStore job).repo = (m.jobStore job).repo := hc.jobRepo
    rw [hjr] at hR
    subst hR
    have hjob : job ∈ m.refreshJobs := by rw [hq]; exact List.mem_cons_self _ _
    have hset : (m'.repoStore (m.jobStore job).repo).settings =
        (m.repoStore (m.jobStore job).repo).settings := hc.settings
    have honly : ∀ j, (j, true) ∉ outcomes (newNotes m m') := by
      intro j hj
      have hfo : outcomes (newNotes m m') = [(job, false)] := hf.only
      rw [hfo] at hj
      simp at hj
    have hstop : ran = .step 0 → (m'.repoStore (m.jobStore job).repo).timer.active = false := by
      intro h0
      have : (m'.repoStore (m.jobStore job).repo).timer =
          (m.repoStore (m.jobStore job).repo).timer.stop := hc.timerStop h0
      rw [this]
      rfl
    have hkeep : ran ≠ .step 0 → (m'.repoStore (m.jobStore job).repo).timer =
        (m.repoStore (m.jobStore job).repo).timer := fun h0 => hc.timerKeep h0 honly
    have hstate0 : ran ≠ .step 0 → (m.jobStore job).state ≠ 0 := by
      intro h0
      cases ran with
      | reply => have := hrep rfl; omega
      | step k =>
        have hk' := hst k rfl
        intro h
        apply h0
        rw [← hk', h]
    refine ⟨hf.ok, ?_, ?_, ?_, ?_, ?_⟩
    · intro hv
      rw [hset]
      exact hf.tray hv
    · intro title message hmem
      rw [hset]
      exact hf.trayOnly title message hmem
    · intro hact
      by_cases h0 : ran = .step 0
      · rw [hstop h0] at hact; cases hact
      · rw [hkeep h0] at hact; exact hact
    · intro hnone hkp
      by_cases h0 : ran = .step 0
      · exact hstop h0
      · rw [hkeep h0]
        exact hpaused hnone hkp job hjob rfl (hstate0 h0)
    · intro hoff hsp
      apply hparked _ hsp
      have hrc : m'.repoCount = m.repoCount := hc.repoCount
      refine ⟨by rw [hrc]; exact hall.jobs job hjob, hoff, ?_⟩
      intro j hj
      have hqt : m'.refreshJobs = rest := by
        have := hf.queue
        have h2 : m'.refreshJobs = m.refreshJobs.tail := this
        rw [h2, hq, List.tail_cons]
      rw [hqt] at hj
      rw [hc.repo_eq j]
      exact front_unique hinv hq j hj
  | started m1 m2 job' repo hl hc hd hq hedit hask hgrow hasks honce =>
    obtain ⟨r1, _, _, r4, _, r6, _⟩ := hl.record hc hd hq
    rw [r1] at hfail
    obtain ⟨hjj, hf⟩ := hc.failed job hfail
    subst hjj
    rw [r6] at hR
    subst hR
    have hj1 : (m1.jobStore job).repo = R := hl.jobRepo
    obtain ⟨q1, q2, q3, q4, _⟩ := hq.repo R
    have hset : (m2.repoStore R).settings = (m1.repoStore R).settings := by
      have := hc.settings
      rw [hj1] at this
      exact this
    have hoff : (m'.repoStore R).timer.active = false := by
      have := hc.timerStop rfl
      rw [hj1] at this
      rw [q2, this]
      rfl
    refine ⟨?_, ?_, ?_, ?_, fun _ _ => hoff, ?_⟩
    · have := hf.ok
      rw [hj1] at this
      rw [q3, this]
    · intro hv
      rw [r4, q1, q4, hset]
      have := hf.tray (by rw [hl.visible]; exact hv)
      rw [hj1] at this
      exact this
    · intro title message hmem
      rw [r4] at hmem
      have := hf.trayOnly title message hmem
      rw [hj1, hl.visible] at this
      rw [q1, q4, hset]
      exact this
    · intro hact
      rw [hoff] at hact; cases hact
    · intro _ hsp
      apply hparked _ hsp
      have hrc : m'.repoCount = m1.repoCount := by rw [hq.repoCount, hc.repoCount]
      refine ⟨by rw [hrc]; exact Event.asks_lt hall hask _ hl.repoCount hgrow, hoff, ?_⟩
      intro j hj
      have hq2 : m2.refreshJobs = [] := by
        rw [hf.queue, hl.queue]
        rfl
      rw [hq.queue, hq2, List.nil_append] at hj
      obtain ⟨r, hr⟩ := exists_of_mem_enqueuedJobs hj
      rw [(hq.born j r hr).1]
      exact honce hall.nodup j r hr

/-- C12, as stated, fails: the refresh interval of a repository is changed from 0
to 5 minutes while its job waits for step 1, which starts the timer; step 1
then finds a merge going on, the job fails, and the timer still runs. -/
theorem edit_during_job_counterexample :
    outcomes (MainWindow.edited.turnNotes (.gui Obs.merging)) = [(0, false)] ∧
    ((MainWindow.edited.step (.gui Obs.merging)).jobStore 0).repo = 0 ∧
    ((MainWindow.edited.step (.gui Obs.merging)).repoStore 0).ok = false ∧
    ((MainWindow.edited.step (.gui Obs.merging)).repoStore 0).timer.active = true := by
  decide

/-- C12 amended, at the sample repository, hidden in the tray, when step 1 of
its job finds a merge going on; afterwards the idle drain runs and the user
pauses the repository. -/
theorem failure_leaves_timer_stopped_witness :
    (Reachable (MainWindow.initial .other "me") ∧
      (0, false) ∈ outcomes
        (((MainWindow.initial .other "me").run
          [.setVisible false, .addRepo Settings.Repo.sample Obs.quiet]).turnNotes
            (.gui Obs.merging))) ∧
    ((((MainWindow.initial .other "me").run
      [.setVisible false, .addRepo Settings.Repo.sample Obs.quiet]).step
        (.gui Obs.merging)).repoStore 0).ok = false ∧
    Note.trayMessage
      ((((MainWindow.initial .other "me").run
        [.setVisible false, .addRepo Settings.Repo.sample Obs.quiet]).step
          (.gui Obs.merging)).repoStore 0).settings.path
      ((((MainWindow.initial .other "me").run
        [.setVisible false, .addRepo Settings.Repo.sample Obs.quiet]).step
          (.gui Obs.merging)).repoStore 0).statusSummary ∈
      ((MainWindow.initial .other "me").run
        [.setVisible false, .addRepo Settings.Repo.sample Obs.quiet]).turnNotes
          (.gui Obs.merging) ∧
    ((((MainWindow.initial .other "me").run
      [.setVisible false, .addRepo Settings.Repo.sample Obs.quiet]).step
        (.gui Obs.merging)).repoStore 0).timer.active = false ∧
    (((((MainWindow.initial .other "me").run
      [.setVisible false, .addRepo Settings.Repo.sample Obs.quiet]).step
        (.gui Obs.merging)).run [.gui Obs.quiet, .pause 0]).repoStore 0).timer.active = false :=
  have hm0 : Reachable (MainWindow.initial .other "me") := ⟨.other, "me", [], rfl⟩
  have hf : (0, false) ∈ outcomes
      (((MainWindow.initial .other "me").run
        [.setVisible false, .addRepo Settings.Repo.sample Obs.quiet]).turnNotes
          (.gui Obs.merging)) := by decide
  have h := failure_leaves_timer_stopped (MainWindow.initial .other "me") hm0
    [.setVisible false, .addRepo Settings.Repo.sample Obs.quiet] [.gui Obs.quiet, .pause 0]
    (.gui Obs.merging) 0 _ _ 0 rfl rfl (by decide) hf
  have hoff := h.2.2.2.2.1 (by decide) (by decide)
  ⟨⟨hm0, hf⟩, h.1, h.2.1 (by decide), hoff, h.2.2.2.2.2 hoff (by decide)⟩

/-! ## The processes started -/

theorem Launch.runs_eq (os : Platform) (sub a : String) (l : Launch)
    (h : l.command = Git.init os ++ " " ++ a) :
    l.runs os sub = (sub ++ " ").data.isPrefixOf a.data := by
  cases l with
  | mk wd cmd =>
    simp only at h
    subst h
    exact Launch.runs_git os sub wd a

/-- Every event extends the record and keeps the platform. -/
theorem Turn.frame {m m' : MainWindow} {e : Event} (h : Turn m e m') :
    m'.history = m.history ++ newNotes m m' ∧ m'.os = m.os := by
  cases h with
  | calm c => exact ⟨c.history, c.os⟩
  | drained job rest ran o he hq hc hd hst hrep hg hw => exact ⟨hc.history, hc.os⟩
  | started m1 m2 job repo hl hc hd hq hedit hask hgrow hasks honce =>
    exact ⟨(hl.notes hc hq).1, by rw [hq.os, hc.os, hl.os]⟩

/-- The processes one event starts are started for the job at the front: by its
worker request, or by its step in the control thread. -/
theorem Turn.launched {m m' : MainWindow} {e : Event} (h : Turn m e m') :
    ∀ cl ∈ launches (newNotes m m'), ∃ job rest, m.refreshJobs = job :: rest ∧
      ((cl.1 = .worker ∧
        ∃ a ∈ workerArguments (m.jobStore job).remote (m.jobStore job).branch
            (m.jobStore job).state,
          cl.2.command = Git.init m.os ++ " " ++ a) ∨
       (cl.1 = .control ∧
        cl.2.workingDirectory = (m.repoStore (m.jobStore job).repo).settings.path ∧
        ∃ a ∈ controlArguments m.ourName (m.jobStore job).remote (m.jobStore job).branch
            (.step (m.jobStore job).state),
          cl.2.command = Git.init m.os ++ " " ++ a)) := by
  intro cl hcl
  cases h with
  | calm c =>
    have hne : m.refreshJobs ≠ [] := c.front (List.ne_nil_of_mem hcl)
    obtain ⟨job, rest, hq⟩ := List.exists_cons_of_ne_nil hne
    have := c.launched cl hcl
    rw [hq] at this
    exact ⟨job, rest, hq, Or.inl this⟩
  | drained job rest ran o he hq hc hd hst hrep hg hw =>
    refine ⟨job, rest, hq, Or.inr ?_⟩
    have hl : cl.1 = .control ∧
        cl.2.workingDirectory = (m.repoStore (m.jobStore job).repo).settings.path ∧
        ∃ a ∈ controlArguments m.ourName (m.jobStore job).remote (m.jobStore job).branch ran,
          cl.2.command = Git.init m.os ++ " " ++ a := hc.launched cl hcl
    cases ran with
    | reply =>
      obtain ⟨_, _, a, ha, _⟩ := hl
      simp [controlArguments] at ha
    | step k =>
      rw [hst k rfl]
      exact hl
  | started m1 m2 job repo hl hc hd hq hedit hask hgrow hasks honce =>
    rw [(hl.record hc hd hq).2.1] at hcl
    cases hcl

theorem worker_classified (os : Platform) (remote branch : String) (k : Int) (a : String)
    (l : Launch) (ha : a ∈ workerArguments remote branch k)
    (hcmd : l.command = Git.init os ++ " " ++ a) :
    l.isTransfer os = true ∧ l.isLocal os = false := by
  unfold workerArguments at ha
  split_ifs at ha <;> simp at ha
  · subst ha
    simp [Launch.isTransfer, Launch.isLocal, Launch.runs_eq os _ _ l hcmd, String.data_append,
      List.isPrefixOf]
  · rcases ha with ha | ha | ha <;> subst ha <;>
      simp [Launch.isTransfer, Launch.isLocal, Launch.runs_eq os _ _ l hcmd, String.data_append,
        List.isPrefixOf]
  · subst ha
    simp [Launch.isTransfer, Launch.isLocal, Launch.runs_eq os _ _ l hcmd, String.data_append,
      List.isPrefixOf]

theorem control_classified (os : Platform) (ourName remote branch : String) (ran : Ran)
    (a : String) (l : Launch) (ha : a ∈ controlArguments ourName remote branch ran)
    (hcmd : l.command = Git.init os ++ " " ++ a) :
    l.isLocal os = true ∧ l.isTransfer os = false := by
  unfold controlArguments at ha
  split at ha <;> simp at ha
  · rcases ha with ha | ha <;> subst ha <;>
      simp [Launch.isTransfer, Launch.isLocal, Launch.runs_eq os _ _ l hcmd, String.data_append,
        List.isPrefixOf]
  · rcases ha with ha | ha | ha | ha <;> subst ha <;>
      simp [Launch.isTransfer, Launch.isLocal, Launch.runs_eq os _ _ l hcmd, String.data_append,
        List.isPrefixOf]
  · subst ha
    simp [Launch.isTransfer, Launch.isLocal, Launch.runs_eq os _ _ l hcmd, String.data_append,
      List.isPrefixOf]
  · subst ha
    simp [Launch.isTransfer, Launch.isLocal, Launch.runs_eq os _ _ l hcmd, String.data_append,
      List.isPrefixOf]

/-- C14, amended. Every process started up to a state the program can reach is
either started in the worker context and runs `fetch`, `push`, `merge` or
`rebase`, or started in the control context and runs one of `symbolic-ref`,
`remote`, `rev-parse`, `status`, `add`, `commit` and `rev-list`. -/
theorem commands_split_by_context (m : MainWindow) (hm : Reachable m) (cl : Context × Launch)
    (h : cl ∈ launches m.history) :
    (cl.1 = .worker ∧ cl.2.isTransfer m.os = true ∧ cl.2.isLocal m.os = false) ∨
    (cl.1 = .control ∧ cl.2.isLocal m.os = true ∧ cl.2.isTransfer m.os = false) := by
  obtain ⟨os, ourName, es, rfl⟩ := hm
  have key := run_induction
    (fun m => ∀ cl ∈ launches m.history,
      (cl.1 = .worker ∧ cl.2.isTransfer m.os = true ∧ cl.2.isLocal m.os = false) ∨
      (cl.1 = .control ∧ cl.2.isLocal m.os = true ∧ cl.2.isTransfer m.os = false))
    (fun _ => True) ?_ es (MainWindow.initial os ourName) (inv_initial os ourName)
    (fun _ _ => trivial) ?_
  · exact key cl h
  · intro m e hinv _ ih cl hcl
    have ht := turn_step m hinv e
    obtain ⟨hh, hos⟩ := ht.frame
    rw [hh, launches_append, List.mem_append] at hcl
    rw [hos]
    rcases hcl with hcl | hcl
    · exact ih cl hcl
    · obtain ⟨job, rest, _, hw | hc⟩ := ht.launched cl hcl
      · obtain ⟨h1, a, ha, hcmd⟩ := hw
        exact Or.inl ⟨h1, worker_classified m.os _ _ _ a cl.2 ha hcmd⟩
      · obtain ⟨h1, _, a, ha, hcmd⟩ := hc
        exact Or.inr ⟨h1, control_classified m.os _ _ _ _ a cl.2 ha hcmd⟩
  · intro cl hcl
    cases hcl

/-- C14, as stated, fails: step 2 of the job of the sample repository starts the
branch query in the control context. -/
theorem control_context_query_counterexample :
    dispatchedStates 0 ((MainWindow.sample.step (.gui Obs.quiet)).turnNotes
      (.gui (Obs.answering ["main\n", "host:notes.git\n"]))) = [2] ∧
    launches ((MainWindow.sample.step (.gui Obs.quiet)).turnNotes
      (.gui (Obs.answering ["main\n", "host:notes.git\n"]))) =
      [(.control, ⟨"/home/u/notes", "git symbolic-ref --quiet --short HEAD"⟩),
       (.control, ⟨"/home/u/notes", "git remote get-url origin"⟩)] := by
  decide

/-- C14 amended, at the fetch of the job of the sample repository. -/
theorem commands_split_by_context_witness :
    (Reachable MainWindow.atCompare ∧
      (Context.worker, (⟨"/home/u/notes", "git fetch origin main"⟩ : Launch)) ∈
        launches MainWindow.atCompare.history) ∧
    (((Context.worker, (⟨"/home/u/notes", "git fetch origin main"⟩ : Launch)).1 = .worker ∧
      (Context.worker, (⟨"/home/u/notes", "git fetch origin main"⟩ : Launch)).2.isTransfer
        MainWindow.atCompare.os = true ∧
      (Context.worker, (⟨"/home/u/notes", "git fetch origin main"⟩ : Launch)).2.isLocal
        MainWindow.atCompare.os = false) ∨
     ((Context.worker, (⟨"/home/u/notes", "git fetch origin main"⟩ : Launch)).1 = .control ∧
      (Context.worker, (⟨"/home/u/notes", "git fetch origin main"⟩ : Launch)).2.isLocal
        MainWindow.atCompare.os = true ∧
      (Context.worker, (⟨"/home/u/notes", "git fetch origin main"⟩ : Launch)).2.isTransfer
        MainWindow.atCompare.os = false)) :=
  have hm : Reachable MainWindow.atCompare := ⟨.other, "me", _, rfl⟩
  have hl : (Context.worker, (⟨"/home/u/notes", "git fetch origin main"⟩ : Launch)) ∈
      launches MainWindow.atCompare.history := by decide
  ⟨⟨hm, hl⟩, commands_split_by_context MainWindow.atCompare hm _ hl⟩

theorem worker_strings (os : Platform) (remote branch : String) (k : Int) (a : String)
    (cl : Context × Launch) (hctx : cl.1 = .worker) (hr : 3 ≤ k → remote = "origin")
    (ha : a ∈ workerArguments remote branch k)
    (hcmd : cl.2.command = Git.init os ++ " " ++ a) :
    (cl.2.runs os "rev-list" = true → cl.1 = .control ∧ (k = 5 ∨ k = 6) ∧
      cl.2.command = Git.init os ++ " " ++
        ("rev-list --count --left-right origin/" ++ branch ++ "...HEAD")) ∧
    (cl.2.runs os "push" = true → cl.1 = .worker ∧ (k = 5 ∨ k = 7) ∧
      cl.2.command = Git.init os ++ " " ++ ("push origin " ++ branch ++ ":" ++ branch)) ∧
    (cl.2.runs os "merge" = true → cl.1 = .worker ∧ k = 5 ∧
      cl.2.command = Git.init os ++ " " ++ ("merge --ff --ff-only origin/" ++ branch)) ∧
    (cl.2.runs os "rebase" = true → cl.1 = .worker ∧ k = 5 ∧
      cl.2.command = Git.init os ++ " " ++ ("rebase origin/" ++ branch)) ∧
    (cl.2.runs os "fetch" = true → cl.1 = .worker ∧ k = 4 ∧
      cl.2.command = Git.init os ++ " " ++ ("fetch origin " ++ branch)) := by
  unfold workerArguments at ha
  split_ifs at ha with h4 h5 h7 <;> simp at ha
  · have := hr (by omega)
    subst this
    subst ha
    simp [Launch.runs_eq os _ _ cl.2 hcmd, String.data_append, List.isPrefixOf, hctx, h4, hcmd,
      String.ext_iff]
  · have := hr (by omega)
    subst this
    rcases ha with ha | ha | ha <;> subst ha <;>
      simp [Launch.runs_eq os _ _ cl.2 hcmd, String.data_append, List.isPrefixOf, hctx, h5, hcmd,
        String.ext_iff]
  · have := hr (by omega)
    subst this
    subst ha
    simp [Launch.runs_eq os _ _ cl.2 hcmd, String.data_append, List.isPrefixOf, hctx, h7, hcmd,
      String.ext_iff]

theorem control_strings (os : Platform) (ourName remote branch : String) (k : Int)
    (a : String) (cl : Context × Launch) (hctx : cl.1 = .control)
    (hr : 3 ≤ k → remote = "origin")
    (ha : a ∈ controlArguments ourName remote branch (.step k))
    (hcmd : cl.2.command = Git.init os ++ " " ++ a) :
    (cl.2.runs os "rev-list" = true → cl.1 = .control ∧ (k = 5 ∨ k = 6) ∧
      cl.2.command = Git.init os ++ " " ++
        ("rev-list --count --left-right origin/" ++ branch ++ "...HEAD")) ∧
    (cl.2.runs os "push" = true → cl.1 = .worker ∧ (k = 5 ∨ k = 7) ∧
      cl.2.command = Git.init os ++ " " ++ ("push origin " ++ branch ++ ":" ++ branch)) ∧
    (cl.2.runs os "merge" = true → cl.1 = .worker ∧ k = 5 ∧
      cl.2.command = Git.init os ++ " " ++ ("merge --ff --ff-only origin/" ++ branch)) ∧
    (cl.2.runs os "rebase" = true → cl.1 = .worker ∧ k = 5 ∧
      cl.2.command = Git.init os ++ " " ++ ("rebase origin/" ++ branch)) ∧
    (cl.2.runs os "fetch" = true → cl.1 = .worker ∧ k = 4 ∧
      cl.2.command = Git.init os ++ " " ++ ("fetch origin " ++ branch)) := by
  by_cases h2 : k = 2
  · subst h2
    simp [controlArguments] at ha
    rcases ha with ha | ha <;> subst ha <;>
      simp [Launch.runs_eq os _ _ cl.2 hcmd, String.data_append, List.isPrefixOf]
  by_cases h3 : k = 3
  · subst h3
    simp [controlArguments] at ha
    rcases ha with ha | ha | ha | ha <;> subst ha <;>
      simp [Launch.runs_eq os _ _ cl.2 hcmd, String.data_append, List.isPrefixOf]
  by_cases h5 : k = 5
  · subst h5
    have := hr (by decide)
    subst this
    simp [controlArguments] at ha
    subst ha
    simp [Launch.runs_eq os _ _ cl.2 hcmd, String.data_append, List.isPrefixOf, hctx, hcmd,
      String.ext_iff]
  by_cases h6 : k = 6
  · subst h6
    have := hr (by decide)
    subst this
    simp [controlArguments] at ha
    subst ha
    simp [Launch.runs_eq os _ _ cl.2 hcmd, String.data_append, List.isPrefixOf, hctx, hcmd,
      String.ext_iff]
  · unfold controlArguments at ha
    split at ha <;> simp_all

theorem Repo.eq_of_fields (a b : Repo) (h1 : a.settings = b.settings) (h2 : a.timer = b.timer)
    (h3 : a.ok = b.ok) (h4 : a.statusSummary = b.statusSummary)
    (h5 : a.statusLines = b.statusLines) (h6 : a.branch = b.branch) (h7 : a.remote = b.remote)
    (h8 : a.remoteUrl = b.remoteUrl) : { a with refreshing := b.refreshing } = b := by
  cases a
  cases b
  simp_all

/-- The drain continuation runs the step of the state of the front job. -/
theorem dispatched_continuation (m : MainWindow) (hinv : m.core.Inv) (o : Obs) (next : JobId)
    (rest : List JobId) (hg : m.guiPosted = [.processRefreshJobs])
    (hq : m.refreshJobs = next :: rest) :
    dispatchedStates next (m.turnNotes (.gui o)) = [(m.jobStore next).state] := by
  have hk : 0 ≤ (m.jobStore next).state ∧ (m.jobStore next).state ≤ 7 :=
    hinv.base.range next (by show next ∈ m.refreshJobs; rw [hq]; exact List.mem_cons_self _ _)
  have := dispatched_processRefreshJobs ({ m with guiPosted := [] } : MainWindow) o next rest
    hq hk next
  rw [if_pos rfl] at this
  unfold MainWindow.turnNotes
  simp only [MainWindow.step, hg, MainWindow.runGuiTask]
  exact this

/-- C20. In every state, `refresh_errorNext` removes the front of the queue,
changes no job, changes no repository other than the one of its job, and posts
`processRefreshJobs`. In a state the program can reach, let `refresh_errorNext`
be entered for a job in an event. Then the job was at the front of the queue
(alone in it, when it was appended in this event) and the queue after the event
is the rest;
the job is not queued any more; no other job that existed has changed; every
other repository is as it was, apart from its `refreshing` flag when a job for
it was appended in this event; the one closure posted is `processRefreshJobs`;
and the job then at the front is in state 0, no step of it has run, and the
posted closure runs its step 0. -/
theorem failed_job_removed_alone (m : MainWindow) (hm : Reachable m) (e : Event) (job : JobId)
    (hfail : (job, false) ∈ outcomes (m.turnNotes e)) :
    (∀ (s : MainWindow) (j : JobId),
      (s.refresh_errorNext j).refreshJobs = s.refreshJobs.tail ∧
      (s.refresh_errorNext j).jobStore = s.jobStore ∧
      (∀ r, r ≠ (s.jobStore j).repo → (s.refresh_errorNext j).repoStore r = s.repoStore r) ∧
      (s.refresh_errorNext j).guiPosted = s.guiPosted ++ [.processRefreshJobs]) ∧
    (m.refreshJobs ++ enqueuedJobs (m.turnNotes e)).head? = some job ∧
    (m.step e).refreshJobs = (m.refreshJobs ++ enqueuedJobs (m.turnNotes e)).tail ∧
    job ∉ (m.step e).refreshJobs ∧
    (∀ j, j ≠ job → j < m.jobCount → (m.step e).jobStore j = m.jobStore j) ∧
    (∀ r, r ≠ ((m.step e).jobStore job).repo →
      { (m.step e).repoStore r with refreshing := (m.repoStore r).refreshing } = m.repoStore r ∧
      (((m.step e).repoStore r).refreshing = (m.repoStore r).refreshing ∨
        ∃ j, Note.enqueued j r ∈ m.turnNotes e)) ∧
    (m.step e).guiPosted = [.processRefreshJobs] ∧ (m.step e).workerPosted = [] ∧
    (∀ next rest o, (m.step e).refreshJobs = next :: rest →
      ((m.step e).jobStore next).state = 0 ∧ dispatchedStates next (m.step e).history = [] ∧
      dispatchedStates next ((m.step e).turnNotes (.gui o)) = [0]) := by
  refine ⟨fun s j => ⟨(errorNext_fields_all s j).2.2.2.2.2.2.2.1,
    (errorNext_fields_all s j).2.2.2.2.2.1, fun r hr => errorNext_other s j r hr,
    (errorNext_fields_all s j).2.2.2.2.2.2.2.2.2.1⟩, ?_⟩
  obtain ⟨os, ourName, es, rfl⟩ := hm
  have hinv := inv_reachable os ourName es
  generalize (MainWindow.initial os ourName).run es = m at hinv hfail ⊢
  have ht := turn_step m hinv e
  have hinv' := inv_step m e hinv
  unfold MainWindow.turnNotes at hfail ⊢
  generalize m.step e = m' at ht hfail hinv' ⊢
  have hnext : m'.guiPosted = [.processRefreshJobs] → ∀ next rest o,
      m'.refreshJobs = next :: rest → (m'.jobStore next).state = 0 →
      dispatchedStates next (newNotes m' (m'.step (.gui o))) = [0] := by
    intro hg next rest o hq hs
    have := dispatched_continuation m' hinv' o next rest hg hq
    rw [hs] at this
    exact this
  cases ht with
  | calm c => rw [c.unended] at hfail; cases hfail
  | drained job' rest ran o he hq hc hd hst hrep hg hw =>
    obtain ⟨hjj, hf⟩ := hc.failed job hfail
    subst hjj
    have hne : enqueuedJobs (newNotes m m') = [] := hc.noEnqueue
    have hqt : m'.refreshJobs = rest := by
      have h2 : m'.refreshJobs = m.refreshJobs.tail := hf.queue
      rw [h2, hq, List.tail_cons]
    have hnd : (job :: rest).Nodup := by
      have : m.refreshJobs.Nodup := hinv.base.nodup
      rw [hq] at this
      exact this
    rw [List.nodup_cons] at hnd
    have hg' : m'.guiPosted = [.processRefreshJobs] := hf.gui
    have hjr : (m'.jobStore job).repo = (m.jobStore job).repo := hc.jobRepo
    refine ⟨by rw [hne, hq]; rfl, by rw [hne, hq, hqt, List.append_nil]; rfl,
      by rw [hqt]; exact hnd.1, ?_, ?_, hg', ?_, ?_⟩
    · intro j hj _
      exact hc.otherJobs j hj
    · intro r hr
      rw [hjr] at hr
      have : m'.repoStore r = m.repoStore r := hc.otherRepos r hr
      rw [this]
      exact ⟨rfl, Or.inl rfl⟩
    · have : m'.workerPosted = m.workerPosted := hf.worker
      rw [this, hw]
    · intro next rest' o' hq'
      have hmem : next ∈ rest := by
        rw [← hqt, hq']
        exact List.mem_cons_self _ _
      have hnj : next ≠ job := fun h => hnd.1 (h ▸ hmem)
      have hwait := hinv.base.waiting next (by
        show next ∈ m.refreshJobs.tail
        rw [hq]
        exact hmem)
      have hs0 : (m.jobStore next).state = 0 := hwait.1
      have hd0 : dispatchedStates next m.history = [] := by
        have := hwait.2
        simp only [MainWindow.core, dispatchedStates_coreNotes] at this
        exact this
      have hsame : m'.jobStore next = m.jobStore next := hc.otherJobs next hnj
      have hh : m'.history = m.history ++ newNotes m m' := hc.history
      have hdn : dispatchedStates next (newNotes m m') = [] := by
        rw [hd next]
        cases ran with
        | reply => rfl
        | step k => exact if_neg hnj
      refine ⟨by rw [hsame]; exact hs0, ?_, hnext hg' next rest' o' hq' (by rw [hsame]; exact hs0)⟩
      rw [hh, dispatchedStates_append, hd0, hdn]
      rfl
  | started m1 m2 job' repo hl hc hd hq hedit hask hgrow hasks honce =>
    obtain ⟨r1, _, r3, _, r5, r6, _⟩ := hl.record hc hd hq
    rw [r1] at hfail
    obtain ⟨hjj, hf⟩ := hc.failed job hfail
    subst hjj
    have hq2 : m2.refreshJobs = [] := by
      rw [hf.queue, hl.queue]
      rfl
    have hqt : m'.refreshJobs = enqueuedJobs (newNotes m2 m') := by
      rw [hq.queue, hq2, List.nil_append]
    have hjc : m2.jobCount = m.jobCount + 1 := by rw [hc.jobCount, hl.jobCount]
    have hg' : m'.guiPosted = [.processRefreshJobs] := by
      rw [hq.gui, hf.gui, hl.gui]
      rfl
    have hfresh : ∀ j ∈ m'.refreshJobs, m.jobCount + 1 ≤ j := by
      intro j hj
      rw [hqt] at hj
      have := hq.fresh j hj
      rw [hjc] at this
      exact this
    refine ⟨by rw [r5, hl.idle]; rfl, by rw [r5, hl.idle, hqt]; rfl, ?_, ?_, ?_, hg', ?_, ?_⟩
    · intro hmem
      have := hfresh job hmem
      rw [hl.fresh] at this
      exact Nat.not_succ_le_self _ this
    · intro j hj hlt
      rw [hq.jobs j (by rw [hjc]; exact Nat.lt_succ_of_lt hlt), hc.otherJobs j hj, hl.jobs j hj]
    · intro r hr
      rw [r6] at hr
      obtain ⟨q1, q2, q3, q4, q5⟩ := hq.repo r
      obtain ⟨n1, n2, n3⟩ := hq.naming r
      have h21 : m2.repoStore r = m.repoStore r := by
        rw [hc.otherRepos r (by rw [hl.jobRepo]; exact hr), hl.others r hr]
      refine ⟨Repo.eq_of_fields _ _ (by rw [q1, h21]) (by rw [q2, h21]) (by rw [q3, h21])
        (by rw [q4, h21]) (by rw [q5, h21]) (by rw [n1, h21]) (by rw [n2, h21])
        (by rw [n3, h21]), ?_⟩
      rcases hq.refreshing r with h | ⟨j, hj⟩
      · exact Or.inl (by rw [h, h21])
      · refine Or.inr ⟨j, ?_⟩
        rw [(hl.notes hc hq).2]
        exact List.mem_cons_of_mem _ (List.mem_append_right _ hj)
    · rw [hq.worker, hf.worker, hl.worker]
    · intro next rest' o' hq'
      have hmem : next ∈ m'.refreshJobs := by rw [hq']; exact List.mem_cons_self _ _
      have hge := hfresh next hmem
      have hnj : next ≠ job := by
        intro h
        rw [h, hl.fresh] at hge
        exact Nat.not_succ_le_self _ hge
      rw [hqt] at hmem
      obtain ⟨r, hr⟩ := exists_of_mem_enqueuedJobs hmem
      have hs0 : (m'.jobStore next).state = 0 := (hq.born next r hr).2.1
      have hd0 : dispatchedStates next m.history = [] := by
        have := hinv.base.future next (Nat.le_of_succ_le hge)
        simp only [MainWindow.core, dispatchedStates_coreNotes] at this
        exact this
      refine ⟨hs0, ?_, hnext hg' next rest' o' hq' hs0⟩
      rw [(hl.notes hc hq).1, dispatchedStates_append, hd0, r3 next, if_neg hnj]
      rfl

/-- C20, with two repositories set up: step 1 of the job of the first finds a
merge going on, and the job of the second is then at the front. -/
theorem failed_job_removed_alone_witness :
    (Reachable MainWindow.twoQueued ∧
      (0, false) ∈ outcomes (MainWindow.twoQueued.turnNotes (.gui Obs.merging))) ∧
    (MainWindow.twoQueued.step (.gui Obs.merging)).refreshJobs = [1] ∧
    (MainWindow.twoQueued.step (.gui Obs.merging)).jobStore 1 = MainWindow.twoQueued.jobStore 1 ∧
    (MainWindow.twoQueued.step (.gui Obs.merging)).guiPosted = [.processRefreshJobs] ∧
    ((MainWindow.twoQueued.step (.gui Obs.merging)).jobStore 1).state = 0 ∧
    dispatchedStates 1 ((MainWindow.twoQueued.step (.gui Obs.merging)).turnNotes
      (.gui Obs.quiet)) = [0] :=
  have hm : Reachable MainWindow.twoQueued := ⟨.other, "me", _, rfl⟩
  have hf : (0, false) ∈ outcomes (MainWindow.twoQueued.turnNotes (.gui Obs.merging)) := by
    decide
  have h := (failed_job_removed_alone MainWindow.twoQueued hm (.gui Obs.merging) 0 hf).2
  have hq : (MainWindow.twoQueued.step (.gui Obs.merging)).refreshJobs = [1] :=
    h.2.1.trans (by decide)
  have hn := h.2.2.2.2.2.2.2 1 [] Obs.quiet hq
  ⟨⟨hm, hf⟩, hq, h.2.2.2.1 1 (by decide) (by decide), h.2.2.2.2.2.1, hn.1, hn.2.2⟩

/-- C27. `on_toolButton_editRepoRefreshTime_clicked` for a repository whose
refresh interval is `a` minutes and a number `b` from 0 to 1000 returned by the
dialog: the interval becomes `b`; if `b` differs from `a`, the timer is stopped
when `b` is 0, restarted with `b * 60 * 1000` ms when `b` is positive and the
timer runs, started with `b * 60 * 1000` ms when `b` is positive, the timer does
not run and `a` is 0, and left as it is when `b` is positive, the timer does not
run and `a` is not 0; if `b` equals `a` the timer is left as it is; and
`b * 60 * 1000` is its own value as a C++ `int`. -/
theorem edit_refresh_time_rules (m : MainWindow) (repo : RepoId) (b : Int) (h0 : 0 ≤ b)
    (h1 : b ≤ 1000) :
    ((m.on_toolButton_editRepoRefreshTime_clicked repo b).repoStore
      repo).settings.refreshRateMinutes = b ∧
    (b ≠ (m.repoStore repo).settings.refreshRateMinutes → b = 0 →
      ((m.on_toolButton_editRepoRefreshTime_clicked repo b).repoStore repo).timer =
        (m.repoStore repo).timer.stop) ∧
    (b ≠ (m.repoStore repo).settings.refreshRateMinutes → 0 < b →
      (m.repoStore repo).timer.active = true →
      ((m.on_toolButton_editRepoRefreshTime_clicked repo b).repoStore repo).timer =
        (m.repoStore repo).timer.start (b * 60 * 1000)) ∧
    (b ≠ (m.repoStore repo).settings.refreshRateMinutes → 0 < b →
      (m.repoStore repo).timer.active = false →
      (m.repoStore repo).settings.refreshRateMinutes = 0 →
      ((m.on_toolButton_editRepoRefreshTime_clicked repo b).repoStore repo).timer =
        (m.repoStore repo).timer.start (b * 60 * 1000)) ∧
    (b ≠ (m.repoStore repo).settings.refreshRateMinutes → 0 < b →
      (m.repoStore repo).timer.active = false →
      (m.repoStore repo).settings.refreshRateMinutes ≠ 0 →
      ((m.on_toolButton_editRepoRefreshTime_clicked repo b).repoStore repo).timer =
        (m.repoStore repo).timer) ∧
    (b = (m.repoStore repo).settings.refreshRateMinutes →
      ((m.on_toolButton_editRepoRefreshTime_clicked repo b).repoStore repo).timer =
        (m.repoStore repo).timer) ∧
    int32 (b * 60 * 1000) = b * 60 * 1000 := by
  have hx : int32 (b * 60 * 1000) = b * 60 * 1000 :=
    int32_of_small (b * 60 * 1000) (by omega) (by omega)
  refine ⟨?_, ?_, ?_, ?_, ?_, ?_, hx⟩
  · by_cases c1 : b = (m.repoStore repo).settings.refreshRateMinutes
    · simp [MainWindow.on_toolButton_editRepoRefreshTime_clicked, ← c1]
    · simp only [MainWindow.on_toolButton_editRepoRefreshTime_clicked]
      split_ifs <;> simp
  · intro c1 c2
    subst c2
    simp [MainWindow.on_toolButton_editRepoRefreshTime_clicked, c1]
  · intro c1 c2 c3
    have c2' : b ≠ 0 := by omega
    have c4 : 0 < b * 60 * 1000 := by omega
    simp [MainWindow.on_toolButton_editRepoRefreshTime_clicked, c1, c2', c3, hx, c4, QTimer.start]
  · intro c1 c2 c3 c5
    have c2' : b ≠ 0 := by omega
    have c4 : 0 < b * 60 * 1000 := by omega
    simp [MainWindow.on_toolButton_editRepoRefreshTime_clicked, c1, c2', c3, c5, hx, c4,
      QTimer.start]
  · intro c1 c2 c3 c5
    have c2' : b ≠ 0 := by omega
    simp [MainWindow.on_toolButton_editRepoRefreshTime_clicked, c1, c2', c3, c5]
  · intro c1
    simp [MainWindow.on_toolButton_editRepoRefreshTime_clicked, ← c1]

/-! ## The `refreshing` flag -/

theorem flagged_quiet {m m' : MainWindow} (hf : Flagged m) (hq : Quiet m m')
    (hbound : ∀ j ∈ m.refreshJobs, j < m.jobCount) : Flagged m' := by
  intro r
  constructor
  · intro hr
    rcases hq.refreshing r with h | ⟨j, hj⟩
    · rw [h] at hr
      obtain ⟨j, hj, hjr⟩ := (hf r).mp hr
      refine ⟨j, ?_, ?_⟩
      · rw [hq.queue]; exact List.mem_append_left _ hj
      · rw [hq.jobs j (hbound j hj)]; exact hjr
    · refine ⟨j, ?_, (hq.born j r hj).1⟩
      rw [hq.queue]
      exact List.mem_append_right _ (mem_enqueuedJobs hj)
  · rintro ⟨j, hj, hjr⟩
    rw [hq.queue, List.mem_append] at hj
    rcases hj with hj | hj
    · rw [hq.jobs j (hbound j hj)] at hjr
      exact hq.flagKeep r ((hf r).mpr ⟨j, hj, hjr⟩)
    · obtain ⟨r0, hr0⟩ := exists_of_mem_enqueuedJobs hj
      rw [(hq.born j r0 hr0).1] at hjr
      rw [← hjr]
      exact hq.flagUp j r0 hr0

theorem flagged_turn {m m' : MainWindow} {e : Event} (h : Turn m e m') (hf : Flagged m)
    (ha : Alloc m) (hinv : m.core.Inv) : Flagged m' := by
  have hbound : ∀ j ∈ m.refreshJobs, j < m.jobCount := hinv.base.bound
  cases h with
  | calm c =>
    intro r
    constructor
    · intro hr
      rcases c.flagOnly r hr with h | ⟨j, hj⟩
      · obtain ⟨j, hj, hjr⟩ := (hf r).mp h
        refine ⟨j, ?_, ?_⟩
        · rw [c.queue]; exact List.mem_append_left _ hj
        · rw [c.jobs j (hbound j hj)]; exact hjr
      · refine ⟨j, ?_, (c.born j r hj).1⟩
        rw [c.queue]
        exact List.mem_append_right _ (mem_enqueuedJobs hj)
    · rintro ⟨j, hj, hjr⟩
      rw [c.queue, List.mem_append] at hj
      rcases hj with hj | hj
      · rw [c.jobs j (hbound j hj)] at hjr
        have hlt : r < m.repoCount := by rw [← hjr]; exact ha.jobs j hj
        exact c.flagKeep r hlt ((hf r).mpr ⟨j, hj, hjr⟩)
      · obtain ⟨r0, hr0⟩ := exists_of_mem_enqueuedJobs hj
        rw [(c.born j r0 hr0).1] at hjr
        rw [← hjr]
        exact c.flagUp j r0 hr0
  | drained job rest ran o he hq hc hd hst hrep hg hw =>
    have hjob : job ∈ m.refreshJobs := by rw [hq]; exact List.mem_cons_self _ _
    have hcases : (outcomes (newNotes m m') = [] ∧ m'.refreshJobs = m.refreshJobs ∧
          (m'.repoStore (m.jobStore job).repo).refreshing =
            (m.repoStore (m.jobStore job).repo).refreshing) ∨
        (m'.refreshJobs = rest ∧
          (m'.repoStore (m.jobStore job).repo).refreshing = false) := by
      cases ho : outcomes (newNotes m m') with
      | nil => exact Or.inl ⟨rfl, hc.quiet ho, hc.flag ho⟩
      | cons x xs =>
        right
        obtain ⟨j, b⟩ := x
        have hmem : (j, b) ∈ outcomes (newNotes m m') := by
          rw [ho]; exact List.mem_cons_self _ _
        cases b with
        | false =>
          obtain ⟨_, F⟩ := hc.failed j hmem
          have h1 : m'.refreshJobs = m.refreshJobs.tail := F.queue
          exact ⟨by rw [h1, hq, List.tail_cons], F.refreshing⟩
        | true =>
          obtain ⟨_, S, _⟩ := hc.succeeded j hmem
          have h1 : m'.refreshJobs = m.refreshJobs.tail := S.queue
          exact ⟨by rw [h1, hq, List.tail_cons], S.refreshing⟩
    intro r
    by_cases hR : r = (m.jobStore job).repo
    · subst hR
      rcases hcases with ⟨_, hqq, hfl⟩ | ⟨hqq, hfl⟩
      · rw [hfl, hqq, hf]
        constructor
        · rintro ⟨j, hj, hjr⟩; exact ⟨j, hj, by rw [hc.repo_eq j]; exact hjr⟩
        · rintro ⟨j, hj, hjr⟩; exact ⟨j, hj, by rw [← hc.repo_eq j]; exact hjr⟩
      · rw [hfl, hqq]
        constructor
        · intro h; cases h
        · rintro ⟨j, hj, hjr⟩
          rw [hc.repo_eq j] at hjr
          exact absurd hjr (front_unique hinv hq j hj)
    · have hsame : m'.repoStore r = m.repoStore r := hc.otherRepos r hR
      rw [hsame, hf]
      constructor
      · rintro ⟨j, hj, hjr⟩
        have hne : j ≠ job := by
          intro h
          apply hR
          rw [← hjr, h]
        have hjrest : j ∈ rest := by
          rw [hq] at hj
          rcases List.mem_cons.mp hj with h | h
          · exact absurd h hne
          · exact h
        refine ⟨j, ?_, by rw [hc.repo_eq j]; exact hjr⟩
        rcases hcases with ⟨_, hqq, _⟩ | ⟨hqq, _⟩
        · rw [hqq]; exact hj
        · rw [hqq]; exact hjrest
      · rintro ⟨j, hj, hjr⟩
        exact ⟨j, hc.queue_sub j hj, by rw [← hc.repo_eq j]; exact hjr⟩
  | started m1 m2 job repo hl hc hd hq hedit hask hgrow hasks honce =>
    have hnone : ∀ r, (m.repoStore r).refreshing = false := by
      intro r
      cases hr : (m.repoStore r).refreshing with
      | false => rfl
      | true =>
        obtain ⟨j, hj, _⟩ := (hf r).mp hr
        rw [hl.idle] at hj
        cases hj
    have hj1 : (m1.jobStore job).repo = repo := hl.jobRepo
    have hlt : job < m2.jobCount := by
      rw [hc.jobCount, hl.jobCount, hl.fresh]
      exact Nat.lt_succ_self _
    have h2 : Flagged m2 := by
      intro r
      by_cases hR : r = repo
      · subst hR
        cases ho : outcomes (newNotes m1 m2) with
        | nil =>
          have hfl := hc.flag ho
          rw [hj1] at hfl
          rw [hfl, hl.flag, hc.quiet ho, hl.queue]
          simp only [true_iff]
          exact ⟨job, List.mem_singleton_self _, by rw [hc.jobRepo, hj1]⟩
        | cons x xs =>
          obtain ⟨j, b⟩ := x
          have hmem : (j, b) ∈ outcomes (newNotes m1 m2) := by
            rw [ho]; exact List.mem_cons_self _ _
          cases b with
          | false =>
            obtain ⟨_, F⟩ := hc.failed j hmem
            have hfl := F.refreshing
            rw [hj1] at hfl
            rw [hfl, F.queue, hl.queue]
            constructor
            · intro h; cases h
            · rintro ⟨j, hj, _⟩; cases hj
          | true => exact absurd rfl (hc.succeeded j hmem).2.2
      · rw [hc.otherRepos r (by rw [hj1]; exact hR), hl.others r hR, hnone r]
        constructor
        · intro h; cases h
        · rintro ⟨j, hj, hjr⟩
          have := hc.queue_sub j hj
          rw [hl.queue, List.mem_singleton] at this
          rw [this, hc.jobRepo, hj1] at hjr
          exact absurd hjr.symm hR
    refine flagged_quiet h2 hq ?_
    intro j hj
    have := hc.queue_sub j hj
    rw [hl.queue, List.mem_singleton] at this
    rw [this]
    exact hlt

theorem flagged_reachable (os : Platform) (ourName : String) (es : List Event) :
    Flagged ((MainWindow.initial os ourName).run es) := by
  have key := run_induction (fun m => Alloc m ∧ Flagged m) (fun _ => True) ?_ es
    (MainWindow.initial os ourName) (inv_initial os ourName) (fun _ _ => trivial) ?_
  · exact key.2
  · intro m e hinv _ h
    exact ⟨alloc_turn (turn_step m hinv e) h.1 hinv.base.bound,
      flagged_turn (turn_step m hinv e) h.2 h.1 hinv⟩
  · refine ⟨alloc_reachable os ourName [], ?_⟩
    intro r
    constructor
    · intro h; cases h
    · rintro ⟨j, hj, _⟩; cases hj

/-! ## A repository that has been removed -/

/-- No event asks for a refresh of a repository that is gone. -/
theorem Event.asks_ne_gone {m : MainWindow} {e : Event} {r R : RepoId} (hg : Gone m R)
    (h : e.asks m r) : r ≠ R := by
  intro hr
  subst hr
  cases e with
  | timeout repo o =>
    have h2 : (m.repoStore r).timer.active = true := h.2
    rw [hg.timer] at h2
    cases h2
  | refresh repo o => exact hg.unlisted h.2
  | refreshAll o => exact hg.unlisted h
  | addRepo s o =>
    have h' : r = m.repoCount := h
    have := hg.known
    rw [h'] at this
    exact Nat.lt_irrefl _ this
  | gui o => exact h
  | worker p => exact h
  | pause repo => exact h
  | editRefreshTime repo mins => exact h
  | removeRepo repo => exact h
  | setVisible v => exact h
  | editOurName name => exact h
  | editRepoName repo name => exact h

theorem gone_turn {m m' : MainWindow} {e : Event} {R : RepoId} (h : Turn m e m')
    (hg : Gone m R) (hinv : m.core.Inv) :
    Gone m' R ∧
    ∀ j k, k ∈ dispatchedStates j (newNotes m m') → (m'.jobStore j).repo ≠ R := by
  have hbound : ∀ j ∈ m.refreshJobs, j < m.jobCount := hinv.base.bound
  cases h with
  | calm c =>
    refine ⟨⟨Nat.lt_of_lt_of_le hg.known c.repoCount, ?_, ?_, ?_⟩, ?_⟩
    · intro hmem
      rcases c.repos R hmem with h | ⟨h, _⟩
      · exact hg.unlisted h
      · have := hg.known
        rw [h] at this
        exact Nat.lt_irrefl _ this
    · cases hact : (m'.repoStore R).timer.active with
      | false => rfl
      | true =>
        rcases c.timer R hact with h | ⟨mins, _, h⟩
        · rw [hg.timer] at h; cases h
        · exact absurd h hg.unlisted
    · intro j hj
      rw [c.queue, List.mem_append] at hj
      rcases hj with hj | hj
      · rw [c.jobs j (hbound j hj)]
        exact hg.queue j hj
      · obtain ⟨r, hr⟩ := exists_of_mem_enqueuedJobs hj
        rw [(c.born j r hr).1]
        exact Event.asks_ne_gone hg (c.asked j r hr)
    · intro j k hk
      rw [c.dispatched j] at hk
      cases hk
  | drained job rest ran o he' hq hc hd hst hrep hg' hw =>
    have hjob : job ∈ m.refreshJobs := by rw [hq]; exact List.mem_cons_self _ _
    have hne : R ≠ (m.jobStore job).repo := fun h => hg.queue job hjob h.symm
    have hsame : m'.repoStore R = m.repoStore R := hc.otherRepos R hne
    have hrc : m'.repoCount = m.repoCount := hc.repoCount
    have hrs : m'.repos = m.repos := hc.repos
    refine ⟨⟨by rw [hrc]; exact hg.known, by rw [hrs]; exact hg.unlisted,
      by rw [hsame]; exact hg.timer, ?_⟩, ?_⟩
    · intro j hj
      rw [hc.repo_eq j]
      exact hg.queue j (hc.queue_sub j hj)
    · intro j k hk
      have hjj : j = job := by
        by_contra hjj
        cases ran with
        | reply =>
          have hd' : dispatchedStates j (newNotes m m') = [] := hd j
          rw [hd'] at hk; cases hk
        | step k' =>
          have hd' : dispatchedStates j (newNotes m m') = if j = job then [k'] else [] := hd j
          rw [hd', if_neg hjj] at hk; cases hk
      rw [hjj, hc.repo_eq job]
      exact hg.queue job hjob
  | started m1 m2 job repo hl hc hd hq hedit hask hgrow hasks honce =>
    have hne : R ≠ repo := fun h => Event.asks_ne_gone hg hask h.symm
    have hrc : m'.repoCount = m1.repoCount := by rw [hq.repoCount, hc.repoCount]
    obtain ⟨_, _, r3, _, _, r6, _⟩ := hl.record hc hd hq
    refine ⟨⟨by rw [hrc]; exact Nat.lt_of_lt_of_le hg.known hl.repoCount, ?_, ?_, ?_⟩, ?_⟩
    · intro hmem
      rw [hq.repos, hc.repos] at hmem
      rcases hl.repos R hmem with h | ⟨h, _⟩
      · exact hg.unlisted h
      · have := hg.known
        rw [h] at this
        exact Nat.lt_irrefl _ this
    · rw [(hq.repo R).2.1, hc.otherRepos R (by rw [hl.jobRepo]; exact hne), hl.others R hne]
      exact hg.timer
    · intro j hj
      rw [hq.queue, List.mem_append] at hj
      rcases hj with hj | hj
      · have hj1 := hc.queue_sub j hj
        rw [hl.queue, List.mem_singleton] at hj1
        rw [hj1, r6]
        exact fun h => hne h.symm
      · obtain ⟨r, hr⟩ := exists_of_mem_enqueuedJobs hj
        rw [(hq.born j r hr).1]
        exact Event.asks_ne_gone hg (hasks j r hr)
    · intro j k hk
      rw [r3 j] at hk
      by_cases hjj : j = job
      · rw [hjj, r6]
        exact fun h => hne h.symm
      · rw [if_neg hjj] at hk; cases hk

/-- C27, at a repository that is never refreshed by its timer and whose interval
is set to 5 minutes: the timer is started with 300000 ms. -/
theorem edit_refresh_time_rules_witness :
    ((0 : Int) ≤ 5 ∧ (5 : Int) ≤ 1000) ∧
    ((((MainWindow.initial .other "me").run
        [.addRepo Settings.Repo.manual Obs.quiet]).on_toolButton_editRepoRefreshTime_clicked
          0 5).repoStore 0).timer =
      (((MainWindow.initial .other "me").run
        [.addRepo Settings.Repo.manual Obs.quiet]).repoStore 0).timer.start (5 * 60 * 1000) :=
  ⟨⟨by decide, by decide⟩,
   (edit_refresh_time_rules
      ((MainWindow.initial .other "me").run [.addRepo Settings.Repo.manual Obs.quiet]) 0 5
      (by decide) (by decide)).2.2.2.1 (by decide) (by decide) (by decide) (by decide)⟩

/-- C22. Step 6 for a job in state 6, with `c` the result of its compare: the
job is in state 7 afterwards if and only if the compare reports no error and
its result is `Ahead`; when the compare reports no error and another result,
`refresh_errorNext` is entered with the summary `We are not ahead. Something
may have gone wrong with the rebase.`; when the compare reports an error,
`refresh_errorNext` is entered with the summary `Git error while comparing:`;
in every case the only process started is the count query, no process runs
`push` and nothing is posted to the worker thread. -/
theorem compare_after_rebase_requires_ahead (m : MainWindow) (o : Obs) (job : JobId)
    (hs : (m.jobStore job).state = 6) :
    (((m.refresh_compareAfterRebase o job).jobStore job).state = 7 ↔
      (m.recompare o job).gitOutput.hasError = false ∧
      (m.recompare o job).result = Compare.Ahead) ∧
    ((m.recompare o job).gitOutput.hasError = false →
      (m.recompare o job).result ≠ Compare.Ahead →
      outcomes (newNotes m (m.refresh_compareAfterRebase o job)) = [(job, false)] ∧
      ((m.refresh_compareAfterRebase o job).repoStore (m.jobStore job).repo).ok = false ∧
      ((m.refresh_compareAfterRebase o job).repoStore (m.jobStore job).repo).statusSummary =
        "We are not ahead. Something may have gone wrong with the rebase.") ∧
    ((m.recompare o job).gitOutput.hasError = true →
      outcomes (newNotes m (m.refresh_compareAfterRebase o job)) = [(job, false)] ∧
      ((m.refresh_compareAfterRebase o job).repoStore (m.jobStore job).repo).ok = false ∧
      ((m.refresh_compareAfterRebase o job).repoStore (m.jobStore job).repo).statusSummary =
        "Git error while comparing:") ∧
    launches (newNotes m (m.refresh_compareAfterRebase o job)) =
      [(.control, ⟨(m.repoStore (m.jobStore job).repo).settings.path, Git.init m.os ++ " " ++
        ("rev-list --count --left-right " ++
          ((m.jobStore job).remote ++ "/" ++ (m.jobStore job).branch) ++ "...HEAD")⟩)] ∧
    launchesOf m.os "push" (newNotes m (m.refresh_compareAfterRebase o job)) = [] ∧
    (m.refresh_compareAfterRebase o job).workerPosted = m.workerPosted := by
  have hl : ((Git.new m.os (m.repoStore (m.jobStore job).repo).settings.path).compareWithHead
      ((m.jobStore job).remote ++ "/" ++ (m.jobStore job).branch) ""
      (Shell.start o.answers)).2.launched =
      [⟨(m.repoStore (m.jobStore job).repo).settings.path, Git.init m.os ++ " " ++
        ("rev-list --count --left-right " ++
          ((m.jobStore job).remote ++ "/" ++ (m.jobStore job).branch) ++ "...HEAD")⟩] := by
    simp [Shell.start]
  simp only [MainWindow.refresh_compareAfterRebase, MainWindow.recompare]
  generalize (Git.new m.os (m.repoStore (m.jobStore job).repo).settings.path).compareWithHead
      ((m.jobStore job).remote ++ "/" ++ (m.jobStore job).branch) ""
      (Shell.start o.answers) = c at hl ⊢
  split_ifs with c1 c2
  · simp +contextual [newNotes, hs, c1, hl, Repo.logError_fields, launchesOf,
      Launch.runs_git, String.data_append, List.isPrefixOf]
  · simp +contextual [newNotes, hs, c1, c2, hl, Repo.logError_fields, launchesOf,
      Launch.runs_git, String.data_append, List.isPrefixOf]
  · have c3 : c.1.result = Compare.Ahead := not_not.mp c2
    simp +contextual [newNotes, hs, c1, c3, hl, Repo.logError_fields, launchesOf,
      Launch.runs_git, String.data_append, List.isPrefixOf]

/-- C22, at the job of the sample repository after a rebase, with the count
query printing `0 1`: the job moves to state 7. -/
theorem compare_after_rebase_requires_ahead_witness :
    (MainWindow.atRecompare.jobStore 0).state = 6 ∧
    ((MainWindow.atRecompare.refresh_compareAfterRebase Obs.ahead 0).jobStore 0).state = 7 :=
  have hs : (MainWindow.atRecompare.jobStore 0).state = 6 := by decide
  ⟨hs, (compare_after_rebase_requires_ahead MainWindow.atRecompare Obs.ahead 0 hs).1.mpr
    ⟨by decide, by decide⟩⟩

/-- The processes of `isRepoModified` run neither `add` nor `commit`. -/
theorem isRepoModified_own (os : Platform) (path : String) (sh : Shell) :
    ∃ own, ((Git.new os path).isRepoModified "" sh).2.launched = sh.launched ++ own ∧
      ∀ l ∈ own, l.runs os "add" = false ∧ l.runs os "commit" = false := by
  refine ⟨_, isRepoModified_launched os path sh, ?_⟩
  intro l hl
  rw [List.mem_cons] at hl
  rcases hl with hl | hl
  · subst hl
    exact ⟨runs_bare os _ path (by decide), runs_bare os _ path (by decide)⟩
  · split_ifs at hl
    · cases hl
    · rw [List.mem_singleton] at hl
      subst hl
      exact ⟨runs_status os _ path (by decide), runs_status os _ path (by decide)⟩

set_option maxHeartbeats 4000000 in
/-- C21, amended. Step 3 for a job in state 3, with `b` the first
`isRepoModified`, `add` the `add -A`, `commit` the commit with the argument
string `commit -m "Changes from <clientName>"` (each double quote of the client
name replaced by a backslash and a double quote) and `b2` the second
`isRepoModified`, each run after the one before. The job is in state 4
afterwards if and only if `b` reports no error and either `b` reports
unmodified, or `add`, `commit` and `b2` report no error and `b2` reports
unmodified; then `refresh_errorNext` is not entered, and otherwise it is,
with `ok` cleared. The summary is a git error text when `b`, `add`, `commit`
or `b2` reports an error, and `Repo is still unclean after commit.` when `b2`
reports modified. The processes started are those of `b` when `b` reports an
error or unmodified (none of them runs `add` or `commit`), and else those up
to the first of `add`, `commit`, `b2` that reports an error, or all of them;
`add -A` comes right after the processes of `b` and the commit right after
it. -/
theorem commit_step_rules (m : MainWindow) (o : Obs) (job : JobId)
    (hs : (m.jobStore job).state = 3) :
    (((m.refresh_commit o job).jobStore job).state = 4 ↔
      (commitCheck m.os (m.repoStore (m.jobStore job).repo).settings.path o).1.gitOutput.hasError
        = false ∧
      ((commitCheck m.os (m.repoStore (m.jobStore job).repo).settings.path o).1.result = false ∨
        ((commitAdd m.os (m.repoStore (m.jobStore job).repo).settings.path o).1.hasError = false ∧
         (commitCommit m.os (m.repoStore (m.jobStore job).repo).settings.path m.ourName
            o).1.hasError = false ∧
         (commitRecheck m.os (m.repoStore (m.jobStore job).repo).settings.path m.ourName
            o).1.gitOutput.hasError = false ∧
         (commitRecheck m.os (m.repoStore (m.jobStore job).repo).settings.path m.ourName
            o).1.result = false))) ∧
    (((m.refresh_commit o job).jobStore job).state = 4 →
      outcomes (newNotes m (m.refresh_commit o job)) = []) ∧
    (((m.refresh_commit o job).jobStore job).state ≠ 4 →
      outcomes (newNotes m (m.refresh_commit o job)) = [(job, false)] ∧
      ((m.refresh_commit o job).repoStore (m.jobStore job).repo).ok = false) ∧
    ((commitCheck m.os (m.repoStore (m.jobStore job).repo).settings.path o).1.gitOutput.hasError
        = true →
      ((m.refresh_commit o job).repoStore (m.jobStore job).repo).statusSummary =
        "Git error occurred while checking if repo is modified") ∧
    ((commitCheck m.os (m.repoStore (m.jobStore job).repo).settings.path o).1.gitOutput.hasError
        = false →
      (commitCheck m.os (m.repoStore (m.jobStore job).repo).settings.path o).1.result = true →
      ((commitAdd m.os (m.repoStore (m.jobStore job).repo).settings.path o).1.hasError = true →
        ((m.refresh_commit o job).repoStore (m.jobStore job).repo).statusSummary =
          "Git error occurred while adding all") ∧
      ((commitAdd m.os (m.repoStore (m.jobStore job).repo).settings.path o).1.hasError = false →
        ((commitCommit m.os (m.repoStore (m.jobStore job).repo).settings.path m.ourName
            o).1.hasError = true →
          ((m.refresh_commit o job).repoStore (m.jobStore job).repo).statusSummary =
            "Git error occurred while committing") ∧
        ((commitCommit m.os (m.repoStore (m.jobStore job).repo).settings.path m.ourName
            o).1.hasError = false →
          ((commitRecheck m.os (m.repoStore (m.jobStore job).repo).settings.path m.ourName
              o).1.gitOutput.hasError = true →
            ((m.refresh_commit o job).repoStore (m.jobStore job).repo).statusSummary =
              "Git error occurred while checking if repo is modified:") ∧
          ((commitRecheck m.os (m.repoStore (m.jobStore job).repo).settings.path m.ourName
              o).1.gitOutput.hasError = false →
            (commitRecheck m.os (m.repoStore (m.jobStore job).repo).settings.path m.ourName
              o).1.result = true →
            ((m.refresh_commit o job).repoStore (m.jobStore job).repo).statusSummary =
              "Repo is still unclean after commit.")))) ∧
    launches (newNotes m (m.refresh_commit o job)) =
      (if (commitCheck m.os (m.repoStore (m.jobStore job).repo).settings.path
            o).1.gitOutput.hasError = true ∨
          (commitCheck m.os (m.repoStore (m.jobStore job).repo).settings.path o).1.result = false
        then (commitCheck m.os (m.repoStore (m.jobStore job).repo).settings.path o).2.launched
        else if (commitAdd m.os (m.repoStore (m.jobStore job).repo).settings.path o).1.hasError
            = true
        then (commitAdd m.os (m.repoStore (m.jobStore job).repo).settings.path o).2.launched
        else if (commitCommit m.os (m.repoStore (m.jobStore job).repo).settings.path m.ourName
            o).1.hasError = true
        then (commitCommit m.os (m.repoStore (m.jobStore job).repo).settings.path m.ourName
            o).2.launched
        else (commitRecheck m.os (m.repoStore (m.jobStore job).repo).settings.path m.ourName
            o).2.launched).map (Prod.mk Context.control) ∧
    (∀ l ∈ (commitCheck m.os (m.repoStore (m.jobStore job).repo).settings.path o).2.launched,
      l.runs m.os "add" = false ∧ l.runs m.os "commit" = false) ∧
    (commitAdd m.os (m.repoStore (m.jobStore job).repo).settings.path o).2.launched =
      (commitCheck m.os (m.repoStore (m.jobStore job).repo).settings.path o).2.launched ++
        [⟨(m.repoStore (m.jobStore job).repo).settings.path,
          Git.init m.os ++ " " ++ "add -A"⟩] ∧
    (commitCommit m.os (m.repoStore (m.jobStore job).repo).settings.path m.ourName
        o).2.launched =
      (commitAdd m.os (m.repoStore (m.jobStore job).repo).settings.path o).2.launched ++
        [⟨(m.repoStore (m.jobStore job).repo).settings.path,
          Git.init m.os ++ " " ++ ("commit -m \"Changes from " ++
            QString.replaceChar m.ourName '"' "\\\"" ++ "\"")⟩] ∧
    (∃ own, (commitRecheck m.os (m.repoStore (m.jobStore job).repo).settings.path m.ourName
        o).2.launched =
      (commitCommit m.os (m.repoStore (m.jobStore job).repo).settings.path m.ourName
        o).2.launched ++ own ∧
      ∀ l ∈ own, l.runs m.os "add" = false ∧ l.runs m.os "commit" = false) := by
  refine ⟨?_, ?_, ?_, ?_, ?_, ?_, ?_, ?_, ?_, ?_⟩
  case refine_7 =>
    obtain ⟨own, h1, h2⟩ := isRepoModified_own m.os
      (m.repoStore (m.jobStore job).repo).settings.path (Shell.start o.answers)
    intro l hl
    unfold commitCheck at hl
    rw [h1] at hl
    exact h2 l (by simpa [Shell.start] using hl)
  case refine_8 => simp [commitAdd]
  case refine_9 => simp [commitCommit, commitArguments]
  case refine_10 =>
    exact isRepoModified_own m.os (m.repoStore (m.jobStore job).repo).settings.path _
  all_goals
    simp only [commitRecheck, commitCommit, commitArguments, commitAdd, commitCheck,
      MainWindow.refresh_commit]
    split_ifs <;>
      simp +contextual [newNotes, hs, Repo.logError_fields, Repo.log] <;> simp_all

/-- C21, as stated, fails: both bare queries of step 3 exit with code 128, the
other four commands succeed, and the job moves to state 4 without
`refresh_errorNext`. -/
theorem bare_query_error_ignored_counterexample :
    ((Git.new .other "/home/u/notes").isBareRepository ""
      (Shell.start Obs.bareQueryFails.answers)).1.gitOutput.hasError = true ∧
    (MainWindow.atCommit.jobStore 0).state = 3 ∧
    launches (MainWindow.atCommit.turnNotes (.gui Obs.bareQueryFails)) =
      [(.control, ⟨"/home/u/notes", "git rev-parse --is-bare-repository"⟩),
       (.control, ⟨"/home/u/notes", "git status --porcelain"⟩),
       (.control, ⟨"/home/u/notes", "git add -A"⟩),
       (.control, ⟨"/home/u/notes", "git commit -m \"Changes from me\""⟩),
       (.control, ⟨"/home/u/notes", "git rev-parse --is-bare-repository"⟩),
       (.control, ⟨"/home/u/notes", "git status --porcelain"⟩)] ∧
    ((MainWindow.atCommit.step (.gui Obs.bareQueryFails)).jobStore 0).state = 4 ∧
    outcomes (MainWindow.atCommit.turnNotes (.gui Obs.bareQueryFails)) = [] := by
  decide

/-- C21 amended, at the job of the sample repository with one modified file that
is committed: the job moves to state 4. -/
theorem commit_step_rules_witness :
    (MainWindow.atCommit.jobStore 0).state = 3 ∧
    ((MainWindow.atCommit.refresh_commit Obs.committing 0).jobStore 0).state = 4 ∧
    outcomes (newNotes MainWindow.atCommit
      (MainWindow.atCommit.refresh_commit Obs.committing 0)) = [] :=
  have hs : (MainWindow.atCommit.jobStore 0).state = 3 := by decide
  have h := commit_step_rules MainWindow.atCommit Obs.committing 0 hs
  have h4 : ((MainWindow.atCommit.refresh_commit Obs.committing 0).jobStore 0).state = 4 :=
    h.1.mpr ⟨by decide, Or.inr ⟨by decide, by decide, by decide, by decide⟩⟩
  ⟨hs, h4, h.2.1 h4⟩

/-! ## Invariants of the queue, as claimed -/

/-- An event leaves the state of a job that exists as it is or advances it by
one. -/
theorem Turn.state_step {m m' : MainWindow} {e : Event} (h : Turn m e m') (j : JobId)
    (hj : j < m.jobCount) :
    (m'.jobStore j).state = (m.jobStore j).state ∨
    (m'.jobStore j).state = (m.jobStore j).state + 1 := by
  cases h with
  | calm c => rw [c.jobs j hj]; exact Or.inl rfl
  | drained job rest ran o he hq hc hd hst hrep hg hw =>
    by_cases hjj : j = job
    · subst hjj; exact hc.state
    · have : m'.jobStore j = m.jobStore j := hc.otherJobs j hjj
      rw [this]; exact Or.inl rfl
  | started m1 m2 job repo hl hc hd hq hedit hask hgrow hasks honce =>
    have hne : j ≠ job := by
      intro h
      rw [h, hl.fresh] at hj
      exact Nat.lt_irrefl _ hj
    have hlt : j < m2.jobCount := by
      rw [hc.jobCount, hl.jobCount]
      exact Nat.lt_succ_of_lt hj
    rw [hq.jobs j hlt, hc.otherJobs j hne, hl.jobs j hne]
    exact Or.inl rfl

/-- C23. In every state the program can reach, every queued job has a state
from 0 to 7; an event leaves the state of a job as it is or advances it by one,
and a job in state 7 that stays queued stays in state 7; and
`processRefreshJobs`, called with a queue that is not empty, calls the step
function of the state of the job at the front, one of the eight. -/
theorem job_state_between_0_and_7 (os : Platform) (ourName : String) (es : List Event)
    (e : Event) (o : Obs) :
    let m := (MainWindow.initial os ourName).run es
    (∀ j ∈ m.refreshJobs, 0 ≤ (m.jobStore j).state ∧ (m.jobStore j).state ≤ 7) ∧
    (∀ j, j < m.jobCount →
      ((m.step e).jobStore j).state = (m.jobStore j).state ∨
      ((m.step e).jobStore j).state = (m.jobStore j).state + 1) ∧
    (∀ j ∈ (m.step e).refreshJobs, j < m.jobCount → (m.jobStore j).state = 7 →
      ((m.step e).jobStore j).state = 7) ∧
    (∀ job rest, m.refreshJobs = job :: rest →
      ((m.jobStore job).state = 0 ∧ m.processRefreshJobs o =
        (({ m with refreshBusy := true } : MainWindow).note
          (.dispatched job 0)).refresh_init o job) ∨
      ((m.jobStore job).state = 1 ∧ m.processRefreshJobs o =
        (({ m with refreshBusy := true } : MainWindow).note
          (.dispatched job 1)).refresh_ongoingOps o job) ∨
      ((m.jobStore job).state = 2 ∧ m.processRefreshJobs o =
        (({ m with refreshBusy := true } : MainWindow).note
          (.dispatched job 2)).refresh_branchRemoteInfo o job) ∨
      ((m.jobStore job).state = 3 ∧ m.processRefreshJobs o =
        (({ m with refreshBusy := true } : MainWindow).note
          (.dispatched job 3)).refresh_commit o job) ∨
      ((m.jobStore job).state = 4 ∧ m.processRefreshJobs o =
        (({ m with refreshBusy := true } : MainWindow).note
          (.dispatched job 4)).refresh_fetch job) ∨
      ((m.jobStore job).state = 5 ∧ m.processRefreshJobs o =
        (({ m with refreshBusy := true } : MainWindow).note
          (.dispatched job 5)).refresh_compare o job) ∨
      ((m.jobStore job).state = 6 ∧ m.processRefreshJobs o =
        (({ m with refreshBusy := true } : MainWindow).note
          (.dispatched job 6)).refresh_compareAfterRebase o job) ∨
      ((m.jobStore job).state = 7 ∧ m.processRefreshJobs o =
        (({ m with refreshBusy := true } : MainWindow).note
          (.dispatched job 7)).refresh_pushAfterRebase job)) := by
  intro m
  have hinv : m.core.Inv := inv_reachable os ourName es
  have hrange : ∀ j ∈ m.refreshJobs, 0 ≤ (m.jobStore j).state ∧ (m.jobStore j).state ≤ 7 :=
    hinv.base.range
  have hrange' : ∀ j ∈ (m.step e).refreshJobs,
      0 ≤ ((m.step e).jobStore j).state ∧ ((m.step e).jobStore j).state ≤ 7 :=
    (inv_step m e hinv).base.range
  have ht := turn_step m hinv e
  refine ⟨hrange, fun j hj => ht.state_step j hj, ?_, ?_⟩
  · intro j hj hlt h7
    have h1 := (hrange' j hj).2
    rcases ht.state_step j hlt with h | h
    · rw [h, h7]
    · rw [h, h7] at h1
      exact absurd h1 (by decide)
  · intro job rest hq
    have hk := hrange job (by rw [hq]; exact List.mem_cons_self _ _)
    have hp := processRefreshJobs_cons m o job rest hq
    obtain ⟨h0, h7⟩ := hk
    generalize hs : (m.jobStore job).state = k at *
    interval_cases k
    · exact Or.inl ⟨rfl, by simpa using hp⟩
    · exact Or.inr (Or.inl ⟨rfl, by simpa using hp⟩)
    · exact Or.inr (Or.inr (Or.inl ⟨rfl, by simpa using hp⟩))
    · exact Or.inr (Or.inr (Or.inr (Or.inl ⟨rfl, by simpa using hp⟩)))
    · exact Or.inr (Or.inr (Or.inr (Or.inr (Or.inl ⟨rfl, by simpa using hp⟩))))
    · exact Or.inr (Or.inr (Or.inr (Or.inr (Or.inr (Or.inl ⟨rfl, by simpa using hp⟩)))))
    · exact Or.inr (Or.inr (Or.inr (Or.inr (Or.inr (Or.inr (Or.inl ⟨rfl, by
        simpa using hp⟩))))))
    · exact Or.inr (Or.inr (Or.inr (Or.inr (Or.inr (Or.inr (Or.inr ⟨rfl, by
        simpa using hp⟩))))))

theorem draining_of_inv {m : MainWindow} (hinv : m.core.Inv) : Draining m := by
  rcases hinv.pending with ⟨h1, h2, h3, h4⟩ | ⟨h1, h2, h3⟩ | ⟨t, h1, h2, h3, hf⟩ |
      ⟨t, out, h1, h2, h3, hf⟩
  · have hb : m.refreshBusy = false := h1
    have hq : m.refreshJobs = [] := h2
    have hg : m.guiPosted = [] := h3
    have hw : m.workerPosted = [] := h4
    exact ⟨fun h => absurd hq h, fun h => (by rw [hb] at h; cases h), fun _ => ⟨hq, hg, hw⟩⟩
  · have hb : m.refreshBusy = true := h1
    have hg : m.guiPosted = [.processRefreshJobs] := h2
    have hw : m.workerPosted = [] := h3
    exact ⟨fun _ => hb, fun _ => Or.inl ⟨hg, hw⟩, fun h => (by rw [hb] at h; cases h)⟩
  · have hb : m.refreshBusy = true := h1
    have hg : m.guiPosted = [] := h2
    have hw : m.workerPosted = [t] := h3
    exact ⟨fun _ => hb, fun _ => Or.inr (Or.inl ⟨t, hw, hg⟩), fun h => (by rw [hb] at h; cases h)⟩
  · have hb : m.refreshBusy = true := h1
    have hg : m.guiPosted = [t.reply out] := h2
    have hw : m.workerPosted = [] := h3
    exact ⟨fun _ => hb, fun _ => Or.inr (Or.inr ⟨t, out, hg, hw⟩),
      fun h => (by rw [hb] at h; cases h)⟩

/-- C25. In every state the program can reach, and after a call of `refreshRepo`
in such a state: a queue that is not empty is being drained; while
`refreshBusy` is set exactly one closure is posted for the queue (the posted
`processRefreshJobs`, a request in the worker thread, or the reply of such a
request); and `refreshBusy` is clear only when the queue is empty and nothing
is posted. When the queue is empty and `refreshBusy` is still set,
`processRefreshJobs` is the closure posted, a call of `refreshRepo` appends the
job and leaves that closure posted, and the closure then runs step 0 of the
job. -/
theorem drain_loop_one_continuation (os : Platform) (ourName : String) (es : List Event)
    (o o' : Obs) (repo : RepoId) :
    let m := (MainWindow.initial os ourName).run es
    Draining m ∧ Draining (m.refreshRepo o repo) ∧
    (m.refreshJobs = [] → m.refreshBusy = true →
      m.guiPosted = [.processRefreshJobs] ∧ m.workerPosted = [] ∧
      (m.refreshRepo o repo).refreshJobs = [m.jobCount] ∧
      ((m.refreshRepo o repo).jobStore m.jobCount).repo = repo ∧
      (m.refreshRepo o repo).refreshBusy = true ∧
      (m.refreshRepo o repo).guiPosted = [.processRefreshJobs] ∧
      (m.refreshRepo o repo).workerPosted = [] ∧
      dispatchedStates m.jobCount ((m.refreshRepo o repo).turnNotes (.gui o')) = [0]) := by
  intro m
  have hinv : m.core.Inv := inv_reachable os ourName es
  have hinv' := inv_refreshRepo m o repo hinv
  refine ⟨draining_of_inv hinv, draining_of_inv hinv', ?_⟩
  intro hq hb
  have hposted : m.guiPosted = [.processRefreshJobs] ∧ m.workerPosted = [] := by
    rcases hinv.pending with ⟨h1, _, _, _⟩ | ⟨_, h2, h3⟩ | ⟨t, _, _, _, hf⟩ |
        ⟨t, out, _, _, _, hf⟩
    · have : m.refreshBusy = false := h1
      rw [hb] at this; cases this
    · exact ⟨h2, h3⟩
    · have : m.refreshJobs.head? = some t.job := hf.1
      rw [hq] at this; cases this
    · have : m.refreshJobs.head? = some t.job := hf.1
      rw [hq] at this; cases this
  obtain ⟨h1, h2, h3, h4, h5, h6, h7, h8, h9, h10, h11, h12, h13, h14, h15⟩ :=
    appendJob_fields m repo
  have heq : m.refreshRepo o repo = ((m.appendJob repo).updateRepoGui repo).updateTrayIcon := by
    unfold MainWindow.refreshRepo
    have hb' : (m.appendJob repo).refreshBusy = true := by rw [h9]; exact hb
    simp [hq, hb']
  have hq' : (m.refreshRepo o repo).refreshJobs = [m.jobCount] := by
    rw [heq]; simp [h10, hq]
  have hg' : (m.refreshRepo o repo).guiPosted = [.processRefreshJobs] := by
    rw [heq]; simp [h7, hposted.1]
  have hs' : ((m.refreshRepo o repo).jobStore m.jobCount).state = 0 := by
    rw [heq]; simp [h12]
  refine ⟨hposted.1, hposted.2, hq', by rw [heq]; simp [h12], by rw [heq]; simp [h9, hb], hg',
    by rw [heq]; simp [h8, hposted.2], ?_⟩
  have := dispatched_continuation (m.refreshRepo o repo) hinv' o' m.jobCount [] hg' hq'
  rw [hs'] at this
  exact this

/-- C26. In every state the program can reach, the `refreshing` flag of a
repository is set if and only if a job for the repository is queued. And in
every state: `refreshRepo`, where it appends the job, sets the flag of the
repository of the job; `refresh_successNext` and `refresh_errorNext` clear the
flag of the repository of their job and remove the front of the queue. -/
theorem refreshing_iff_job_queued (os : Platform) (ourName : String) (es : List Event)
    (r : RepoId) :
    let m := (MainWindow.initial os ourName).run es
    ((m.repoStore r).refreshing = true ↔ ∃ j ∈ m.refreshJobs, (m.jobStore j).repo = r) ∧
    (∀ (s : MainWindow) (repo : RepoId),
      ((s.appendJob repo).repoStore repo).refreshing = true ∧
      (s.appendJob repo).refreshJobs = s.refreshJobs ++ [s.jobCount] ∧
      ((s.appendJob repo).jobStore s.jobCount).repo = repo) ∧
    (∀ (s : MainWindow) (job : JobId),
      ((s.refresh_successNext job).repoStore (s.jobStore job).repo).refreshing = false ∧
      (s.refresh_successNext job).refreshJobs = s.refreshJobs.tail) ∧
    (∀ (s : MainWindow) (job : JobId),
      ((s.refresh_errorNext job).repoStore (s.jobStore job).repo).refreshing = false ∧
      (s.refresh_errorNext job).refreshJobs = s.refreshJobs.tail) := by
  intro m
  refine ⟨flagged_reachable os ourName es r, ?_, ?_, ?_⟩
  · intro s repo
    obtain ⟨h1, h2, h3, h4, h5, h6, h7, h8, h9, h10, h11, h12, h13, h14, h15⟩ :=
      appendJob_fields s repo
    exact ⟨by rw [h14], h10, by rw [h12]⟩
  · intro s job
    exact ⟨by rw [successNext_same s job _ rfl], (successNext_fields s job).1⟩
  · intro s job
    exact ⟨by rw [errorNext_same s job _ rfl], (errorNext_fields s job).1⟩

/-- The state after a listed repository with no queued job has been removed. -/
theorem gone_removeRepo (m : MainWindow) (ha : Alloc m) (R : RepoId) (hlisted : R ∈ m.repos)
    (hno : ∀ j ∈ m.refreshJobs, (m.jobStore j).repo ≠ R) :
    Gone (m.step (.removeRepo R)) R := by
  simp only [MainWindow.step, if_pos hlisted, MainWindow.on_toolButton_removeRepo_clicked]
  refine ⟨?_, ?_, ?_, ?_⟩
  · simpa using ha.repos R hlisted
  · simp
  · simp [QTimer.stop]
  · simpa using hno

/-- A repository that has been set up and is not listed is not listed after any
event. -/
theorem unlisted_turn {m m' : MainWindow} {e : Event} (h : Turn m e m') (R : RepoId)
    (hk : R < m.repoCount) (hu : R ∉ m.repos) : R < m'.repoCount ∧ R ∉ m'.repos := by
  cases h with
  | calm c =>
    refine ⟨Nat.lt_of_lt_of_le hk c.repoCount, ?_⟩
    intro hr
    rcases c.repos R hr with h | ⟨h, _⟩
    · exact hu h
    · rw [h] at hk; exact Nat.lt_irrefl _ hk
  | drained job rest ran o he hq hc hd hst hrep hg hw =>
    have hrc : m'.repoCount = m.repoCount := hc.repoCount
    have hrs : m'.repos = m.repos := hc.repos
    rw [hrc, hrs]
    exact ⟨hk, hu⟩
  | started m1 m2 job repo hl hc hd hq hedit hask hgrow hasks honce =>
    have hrc : m'.repoCount = m1.repoCount := by rw [hq.repoCount, hc.repoCount]
    have hrs : m'.repos = m1.repos := by rw [hq.repos, hc.repos]
    rw [hrc, hrs]
    refine ⟨Nat.lt_of_lt_of_le hk hl.repoCount, ?_⟩
    intro hr
    rcases hl.repos R hr with h | ⟨h, _⟩
    · exact hu h
    · rw [h] at hk; exact Nat.lt_irrefl _ hk

/-- C24, amended. Let a listed repository be removed in a state the program can
reach. The removal stops the timer of the repository and takes it off the list,
for good; it leaves the queue, the jobs, the busy flag and the posted closures
as they are, so that a job for the repository stays queued. If no job for the
repository is queued at the removal, then, whatever events follow, its timer
does not run, no job for it is queued, and no event runs a step of a job for
it. -/
theorem removed_repository_stays_idle (m : MainWindow) (hm : Reachable m) (R : RepoId)
    (hlisted : R ∈ m.repos) (es : List Event) (e : Event) :
    ((m.step (.removeRepo R)).repoStore R).timer.active = false ∧
    R ∉ ((m.step (.removeRepo R)).run es).repos ∧
    (m.step (.removeRepo R)).refreshJobs = m.refreshJobs ∧
    (m.step (.removeRepo R)).jobStore = m.jobStore ∧
    (m.step (.removeRepo R)).refreshBusy = m.refreshBusy ∧
    (m.step (.removeRepo R)).guiPosted = m.guiPosted ∧
    (m.step (.removeRepo R)).workerPosted = m.workerPosted ∧
    ((∀ j ∈ m.refreshJobs, (m.jobStore j).repo ≠ R) →
      (((m.step (.removeRepo R)).run es).repoStore R).timer.active = false ∧
      (∀ j ∈ ((m.step (.removeRepo R)).run es).refreshJobs,
        (((m.step (.removeRepo R)).run es).jobStore j).repo ≠ R) ∧
      (∀ j k, k ∈ dispatchedStates j (((m.step (.removeRepo R)).run es).turnNotes e) →
        ((((m.step (.removeRepo R)).run es).step e).jobStore j).repo ≠ R)) := by
  obtain ⟨os, ourName, es0, rfl⟩ := hm
  have hinv := inv_reachable os ourName es0
  have ha := alloc_reachable os ourName es0
  generalize (MainWindow.initial os ourName).run es0 = m at hinv ha hlisted ⊢
  have hinv1 := inv_step m (.removeRepo R) hinv
  have hstep : m.step (.removeRepo R) = m.on_toolButton_removeRepo_clicked R := by
    simp only [MainWindow.step, if_pos hlisted]
  have hun : R < (m.step (.removeRepo R)).repoCount ∧ R ∉ (m.step (.removeRepo R)).repos := by
    rw [hstep]
    simp only [MainWindow.on_toolButton_removeRepo_clicked]
    exact ⟨by simpa using ha.repos R hlisted, by simp⟩
  refine ⟨?_, ?_, ?_, ?_, ?_, ?_, ?_, ?_⟩
  · rw [hstep]
    simp [MainWindow.on_toolButton_removeRepo_clicked, QTimer.stop]
  · exact (run_induction
      (fun s => R < s.repoCount ∧ R ∉ s.repos) (fun _ => True)
      (fun s e' hi _ hs => unlisted_turn (turn_step s hi e') R hs.1 hs.2) es _ hinv1
      (fun _ _ => trivial) hun).2
  · rw [hstep]; simp [MainWindow.on_toolButton_removeRepo_clicked]
  · rw [hstep]; simp [MainWindow.on_toolButton_removeRepo_clicked]
  · rw [hstep]; simp [MainWindow.on_toolButton_removeRepo_clicked]
  · rw [hstep]; simp [MainWindow.on_toolButton_removeRepo_clicked]
  · rw [hstep]; simp [MainWindow.on_toolButton_removeRepo_clicked]
  · intro hno
    have hg := gone_removeRepo m ha R hlisted hno
    generalize m.step (.removeRepo R) = m1 at hg hinv1 ⊢
    have hg2 : Gone (m1.run es) R :=
      run_induction (fun s => Gone s R) (fun _ => True)
        (fun s e' hi _ hs => (gone_turn (turn_step s hi e') hs hi).1) es m1 hinv1
        (fun _ _ => trivial) hg
    have hinv2 := inv_run es m1 hinv1
    exact ⟨hg2.timer, hg2.queue, (gone_turn (turn_step (m1.run es) hinv2 e) hg2 hinv2).2⟩

/-- C24, as stated, fails: the sample repository is removed while its job waits
for step 1. The job stays queued, its steps 1 to 5 run, the refresh ends with
success and starts the timer of the repository, and when the timer fires a new
job for the repository is queued. -/
theorem removal_in_flight_counterexample :
    0 ∉ MainWindow.removedInFlight.repos ∧
    MainWindow.removedInFlight.refreshJobs = [0] ∧
    (MainWindow.removedInFlight.jobStore 0).repo = 0 ∧
    dispatchedStates 0 (MainWindow.removedInFlight.run (equalRun ++ [.gui Obs.even])).history =
      dispatchedStates 0 MainWindow.removedInFlight.history ++ [1, 2, 3, 4, 5] ∧
    outcomes (MainWindow.removedInFlight.run (equalRun ++ [.gui Obs.even])).history =
      [(0, true)] ∧
    ((MainWindow.removedInFlight.run (equalRun ++ [.gui Obs.even])).repoStore 0).timer.active
      = true ∧
    (MainWindow.removedInFlight.run
      (equalRun ++ [.gui Obs.even, .timeout 0 Obs.quiet])).refreshJobs = [1] ∧
    ((MainWindow.removedInFlight.run
      (equalRun ++ [.gui Obs.even, .timeout 0 Obs.quiet])).jobStore 1).repo = 0 := by
  decide

/-- C24 amended, at the sample repository removed after its job has failed: a
timeout, a manual refresh and a refresh of all follow. -/
theorem removed_repository_stays_idle_witness :
    (Reachable MainWindow.afterFailure ∧ 0 ∈ MainWindow.afterFailure.repos ∧
      ∀ j ∈ MainWindow.afterFailure.refreshJobs, (MainWindow.afterFailure.jobStore j).repo ≠ 0) ∧
    0 ∉ ((MainWindow.afterFailure.step (.removeRepo 0)).run
      [.timeout 0 Obs.quiet, .refresh 0 Obs.quiet, .refreshAll Obs.quiet]).repos ∧
    (MainWindow.afterFailure.step (.removeRepo 0)).refreshJobs =
      MainWindow.afterFailure.refreshJobs ∧
    (((MainWindow.afterFailure.step (.removeRepo 0)).run
      [.timeout 0 Obs.quiet, .refresh 0 Obs.quiet, .refreshAll Obs.quiet]).repoStore
        0).timer.active = false ∧
    (∀ j ∈ ((MainWindow.afterFailure.step (.removeRepo 0)).run
        [.timeout 0 Obs.quiet, .refresh 0 Obs.quiet, .refreshAll Obs.quiet]).refreshJobs,
      (((MainWindow.afterFailure.step (.removeRepo 0)).run
        [.timeout 0 Obs.quiet, .refresh 0 Obs.quiet, .refreshAll Obs.quiet]).jobStore j).repo
          ≠ 0) :=
  have hm : Reachable MainWindow.afterFailure :=
    ⟨.other, "me", [.addRepo Settings.Repo.sample Obs.quiet, .gui Obs.merging], rfl⟩
  have hl : 0 ∈ MainWindow.afterFailure.repos := by decide
  have hno : ∀ j ∈ MainWindow.afterFailure.refreshJobs,
      (MainWindow.afterFailure.jobStore j).repo ≠ 0 := by decide
  have h := removed_repository_stays_idle MainWindow.afterFailure hm 0 hl
    [.timeout 0 Obs.quiet, .refresh 0 Obs.quiet, .refreshAll Obs.quiet] (.gui Obs.quiet)
  ⟨⟨hm, hl, hno⟩, h.2.1, h.2.2.1, (h.2.2.2.2.2.2.2 hno).1, (h.2.2.2.2.2.2.2 hno).2.1⟩

/-- When `refresh_errorNext` is entered for a job in an event, the timer of the
repository of the job does not run afterwards, provided it did not run before
while a job of the repository was past its step 0. -/
theorem paused_failure {m m' : MainWindow} {e : Event} {job : JobId} {R : RepoId}
    (ht : Turn m e m') (hR : R = (m'.jobStore job).repo) (hp : Paused m R)
    (hfail : (job, false) ∈ outcomes (newNotes m m')) :
    (m'.repoStore R).timer.active = false := by
  cases ht with
  | calm c => rw [c.unended] at hfail; cases hfail
  | drained job' rest ran o he hq hc hd hst hrep hg hw =>
    obtain ⟨hjj, hf⟩ := hc.failed job hfail
    subst hjj
    have hjr : (m'.jobStore job).repo = (m.jobStore job).repo := hc.jobRepo
    rw [hjr] at hR
    subst hR
    have hjob : job ∈ m.refreshJobs := by rw [hq]; exact List.mem_cons_self _ _
    have honly : ∀ j, (j, true) ∉ outcomes (newNotes m m') := by
      intro j hj
      have hfo : outcomes (newNotes m m') = [(job, false)] := hf.only
      rw [hfo] at hj
      simp at hj
    by_cases h0 : ran = .step 0
    · have : (m'.repoStore (m.jobStore job).repo).timer =
          (m.repoStore (m.jobStore job).repo).timer.stop := hc.timerStop h0
      rw [this]
      rfl
    · have hkeep : (m'.repoStore (m.jobStore job).repo).timer =
          (m.repoStore (m.jobStore job).repo).timer := hc.timerKeep h0 honly
      rw [hkeep]
      refine hp job hjob rfl ?_
      cases ran with
      | reply => have := hrep rfl; omega
      | step k =>
        have hk' := hst k rfl
        intro h
        apply h0
        rw [← hk', h]
  | started m1 m2 job' repo hl hc hd hq hedit hask hgrow hasks honce =>
    obtain ⟨r1, _, _, r4, _, r6, _⟩ := hl.record hc hd hq
    rw [r1] at hfail
    obtain ⟨hjj, hf⟩ := hc.failed job hfail
    subst hjj
    rw [r6] at hR
    subst hR
    have hj1 : (m1.jobStore job).repo = R := hl.jobRepo
    obtain ⟨q1, q2, q3, q4, _⟩ := hq.repo R
    have := hc.timerStop rfl
    rw [hj1] at this
    rw [q2, this]
    rfl

/-- The timer of a repository does not run while a job of the repository is past
its step 0, after any events that do not edit its refresh interval, from a state
in which no job of the repository was queued. -/
theorem paused_run (m0 : MainWindow) (hinv0 : m0.core.Inv) (es : List Event) (R : RepoId)
    (hnone : ∀ j ∈ m0.refreshJobs, (m0.jobStore j).repo ≠ R)
    (hkeep : ∀ e ∈ es, e.keepsInterval R) : Paused (m0.run es) R := by
  refine run_induction (fun m => Paused m R) (fun e => e.keepsInterval R) ?_ es m0 hinv0
    hkeep ?_
  · intro m e hi he hp
    exact paused_turn (turn_step m hi e) hp hi he
  · intro j hj hr
    exact absurd hr (hnone j hj)

/-- The reply of a rebase that reported an error, run: the closure posted alone
is the reply of the job at the front, which is in state 5 and stays there; the
job is removed from the queue through `refresh_errorNext`, no step is run and no
process is started, `ok` is cleared, the guidance line is logged, and the timer
of the repository is left as it was. -/
theorem rebased_failure (s : MainWindow) (hinv : s.core.Inv) (o : Obs) (j : JobId)
    (r : RepoId) (out : Output) (more : List GuiTask)
    (hg : s.guiPosted = .rebased j r out :: more) (hout : out.hasError = true) :
    more = [] ∧ (s.jobStore j).repo = r ∧ (s.jobStore j).state = 5 ∧
    s.refreshJobs = j :: (s.step (.gui o)).refreshJobs ∧
    ((s.step (.gui o)).jobStore j).repo = r ∧
    ((s.step (.gui o)).jobStore j).state = 5 ∧
    outcomes (s.turnNotes (.gui o)) = [(j, false)] ∧
    launches (s.turnNotes (.gui o)) = [] ∧
    (∀ j', dispatchedStates j' (s.turnNotes (.gui o)) = []) ∧
    ((s.step (.gui o)).repoStore r).ok = false ∧
    rebaseGuidance ∈ ((s.step (.gui o)).repoStore r).statusLines ∧
    ((s.step (.gui o)).repoStore r).timer = (s.repoStore r).timer := by
  have hpend := hinv.pending
  rcases hpend with ⟨_, _, h3, _⟩ | ⟨_, h2, _⟩ | ⟨t, _, h2, _, _⟩ | ⟨t, out', _, h2, _, hf⟩
  · have h3' : s.guiPosted = [] := h3
    rw [h3'] at hg; cases hg
  · have h2' : s.guiPosted = [.processRefreshJobs] := h2
    rw [h2'] at hg; cases hg
  · have h2' : s.guiPosted = [] := h2
    rw [h2'] at hg; cases hg
  · have h2' : s.guiPosted = [t.reply out'] := h2
    rw [h2'] at hg
    obtain ⟨f1, f2, f3⟩ := hf
    have f1' : s.refreshJobs.head? = some t.job := f1
    have f2' : (s.jobStore t.job).state = t.state := f2
    have f3' : (s.jobStore t.job).repo = t.repo := f3
    cases t with
    | fetch _ _ _ => simp [WorkerTask.reply] at hg
    | ahead _ _ _ => simp [WorkerTask.reply] at hg
    | behind _ _ _ => simp [WorkerTask.reply] at hg
    | pushAfterRebase _ _ _ => simp [WorkerTask.reply] at hg
    | diverged job' repo' path' =>
      simp only [WorkerTask.reply, List.cons.injEq, GuiTask.rebased.injEq] at hg
      obtain ⟨⟨e1, e2, e3⟩, hmore⟩ := hg
      subst job' repo' out'
      simp only [WorkerTask.job, WorkerTask.state, WorkerTask.repo] at f1' f2' f3'
      obtain ⟨rest, hq⟩ : ∃ rest, s.refreshJobs = j :: rest := by
        cases hq : s.refreshJobs with
        | nil => rw [hq] at f1'; cases f1'
        | cons a rest =>
          rw [hq] at f1'
          simp only [List.head?_cons, Option.some.injEq] at f1'
          exact ⟨rest, by rw [f1']⟩
      have hstep : s.step (.gui o) =
          ((({ s with guiPosted := [] } : MainWindow).setRepo r
            (fun x => x.logError "Git error while rebasing." out.toString)).setRepo r
            (fun x => x.log rebaseGuidance)).refresh_errorNext j := by
        simp only [MainWindow.step, h2', WorkerTask.reply, MainWindow.runGuiTask, hout, if_true,
          rebaseGuidance]
      have hh : (s.step (.gui o)).history = s.history ++
          ([.finished j false] ++
            (if s.visible then [] else [.trayMessage (s.repoStore r).settings.path
              "Git error while rebasing."]) ++ [.repoGui r, .trayIcon, .popped j]) := by
        rw [hstep, (errorNext_fields _ j).2.2.1]
        simp [MainWindow.setRepo, Repo.log, hq, f3', (Repo.logError_fields _ _ _).2.1,
          (Repo.logError_fields _ _ _).2.2.1]
      have hn := newNotes_append _ _ _ hh
      unfold MainWindow.turnNotes
      rw [hn]
      refine ⟨hmore.symm, f3', f2', ?_, ?_, ?_, ?_, ?_, ?_, ?_, ?_, ?_⟩
      · rw [hstep, (errorNext_fields _ j).1]; simp [MainWindow.setRepo, hq]
      · rw [hstep, (errorNext_fields _ j).2.1]; simp [MainWindow.setRepo, f3']
      · rw [hstep, (errorNext_fields _ j).2.1]; simp [MainWindow.setRepo, f2']
      · split_ifs <;> rfl
      · split_ifs <;> rfl
      · intro j'; split_ifs <;> rfl
      · rw [hstep, (errorNext_fields _ j).2.2.2.1]
        simp [MainWindow.setRepo, Repo.log, (Repo.logError_fields _ _ _).1]
      · rw [hstep, (errorNext_fields _ j).2.2.2.2.2]
        simp [MainWindow.setRepo, Repo.log, rebaseGuidance]
      · rw [hstep, (errorNext_fields _ j).2.2.2.2.1]
        simp [MainWindow.setRepo, Repo.log, (Repo.logError_fields _ _ _).2.2.2.1]


end GidSync
